import Mathlib

/-!
Maze game engine (`newGame.c`), with the letter guess of `hangman.c`: shallow embedding
and verified properties.

The C program is embedded as pure Lean functions.

* C `int` values are `Int`.  The products with the frame counter in the trapper and
  burst cases of `moveAllEnemies` fit the 32-bit range for frame counters up to 42949672;
  no other value in the embedded code comes near that range.
* `unsigned char` cells of the three grid layers are `Nat` byte values; a layer
  `unsigned char** layer` is a function `Int → Int → Nat` applied as `layer y x`,
  mirroring the C access `layer[y][x]`.
* `Node*` pointers are natural-number addresses into a `Memory` (`Nat → Node`);
  `NULL` is `none`.  `findPath` allocates its `k`-th node at address `k`
  (the slot it occupies in `allNodes`).
* Singly linked lists (`Particle*`, `Bullet*`) are Lean lists, head first.
* `while` loops are structurally recursive functions on a fuel counter; a theorem
  below that states that a result is produced also shows that the fuel suffices.
* Memory allocation is assumed to succeed.
-/

namespace Maze

/-! ## Constants and plain data -/

/-- Board side length: `#define GRID_SIZE 23`. -/
def GRID_SIZE : Int := 23

/-- Frames per second: `#define FPS 10`. -/
def FPS : Int := 10

/-- Number of enemy archetypes (`NUM_ENEMY_TYPES`). -/
def NUM_ENEMY_TYPES : Nat := 9

/-- Index of the objective item in `itemCounts` (`OBJ_ITEM`). -/
def OBJ_ITEM : Nat := 0

/-- The byte that marks a wall in the wall layer. -/
def WALL : Nat := 178

/-- The blank byte `' '`. -/
def BLANK : Nat := 32

/-- The player marker `'X'`. -/
def PLAYER_MARKER : Nat := 88

/-- The shooter enemy marker (byte 226), which bullets pass through. -/
def SHOOTER_MARKER : Nat := 226

/-- Objective kinds of a level. -/
inductive ObjectiveType where
  | EXIT_OBJ
  | ITEM_OBJ
deriving DecidableEq, Repr

/-- Grid coordinate `struct Position`. -/
structure Position where
  x : Int
  y : Int
deriving DecidableEq, Repr

/-- Directional array `dx[4] = { 0, 0, -1, 1 }`. -/
def dx : List Int := [0, 0, -1, 1]

/-- Directional array `dy[4] = { -1, 1, 0, 0 }`. -/
def dy : List Int := [-1, 1, 0, 0]

/-- The three occupancy layers, `struct AllEntities`; `layer y x` is `layer[y][x]`. -/
structure AllEntities where
  playerLayer : Int → Int → Nat
  wallLayer : Int → Int → Nat
  itemLayer : Int → Int → Nat

/-- Assignment `layer[y][x] = v`. -/
def setCell (layer : Int → Int → Nat) (y x : Int) (v : Nat) : Int → Int → Nat :=
  fun r c => if r = y ∧ c = x then v else layer r c

/-- Position equality, `matchesPosition`. -/
def matchesPosition (a b : Position) : Bool :=
  decide (a.x = b.x) && decide (a.y = b.y)

/-- Validity query `isValid(grid, entity, ID)`. -/
def isValid (grid : AllEntities) (entity : Position) (ID : Char) : Bool :=
  if entity.x < 1 ∨ entity.x > GRID_SIZE - 2 ∨ entity.y < 1 ∨ entity.y > GRID_SIZE - 2 then
    false
  else if grid.wallLayer entity.y entity.x = WALL then
    false
  else if ID = 'e' then
    if grid.playerLayer entity.y entity.x = PLAYER_MARKER then true
    else if grid.playerLayer entity.y entity.x ≠ BLANK then false
    else true
  else if ID = 'i' then
    if grid.itemLayer entity.y entity.x ≠ BLANK then false else true
  else if ID = 'b' then
    if grid.playerLayer entity.y entity.x ≠ BLANK then
      if grid.playerLayer entity.y entity.x = SHOOTER_MARKER then true else false
    else true
  else true

/-! ## Pathfinding: priority queue -/

/-- Search node, `struct Node`; `parent` is the address of the parent node. -/
structure Node where
  pos : Position
  gCost : Int
  hCost : Int
  fCost : Int
  parent : Option Nat

/-- Node memory: the node stored at each address. -/
abbrev Memory := Nat → Node

/-- Binary heap of node addresses, `struct PriorityQueue`.  `nodes` holds the live
prefix `nodes[0 .. size-1]` of the C array, so `size` is `nodes.length`. -/
structure PriorityQueue where
  nodes : List Nat
  capacity : Int

/-- Manhattan distance, `calculateHCost`. -/
def calculateHCost (a b : Position) : Int :=
  |a.x - b.x| + |a.y - b.y|

/-- Empty queue of the given capacity, `createPriorityQueue`. -/
def createPriorityQueue (capacity : Int) : PriorityQueue :=
  { nodes := [], capacity := capacity }

/-- Exchange of the array slots `a` and `b`, `swapNodes(&nodes[a], &nodes[b])`. -/
def swapNodes (nodes : List Nat) (a b : Nat) : List Nat :=
  (nodes.set a (nodes.getD b 0)).set b (nodes.getD a 0)

/-- The `while (index > 0)` loop of `heapifyUp`. -/
def heapifyUpLoop (mem : Memory) : Nat → List Nat → Nat → List Nat
  | 0, nodes, _ => nodes
  | fuel + 1, nodes, index =>
    if index > 0 then
      let parentIndex := (index - 1) / 2
      if (mem (nodes.getD index 0)).fCost < (mem (nodes.getD parentIndex 0)).fCost then
        heapifyUpLoop mem fuel (swapNodes nodes index parentIndex) parentIndex
      else nodes
    else nodes

/-- Sift the entry at `index` towards the root, `heapifyUp`.  The index at least halves
in every round, so `index` rounds of fuel are never used up. -/
def heapifyUp (mem : Memory) (nodes : List Nat) (index : Nat) : List Nat :=
  heapifyUpLoop mem index nodes index

/-- The `while (index < pq->size)` loop of `heapifyDown`. -/
def heapifyDownLoop (mem : Memory) : Nat → List Nat → Nat → List Nat
  | 0, nodes, _ => nodes
  | fuel + 1, nodes, index =>
    if index < nodes.length then
      let leftChild := 2 * index + 1
      let rightChild := 2 * index + 2
      let smallestChild := index
      let smallestChild :=
        if leftChild < nodes.length ∧
            (mem (nodes.getD leftChild 0)).fCost < (mem (nodes.getD smallestChild 0)).fCost then
          leftChild
        else smallestChild
      let smallestChild :=
        if rightChild < nodes.length ∧
            (mem (nodes.getD rightChild 0)).fCost < (mem (nodes.getD smallestChild 0)).fCost then
          rightChild
        else smallestChild
      if smallestChild ≠ index then
        heapifyDownLoop mem fuel (swapNodes nodes index smallestChild) smallestChild
      else nodes
    else nodes

/-- Sift the entry at `index` towards the leaves, `heapifyDown`.  The index grows in
every round, so `size` rounds of fuel are never used up. -/
def heapifyDown (mem : Memory) (nodes : List Nat) (index : Nat) : List Nat :=
  heapifyDownLoop mem nodes.length nodes index

/-- Insertion, `push`: double the capacity when full, store the node at index `size`,
sift it up. -/
def push (mem : Memory) (pq : PriorityQueue) (node : Nat) : PriorityQueue :=
  let capacity := if (pq.nodes.length : Int) ≥ pq.capacity then pq.capacity * 2 else pq.capacity
  { nodes := heapifyUp mem (pq.nodes ++ [node]) pq.nodes.length, capacity := capacity }

/-- Extraction, `pop`: `none` (NULL) on an empty queue; otherwise the root is returned,
the last entry replaces it and is sifted down. -/
def pop (mem : Memory) (pq : PriorityQueue) : Option Nat × PriorityQueue :=
  match pq.nodes with
  | [] => (none, pq)
  | root :: rest =>
    let size := rest.length
    let nodes := ((root :: rest).set 0 ((root :: rest).getD size 0)).take size
    (some root, { nodes := heapifyDown mem nodes 0, capacity := pq.capacity })

/-- Node construction, `createNode`. -/
def createNode (newPos : Position) (gCost hCost : Int) (parent : Option Nat) : Node :=
  { pos := newPos, gCost := gCost, hCost := hCost, fCost := gCost + hCost, parent := parent }

/-- Linear scan of the open set for a node at `pos`, `findNode`. -/
def findNode (mem : Memory) (openSet : PriorityQueue) (pos : Position) : Option Nat :=
  openSet.nodes.find? (fun node => matchesPosition (mem node).pos pos)

/-! ## Pathfinding: A* search -/

/-- First loop of `finalizePath`: follow the parent pointers from `currentNode`,
appending each position to `path`.  `none` when the fuel runs out. -/
def collectPath (mem : Memory) : Nat → Option Nat → List Position → Option (List Position)
  | _, none, path => some path
  | 0, some _, _ => none
  | fuel + 1, some currentNode, path =>
    collectPath mem fuel (mem currentNode).parent (path ++ [(mem currentNode).pos])

/-- Exchange of `path[i]` and `path[j]`. -/
def swapPositions (path : List Position) (i j : Nat) : List Position :=
  (path.set i (path.getD j ⟨0, 0⟩)).set j (path.getD i ⟨0, 0⟩)

/-- Second loop of `finalizePath`: `for (i = 0; i < pathLength / 2; i++)` swap
`path[i]` with `path[pathLength - i - 1]`; `count` is the number of rounds left. -/
def reverseLoop : Nat → Nat → List Position → List Position
  | 0, _, path => path
  | count + 1, i, path => reverseLoop count (i + 1) (swapPositions path i (path.length - i - 1))

/-- Path reconstruction, `finalizePath`; the result is `path[0 .. pathLength-1]`. -/
def finalizePath (mem : Memory) (fuel : Nat) (endNode : Nat) : Option (List Position) :=
  (collectPath mem fuel (some endNode) []).map (fun path => reverseLoop (path.length / 2) 0 path)

/-- Local state of `findPath`: node memory, `nodeCount`, the open set and `closedSet`
(`closedSet y x` is `closedSet[y][x]`). -/
structure SearchState where
  mem : Memory
  nodeCount : Nat
  openSet : PriorityQueue
  closedSet : Int → Int → Bool

/-- Body of the `for (i = 0; i < 4; i++)` loop of `findPath` for the popped node
`currentNode`. -/
def visitNeighbor (grid : AllEntities) (goal : Position) (currentNode : Nat)
    (st : SearchState) (i : Nat) : SearchState :=
  let newPos : Position :=
    ⟨(st.mem currentNode).pos.x + dx.getD i 0, (st.mem currentNode).pos.y + dy.getD i 0⟩
  if (!st.closedSet newPos.y newPos.x && isValid grid newPos 'e') = true then
    let newGCost := (st.mem currentNode).gCost + 1
    let newHCost := calculateHCost newPos goal
    match findNode st.mem st.openSet newPos with
    | some existingNode =>
      if newGCost < (st.mem existingNode).hCost then
        { st with
          mem := Function.update st.mem existingNode
            { st.mem existingNode with
              gCost := newGCost, fCost := newGCost + newHCost, parent := some currentNode } }
      else st
    | none =>
      let mem := Function.update st.mem st.nodeCount
        (createNode newPos newGCost newHCost (some currentNode))
      { mem := mem, nodeCount := st.nodeCount + 1,
        openSet := push mem st.openSet st.nodeCount, closedSet := st.closedSet }
  else st

/-- The `while (openSet->size > 0)` loop of `findPath`.  The result is
`(pathFound, path[0 .. pathLength-1])`; nothing is written to `path` when no path is
found.  `none` when the fuel runs out. -/
def findPathLoop (grid : AllEntities) (goal : Position) :
    Nat → SearchState → Option (Bool × List Position)
  | 0, _ => none
  | fuel + 1, st =>
    match pop st.mem st.openSet with
    | (none, _) => some (false, [])
    | (some currentNode, openSet) =>
      let pos := (st.mem currentNode).pos
      let st1 : SearchState :=
        { st with
          openSet := openSet,
          closedSet := fun r c => if r = pos.y ∧ c = pos.x then true else st.closedSet r c }
      if matchesPosition pos goal = true then
        (finalizePath st.mem st.nodeCount currentNode).map (fun path => (true, path))
      else
        findPathLoop grid goal fuel ([0, 1, 2, 3].foldl (visitNeighbor grid goal currentNode) st1)

/-- Memory before any node is allocated. -/
def emptyMemory : Memory := fun _ => createNode ⟨0, 0⟩ 0 0 none

/-- State of `findPath` on entering the main loop: the start node is at address 0 and
is the only entry of the open set. -/
def initialSearchState (start goal : Position) : SearchState :=
  let mem := Function.update emptyMemory 0 (createNode start 0 (calculateHCost start goal) none)
  { mem := mem, nodeCount := 1, openSet := push mem (createPriorityQueue 128) 0,
    closedSet := fun _ _ => false }

/-- A* search, `findPath`.  The loop pops one node per round and never allocates more
than `GRID_SIZE * GRID_SIZE` nodes (the size of `allNodes`), which bounds the rounds. -/
def findPath (grid : AllEntities) (start goal : Position) : Option (Bool × List Position) :=
  findPathLoop grid goal (GRID_SIZE * GRID_SIZE).toNat (initialSearchState start goal)

/-! ## Level, player, enemies -/

/-- Static level description, `struct Level`.  `endPos` is the field `end`;
`enemyCounts t` and `itemCounts t` are the per-type counts. -/
structure Level where
  start : Position
  endPos : Position
  walls : List Position
  allEnemies : Nat → Nat → Position
  enemyCounts : Nat → Int
  allItems : Nat → Nat → Position
  itemCounts : Nat → Int
  objectiveID : ObjectiveType

/-- Flashlight state, `struct Flashlight`. -/
structure Flashlight where
  batteryLife : Int
  isActive : Bool
  isDisabled : Bool

/-- Player state, `struct Player`. -/
structure Player where
  pos : Position
  flashlight : Flashlight
  facingDirection : Int
  lives : Int

/-- Enemy state, `struct Enemy`. -/
structure Enemy where
  roamArr : List Position
  pos : Position
  playerLSP : Position
  roamIndex : Int
  moveInterval : Int
  specialAbility : Int
  passiveMarker : Nat
  aggroMarker : Nat
  isRepelled : Bool
  isAggro : Bool

/-- Runtime board, `struct GameBoard`; `allEnemies t j` is `allEnemies[t][j]`. -/
structure GameBoard where
  grid : AllEntities
  allItems : Nat → Nat → Position
  allEnemies : Nat → Nat → Enemy
  player : Player

/-- Timed grid marker, `struct Particle` (the `next` link is the list tail). -/
structure Particle where
  pos : Position
  marker : Nat
  timer : Int
deriving DecidableEq

/-- Win test, `gameWin`. -/
def gameWin (level : Level) (pos : Position) : Bool :=
  if level.objectiveID = ObjectiveType.ITEM_OBJ then
    matchesPosition pos level.endPos && decide (level.itemCounts OBJ_ITEM = 0)
  else
    matchesPosition pos level.endPos

/-- Loss test, `gameLose`: scan every enemy of every type, then the explosion list. -/
def gameLose (level : Level) (game : GameBoard) (explosionHead : List Particle) : Bool :=
  if (List.range NUM_ENEMY_TYPES).any (fun i =>
      (List.range (level.enemyCounts i).toNat).any (fun j =>
        matchesPosition (game.allEnemies i j).pos game.player.pos)) then
    true
  else
    explosionHead.any (fun particle => matchesPosition particle.pos game.player.pos)

/-- The `switch (movement)` of `movePlayer`: the stepped position and the new facing
direction, or `none` for an unknown key. -/
def applyMovement (pos : Position) (movement : Char) : Option (Position × Int) :=
  if movement = 'W' ∨ movement = 'w' ∨ movement.toNat = 72 then
    some (⟨pos.x, pos.y - 1⟩, 0)
  else if movement = 'D' ∨ movement = 'd' ∨ movement.toNat = 77 then
    some (⟨pos.x + 1, pos.y⟩, 1)
  else if movement = 'S' ∨ movement = 's' ∨ movement.toNat = 80 then
    some (⟨pos.x, pos.y + 1⟩, 2)
  else if movement = 'A' ∨ movement = 'a' ∨ movement.toNat = 75 then
    some (⟨pos.x - 1, pos.y⟩, 3)
  else none

/-- Player step, `movePlayer`: the returned flag with the grid and player after the call. -/
def movePlayer (level : Level) (grid : AllEntities) (player : Player) (movement : Char) :
    Bool × AllEntities × Player :=
  let oldPos := player.pos
  match applyMovement player.pos movement with
  | none => (false, grid, player)
  | some (newPos, facing) =>
    let player : Player := { player with pos := newPos, facingDirection := facing }
    if matchesPosition player.pos level.endPos = true then
      if level.objectiveID = ObjectiveType.ITEM_OBJ ∧ level.itemCounts OBJ_ITEM > 0 then
        (false, grid, { player with pos := oldPos })
      else
        (true, grid, player)
    else if isValid grid player.pos ' ' = false then
      (false, grid, { player with pos := oldPos })
    else
      let playerLayer := setCell grid.playerLayer oldPos.y oldPos.x BLANK
      let playerLayer := setCell playerLayer player.pos.y player.pos.x PLAYER_MARKER
      (true, { grid with playerLayer := playerLayer }, player)

/-! ## Particles -/

/-- Bomb countdown glyphs `timebombMarkers[10]`, the digits `'0'` to `'9'`. -/
def timebombMarkers : List Nat := [48, 49, 50, 51, 52, 53, 54, 55, 56, 57]

/-- Prepend a particle, `addNewParticle`; the result is the new list head. -/
def addNewParticle (head : List Particle) (pos : Position) (marker : Nat) (frameTimer : Int) :
    List Particle :=
  { pos := pos, marker := marker, timer := frameTimer } :: head

/-- Body of the two nested loops of `detonateBomb` for the cell `(x, y)`. -/
def detonateCell (st : List Particle × (Int → Int → Nat)) (x y : Int) :
    List Particle × (Int → Int → Nat) :=
  if x ≥ 1 ∧ x < GRID_SIZE - 1 ∧ y ≥ 1 ∧ y < GRID_SIZE - 1 then
    (addNewParticle st.1 ⟨x, y⟩ 35 (FPS / 2), setCell st.2 y x BLANK)
  else st

/-- Bomb detonation, `detonateBomb`: `x` runs over `startX .. endX` in the outer loop and
`y` over `startY .. endY` in the inner one.  Returns the explosion list and wall layer. -/
def detonateBomb (explosionHead : List Particle) (pos : Position) (blastRadius : Int)
    (wallLayer : Int → Int → Nat) : List Particle × (Int → Int → Nat) :=
  let startX := pos.x - blastRadius
  let startY := pos.y - blastRadius
  let endX := pos.x + blastRadius
  let endY := pos.y + blastRadius
  (List.range (endX - startX + 1).toNat).foldl
    (fun st i =>
      (List.range (endY - startY + 1).toNat).foldl
        (fun st j => detonateCell st (startX + i) (startY + j)) st)
    (explosionHead, wallLayer)

/-- What `updateParticleType` works on: the list being updated, the explosion list when one
is passed (`none` for a NULL `explosionHead`), the item layer and the wall layer. -/
structure ParticleState where
  particles : List Particle
  explosions : Option (List Particle)
  itemLayer : Int → Int → Nat
  wallLayer : Int → Int → Nat

/-- One frame of a particle list, `updateParticleType`.  The list passed is the bomb list
exactly when an explosion list is passed with it.  Reading `timebombMarkers` beyond its ten
entries is given the value 0; the game creates bombs with timer `10 * FPS`, for which the
index stays below ten. -/
def updateParticleType : List Particle → Option (List Particle) → (Int → Int → Nat) →
    (Int → Int → Nat) → ParticleState
  | [], explosionHead, itemLayer, wallLayer =>
    { particles := [], explosions := explosionHead, itemLayer := itemLayer,
      wallLayer := wallLayer }
  | current :: next, explosionHead, itemLayer, wallLayer =>
    let timer := current.timer - 1
    if timer ≤ 0 then
      let itemLayer := setCell itemLayer current.pos.y current.pos.x BLANK
      match explosionHead with
      | some explosions =>
        let blast := detonateBomb explosions current.pos 1 wallLayer
        updateParticleType next (some blast.1) itemLayer blast.2
      | none => updateParticleType next none itemLayer wallLayer
    else
      let marker :=
        if explosionHead.isSome then timebombMarkers.getD (timer / FPS).toNat 0
        else current.marker
      let itemLayer := setCell itemLayer current.pos.y current.pos.x marker
      let rest := updateParticleType next explosionHead itemLayer wallLayer
      { rest with particles := { current with timer := timer } :: rest.particles }

/-- Repeated calls: `updateParticleType` applied `k` times, each call on the state left by
the previous one. -/
def updateParticleTypeN : Nat → ParticleState → ParticleState
  | 0, st => st
  | k + 1, st =>
    updateParticleTypeN k
      (updateParticleType st.particles st.explosions st.itemLayer st.wallLayer)

/-! ## Priority queue: specification vocabulary -/

/-- The fCost of the node whose address is stored at index `i` of the heap array. -/
def keyAt (mem : Memory) (nodes : List Nat) (i : Nat) : Int :=
  (mem (nodes.getD i 0)).fCost

/-- Min-heap order: no entry is cheaper than its parent at index `(i - 1) / 2`. -/
def HeapOrdered (mem : Memory) (nodes : List Nat) : Prop :=
  ∀ i, 0 < i → i < nodes.length → keyAt mem nodes ((i - 1) / 2) ≤ keyAt mem nodes i

/-- Key function after exchanging the entries at `a` and `b`. -/
def swapKeys (f : Nat → Int) (a b : Nat) : Nat → Int :=
  fun k => if k = b then f a else if k = a then f b else f k

/-- Heap order everywhere except possibly between `i` and its parent. -/
def UpInv (f : Nat → Int) (n i : Nat) : Prop :=
  (∀ j, 0 < j → j < n → j ≠ i → f ((j - 1) / 2) ≤ f j) ∧
  (0 < i → ∀ j, 0 < j → j < n → (j - 1) / 2 = i → f ((i - 1) / 2) ≤ f j)

/-- Heap order everywhere except possibly between `i` and its children. -/
def DownInv (f : Nat → Int) (n i : Nat) : Prop :=
  (∀ j, 0 < j → j < n → (j - 1) / 2 ≠ i → f ((j - 1) / 2) ≤ f j) ∧
  (0 < i → ∀ j, 0 < j → j < n → (j - 1) / 2 = i → f ((i - 1) / 2) ≤ f j)

/-- One queue operation: a `push` of the node at the given address, or a `pop`. -/
inductive QueueOp where
  | push (node : Nat)
  | pop
deriving DecidableEq

/-- Carry out one queue operation (the node returned by a `pop` is dropped). -/
def applyOp (mem : Memory) (pq : PriorityQueue) : QueueOp → PriorityQueue
  | QueueOp.push node => push mem pq node
  | QueueOp.pop => (pop mem pq).2

/-- Carry out a sequence of queue operations, first to last. -/
def runOps (mem : Memory) (pq : PriorityQueue) (ops : List QueueOp) : PriorityQueue :=
  ops.foldl (applyOp mem) pq

/-- Push the given nodes, first to last. -/
def pushAll (mem : Memory) (pq : PriorityQueue) (nodes : List Nat) : PriorityQueue :=
  nodes.foldl (push mem) pq

/-- Pop `n` times: the values returned, in order, and the queue left. -/
def popN (mem : Memory) : Nat → PriorityQueue → List (Option Nat) × PriorityQueue
  | 0, pq => ([], pq)
  | n + 1, pq =>
    let r := pop mem pq
    let rest := popN mem n r.2
    (r.1 :: rest.1, rest.2)

/-- Node memory used in the queue examples: the node at address `k` has fCost `10 - k`. -/
def exampleMemory : Memory :=
  fun k => createNode ⟨0, 0⟩ (10 - (k : Int)) 0 none

/-! ## Particles: specification vocabulary -/

/-- What one call does to a single node of the list: drop it when its timer runs out,
otherwise keep it with the timer one lower. -/
def ageParticle (q : Particle) : Option Particle :=
  if q.timer - 1 ≤ 0 then none else some { q with timer := q.timer - 1 }

/-! ## Pathfinding: specification vocabulary -/

/-- A cell inside the border: both coordinates between 1 and `GRID_SIZE - 2`. -/
def Interior (p : Position) : Prop :=
  1 ≤ p.x ∧ p.x ≤ GRID_SIZE - 2 ∧ 1 ≤ p.y ∧ p.y ≤ GRID_SIZE - 2

/-- Two cells exactly one cardinal step apart (Manhattan distance 1). -/
def Adjacent (p q : Position) : Prop :=
  calculateHCost p q = 1

instance (p q : Position) : Decidable (Adjacent p q) := by
  unfold Adjacent
  infer_instance

/-- The cell reached from `p` in direction `i` of the arrays `dx`, `dy`. -/
def neighbor (p : Position) (i : Nat) : Position :=
  ⟨p.x + dx.getD i 0, p.y + dy.getD i 0⟩

/-- Cells reachable from `start` by cardinal steps, every cell stepped onto being
enemy-valid; `start` itself need not be. -/
inductive Reachable (grid : AllEntities) (start : Position) : Position → Prop where
  | start : Reachable grid start start
  | step (p q : Position) : Reachable grid start p → Adjacent p q →
      isValid grid q 'e' = true → Reachable grid start q

/-- The neighbours of node `a` that are enemy-valid all have a node. -/
def Expanded (grid : AllEntities) (st : SearchState) (a : Nat) : Prop :=
  ∀ q, Adjacent (st.mem a).pos q → isValid grid q 'e' = true →
    ∃ b, b < st.nodeCount ∧ (st.mem b).pos = q

/-- Facts about the search state that every step of `findPath` keeps. -/
structure CoreInv (grid : AllEntities) (start : Position) (st : SearchState) : Prop where
  count_pos : 0 < st.nodeCount
  start_pos : (st.mem 0).pos = start
  start_parent : (st.mem 0).parent = none
  start_g : (st.mem 0).gCost = 0
  open_lt : ∀ a ∈ st.openSet.nodes, a < st.nodeCount
  open_nodup : st.openSet.nodes.Nodup
  pos_inj : ∀ a b, a < st.nodeCount → b < st.nodeCount →
    (st.mem a).pos = (st.mem b).pos → a = b
  closed_iff : ∀ a, a < st.nodeCount →
    (st.closedSet (st.mem a).pos.y (st.mem a).pos.x = true ↔ a ∉ st.openSet.nodes)
  closed_node : ∀ y x, st.closedSet y x = true →
    ∃ a, a < st.nodeCount ∧ (st.mem a).pos = ⟨x, y⟩
  valid : ∀ a, 0 < a → a < st.nodeCount → isValid grid (st.mem a).pos 'e' = true
  parent : ∀ a, 0 < a → a < st.nodeCount →
    ∃ b, (st.mem a).parent = some b ∧ b < st.nodeCount ∧ b ∉ st.openSet.nodes ∧
      Adjacent (st.mem b).pos (st.mem a).pos ∧ (st.mem a).gCost = (st.mem b).gCost + 1
  g_nonneg : ∀ a, a < st.nodeCount → 0 ≤ (st.mem a).gCost
  g_closed : ∀ a, a < st.nodeCount → a ∉ st.openSet.nodes →
    (st.mem a).gCost < (st.nodeCount : Int) - (st.openSet.nodes.length : Int)

/-- Invariant at the head of the main loop of `findPath`. -/
structure LoopInv (grid : AllEntities) (start goal : Position) (st : SearchState) : Prop where
  core : CoreInv grid start st
  start_open : 0 ∈ st.openSet.nodes → st.nodeCount = 1
  not_goal : ∀ a, a < st.nodeCount → a ∉ st.openSet.nodes → (st.mem a).pos ≠ goal
  expanded : ∀ a, a < st.nodeCount → a ∉ st.openSet.nodes → Expanded grid st a

/-- Invariant inside the neighbour loop, while node `cur` is being expanded. -/
structure MidInv (grid : AllEntities) (start goal : Position) (cur : Nat) (st : SearchState) :
    Prop where
  core : CoreInv grid start st
  start_closed : 0 ∉ st.openSet.nodes
  cur_lt : cur < st.nodeCount
  cur_closed : cur ∉ st.openSet.nodes
  not_goal : ∀ a, a < st.nodeCount → a ∉ st.openSet.nodes → (st.mem a).pos ≠ goal
  expanded : ∀ a, a < st.nodeCount → a ∉ st.openSet.nodes → a ≠ cur → Expanded grid st a

/-- The later state keeps every node of the earlier one at its position. -/
def Extends (st st2 : SearchState) : Prop :=
  st.nodeCount ≤ st2.nodeCount ∧ ∀ a, a < st.nodeCount → (st2.mem a).pos = (st.mem a).pos

/-- What a path returned by `findPath` must look like. -/
def PathOK (grid : AllEntities) (start goal : Position) (path : List Position) : Prop :=
  path.head? = some start ∧ path.getLast? = some goal ∧ List.Chain' Adjacent path ∧
    path.Nodup ∧ ∀ q ∈ path.tail, isValid grid q 'e' = true

/-- Board of the pathfinding bug: open cells (wall layer blank) in a sea of walls. -/
def bugOpenCells : List (Int × Int) :=
  [(2, 1), (3, 1), (4, 1), (5, 1), (5, 2), (4, 3), (5, 3), (4, 4), (5, 4), (3, 5), (4, 5), (5, 5)]

/-- Board of the pathfinding bug: an enemy `'o'` stands at (5,5), the player `'X'` at (2,1);
every cell outside `bugOpenCells`, the border included, is a wall. -/
def bugGrid : AllEntities :=
  { playerLayer := fun y x =>
      if y = 5 ∧ x = 5 then 111 else if y = 1 ∧ x = 2 then PLAYER_MARKER else BLANK,
    wallLayer := fun y x => if (x, y) ∈ bugOpenCells then BLANK else WALL,
    itemLayer := fun _ _ => BLANK }

/-- An open 3 x 3 room in the top left corner of the board, everything else wall. -/
def roomGrid : AllEntities :=
  { playerLayer := fun _ _ => BLANK,
    wallLayer := fun y x => if 1 ≤ x ∧ x ≤ 3 ∧ 1 ≤ y ∧ y ≤ 3 then BLANK else WALL,
    itemLayer := fun _ _ => BLANK }

instance (p : Position) : Decidable (Interior p) := by
  unfold Interior
  infer_instance

/-! ## Bomb blast -/

/-- The cells visited by two nested loops, the outer over the column offsets `xs` and the
inner over the row offsets `ys`, in visiting order. -/
def blastCells (startX startY : Int) (xs ys : List Int) : List (Int × Int) :=
  xs.flatMap (fun i => ys.map (fun j => (startX + i, startY + j)))

/-! ## Random numbers and roam order -/

/-- The values that the successive calls of `rand()` return, first call first; every value
is a non-negative `int`. -/
abbrev RandomSource := Nat → Nat

/-- The source after one call of `rand()`. -/
def advance (src : RandomSource) : RandomSource :=
  fun n => src (n + 1)

/-- Size of the roam array and of the path buffers: the macro `NUM_SQUARES`,
`(GRID_SIZE - 3) * (GRID_SIZE - 3)`. -/
def NUM_SQUARES : Int := (GRID_SIZE - 3) * (GRID_SIZE - 3)

/-- The sentinel `INVALID_POS = { -1, -1 }`. -/
def INVALID_POS : Position := ⟨-1, -1⟩

/-- The loop of `shuffleArr`, `for (i = size - 1; i > 0; i--)`: the first argument is the
current `i`, and `j = rand() % (i + 1)` is drawn before the swap. -/
def shuffleLoop : Nat → List Position → RandomSource → List Position × RandomSource
  | 0, roamArr, src => (roamArr, src)
  | i + 1, roamArr, src =>
    let j := src 0 % (i + 1 + 1)
    shuffleLoop i (swapPositions roamArr (i + 1) j) (advance src)

/-- Fisher-Yates shuffle of the first `size` entries, `shuffleArr`: the array after the call
and the random source left. -/
def shuffleArr (roamArr : List Position) (size : Nat) (src : RandomSource) :
    List Position × RandomSource :=
  shuffleLoop (size - 1) roamArr src

/-- The array filled by the two loops of `initializeRoamArr`, before the shuffle: `i` and
`j` run from 1 while below `GRID_SIZE - 2`, and `{ i, j }` is stored at `index++`. -/
def roamCells : List Position :=
  (List.range (GRID_SIZE - 2 - 1).toNat).flatMap (fun i =>
    (List.range (GRID_SIZE - 2 - 1).toNat).map (fun j => (⟨1 + Int.ofNat i, 1 + Int.ofNat j⟩ : Position)))

/-- Roam order, `initializeRoamArr`: the array is filled from index 0 and its first `index`
entries are shuffled; the result is the array written and the random source left. -/
def initializeRoamArr (src : RandomSource) : List Position × RandomSource :=
  shuffleArr roamCells roamCells.length src

/-! ## Bullets -/

/-- The bullet marker in the item layer (byte 254). -/
def BULLET_MARKER : Nat := 254

/-- The explosion marker `'#'`. -/
def EXPLOSION_MARKER : Nat := 35

/-- Projectile, `struct Bullet` (the `next` link is the list tail).  `direction` indexes
`dx` and `dy`; the program stores only non-negative values in it. -/
structure Bullet where
  pos : Position
  direction : Nat
deriving DecidableEq

/-- What `updateBullets` works on: the bullet list, the explosion list and the grid. -/
structure BulletState where
  bullets : List Bullet
  explosions : List Particle
  grid : AllEntities

/-- The cell one step from the bullet in its direction: `newPos` in `updateBullets`. -/
def nextCell (b : Bullet) : Position :=
  ⟨b.pos.x + dx.getD b.direction 0, b.pos.y + dy.getD b.direction 0⟩

/-- One frame of the bullet list, `updateBullets`: each bullet in list order has its old
item-layer cell blanked and is then either discarded with an explosion particle (at the
impact cell, whose wall is cleared, when that cell is inside the border, else at the
bullet's own cell) or moved to its next cell and marked there. -/
def updateBullets : List Bullet → List Particle → AllEntities → BulletState
  | [], explosionHead, grid => { bullets := [], explosions := explosionHead, grid := grid }
  | current :: next, explosionHead, grid =>
    let grid : AllEntities :=
      { grid with itemLayer := setCell grid.itemLayer current.pos.y current.pos.x BLANK }
    let newPos := nextCell current
    if isValid grid newPos 'b' = false then
      if newPos.x ≥ 1 ∧ newPos.x < GRID_SIZE - 1 ∧ newPos.y ≥ 1 ∧ newPos.y < GRID_SIZE - 1 then
        updateBullets next (addNewParticle explosionHead newPos EXPLOSION_MARKER 5)
          { grid with wallLayer := setCell grid.wallLayer newPos.y newPos.x BLANK }
      else
        updateBullets next (addNewParticle explosionHead current.pos EXPLOSION_MARKER 5) grid
    else
      let grid : AllEntities :=
        { grid with itemLayer := setCell grid.itemLayer newPos.y newPos.x BULLET_MARKER }
      let rest := updateBullets next explosionHead grid
      { rest with bullets := { current with pos := newPos } :: rest.bullets }

/-- New bullet at the list head, `shootBullet`. -/
def shootBullet (head : List Bullet) (bulletPos : Position) (direction : Nat) : List Bullet :=
  { pos := bulletPos, direction := direction } :: head

/-- Direction index of the step from `old` to `new`, `findBulletDirection`: the first `i`
with `(dx[i], dy[i])` equal to the step, and 9999 when there is none. -/
def findBulletDirection (old new : Position) : Nat :=
  match (List.range 4).find? (fun i =>
      decide (new.x - old.x = dx.getD i 0) && decide (new.y - old.y = dy.getD i 0)) with
  | some i => i
  | none => 9999

/-- A bullet the C code can handle without reading outside its arrays: it lies inside the
border and its direction is one of the four indices of `dx`, `dy`. -/
def WellFormedBullet (b : Bullet) : Prop :=
  Interior b.pos ∧ b.direction < 4

instance (b : Bullet) : Decidable (WellFormedBullet b) := by
  unfold WellFormedBullet
  infer_instance

/-- Grid with an open corridor along row 5 that ends at a wall in (8,5); every other cell
is blank as well. -/
def corridorGrid : AllEntities :=
  { playerLayer := fun _ _ => BLANK,
    wallLayer := fun y x => if y = 5 ∧ x = 8 then WALL else BLANK,
    itemLayer := fun _ _ => BLANK }

/-! ## Enemy movement: primitives -/

/-- Detection radius of the chaser: `#define AGGRO_RADIUS 6`. -/
def AGGRO_RADIUS : Int := 6

/-- Enemy type indices, the enumeration `EnemyType`. -/
def BASIC_ENEMY : Nat := 0

/-- Index of the patrol enemy in `EnemyType`. -/
def PATROL_ENEMY : Nat := 1

/-- Index of the teleporter in `EnemyType`. -/
def TELEPORT_ENEMY : Nat := 2

/-- Index of the chaser in `EnemyType`. -/
def CHASER_ENEMY : Nat := 3

/-- Index of the trapper in `EnemyType`. -/
def TRAPPER_ENEMY : Nat := 4

/-- Index of the burst enemy in `EnemyType`. -/
def BURST_ENEMY : Nat := 5

/-- Index of the shooter in `EnemyType` (6 and 7 are the mimic and the wall breaker). -/
def SHOOTER_ENEMY : Nat := 8

/-- Passive glyphs `passiveEnemyMarkers[NUM_ENEMY_TYPES]`, as bytes. -/
def passiveEnemyMarkers : List Nat := [111, 147, 232, 79, 234, 145, 120, 233, 226]

/-- Aggro glyphs `aggroEnemyMarkers[NUM_ENEMY_TYPES]`, as bytes. -/
def aggroEnemyMarkers : List Nat := [111, 147, 254, 48, 234, 146, 64, 64, 226]

/-- Whether some cardinal neighbour of `pos` is enemy-valid, `canMove`. -/
def canMove (pos : Position) (grid : AllEntities) : Bool :=
  (List.range 4).any (fun i => isValid grid (neighbor pos i) 'e')

/-- The `while (true)` loop of `hasLineOfSight`; `dx`, `dy`, `xStep`, `yStep` are the local
variables of that name.  `none` when the fuel runs out. -/
def lineOfSightLoop (wallLayer : Int → Int → Nat) (xFinish yFinish dx dy xStep yStep : Int) :
    Nat → Int → Int → Int → Option Bool
  | 0, _, _, _ => none
  | fuel + 1, xStart, yStart, err =>
    if wallLayer yStart xStart = WALL then some false
    else if xStart = xFinish ∧ yStart = yFinish then some true
    else
      let e2 := err * 2
      if e2 > -dy then
        let err := err - dy
        let xStart := xStart + xStep
        if wallLayer yStart (xStart - xStep) = WALL ∧ wallLayer (yStart - yStep) xStart = WALL then
          some false
        else lineOfSightLoop wallLayer xFinish yFinish dx dy xStep yStep fuel xStart yStart err
      else if e2 < dx then
        let err := err + dx
        let yStart := yStart + yStep
        if wallLayer yStart (xStart - xStep) = WALL ∧ wallLayer (yStart - yStep) xStart = WALL then
          some false
        else lineOfSightLoop wallLayer xFinish yFinish dx dy xStep yStep fuel xStart yStart err
      else lineOfSightLoop wallLayer xFinish yFinish dx dy xStep yStep fuel xStart yStart err

/-- Ray trace from `pos` to `player`, `hasLineOfSight`.  The trace makes one single-axis step
per round, so `dx + dy + 1` rounds of fuel are given. -/
def hasLineOfSight (pos player : Position) (wallLayer : Int → Int → Nat) (aggroRange : Int) :
    Option Bool :=
  let dx := |player.x - pos.x|
  let dy := |player.y - pos.y|
  if dx > aggroRange ∨ dy > aggroRange then some false
  else
    let xStep : Int := if pos.x < player.x then 1 else -1
    let yStep : Int := if pos.y < player.y then 1 else -1
    lineOfSightLoop wallLayer player.x player.y dx dy xStep yStep (dx + dy + 1).toNat
      pos.x pos.y (dx - dy)

/-- The inner `do ... while` of `movePatrolEnemy`: draw directions until one is untried or
all four have been tried.  `none` when the fuel runs out. -/
def pickDirection (triedDirections : Nat → Bool) (directionsTried : Nat) :
    Nat → RandomSource → Option (Nat × RandomSource)
  | 0, _ => none
  | fuel + 1, src =>
    let newDirection := src 0 % 4
    if triedDirections newDirection = true ∧ directionsTried ≠ 4 then
      pickDirection triedDirections directionsTried fuel (advance src)
    else some (newDirection, advance src)

/-- The outer `while` of `movePatrolEnemy`, which runs at most four rounds; the result is the
final `newDirection` and the random source left.  `drawFuel` bounds each inner search. -/
def patrolLoop (grid : AllEntities) (oldPos : Position) (drawFuel : Nat) :
    Nat → (Nat → Bool) → Nat → Nat → RandomSource → Option (Nat × RandomSource)
  | 0, _, directionsTried, newDirection, src =>
    if isValid grid (neighbor oldPos newDirection) 'e' = false ∧ directionsTried ≠ 4 then none
    else some (newDirection, src)
  | fuel + 1, triedDirections, directionsTried, newDirection, src =>
    if isValid grid (neighbor oldPos newDirection) 'e' = false ∧ directionsTried ≠ 4 then
      let triedDirections := Function.update triedDirections newDirection true
      let directionsTried := directionsTried + 1
      match pickDirection triedDirections directionsTried drawFuel src with
      | none => none
      | some (newDirection, src) =>
        patrolLoop grid oldPos drawFuel fuel triedDirections directionsTried newDirection src
    else some (newDirection, src)

/-- Patrol step, `movePatrolEnemy`: the patrol with its new direction stored in
`specialAbility`, the cell `newPos` and the random source left.  A stored direction is used
as an index into `dx`, `dy`. -/
def movePatrolEnemy (grid : AllEntities) (patrol : Enemy) (oldPos : Position) (drawFuel : Nat)
    (src : RandomSource) : Option (Enemy × Position × RandomSource) :=
  match patrolLoop grid oldPos drawFuel 4 (fun _ => false) 0 patrol.specialAbility.toNat src with
  | none => none
  | some (newDirection, src) =>
    some ({ patrol with specialAbility := (newDirection : Int) }, neighbor oldPos newDirection, src)

/-- The `do ... while` of `moveTeleporterEnemy`; the first argument is
`100 - toleranceCounter`, so at 0 the loop leaves through its `break`. -/
def teleportLoop (grid : AllEntities) (pos : Position) :
    Nat → RandomSource → Position × RandomSource
  | 0, src =>
    (⟨(src 0 : Int) % (GRID_SIZE - 2) + 1, (src 1 : Int) % (GRID_SIZE - 2) + 1⟩,
      advance (advance src))
  | left + 1, src =>
    let newPos : Position :=
      ⟨(src 0 : Int) % (GRID_SIZE - 2) + 1, (src 1 : Int) % (GRID_SIZE - 2) + 1⟩
    if (!isValid grid newPos 'e' || matchesPosition pos newPos) = true then
      teleportLoop grid pos left (advance (advance src))
    else (newPos, advance (advance src))

/-- Random destination of the teleporter, `moveTeleporterEnemy`; `pos` is the player's
position. -/
def moveTeleporterEnemy (grid : AllEntities) (pos : Position) (src : RandomSource) :
    Position × RandomSource :=
  teleportLoop grid pos 100 src

/-- The `do ... while` of `makeRandomMove`; the first argument is the number of further
attempts allowed, `19 - toleranceCounter` on entering a round. -/
def randomMoveLoop (grid : AllEntities) (oldPos : Position) :
    Nat → RandomSource → Position × RandomSource
  | 0, src => (neighbor oldPos (src 0 % 4), advance src)
  | left + 1, src =>
    if isValid grid (neighbor oldPos (src 0 % 4)) 'e' = false then
      randomMoveLoop grid oldPos left (advance src)
    else (neighbor oldPos (src 0 % 4), advance src)

/-- Up to 20 random single steps, `makeRandomMove`; `newPos` is returned unchanged when the
enemy cannot move at all. -/
def makeRandomMove (grid : AllEntities) (newPos oldPos : Position) (src : RandomSource) :
    Position × RandomSource :=
  if canMove oldPos grid = false then (newPos, src)
  else randomMoveLoop grid oldPos 19 src

/-- Bomb planting, `setBomb`: one draw is always made; the bomb (marker `'9'`, timer
`10 * FPS`) is added when the draw is below the chance and the item cell is blank. -/
def setBomb (bombHead : List Particle) (pos : Position) (itemLayer : Int → Int → Nat)
    (spawnChance : Int) (src : RandomSource) : List Particle × RandomSource :=
  if ((src 0 % 100 : Nat) : Int) < spawnChance ∧ itemLayer pos.y pos.x = BLANK then
    (addNewParticle bombHead pos 57 (10 * FPS), advance src)
  else (bombHead, advance src)

/-- The `do ... while` of `roamToUnvisited`.  `none` when the fuel runs out or the path
search does not return. -/
def roamLoop (grid : AllEntities) :
    Nat → Enemy → Nat → RandomSource → Option (Enemy × RandomSource)
  | 0, _, _, _ => none
  | fuel + 1, enemy, shuffleCounter, src =>
    let reshuffle : Bool := decide (enemy.roamIndex ≥ NUM_SQUARES)
    let shuffled := shuffleArr enemy.roamArr NUM_SQUARES.toNat src
    let enemy : Enemy :=
      if reshuffle = true then { enemy with roamIndex := 0, roamArr := shuffled.1 } else enemy
    let src := if reshuffle = true then shuffled.2 else src
    let shuffleCounter := if reshuffle = true then shuffleCounter + 1 else shuffleCounter
    if shuffleCounter > 1 then
      some ({ enemy with playerLSP := INVALID_POS }, src)
    else
      let enemy : Enemy :=
        { enemy with
          playerLSP := enemy.roamArr.getD enemy.roamIndex.toNat INVALID_POS,
          roamIndex := enemy.roamIndex + 1 }
      match findPath grid enemy.pos enemy.playerLSP with
      | none => none
      | some found =>
        if (!found.1 || !isValid grid enemy.playerLSP 'e') = true then
          roamLoop grid fuel enemy shuffleCounter src
        else some (enemy, src)

/-- Next roam target, `roamToUnvisited`: the enemy with its new `playerLSP`, roam cursor and
roam array, and the random source left.  A full pass takes `NUM_SQUARES` rounds and the
loop gives up during the second reshuffle, so `2 * NUM_SQUARES + 2` rounds of fuel are
given. -/
def roamToUnvisited (enemy : Enemy) (grid : AllEntities) (src : RandomSource) :
    Option (Enemy × RandomSource) :=
  if canMove enemy.pos grid = false then
    some ({ enemy with playerLSP := INVALID_POS }, src)
  else roamLoop grid (2 * NUM_SQUARES + 2).toNat enemy 0 src

/-! ## Enemy movement: one call of `moveAllEnemies` -/

/-- What `moveAllEnemies` reads and writes through its pointer arguments, together with
the state of `rand()`. -/
structure EnemyWorld where
  grid : AllEntities
  allEnemies : Nat → Nat → Enemy
  bombHead : List Particle
  bulletHead : List Bullet
  src : RandomSource

/-- The state of one loop body of `moveAllEnemies` between the `switch` and the final
validation: the enemy record `allEnemies[i][j]`, the grid, the bomb list, the random source
and the locals `newPos`, `LSPflag`, `isBullet`. -/
structure Turn where
  enemy : Enemy
  grid : AllEntities
  bombHead : List Particle
  src : RandomSource
  newPos : Position
  LSPflag : Bool
  isBullet : Bool

/-- Assignment `allEnemies[i][j] = e`. -/
def setEnemy (allEnemies : Nat → Nat → Enemy) (i j : Nat) (e : Enemy) : Nat → Nat → Enemy :=
  fun a b => if a = i ∧ b = j then e else allEnemies a b

/-- The flicker write of the teleporter and burst cases: the enemy's own cell shows the
passive or aggro glyph of type `t` by frame parity while `specialAbility <= 10`, else the
enemy's passive marker. -/
def flicker (grid : AllEntities) (enemy : Enemy) (oldPos : Position) (frameCounter : Int)
    (t : Nat) : AllEntities :=
  if enemy.specialAbility ≤ 10 then
    { grid with
      playerLayer := setCell grid.playerLayer oldPos.y oldPos.x
        (if frameCounter.tmod 2 = 0 then passiveEnemyMarkers.getD t 0
         else aggroEnemyMarkers.getD t 0) }
  else
    { grid with playerLayer := setCell grid.playerLayer oldPos.y oldPos.x enemy.passiveMarker }

/-- Case `BASIC_ENEMY` of the `switch`: pick a roam target when there is none, and ask for
a step towards it. -/
def basicTurn (t : Turn) : Option Turn :=
  if matchesPosition t.enemy.playerLSP INVALID_POS = true then
    match roamToUnvisited t.enemy t.grid t.src with
    | none => none
    | some (enemy, src) => some { t with enemy := enemy, src := src, LSPflag := true }
  else some { t with LSPflag := true }

/-- Case `PATROL_ENEMY` of the `switch`. -/
def patrolTurn (drawFuel : Nat) (oldPos : Position) (t : Turn) : Option Turn :=
  match movePatrolEnemy t.grid t.enemy oldPos drawFuel t.src with
  | none => none
  | some (enemy, newPos, src) => some { t with enemy := enemy, newPos := newPos, src := src }

/-- Case `TELEPORT_ENEMY` of the `switch`: count `specialAbility` down, flickering, and
teleport when it has reached 0. -/
def teleporterTurn (frameCounter : Int) (player : Player) (oldPos : Position) (t : Turn) :
    Turn :=
  if t.enemy.specialAbility > 0 then
    let enemy : Enemy := { t.enemy with specialAbility := t.enemy.specialAbility - 1 }
    { t with enemy := enemy, grid := flicker t.grid enemy oldPos frameCounter TELEPORT_ENEMY }
  else
    let moved := moveTeleporterEnemy t.grid player.pos t.src
    { t with enemy := { t.enemy with specialAbility := 35 }, newPos := moved.1, src := moved.2 }

/-- Case `CHASER_ENEMY` of the `switch`. -/
def chaserTurn (frameCounter : Int) (player : Player) (oldPos : Position) (t : Turn) :
    Option Turn :=
  match hasLineOfSight oldPos player.pos t.grid.wallLayer AGGRO_RADIUS with
  | none => none
  | some sees =>
    let enemy : Enemy :=
      if sees = true then { t.enemy with playerLSP := player.pos, isAggro := true } else t.enemy
    if enemy.isAggro = true ∧ frameCounter.tmod 2 = 0 then
      some { t with enemy := enemy, LSPflag := true }
    else if enemy.specialAbility > 0 then
      some { t with enemy := { enemy with specialAbility := enemy.specialAbility - 1 } }
    else
      some { t with enemy := { enemy with specialAbility := 10 }, LSPflag := true }

/-- Case `TRAPPER_ENEMY` of the `switch`; the bomb is set at `newPos`, which still is the
enemy's own cell.  The products with `frameCounter` are exact here; in C they fit the
32-bit `int` for frame counters up to 42949672. -/
def trapperTurn (frameCounter : Int) (t : Turn) : Option Turn :=
  let maxTime : Int := 1200
  let initialInterval : Int := 10
  let initialProbability : Int := 50
  let newMoveInterval := initialInterval - (initialInterval * frameCounter).tdiv maxTime
  let bombSpawnChance := initialProbability + (initialProbability * frameCounter).tdiv maxTime
  if t.enemy.specialAbility > 0 then
    some { t with enemy := { t.enemy with specialAbility := t.enemy.specialAbility - 1 } }
  else if matchesPosition t.enemy.playerLSP INVALID_POS = true then
    match roamToUnvisited t.enemy t.grid t.src with
    | none => none
    | some (enemy, src) =>
      let planted := setBomb t.bombHead t.newPos t.grid.itemLayer bombSpawnChance src
      some { t with
        enemy := { enemy with specialAbility := newMoveInterval },
        bombHead := planted.1, src := planted.2, LSPflag := true }
  else
    some { t with enemy := { t.enemy with specialAbility := newMoveInterval }, LSPflag := true }

/-- Case `BURST_ENEMY` of the `switch`.  The product `initialInterval * frameCounter` is
exact here; in C it fits the 32-bit `int` for frame counters up to 42949672, and what is
proved about the recomputed interval is stated for frame counters in that range. -/
def burstTurn (frameCounter : Int) (player : Player) (oldPos : Position) (t : Turn) : Turn :=
  let initialInterval : Int := 50
  let maxTime : Int := 900
  let newMoveInterval := initialInterval - (initialInterval * frameCounter).tdiv maxTime
  let enemy : Enemy :=
    if newMoveInterval < 0 then { t.enemy with playerLSP := player.pos } else t.enemy
  if enemy.isAggro = true then { t with enemy := enemy, LSPflag := true }
  else if enemy.specialAbility > 0 then
    let enemy : Enemy := { enemy with specialAbility := enemy.specialAbility - 1 }
    { t with enemy := enemy, grid := flicker t.grid enemy oldPos frameCounter BURST_ENEMY }
  else
    { t with
      enemy :=
        { enemy with
          playerLSP := player.pos, isAggro := true, specialAbility := newMoveInterval } }

/-- Case `SHOOTER_ENEMY` of the `switch`. -/
def shooterTurn (frameCounter : Int) (player : Player) (oldPos : Position) (t : Turn) :
    Option Turn :=
  match hasLineOfSight oldPos player.pos t.grid.wallLayer (AGGRO_RADIUS * 2) with
  | none => none
  | some true =>
    let enemy : Enemy := { t.enemy with isAggro := true, playerLSP := player.pos }
    let LSPflag : Bool := if frameCounter.tmod 10 = 0 then true else t.LSPflag
    if enemy.specialAbility > 0 then
      some { t with
        enemy := { enemy with specialAbility := enemy.specialAbility - 1 }, LSPflag := LSPflag }
    else
      some { t with
        enemy := { enemy with specialAbility := 0 }, LSPflag := LSPflag, isBullet := true }
  | some false =>
    let LSPflag : Bool := if frameCounter.tmod 20 = 0 then true else t.LSPflag
    if matchesPosition t.enemy.playerLSP INVALID_POS = true then
      match roamToUnvisited t.enemy t.grid t.src with
      | none => none
      | some (enemy, src) =>
        some { t with
          enemy := { enemy with specialAbility := 0 }, src := src, LSPflag := LSPflag }
    else some { t with LSPflag := LSPflag }

/-- The `switch (i)` of `moveAllEnemies`.  Types 6 and 7 have no case. -/
def archetypeTurn (i : Nat) (frameCounter : Int) (player : Player) (drawFuel : Nat)
    (oldPos : Position) (t : Turn) : Option Turn :=
  if i = BASIC_ENEMY then basicTurn t
  else if i = PATROL_ENEMY then patrolTurn drawFuel oldPos t
  else if i = TELEPORT_ENEMY then some (teleporterTurn frameCounter player oldPos t)
  else if i = CHASER_ENEMY then chaserTurn frameCounter player oldPos t
  else if i = TRAPPER_ENEMY then trapperTurn frameCounter t
  else if i = BURST_ENEMY then some (burstTurn frameCounter player oldPos t)
  else if i = SHOOTER_ENEMY then shooterTurn frameCounter player oldPos t
  else some t

/-- The `if (LSPflag)` block of `moveAllEnemies`: walk one step along the path to the last
seen position (or pick a new roam target when there is no path), and otherwise make a
random move. -/
def followLSP (oldPos : Position) (t : Turn) : Option Turn :=
  if t.LSPflag = true then
    if (!matchesPosition t.enemy.playerLSP INVALID_POS) = true then
      match findPath t.grid oldPos t.enemy.playerLSP with
      | none => none
      | some found =>
        let stepped : Option Turn :=
          if found.1 = true then
            some { t with
              newPos := if found.2.length > 1 then found.2.getD 1 oldPos
                        else found.2.getD 0 oldPos }
          else
            match roamToUnvisited t.enemy t.grid t.src with
            | none => none
            | some (enemy, src) => some { t with enemy := enemy, src := src }
        match stepped with
        | none => none
        | some t =>
          if matchesPosition t.enemy.pos t.enemy.playerLSP = true then
            some { t with enemy := { t.enemy with playerLSP := INVALID_POS, isAggro := false } }
          else some t
    else
      let moved := makeRandomMove t.grid t.newPos oldPos t.src
      some { t with
        enemy := { t.enemy with isAggro := false }, newPos := moved.1, src := moved.2 }
  else some t

/-- The loop body of `moveAllEnemies` up to the final validation: the locals are set up
(`newPos = oldPos`, both flags false), then comes the `switch`, then the `if (LSPflag)`
block. -/
def enemyTurn (i : Nat) (frameCounter : Int) (player : Player) (drawFuel : Nat)
    (enemy : Enemy) (grid : AllEntities) (bombHead : List Particle) (src : RandomSource) :
    Option Turn :=
  match archetypeTurn i frameCounter player drawFuel enemy.pos
      { enemy := enemy, grid := grid, bombHead := bombHead, src := src, newPos := enemy.pos,
        LSPflag := false, isBullet := false } with
  | none => none
  | some t => followLSP enemy.pos t

/-- The `if (isBullet && LSPflag)` block: the bullet starts at the enemy's cell with the
direction of the step from `oldPos` to `newPos`. -/
def fireBullet (bulletHead : List Bullet) (oldPos : Position) (t : Turn) : List Bullet :=
  if t.isBullet = true ∧ t.LSPflag = true then
    shootBullet bulletHead t.enemy.pos (findBulletDirection oldPos t.newPos)
  else bulletHead

/-- The final validation of the loop body (`if (isValid(*grid, newPos, 'e'))`): the enemy
with its position finalised and the actor layer with its marker moved. -/
def commitMove (oldPos : Position) (t : Turn) : Enemy × AllEntities :=
  if isValid t.grid t.newPos 'e' = true then
    ({ t.enemy with pos := t.newPos },
      { t.grid with
        playerLayer :=
          setCell (setCell t.grid.playerLayer oldPos.y oldPos.x BLANK) t.newPos.y t.newPos.x
            (if t.enemy.isAggro = true then t.enemy.aggroMarker else t.enemy.passiveMarker) })
  else (t.enemy, t.grid)

/-- One round of the inner `for` loop of `moveAllEnemies`, for the enemy `allEnemies[i][j]`.
`none` when a loop inside ran out of fuel. -/
def moveEnemy (frameCounter : Int) (player : Player) (drawFuel : Nat) (i j : Nat)
    (w : EnemyWorld) : Option EnemyWorld :=
  if frameCounter.tmod (w.allEnemies i j).moveInterval ≠ 0 then some w
  else
    match enemyTurn i frameCounter player drawFuel (w.allEnemies i j) w.grid w.bombHead
        w.src with
    | none => none
    | some t =>
      let done := commitMove (w.allEnemies i j).pos t
      some
        { grid := done.2,
          allEnemies := setEnemy w.allEnemies i j done.1,
          bombHead := t.bombHead,
          bulletHead := fireBullet w.bulletHead (w.allEnemies i j).pos t,
          src := t.src }

/-- The enemies `moveAllEnemies` visits, in order: every type `i < NUM_ENEMY_TYPES` and
every `j < level.enemyCounts[i]`. -/
def enemySlots (level : Level) : List (Nat × Nat) :=
  (List.range NUM_ENEMY_TYPES).flatMap (fun i =>
    (List.range (level.enemyCounts i).toNat).map (fun j => (i, j)))

/-- Runs `moveEnemy` over a list of slots, stopping at the first failure. -/
def moveEnemies (frameCounter : Int) (player : Player) (drawFuel : Nat) :
    List (Nat × Nat) → EnemyWorld → Option EnemyWorld
  | [], w => some w
  | slot :: rest, w =>
    match moveEnemy frameCounter player drawFuel slot.1 slot.2 w with
    | none => none
    | some w => moveEnemies frameCounter player drawFuel rest w

/-- One frame of enemy movement, `moveAllEnemies`.  `drawFuel` bounds the number of draws
in one direction search of a patrol enemy. -/
def moveAllEnemies (frameCounter : Int) (level : Level) (player : Player) (drawFuel : Nat)
    (w : EnemyWorld) : Option EnemyWorld :=
  moveEnemies frameCounter player drawFuel (enemySlots level) w

/-! ## Enemy movement: specification vocabulary and example worlds -/

/-- What `roamToUnvisited` promises about the target it leaves in `playerLSP`. -/
def RoamTarget (grid : AllEntities) (pos target : Position) : Prop :=
  target = INVALID_POS ∨
    (isValid grid target 'e' = true ∧ ∃ path, findPath grid pos target = some (true, path))

/-- Random source that always draws 0. -/
def zeroSource : RandomSource := fun _ => 0

/-- A player standing at `pos`. -/
def playerAt (pos : Position) : Player :=
  { pos := pos, flashlight := { batteryLife := 100, isActive := false, isDisabled := false },
    facingDirection := 0, lives := 3 }

/-- A freshly initialised enemy of type `t` at `pos`, with the roam array in loop order. -/
def enemyAt (t : Nat) (pos : Position) (moveInterval specialAbility : Int) : Enemy :=
  { roamArr := roamCells, pos := pos, playerLSP := INVALID_POS, roamIndex := 0,
    moveInterval := moveInterval, specialAbility := specialAbility,
    passiveMarker := passiveEnemyMarkers.getD t 0, aggroMarker := aggroEnemyMarkers.getD t 0,
    isRepelled := false, isAggro := false }

/-- Level record with the given enemy counts; nothing else of it is read here. -/
def levelWith (enemyCounts : Nat → Int) : Level :=
  { start := INVALID_POS, endPos := INVALID_POS, walls := [],
    allEnemies := fun _ _ => INVALID_POS, enemyCounts := enemyCounts,
    allItems := fun _ _ => INVALID_POS, itemCounts := fun _ => 0,
    objectiveID := ObjectiveType.EXIT_OBJ }

/-- Open board with border walls: the player `'X'` at (1,1), a teleporter at (3,3). -/
def teleportGrid : AllEntities :=
  { playerLayer := fun y x =>
      if y = 1 ∧ x = 1 then PLAYER_MARKER else if y = 3 ∧ x = 3 then 232 else BLANK,
    wallLayer := fun y x =>
      if x = 0 ∨ x = GRID_SIZE - 1 ∨ y = 0 ∨ y = GRID_SIZE - 1 then WALL else BLANK,
    itemLayer := fun _ _ => BLANK }

/-- The world of `teleportGrid`: one teleporter, due to teleport, and a random source that
always draws 0. -/
def teleportWorld : EnemyWorld :=
  { grid := teleportGrid,
    allEnemies := fun _ _ => enemyAt TELEPORT_ENEMY ⟨3, 3⟩ 1 0,
    bombHead := [], bulletHead := [], src := zeroSource }

/-- Board of the stray bullet: row 1 is open from x = 1 to x = 3, every other cell is a
wall; a shooter stands at (1,1), a teleporter at (2,1), the player at (3,1). -/
def shooterGrid : AllEntities :=
  { playerLayer := fun y x =>
      if y = 1 ∧ x = 1 then 226 else if y = 1 ∧ x = 2 then 232
      else if y = 1 ∧ x = 3 then PLAYER_MARKER else BLANK,
    wallLayer := fun y x => if y = 1 ∧ 1 ≤ x ∧ x ≤ 3 then BLANK else WALL,
    itemLayer := fun _ _ => BLANK }

/-- The world of `shooterGrid`: the shooter ready to fire, the teleporter in mid countdown. -/
def shooterWorld : EnemyWorld :=
  { grid := shooterGrid,
    allEnemies := fun i _ =>
      if i = TELEPORT_ENEMY then enemyAt TELEPORT_ENEMY ⟨2, 1⟩ 1 20
      else enemyAt SHOOTER_ENEMY ⟨1, 1⟩ 1 0,
    bombHead := [], bulletHead := [], src := zeroSource }

/-! ## Line of sight: specification vocabulary -/

/-- A single cardinal step from `a` to `b` that brings the walker one cell closer to `target`
(in Manhattan distance). -/
def StepToward (target a b : Position) : Prop :=
  Adjacent a b ∧ calculateHCost b target + 1 = calculateHCost a target

instance (target a b : Position) : Decidable (StepToward target a b) := by
  unfold StepToward
  infer_instance

/-- Wall layer with walls at (2,1) and (1,2) only: the two cells between the diagonal
neighbours (1,1) and (2,2). -/
def diagonalWalls : Int → Int → Nat :=
  fun y x => if (y = 1 ∧ x = 2) ∨ (y = 2 ∧ x = 1) then WALL else BLANK

/-- Grid with one shooter marker (226) at (4,4) in the actor layer; no walls, no items. -/
def shooterCellGrid : AllEntities :=
  { playerLayer := fun y x => if y = 4 ∧ x = 4 then SHOOTER_MARKER else BLANK,
    wallLayer := fun _ _ => BLANK,
    itemLayer := fun _ _ => BLANK }

/-! ## Open rooms -/

/-- Board whose enemy-valid cells are exactly the rectangle `1 ≤ x ≤ w`, `1 ≤ y ≤ h`: no
actors, no items, wall everywhere outside the rectangle. -/
def openRoom (w h : Int) : AllEntities :=
  { playerLayer := fun _ _ => BLANK,
    wallLayer := fun y x => if 1 ≤ x ∧ x ≤ w ∧ 1 ≤ y ∧ y ≤ h then BLANK else WALL,
    itemLayer := fun _ _ => BLANK }

/-! ## Example worlds for the chaser, the burst enemy and the teleporter -/

/-- Open board with border walls: a chaser (`'0'` while aggro) at (3,3), the player `'X'` at
(5,3). -/
def chaserGrid : AllEntities :=
  { playerLayer := fun y x =>
      if y = 3 ∧ x = 3 then 48 else if y = 3 ∧ x = 5 then PLAYER_MARKER else BLANK,
    wallLayer := fun y x =>
      if x = 0 ∨ x = GRID_SIZE - 1 ∨ y = 0 ∨ y = GRID_SIZE - 1 then WALL else BLANK,
    itemLayer := fun _ _ => BLANK }

/-- The world of `chaserGrid`: one chaser at (3,3) whose aggro flag is set, whose last seen
position is the player's cell (5,3) and whose move timer has run out. -/
def chaserWorld : EnemyWorld :=
  { grid := chaserGrid,
    allEnemies := fun _ _ =>
      { enemyAt CHASER_ENEMY ⟨3, 3⟩ 1 0 with isAggro := true, playerLSP := ⟨5, 3⟩ },
    bombHead := [], bulletHead := [], src := zeroSource }

/-- Open board with border walls: a burst enemy (byte 145) at (3,3), the player `'X'` at
(1,1). -/
def burstGrid : AllEntities :=
  { playerLayer := fun y x =>
      if y = 3 ∧ x = 3 then 145 else if y = 1 ∧ x = 1 then PLAYER_MARKER else BLANK,
    wallLayer := fun y x =>
      if x = 0 ∨ x = GRID_SIZE - 1 ∨ y = 0 ∨ y = GRID_SIZE - 1 then WALL else BLANK,
    itemLayer := fun _ _ => BLANK }

/-- The world of `burstGrid`: one passive burst enemy at (3,3) with five frames of its
countdown left and no last seen position. -/
def burstWorld : EnemyWorld :=
  { grid := burstGrid,
    allEnemies := fun _ _ => enemyAt BURST_ENEMY ⟨3, 3⟩ 1 5,
    bombHead := [], bulletHead := [], src := zeroSource }

/-- Open board with border walls: a teleporter at (3,3), the player `'X'` at (5,5). -/
def countdownGrid : AllEntities :=
  { playerLayer := fun y x =>
      if y = 3 ∧ x = 3 then 232 else if y = 5 ∧ x = 5 then PLAYER_MARKER else BLANK,
    wallLayer := fun y x =>
      if x = 0 ∨ x = GRID_SIZE - 1 ∨ y = 0 ∨ y = GRID_SIZE - 1 then WALL else BLANK,
    itemLayer := fun _ _ => BLANK }

/-- The level of the teleporter examples: one teleporter and no other enemy. -/
def teleporterLevel : Level :=
  levelWith (fun i => if i = TELEPORT_ENEMY then 1 else 0)

/-- The world of `countdownGrid` just after a teleport in frame 100: the teleporter's
countdown has been reset to 35. -/
def countdownWorld : EnemyWorld :=
  { grid := countdownGrid,
    allEnemies := fun _ _ => enemyAt TELEPORT_ENEMY ⟨3, 3⟩ 1 35,
    bombHead := [], bulletHead := [], src := zeroSource }

/-- The world `k` frames after `countdownWorld`: `moveAllEnemies` has been called for the
frames 101, ..., 100 + k, with the player standing still at (5,5). -/
def countdownRun : Nat → EnemyWorld
  | 0 => countdownWorld
  | k + 1 =>
    (moveAllEnemies (100 + 1 + k) teleporterLevel (playerAt ⟨5, 5⟩) 0 (countdownRun k)).getD
      (countdownRun k)

/-! ## Particles: the frame update -/

/-- Last-second flicker of the bombs, `displayBombFlicker`: every bomb of the list whose
timer is at most `FPS` has its item-layer cell set to `'O'` on even and `'0'` on odd frame
counters. -/
def displayBombFlicker (bombHead : List Particle) (itemLayer : Int → Int → Nat)
    (frameCounter : Int) : Int → Int → Nat :=
  bombHead.foldl
    (fun layer current =>
      if current.timer ≤ FPS then
        setCell layer current.pos.y current.pos.x (if frameCounter.tmod 2 = 0 then 79 else 48)
      else layer)
    itemLayer

/-- What `updateAllParticles` works on: the bomb list, the explosion list, the item layer
and the wall layer. -/
structure AllParticles where
  bombs : List Particle
  explosions : List Particle
  itemLayer : Int → Int → Nat
  wallLayer : Int → Int → Nat

/-- One frame of all particles, `updateAllParticles`: the bomb list is updated (with the
explosion list passed along for detonations), then the explosion list, then the bombs in
their last second flicker. -/
def updateAllParticles (bombHead explosionHead : List Particle)
    (itemLayer wallLayer : Int → Int → Nat) (frameCounter : Int) : AllParticles :=
  let bombs := updateParticleType bombHead (some explosionHead) itemLayer wallLayer
  let explosions :=
    updateParticleType (bombs.explosions.getD explosionHead) none bombs.itemLayer
      bombs.wallLayer
  { bombs := bombs.particles,
    explosions := explosions.particles,
    itemLayer := displayBombFlicker bombs.particles explosions.itemLayer frameCounter,
    wallLayer := explosions.wallLayer }

/-! ## Level files -/

/-- Index of the mimic in `EnemyType`. -/
def MIMIC_ENEMY : Nat := 6

/-- Index of the wall breaker in `EnemyType`. -/
def WALL_BREAKER_ENEMY : Nat := 7

/-- Number of item types (`NUM_ITEM_TYPES`). -/
def NUM_ITEM_TYPES : Nat := 4

/-- Error code `UNKNOWN_ENEMY_TYPE` of the enumeration `ErrorCode`, which starts at
`ERROR_OPENING_FILE = 1`. -/
def UNKNOWN_ENEMY_TYPE : Nat := 2

/-- Error code `NO_EXIT_EXISTS`. -/
def NO_EXIT_EXISTS : Nat := 3

/-- Error code `NO_PLAYER_EXISTS`. -/
def NO_PLAYER_EXISTS : Nat := 4

/-- Error code `REALLOC_WALL_POSITION_FAILED`. -/
def REALLOC_WALL_POSITION_FAILED : Nat := 8

/-- Error code `REALLOC_ENEMY_COUNT_FAILED`. -/
def REALLOC_ENEMY_COUNT_FAILED : Nat := 9

/-- Error code `REALLOC_ITEM_COUNT_FAILED`. -/
def REALLOC_ITEM_COUNT_FAILED : Nat := 16

/-- The result of `parseLevelLayout`: the level record and its field `hasError`. -/
structure ParsedLevel where
  level : Level
  hasError : Nat

/-- Whether the `realloc` calls at the end of `parseLevelLayout` succeed: the one for the
walls, and the one for each enemy type and each item type with a non-zero count. -/
structure ReallocOutcome where
  wallsOk : Bool
  enemiesOk : Nat → Bool
  itemsOk : Nat → Bool

/-- The statement `allEnemies[t][enemyCounts[t]++] = pos`. -/
def addEnemy (level : Level) (t : Nat) (pos : Position) : Level :=
  { level with
    allEnemies := fun a k =>
      if a = t ∧ (k : Int) = level.enemyCounts t then pos else level.allEnemies a k,
    enemyCounts := fun a => if a = t then level.enemyCounts t + 1 else level.enemyCounts a }

/-- The statement `allItems[t][itemCounts[t]++] = pos`. -/
def addItem (level : Level) (t : Nat) (pos : Position) : Level :=
  { level with
    allItems := fun a k =>
      if a = t ∧ (k : Int) = level.itemCounts t then pos else level.allItems a k,
    itemCounts := fun a => if a = t then level.itemCounts t + 1 else level.itemCounts a }

/-- The `switch (line[x])` of `parseLevelLayout`; `none` is the `default` case. -/
def parseSymbol (level : Level) (c : Char) (currentPos : Position) : Option Level :=
  if c = ' ' then some level
  else if c = 'X' then some { level with start := currentPos }
  else if c = 'E' then some { level with endPos := currentPos }
  else if c = '#' then some { level with walls := level.walls ++ [currentPos] }
  else if c = 'B' then some (addEnemy level BASIC_ENEMY currentPos)
  else if c = 'P' then some (addEnemy level PATROL_ENEMY currentPos)
  else if c = 't' then some (addEnemy level TELEPORT_ENEMY currentPos)
  else if c = 'C' then some (addEnemy level CHASER_ENEMY currentPos)
  else if c = 'T' then some (addEnemy level TRAPPER_ENEMY currentPos)
  else if c = 's' then some (addEnemy level BURST_ENEMY currentPos)
  else if c = 'M' then some (addEnemy level MIMIC_ENEMY currentPos)
  else if c = 'W' then some (addEnemy level WALL_BREAKER_ENEMY currentPos)
  else if c = 'S' then some (addEnemy level SHOOTER_ENEMY currentPos)
  else if c = '!' then some (addItem level OBJ_ITEM currentPos)
  else none

/-- The inner loop of `parseLevelLayout` over the columns `xs` of the line `y`.  A column
past the end of the line reads as NUL.  The result is an error, carrying the level as far
as it was read, when a symbol falls into the `default` case. -/
def parseRow (line : List Char) (y : Int) : List Nat → Level → Except Level Level
  | [], level => .ok level
  | x :: xs, level =>
    match parseSymbol level (line.getD x (Char.ofNat 0)) ⟨(x : Int), y⟩ with
    | none => .error level
    | some level => parseRow line y xs level

/-- The outer loop of `parseLevelLayout`: one round per line that `fgets` delivers, the
columns `0 .. GRID_SIZE - 1` of each. -/
def parseRows : List (List Char) → Int → Level → Except Level Level
  | [], _, level => .ok level
  | line :: rest, y, level =>
    match parseRow line y (List.range GRID_SIZE.toNat) level with
    | .error level => .error level
    | .ok level => parseRows rest (y + 1) level

/-- Level parser, `parseLevelLayout`, on a file that could be opened and after a successful
`initializeLevel`.  The file is given as the list of lines `fgets` delivers (a line of at
most `GRID_SIZE` characters and its line break fit the buffer and come as one piece).
Array cells never written are given the value `INVALID_POS`. -/
def parseLevelLayout (lines : List (List Char)) (alloc : ReallocOutcome) : ParsedLevel :=
  let newLevel : Level :=
    { start := INVALID_POS, endPos := INVALID_POS, walls := [],
      allEnemies := fun _ _ => INVALID_POS, enemyCounts := fun _ => 0,
      allItems := fun _ _ => INVALID_POS, itemCounts := fun _ => 0,
      objectiveID := ObjectiveType.EXIT_OBJ }
  match parseRows lines 0 newLevel with
  | .error level => { level := level, hasError := UNKNOWN_ENEMY_TYPE }
  | .ok level =>
    if matchesPosition level.start INVALID_POS = true then
      { level := level, hasError := NO_PLAYER_EXISTS }
    else if matchesPosition level.endPos INVALID_POS = true then
      { level := level, hasError := NO_EXIT_EXISTS }
    else if alloc.wallsOk = false then
      { level := level, hasError := REALLOC_WALL_POSITION_FAILED }
    else
      let enemyError : Nat :=
        if (List.range NUM_ENEMY_TYPES).any
            (fun i => decide (level.enemyCounts i ≠ 0) && !alloc.enemiesOk i) = true then
          REALLOC_ENEMY_COUNT_FAILED
        else 0
      let itemError : Nat :=
        if (List.range NUM_ITEM_TYPES).any
            (fun i => decide (level.itemCounts i ≠ 0) && !alloc.itemsOk i) = true then
          REALLOC_ITEM_COUNT_FAILED
        else enemyError
      { level :=
          { level with
            objectiveID :=
              if level.itemCounts OBJ_ITEM > 0 then ObjectiveType.ITEM_OBJ
              else level.objectiveID },
        hasError := itemError }

/-- The symbols that have a case of their own in the `switch` of `parseLevelLayout`. -/
def recognisedSymbols : List Char :=
  [' ', 'X', 'E', '#', 'B', 'P', 't', 'C', 'T', 's', 'M', 'W', 'S', '!']

/-- Every `realloc` succeeds. -/
def reallocFine : ReallocOutcome :=
  { wallsOk := true, enemiesOk := fun _ => true, itemsOk := fun _ => true }

/-- A layout of three lines of 23 characters: a wall line, a corridor with the player at
its left end and the exit at its right end, and a wall line. -/
def sampleLayout : List (List Char) :=
  [List.replicate 23 '#',
    ['#', 'X'] ++ List.replicate 19 ' ' ++ ['E', '#'],
    List.replicate 23 '#']
/-! ## Line of sight: the trace without the diagonal checks, and the cells it touches -/

/-- The loop of `hasLineOfSight` with both diagonal-wall checks removed: the same rounds,
the same error term, the same steps, and nothing else. -/
def lineOfSightLoopPlain (wallLayer : Int → Int → Nat) (xFinish yFinish dx dy xStep yStep : Int) :
    Nat → Int → Int → Int → Option Bool
  | 0, _, _, _ => none
  | fuel + 1, xStart, yStart, err =>
    if wallLayer yStart xStart = WALL then some false
    else if xStart = xFinish ∧ yStart = yFinish then some true
    else
      let e2 := err * 2
      if e2 > -dy then
        let err := err - dy
        let xStart := xStart + xStep
        lineOfSightLoopPlain wallLayer xFinish yFinish dx dy xStep yStep fuel xStart yStart err
      else if e2 < dx then
        let err := err + dx
        let yStart := yStart + yStep
        lineOfSightLoopPlain wallLayer xFinish yFinish dx dy xStep yStep fuel xStart yStart err
      else lineOfSightLoopPlain wallLayer xFinish yFinish dx dy xStep yStep fuel xStart yStart err

/-- The function `hasLineOfSight` with both diagonal-wall checks removed. -/
def hasLineOfSightPlain (pos player : Position) (wallLayer : Int → Int → Nat)
    (aggroRange : Int) : Option Bool :=
  let dx := |player.x - pos.x|
  let dy := |player.y - pos.y|
  if dx > aggroRange ∨ dy > aggroRange then some false
  else
    let xStep : Int := if pos.x < player.x then 1 else -1
    let yStep : Int := if pos.y < player.y then 1 else -1
    lineOfSightLoopPlain wallLayer player.x player.y dx dy xStep yStep (dx + dy + 1).toNat
      pos.x pos.y (dx - dy)

/-- A run of `hasLineOfSight` with its bookkeeping: the value returned, the cells
`(xStart, yStart)` the trace stood on at the top of each round, and every cell of the wall
layer the run read, in order. -/
structure SightTrace where
  result : Bool
  visited : List Position
  reads : List Position

/-- One more round in front of a trace: the cell stood on and the cells read there. -/
def SightTrace.extend (here : Position) (cells : List Position) (t : SightTrace) : SightTrace :=
  { result := t.result, visited := here :: t.visited, reads := cells ++ t.reads }

/-- The loop of `hasLineOfSight` with the cells recorded.  A diagonal check reads its first
cell and, only when that one is a wall (the `&&` is short-circuit), its second cell. -/
def lineOfSightTrace (wallLayer : Int → Int → Nat) (xFinish yFinish dx dy xStep yStep : Int) :
    Nat → Int → Int → Int → Option SightTrace
  | 0, _, _, _ => none
  | fuel + 1, xStart, yStart, err =>
    let here : Position := ⟨xStart, yStart⟩
    if wallLayer yStart xStart = WALL then some ⟨false, [here], [here]⟩
    else if xStart = xFinish ∧ yStart = yFinish then some ⟨true, [here], [here]⟩
    else
      let e2 := err * 2
      if e2 > -dy then
        let err := err - dy
        let xStart := xStart + xStep
        if wallLayer yStart (xStart - xStep) = WALL then
          if wallLayer (yStart - yStep) xStart = WALL then
            some ⟨false, [here], [here, ⟨xStart - xStep, yStart⟩, ⟨xStart, yStart - yStep⟩]⟩
          else
            (lineOfSightTrace wallLayer xFinish yFinish dx dy xStep yStep fuel xStart yStart
              err).map
              (SightTrace.extend here
                [here, ⟨xStart - xStep, yStart⟩, ⟨xStart, yStart - yStep⟩])
        else
          (lineOfSightTrace wallLayer xFinish yFinish dx dy xStep yStep fuel xStart yStart
            err).map (SightTrace.extend here [here, ⟨xStart - xStep, yStart⟩])
      else if e2 < dx then
        let err := err + dx
        let yStart := yStart + yStep
        if wallLayer yStart (xStart - xStep) = WALL then
          if wallLayer (yStart - yStep) xStart = WALL then
            some ⟨false, [here], [here, ⟨xStart - xStep, yStart⟩, ⟨xStart, yStart - yStep⟩]⟩
          else
            (lineOfSightTrace wallLayer xFinish yFinish dx dy xStep yStep fuel xStart yStart
              err).map
              (SightTrace.extend here
                [here, ⟨xStart - xStep, yStart⟩, ⟨xStart, yStart - yStep⟩])
        else
          (lineOfSightTrace wallLayer xFinish yFinish dx dy xStep yStep fuel xStart yStart
            err).map (SightTrace.extend here [here, ⟨xStart - xStep, yStart⟩])
      else
        (lineOfSightTrace wallLayer xFinish yFinish dx dy xStep yStep fuel xStart yStart
          err).map (SightTrace.extend here [here])

/-- The function `hasLineOfSight` with the cells recorded; out of range nothing is read. -/
def hasLineOfSightTrace (pos player : Position) (wallLayer : Int → Int → Nat)
    (aggroRange : Int) : Option SightTrace :=
  let dx := |player.x - pos.x|
  let dy := |player.y - pos.y|
  if dx > aggroRange ∨ dy > aggroRange then some ⟨false, [], []⟩
  else
    let xStep : Int := if pos.x < player.x then 1 else -1
    let yStep : Int := if pos.y < player.y then 1 else -1
    lineOfSightTrace wallLayer player.x player.y dx dy xStep yStep (dx + dy + 1).toNat
      pos.x pos.y (dx - dy)

/-- The cell lies in the smallest rectangle that holds both `a` and `b`. -/
def InRectangle (a b q : Position) : Prop :=
  min a.x b.x ≤ q.x ∧ q.x ≤ max a.x b.x ∧ min a.y b.y ≤ q.y ∧ q.y ≤ max a.y b.y

/-- The cell is an index pair of the `GRID_SIZE` by `GRID_SIZE` layer arrays. -/
def InGrid (q : Position) : Prop :=
  0 ≤ q.x ∧ q.x < GRID_SIZE ∧ 0 ≤ q.y ∧ q.y < GRID_SIZE

/-- Wall layer without a single wall. -/
def noWalls : Int → Int → Nat := fun _ _ => BLANK

/-! ## Particles over several frames -/

/-- Repeated frames: `updateAllParticles` called `k` times, each call on the lists and
layers left by the previous one, the frame counter going up by one per call as in
`gameLoop`. -/
def updateAllParticlesN : Nat → Int → AllParticles → AllParticles
  | 0, _, st => st
  | k + 1, frameCounter, st =>
    updateAllParticlesN k (frameCounter + 1)
      (updateAllParticles st.bombs st.explosions st.itemLayer st.wallLayer frameCounter)

/-- Board with a wall at the interior cell (5,6) and nothing else. -/
def impactGrid : AllEntities :=
  { playerLayer := fun _ _ => BLANK,
    itemLayer := fun _ _ => BLANK,
    wallLayer := fun y x => if x = 5 ∧ y = 6 then WALL else BLANK }

/-! ## Item pickup -/

/-- What `hasItem` and `removeItem` work on: the level (for its `itemCounts`), the item
arrays `allItems[t][j]` and the item layer. -/
structure ItemState where
  level : Level
  allItems : Nat → Nat → Position
  itemLayer : Int → Int → Nat

/-- Removal of item `itemIndex` of type `itemType`, `removeItem`: its item-layer cell is
blanked, the last item of the type is copied into its slot and the count goes down by one.
The array is then freed or shrunk; the slots from the new count on are no longer part of
it. -/
def removeItem (level : Level) (allItems : Nat → Nat → Position) (itemLayer : Int → Int → Nat)
    (itemType itemIndex : Nat) : ItemState :=
  let itemLayer :=
    setCell itemLayer (allItems itemType itemIndex).y (allItems itemType itemIndex).x BLANK
  let allItems : Nat → Nat → Position := fun t j =>
    if t = itemType ∧ j = itemIndex then allItems itemType (level.itemCounts itemType - 1).toNat
    else allItems t j
  let level : Level :=
    { level with
      itemCounts := fun t => if t = itemType then level.itemCounts t - 1 else level.itemCounts t }
  { level := level, allItems := allItems, itemLayer := itemLayer }

/-- The inner `for` of `hasItem` for item type `i`, from index `j` on; the bound
`level->itemCounts[i]` is read again in every round.  `none` when the fuel runs out. -/
def hasItemLoop (pos : Position) (i : Nat) : Nat → Nat → ItemState → Option ItemState
  | 0, j, st => if (j : Int) < st.level.itemCounts i then none else some st
  | fuel + 1, j, st =>
    if (j : Int) < st.level.itemCounts i then
      if matchesPosition (st.allItems i j) pos = true then
        hasItemLoop pos i fuel (j + 1) (removeItem st.level st.allItems st.itemLayer i j)
      else hasItemLoop pos i fuel (j + 1) st
    else some st

/-- The outer `for` of `hasItem` over the item types listed. -/
def hasItemTypes (pos : Position) : List Nat → ItemState → Option ItemState
  | [], st => some st
  | i :: rest, st =>
    if st.level.itemCounts i = 0 then hasItemTypes pos rest st
    else
      match hasItemLoop pos i (st.level.itemCounts i).toNat 0 st with
      | none => none
      | some st => hasItemTypes pos rest st

/-- Item pickup at `pos`, `hasItem`: every item type below `NUM_ITEM_TYPES` in turn. -/
def hasItem (level : Level) (allItems : Nat → Nat → Position) (pos : Position)
    (itemLayer : Int → Int → Nat) : Option ItemState :=
  hasItemTypes pos (List.range NUM_ITEM_TYPES)
    { level := level, allItems := allItems, itemLayer := itemLayer }

/-- The items of type `i` in play: the first `itemCounts[i]` slots of `allItems[i]`. -/
def itemsOf (level : Level) (allItems : Nat → Nat → Position) (i : Nat) : List Position :=
  (List.range (level.itemCounts i).toNat).map (allItems i)

/-- A level with two items of type 0, at (2,2) and (4,2), one item of type 1 at (3,3),
and with those three cells marked in the item layer `pickupLayer`. -/
def pickupLevel : Level :=
  { levelWith (fun _ => 0) with
    itemCounts := fun t => if t = 0 then 2 else if t = 1 then 1 else 0,
    allItems := fun t j =>
      if t = 0 then (if j = 0 then ⟨2, 2⟩ else ⟨4, 2⟩) else ⟨3, 3⟩ }

/-- The item layer of `pickupLevel`: `'!'` (33) at (2,2) and (4,2), `'*'` (42) at (3,3). -/
def pickupLayer : Int → Int → Nat := fun y x =>
  if y = 2 ∧ (x = 2 ∨ x = 4) then 33 else if y = 3 ∧ x = 3 then 42 else BLANK

/-! ## Enemy movement: what a turn leaves alone -/

/-- The part of an enemy record no turn writes before the final validation: the position
and the two markers. -/
def Body (e : Enemy) : Position × Nat × Nat := (e.pos, e.passiveMarker, e.aggroMarker)

/-- The actor layer of `g2` is that of `g` except possibly at the cell `oldPos`, where it
may hold one of the flicker glyphs 232, 254, 145, 146 or the marker `m`. -/
def GridKeeps (oldPos : Position) (m : Nat) (g g2 : AllEntities) : Prop :=
  ∀ y x, g2.playerLayer y x = g.playerLayer y x ∨
    (y = oldPos.y ∧ x = oldPos.x ∧
      (g2.playerLayer y x = 232 ∨ g2.playerLayer y x = 254 ∨ g2.playerLayer y x = 145 ∨
        g2.playerLayer y x = 146 ∨ g2.playerLayer y x = m))

/-- A byte that marks an enemy in the actor layer: neither blank nor the player's `'X'`. -/
def EnemyByte (v : Nat) : Prop := v ≠ BLANK ∧ v ≠ PLAYER_MARKER

/-- The enemies of the slots listed stand on pairwise distinct cells, each marked in the
actor layer by a byte that is neither blank nor the player's, and their two markers are
such bytes. -/
def Separated (slots : List (Nat × Nat)) (w : EnemyWorld) : Prop :=
  (∀ a ∈ slots, ∀ b ∈ slots, a ≠ b →
    (w.allEnemies a.1 a.2).pos ≠ (w.allEnemies b.1 b.2).pos) ∧
  (∀ a ∈ slots,
    EnemyByte (w.grid.playerLayer (w.allEnemies a.1 a.2).pos.y (w.allEnemies a.1 a.2).pos.x)) ∧
  ∀ a ∈ slots, EnemyByte (w.allEnemies a.1 a.2).passiveMarker ∧
    EnemyByte (w.allEnemies a.1 a.2).aggroMarker

/-- Open board with border walls: a chaser (`'0'` while aggro) at (3,3), a teleporter at
(4,3) right beside it, and the player `'X'` at (5,3). -/
def pairGrid : AllEntities :=
  { playerLayer := fun y x =>
      if y = 3 ∧ x = 3 then 48 else if y = 3 ∧ x = 4 then 232
      else if y = 3 ∧ x = 5 then PLAYER_MARKER else BLANK,
    wallLayer := fun y x =>
      if x = 0 ∨ x = GRID_SIZE - 1 ∨ y = 0 ∨ y = GRID_SIZE - 1 then WALL else BLANK,
    itemLayer := fun _ _ => BLANK }

/-- The level of `pairWorld`: one teleporter and one chaser. -/
def pairLevel : Level :=
  levelWith (fun i => if i = TELEPORT_ENEMY ∨ i = CHASER_ENEMY then 1 else 0)

/-- The world of `pairGrid`: the teleporter at (4,3) in the middle of its countdown and the
chaser at (3,3), aggro, with the player's cell (5,3) as last seen position. -/
def pairWorld : EnemyWorld :=
  { grid := pairGrid,
    allEnemies := fun i _ =>
      if i = TELEPORT_ENEMY then enemyAt TELEPORT_ENEMY ⟨4, 3⟩ 1 35
      else { enemyAt CHASER_ENEMY ⟨3, 3⟩ 1 0 with isAggro := true, playerLSP := ⟨5, 3⟩ },
    bombHead := [], bulletHead := [], src := zeroSource }

/-! ## Pathfinding: the rounds of the main loop -/

/-- The head of one round of the main loop of `findPath`: the root of the open set is
popped and its cell marked in `closedSet`.  `none` when the open set is empty, which is
when the `while` condition fails. -/
def closeNode (st : SearchState) : Option (Nat × SearchState) :=
  match pop st.mem st.openSet with
  | (none, _) => none
  | (some currentNode, openSet) =>
    let pos := (st.mem currentNode).pos
    some (currentNode,
      { st with
        openSet := openSet,
        closedSet := fun r c => if r = pos.y ∧ c = pos.x then true else st.closedSet r c })

/-- The state at the head of the main loop of `findPath` after `k` complete rounds, each of
which popped a node that is not at the goal and ran the neighbour loop for it.  `none`
when the loop has ended before. -/
def searchRun (grid : AllEntities) (goal : Position) : Nat → SearchState → Option SearchState
  | 0, st => some st
  | k + 1, st =>
    match closeNode st with
    | none => none
    | some (currentNode, st1) =>
      if matchesPosition (st.mem currentNode).pos goal = true then none
      else searchRun grid goal k ([0, 1, 2, 3].foldl (visitNeighbor grid goal currentNode) st1)

/-! ## Pathfinding: ancestors and chords -/

/-- The node reached from `a` by following the `parent` pointer `d` times; `none` when the
chain ends before. -/
def nthParent (mem : Memory) : Nat → Nat → Option Nat
  | 0, a => some a
  | d + 1, a =>
    match (mem a).parent with
    | none => none
    | some b => nthParent mem d b

/-- Facts about the parent chains of a search state: every node carries the Manhattan
distance of its cell to the goal in `hCost`, and a node whose cell is adjacent to the cell
of an ancestor other than its parent has `gCost < hCost` (its parent was set by the update
branch of the neighbour loop). -/
structure Lineage (goal : Position) (st : SearchState) : Prop where
  hcost : ∀ a, a < st.nodeCount → (st.mem a).hCost = calculateHCost (st.mem a).pos goal
  nochord : ∀ a, a < st.nodeCount → ∀ d c, 2 ≤ d → nthParent st.mem d a = some c →
    Adjacent (st.mem c).pos (st.mem a).pos → (st.mem a).gCost < (st.mem a).hCost

/-- Two cells of the path that are adjacent without being consecutive: the later one has
an index below its Manhattan distance to the goal. -/
def ChordFree (goal : Position) (path : List Position) : Prop :=
  ∀ i j, i + 2 ≤ j → j < path.length → Adjacent (path.getD i goal) (path.getD j goal) →
    (j : Int) < calculateHCost (path.getD j goal) goal

/-- The 2 by 2 block a cell belongs to when the cells with coordinates 1 to 20 are tiled
by the blocks `{2a+1, 2a+2} x {2b+1, 2b+2}`. -/
def blockOf (q : Position) : Int × Int := ((q.x - 1) / 2, (q.y - 1) / 2)

/-- The four cells of a block, in the order of a walk around it. -/
def blockCells (b : Int × Int) : Finset Position :=
  {⟨2 * b.1 + 1, 2 * b.2 + 1⟩, ⟨2 * b.1 + 2, 2 * b.2 + 1⟩, ⟨2 * b.1 + 2, 2 * b.2 + 2⟩,
    ⟨2 * b.1 + 1, 2 * b.2 + 2⟩}

/-! ## Hangman (`hangman.c`): a letter guess

Strings are lists of characters without their terminating NUL.  The two 26-slot arrays
`usedLetters` and `correctLetters` are lists of their slots; the program calls `strlen` on
`correctLetters`, which has no terminator of its own, and the embedding takes the byte
after the array to be the NUL. -/

/-- Size of the letter arrays: `#define NUM_ALPHABET 26`. -/
def NUM_ALPHABET : Nat := 26

/-- Membership scan `checkCurrentChar(letter, word)`; the loop runs to index `strlen(word)`
inclusive, so the terminator is compared as well. -/
def checkCurrentChar (letter : Char) (word : List Char) : Bool :=
  (word ++ [Char.ofNat 0]).any (fun c => decide (letter = c))

/-- Number of blanks `printBlanks(word, correctLetters)` returns: the characters of the word
other than spaces that are not among the correct letters, counted position by position. -/
def printBlanks : List Char → List Char → Int
  | [], _ => 0
  | c :: word, correctLetters =>
    if c ≠ ' ' then
      if checkCurrentChar c correctLetters = true then printBlanks word correctLetters
      else printBlanks word correctLetters + 1
    else printBlanks word correctLetters

/-- The search `while (slots[i] != ' ') i++; slots[i] = letter;` on a letter array: the
letter goes into the first slot that holds a space.  (An array without a free slot is left
as it is; the program would run past its end.) -/
def storeLetter : List Char → Char → List Char
  | [], _ => []
  | s :: slots, letter => if s ≠ ' ' then s :: storeLetter slots letter else letter :: slots

/-- Guess check `checkGuessLetter(guess, correctStr, usedLetters)`: the return value (1 as
`true`) and the `usedLetters` array, to which a wrong guess has been added.  (The call in
`displayGameState` passes `correctLetters` as a fourth argument, which the function does
not take.) -/
def checkGuessLetter (guess : Char) (correctStr usedLetters : List Char) : Bool × List Char :=
  if (correctStr ++ [Char.ofNat 0]).any (fun c => decide (guess = c)) = true then (true, usedLetters)
  else (false, storeLetter usedLetters guess)

/-- What a turn of `displayGameState` works on besides the word. -/
structure GuessState where
  numGuesses : Int
  usedLetters : List Char
  correctLetters : List Char
  winCondition : Int

/-- The turn `displayGameState` when the player chooses option 1 and enters `letterGuess`:
`numBlanks` is computed before the guess is read. -/
def displayGameState (correctWord : List Char) (letterGuess : Char) (st : GuessState) :
    GuessState :=
  let numBlanks := printBlanks correctWord st.correctLetters - 1
  let letterGuess := letterGuess.toUpper
  if st.usedLetters.any (fun c => decide (letterGuess = c)) = true then st
  else
    let checked := checkGuessLetter letterGuess correctWord st.usedLetters
    if checked.1 = true then
      { st with
        usedLetters := checked.2,
        correctLetters := storeLetter st.correctLetters letterGuess,
        winCondition := if numBlanks = 0 then 1 else st.winCondition }
    else { st with usedLetters := checked.2, numGuesses := st.numGuesses + 1 }

/-- Start of `gameLoop`: no guesses, both letter arrays filled with spaces, no win. -/
def freshGame : GuessState :=
  { numGuesses := 0, usedLetters := List.replicate NUM_ALPHABET ' ',
    correctLetters := List.replicate NUM_ALPHABET ' ', winCondition := 0 }

/-! ## Validity, win and loss tests, player moves -/

theorem matchesPosition_iff (a b : Position) : matchesPosition a b = true ↔ a = b := by
  cases a; cases b
  simp [matchesPosition]

/-- C6: for the enemy purpose, `isValid grid p 'e'` holds exactly when `p` is inside the
border, the wall layer at `p` is not a wall (178), and the actor layer at `p` is blank or
the player marker `'X'`. -/
theorem isValid_enemy_iff (grid : AllEntities) (p : Position) :
    isValid grid p 'e' = true ↔
      (1 ≤ p.x ∧ p.x ≤ GRID_SIZE - 2 ∧ 1 ≤ p.y ∧ p.y ≤ GRID_SIZE - 2) ∧
      grid.wallLayer p.y p.x ≠ 178 ∧
      (grid.playerLayer p.y p.x = 32 ∨ grid.playerLayer p.y p.x = 88) := by
  unfold isValid
  simp only [WALL, BLANK, PLAYER_MARKER, GRID_SIZE]
  by_cases hb : p.x < 1 ∨ p.x > 23 - 2 ∨ p.y < 1 ∨ p.y > 23 - 2
  · rw [if_pos hb]
    constructor
    · intro h; cases h
    · rintro ⟨⟨h1, h2, h3, h4⟩, -⟩
      omega
  · rw [if_neg hb]
    have hin : 1 ≤ p.x ∧ p.x ≤ 23 - 2 ∧ 1 ≤ p.y ∧ p.y ≤ 23 - 2 := by omega
    have hin2 : p.x ≤ 21 ∧ p.y ≤ 21 := by omega
    by_cases hw : grid.wallLayer p.y p.x = 178
    · simp [hw]
    · rw [if_neg hw]
      by_cases hx : grid.playerLayer p.y p.x = 88
      · simp [hx, hw, hin, hin2]
      · by_cases hs : grid.playerLayer p.y p.x = 32
        · simp [hs, hw, hin, hin2]
        · simp [hx, hs, hw]

/-- C7: `gameLose` returns true exactly when some enemy (a type `t` below
`NUM_ENEMY_TYPES`, an index `j` below `enemyCounts t`) stands on the player's position, or
some particle of the explosion list does. -/
theorem gameLose_iff (level : Level) (game : GameBoard) (explosionHead : List Particle) :
    gameLose level game explosionHead = true ↔
      (∃ t : Nat, t < NUM_ENEMY_TYPES ∧ ∃ j : Nat, (j : Int) < level.enemyCounts t ∧
        (game.allEnemies t j).pos = game.player.pos) ∨
      (∃ particle ∈ explosionHead, particle.pos = game.player.pos) := by
  unfold gameLose
  have henemy : ((List.range NUM_ENEMY_TYPES).any (fun i =>
      (List.range (level.enemyCounts i).toNat).any (fun j =>
        matchesPosition (game.allEnemies i j).pos game.player.pos)) = true) ↔
      (∃ t : Nat, t < NUM_ENEMY_TYPES ∧ ∃ j : Nat, (j : Int) < level.enemyCounts t ∧
        (game.allEnemies t j).pos = game.player.pos) := by
    simp only [List.any_eq_true, List.mem_range, matchesPosition_iff]
    constructor
    · rintro ⟨t, ht, j, hj, h⟩
      exact ⟨t, ht, j, by omega, h⟩
    · rintro ⟨t, ht, j, hj, h⟩
      exact ⟨t, ht, j, by omega, h⟩
  have hexpl : (explosionHead.any (fun particle =>
      matchesPosition particle.pos game.player.pos) = true) ↔
      (∃ particle ∈ explosionHead, particle.pos = game.player.pos) := by
    simp only [List.any_eq_true, matchesPosition_iff]
  split
  · rename_i h
    simp only [true_iff]
    exact Or.inl (henemy.mp h)
  · rename_i h
    rw [hexpl]
    constructor
    · intro h2; exact Or.inr h2
    · rintro (h2 | h2)
      · exact absurd (henemy.mpr h2) h
      · exact h2

/-- C8: `gameWin level pos` holds exactly when `pos` is the exit and either the objective
is `EXIT_OBJ` or no objective item is left (`itemCounts OBJ_ITEM = 0`). -/
theorem gameWin_iff (level : Level) (pos : Position) :
    gameWin level pos = true ↔
      pos = level.endPos ∧
        (level.objectiveID = ObjectiveType.EXIT_OBJ ∨ level.itemCounts OBJ_ITEM = 0) := by
  unfold gameWin
  cases hobj : level.objectiveID <;> simp [matchesPosition_iff]

/-- C9: a step onto the exit of an item-objective level with objective items left is
rejected, and every rejected call of `movePlayer` (unknown key, wall, border, locked exit)
leaves the player's position and the three grid layers as they were. -/
theorem movePlayer_rejected (level : Level) (grid : AllEntities) (player : Player)
    (movement : Char) :
    (∀ newPos facing, applyMovement player.pos movement = some (newPos, facing) →
        newPos = level.endPos → level.objectiveID = ObjectiveType.ITEM_OBJ →
        level.itemCounts OBJ_ITEM > 0 →
        (movePlayer level grid player movement).1 = false) ∧
    ((movePlayer level grid player movement).1 = false →
        (movePlayer level grid player movement).2.2.pos = player.pos ∧
        (movePlayer level grid player movement).2.1 = grid) := by
  constructor
  · intro newPos facing hmove hexit hobj hcount
    unfold movePlayer
    simp only [hmove]
    have hm : matchesPosition newPos level.endPos = true := (matchesPosition_iff _ _).mpr hexit
    simp [hm, hobj, hcount]
  · unfold movePlayer
    cases hmove : applyMovement player.pos movement with
    | none => simp
    | some r =>
      obtain ⟨newPos, facing⟩ := r
      simp only
      split
      · split
        · simp
        · simp
      · split
        · simp
        · simp

/-! ## Priority queue -/

theorem swapNodes_length (nodes : List Nat) (a b : Nat) :
    (swapNodes nodes a b).length = nodes.length := by
  simp [swapNodes]

theorem swapNodes_getD (nodes : List Nat) (a b k : Nat) (ha : a < nodes.length)
    (hb : b < nodes.length) :
    (swapNodes nodes a b).getD k 0 =
      if k = b then nodes.getD a 0 else if k = a then nodes.getD b 0 else nodes.getD k 0 := by
  unfold swapNodes
  simp only [List.getD_eq_getElem?_getD, List.getElem?_set, List.length_set]
  by_cases h1 : k = b
  · subst h1
    simp [hb]
  · by_cases h2 : k = a
    · subst h2
      simp [ha, h1, Ne.symm h1]
    · simp [h1, h2, Ne.symm h1, Ne.symm h2]

theorem swapNodes_perm (nodes : List Nat) (a b : Nat) (ha : a < nodes.length)
    (hb : b < nodes.length) : (swapNodes nodes a b).Perm nodes := by
  rw [List.perm_iff_count]
  intro v
  unfold swapNodes
  rw [List.count_set _ _ _ _ (by simpa using hb), List.count_set _ _ _ _ ha]
  simp only [List.getD_eq_getElem?_getD, List.getElem_set, List.getElem?_eq_getElem ha,
    List.getElem?_eq_getElem hb, Option.getD_some]
  have h1 : nodes[a] = v → 0 < List.count v nodes := by
    intro h; rw [← h]; exact List.count_pos_iff.mpr (List.getElem_mem ha)
  have h2 : nodes[b] = v → 0 < List.count v nodes := by
    intro h; rw [← h]; exact List.count_pos_iff.mpr (List.getElem_mem hb)
  by_cases hab : a = b
  · subst hab
    simp only [if_true, beq_iff_eq]
    by_cases hv : nodes[a] = v
    · have := h1 hv
      simp [hv]; omega
    · simp [hv]
  · simp only [if_neg hab, beq_iff_eq]
    by_cases hva : nodes[a] = v <;> by_cases hvb : nodes[b] = v
    · have := h1 hva; simp [hva, hvb]; omega
    · have := h1 hva; simp [hva, hvb]; omega
    · have := h2 hvb; simp [hva, hvb]
    · simp [hva, hvb]

theorem keyAt_swapNodes (mem : Memory) (nodes : List Nat) (a b : Nat) (ha : a < nodes.length)
    (hb : b < nodes.length) :
    keyAt mem (swapNodes nodes a b) = swapKeys (keyAt mem nodes) a b := by
  funext k
  unfold keyAt swapKeys
  rw [swapNodes_getD nodes a b k ha hb]
  split_ifs <;> rfl

theorem upInv_step (f : Nat → Int) (n i p : Nat) (hp : p = (i - 1) / 2) (h : UpInv f n i)
    (hi : 0 < i) (hin : i < n) (hlt : f i < f p) : UpInv (swapKeys f i p) n p := by
  obtain ⟨h1, h2⟩ := h
  have hpi : p < i := by omega
  constructor
  · intro j hj0 hjn hjp
    by_cases hji : j = i
    · subst hji
      have e1 : swapKeys f j p ((j - 1) / 2) = f j := by simp [swapKeys, ← hp]
      have e2 : swapKeys f j p j = f p := by simp [swapKeys, hjp]
      rw [e1, e2]; omega
    · have e2 : swapKeys f i p j = f j := by simp [swapKeys, hjp, hji]
      rw [e2]
      by_cases hq : (j - 1) / 2 = p
      · have e1 : swapKeys f i p ((j - 1) / 2) = f i := by simp [swapKeys, hq]
        have := h1 j hj0 hjn hji
        rw [hq] at this
        rw [e1]; omega
      · by_cases hq2 : (j - 1) / 2 = i
        · have hip : i ≠ p := by omega
          have e1 : swapKeys f i p ((j - 1) / 2) = f p := by simp [swapKeys, hq2, hip]
          have := h2 hi j hj0 hjn hq2
          rw [← hp] at this
          rw [e1]; exact this
        · have e1 : swapKeys f i p ((j - 1) / 2) = f ((j - 1) / 2) := by
            simp [swapKeys, hq, hq2]
          rw [e1]; exact h1 j hj0 hjn hji
  · intro hp0 j hj0 hjn hjp
    have hpp : (p - 1) / 2 ≠ p := by omega
    have hppi : (p - 1) / 2 ≠ i := by omega
    have e1 : swapKeys f i p ((p - 1) / 2) = f ((p - 1) / 2) := by simp [swapKeys, hpp, hppi]
    have hp1 := h1 p hp0 (by omega) (by omega)
    rw [e1]
    by_cases hji : j = i
    · subst hji
      have e2 : swapKeys f j p j = f p := by
        have : j ≠ p := by omega
        simp [swapKeys, this]
      rw [e2]; exact hp1
    · have hjp2 : j ≠ p := by omega
      have e2 : swapKeys f i p j = f j := by simp [swapKeys, hjp2, hji]
      have := h1 j hj0 hjn hji
      rw [hjp] at this
      rw [e2]; omega

theorem downInv_step (f : Nat → Int) (n i s : Nat) (h : DownInv f n i) (hsi : (s - 1) / 2 = i)
    (hs0 : 0 < s) (hsn : s < n) (hlt : f s < f i)
    (hmin : ∀ j, 0 < j → j < n → (j - 1) / 2 = i → f s ≤ f j) : DownInv (swapKeys f i s) n s := by
  obtain ⟨h1, h2⟩ := h
  have his : i < s := by omega
  constructor
  · intro j hj0 hjn hjs
    by_cases hq : (j - 1) / 2 = i
    · have e1 : swapKeys f i s ((j - 1) / 2) = f s := by
        have : i ≠ s := by omega
        simp [swapKeys, hq, this]
      rw [e1]
      by_cases hj : j = s
      · subst hj
        have e2 : swapKeys f i j j = f i := by simp [swapKeys]
        rw [e2]; omega
      · have hji : j ≠ i := by omega
        have e2 : swapKeys f i s j = f j := by simp [swapKeys, hj, hji]
        rw [e2]; exact hmin j hj0 hjn hq
    · have e1 : swapKeys f i s ((j - 1) / 2) = f ((j - 1) / 2) := by simp [swapKeys, hq, hjs]
      have hj : j ≠ s := by
        intro hj; subst hj; exact hq hsi
      rw [e1]
      by_cases hji : j = i
      · subst hji
        have e2 : swapKeys f j s j = f s := by simp [swapKeys, hj]
        rw [e2]; exact h2 hj0 s hs0 hsn hsi
      · have e2 : swapKeys f i s j = f j := by simp [swapKeys, hj, hji]
        rw [e2]; exact h1 j hj0 hjn hq
  · intro _ j hj0 hjn hjs
    have e1 : swapKeys f i s ((s - 1) / 2) = f s := by
      have : i ≠ s := by omega
      simp [swapKeys, hsi, this]
    have hj : j ≠ s := by omega
    have hji : j ≠ i := by omega
    have e2 : swapKeys f i s j = f j := by simp [swapKeys, hj, hji]
    have := h1 j hj0 hjn (by omega)
    rw [hjs] at this
    rw [e1, e2]; exact this

theorem heapifyUpLoop_length (mem : Memory) (fuel : Nat) :
    ∀ (nodes : List Nat) (index : Nat),
      (heapifyUpLoop mem fuel nodes index).length = nodes.length := by
  induction fuel with
  | zero => intro nodes index; rfl
  | succ fuel ih =>
    intro nodes index
    unfold heapifyUpLoop
    simp only
    split_ifs
    · rw [ih, swapNodes_length]
    · rfl
    · rfl

theorem heapifyUpLoop_perm (mem : Memory) (fuel : Nat) :
    ∀ (nodes : List Nat) (index : Nat), index < nodes.length →
      (heapifyUpLoop mem fuel nodes index).Perm nodes := by
  induction fuel with
  | zero => intro nodes index _; exact List.Perm.refl _
  | succ fuel ih =>
    intro nodes index hin
    unfold heapifyUpLoop
    simp only
    split_ifs
    · have hp : (index - 1) / 2 < nodes.length := by omega
      exact (ih _ _ (by rw [swapNodes_length]; exact hp)).trans
        (swapNodes_perm nodes index _ hin hp)
    · exact List.Perm.refl _
    · exact List.Perm.refl _

theorem heapifyUpLoop_ordered (mem : Memory) (fuel : Nat) :
    ∀ (nodes : List Nat) (index : Nat), index < nodes.length → index ≤ fuel →
      UpInv (keyAt mem nodes) nodes.length index →
      HeapOrdered mem (heapifyUpLoop mem fuel nodes index) := by
  induction fuel with
  | zero =>
    intro nodes index _ hf h
    have h0 : index = 0 := by omega
    subst h0
    intro j hj0 hjn
    exact h.1 j hj0 hjn (by omega)
  | succ fuel ih =>
    intro nodes index hin hf h
    unfold heapifyUpLoop
    by_cases h0 : index > 0
    · rw [if_pos h0]
      simp only
      have hp : (index - 1) / 2 < nodes.length := by omega
      by_cases hlt : (mem (nodes.getD index 0)).fCost < (mem (nodes.getD ((index - 1) / 2) 0)).fCost
      · rw [if_pos hlt]
        apply ih
        · rw [swapNodes_length]; exact hp
        · omega
        · rw [swapNodes_length, keyAt_swapNodes mem nodes index _ hin hp]
          exact upInv_step _ _ index _ rfl h h0 hin hlt
      · rw [if_neg hlt]
        intro j hj0 hjn
        by_cases hji : j = index
        · subst hji
          have : keyAt mem nodes ((j - 1) / 2) ≤ keyAt mem nodes j := by
            unfold keyAt; omega
          exact this
        · exact h.1 j hj0 hjn hji
    · rw [if_neg h0]
      intro j hj0 hjn
      exact h.1 j hj0 hjn (by omega)

theorem heapifyDownLoop_length (mem : Memory) (fuel : Nat) :
    ∀ (nodes : List Nat) (index : Nat),
      (heapifyDownLoop mem fuel nodes index).length = nodes.length := by
  induction fuel with
  | zero => intro nodes index; rfl
  | succ fuel ih =>
    intro nodes index
    unfold heapifyDownLoop
    simp only
    split_ifs <;> first | rfl | (rw [ih, swapNodes_length])

theorem heapifyDownLoop_perm (mem : Memory) (fuel : Nat) :
    ∀ (nodes : List Nat) (index : Nat),
      (heapifyDownLoop mem fuel nodes index).Perm nodes := by
  induction fuel with
  | zero => intro nodes index; exact List.Perm.refl _
  | succ fuel ih =>
    intro nodes index
    unfold heapifyDownLoop
    simp only
    split_ifs <;>
      first
        | exact List.Perm.refl _
        | exact (ih _ _).trans (swapNodes_perm nodes _ _ (by omega) (by omega))

theorem heapifyDownLoop_ordered (mem : Memory) (fuel : Nat) :
    ∀ (nodes : List Nat) (index : Nat), nodes.length ≤ index + fuel →
      DownInv (keyAt mem nodes) nodes.length index →
      HeapOrdered mem (heapifyDownLoop mem fuel nodes index) := by
  induction fuel with
  | zero =>
    intro nodes index hf h j hj0 hjn
    exact h.1 j hj0 hjn (by simp only [heapifyDownLoop] at hjn; omega)
  | succ fuel ih =>
    intro nodes index hf h
    unfold heapifyDownLoop
    by_cases hin : index < nodes.length
    · rw [if_pos hin]
      simp only
      have hchild : ∀ j, 0 < j → (j - 1) / 2 = index → j = 2 * index + 1 ∨ j = 2 * index + 2 := by
        intro j hj0 hj; omega
      by_cases c1 : 2 * index + 1 < nodes.length ∧
          (mem (nodes.getD (2 * index + 1) 0)).fCost < (mem (nodes.getD index 0)).fCost
      · rw [if_pos c1]
        by_cases c2 : 2 * index + 2 < nodes.length ∧
            (mem (nodes.getD (2 * index + 2) 0)).fCost < (mem (nodes.getD (2 * index + 1) 0)).fCost
        · rw [if_pos c2, if_pos (by omega)]
          apply ih
          · rw [swapNodes_length]; omega
          · rw [swapNodes_length, keyAt_swapNodes mem nodes index _ hin c2.1]
            apply downInv_step _ _ _ _ h (by omega) (by omega) c2.1
            · unfold keyAt; omega
            · intro j hj0 hjn hj
              rcases hchild j hj0 hj with rfl | rfl
              · unfold keyAt; omega
              · exact le_refl _
        · rw [if_neg c2, if_pos (by omega)]
          apply ih
          · rw [swapNodes_length]; omega
          · rw [swapNodes_length, keyAt_swapNodes mem nodes index _ hin c1.1]
            apply downInv_step _ _ _ _ h (by omega) (by omega) c1.1
            · unfold keyAt; omega
            · intro j hj0 hjn hj
              rcases hchild j hj0 hj with rfl | rfl
              · exact le_refl _
              · unfold keyAt
                by_contra hcon
                exact c2 ⟨hjn, by omega⟩
      · rw [if_neg c1]
        by_cases c2 : 2 * index + 2 < nodes.length ∧
            (mem (nodes.getD (2 * index + 2) 0)).fCost < (mem (nodes.getD index 0)).fCost
        · rw [if_pos c2, if_pos (by omega)]
          apply ih
          · rw [swapNodes_length]; omega
          · rw [swapNodes_length, keyAt_swapNodes mem nodes index _ hin c2.1]
            apply downInv_step _ _ _ _ h (by omega) (by omega) c2.1
            · unfold keyAt; omega
            · intro j hj0 hjn hj
              rcases hchild j hj0 hj with rfl | rfl
              · unfold keyAt
                by_contra hcon
                exact c1 ⟨hjn, by omega⟩
              · exact le_refl _
        · rw [if_neg c2, if_neg (by simp)]
          intro j hj0 hjn
          by_cases hj : (j - 1) / 2 = index
          · rw [hj]
            rcases hchild j hj0 hj with rfl | rfl
            · unfold keyAt
              by_contra hcon
              exact c1 ⟨hjn, by omega⟩
            · unfold keyAt
              by_contra hcon
              exact c2 ⟨hjn, by omega⟩
          · exact h.1 j hj0 hjn hj
    · rw [if_neg hin]
      intro j hj0 hjn
      exact h.1 j hj0 hjn (by omega)

/-- Fuel beyond `index` rounds is never used by `heapifyUpLoop`, whatever the array holds:
the loop has stopped by then. -/
theorem heapifyUpLoop_fuel (mem : Memory) (fuel : Nat) :
    ∀ (nodes : List Nat) (index : Nat), index ≤ fuel →
      heapifyUpLoop mem (fuel + 1) nodes index = heapifyUpLoop mem fuel nodes index := by
  induction fuel with
  | zero =>
    intro nodes index h
    have h0 : ¬ index > 0 := by omega
    simp only [heapifyUpLoop, if_neg h0]
  | succ fuel ih =>
    intro nodes index h
    rw [heapifyUpLoop, heapifyUpLoop.eq_def mem (fuel + 1)]
    simp only
    by_cases h0 : index > 0
    · rw [if_pos h0, if_pos h0]
      split
      · exact ih _ _ (by omega)
      · rfl
    · rw [if_neg h0, if_neg h0]

/-- Fuel beyond `size - index` rounds is never used by `heapifyDownLoop`, whatever the
array holds: the loop has stopped by then. -/
theorem heapifyDownLoop_fuel (mem : Memory) (fuel : Nat) :
    ∀ (nodes : List Nat) (index : Nat), nodes.length ≤ index + fuel →
      heapifyDownLoop mem (fuel + 1) nodes index = heapifyDownLoop mem fuel nodes index := by
  induction fuel with
  | zero =>
    intro nodes index h
    have h0 : ¬ index < nodes.length := by omega
    simp only [heapifyDownLoop, if_neg h0]
  | succ fuel ih =>
    intro nodes index h
    rw [heapifyDownLoop, heapifyDownLoop.eq_def mem (fuel + 1)]
    simp only
    by_cases h0 : index < nodes.length
    · rw [if_pos h0, if_pos h0]
      split_ifs <;>
        first
          | rfl
          | exact ih _ _ (by rw [swapNodes_length]; omega)
    · rw [if_neg h0, if_neg h0]

theorem heapOrdered_root_le (mem : Memory) (nodes : List Nat) (h : HeapOrdered mem nodes) :
    ∀ i, i < nodes.length → keyAt mem nodes 0 ≤ keyAt mem nodes i := by
  intro i
  induction i using Nat.strong_induction_on with
  | _ i ih =>
    intro hi
    by_cases h0 : i = 0
    · subst h0; exact le_refl _
    · have h1 := ih ((i - 1) / 2) (by omega) (by omega)
      have h2 := h i (by omega) hi
      omega

theorem push_nodes_perm (mem : Memory) (pq : PriorityQueue) (node : Nat) :
    (push mem pq node).nodes.Perm (node :: pq.nodes) := by
  unfold push heapifyUp
  simp only
  refine (heapifyUpLoop_perm mem _ _ _ (by simp)).trans ?_
  exact List.perm_append_comm

theorem push_ordered (mem : Memory) (pq : PriorityQueue) (node : Nat)
    (h : HeapOrdered mem pq.nodes) : HeapOrdered mem (push mem pq node).nodes := by
  unfold push heapifyUp
  simp only
  apply heapifyUpLoop_ordered mem _ _ _ (by simp) (le_refl _)
  have hk : ∀ j, j < pq.nodes.length → keyAt mem (pq.nodes ++ [node]) j = keyAt mem pq.nodes j := by
    intro j hj
    unfold keyAt
    rw [List.getD_append _ _ _ _ hj]
  constructor
  · intro j hj0 hjn hjne
    simp only [List.length_append, List.length_singleton] at hjn
    rw [hk j (by omega), hk ((j - 1) / 2) (by omega)]
    exact h j hj0 (by omega)
  · intro _ j hj0 hjn hj
    simp only [List.length_append, List.length_singleton] at hjn
    omega

theorem pop_nil (mem : Memory) (pq : PriorityQueue) (h : pq.nodes = []) :
    pop mem pq = (none, pq) := by
  unfold pop
  rw [h]

theorem pop_cons_fst (mem : Memory) (pq : PriorityQueue) (root : Nat) (rest : List Nat)
    (h : pq.nodes = root :: rest) : (pop mem pq).1 = some root := by
  unfold pop
  rw [h]

theorem take_length_perm (rest : List Nat) (root : Nat) :
    (((root :: rest).set 0 ((root :: rest).getD rest.length 0)).take rest.length).Perm rest := by
  rcases List.eq_nil_or_concat rest with h | ⟨init, last, h⟩
  · subst h; simp
  · rw [List.concat_eq_append] at h
    subst h
    have e : (root :: (init ++ [last])).getD (init ++ [last]).length 0 = last := by
      simp [List.getD_cons_succ, List.getD_eq_getElem?_getD]
    rw [e]
    simp only [List.set_cons_zero, List.length_append, List.length_singleton, List.take_succ_cons]
    rw [List.take_left']
    · exact @List.perm_append_comm _ [last] init
    · rfl

theorem pop_cons_perm (mem : Memory) (pq : PriorityQueue) (root : Nat) (rest : List Nat)
    (h : pq.nodes = root :: rest) : (pop mem pq).2.nodes.Perm rest := by
  unfold pop
  rw [h]
  simp only [heapifyDown]
  exact (heapifyDownLoop_perm mem _ _ _).trans (take_length_perm rest root)

theorem pop_ordered (mem : Memory) (pq : PriorityQueue) (h : HeapOrdered mem pq.nodes) :
    HeapOrdered mem (pop mem pq).2.nodes := by
  unfold pop
  cases hn : pq.nodes with
  | nil => simp only; rw [hn] at h; rw [hn]; exact h
  | cons root rest =>
    simp only [heapifyDown]
    rw [hn] at h
    apply heapifyDownLoop_ordered mem _ _ _ (by omega)
    constructor
    · intro j hj0 hjn hj
      simp only [List.length_take, List.length_set, List.length_cons] at hjn
      have e : ∀ k, 0 < k → k < rest.length →
          keyAt mem (((root :: rest).set 0 ((root :: rest).getD rest.length 0)).take rest.length) k
            = keyAt mem (root :: rest) k := by
        intro k hk0 hkn
        unfold keyAt
        congr 2
        simp only [List.getD_eq_getElem?_getD, List.getElem?_take, if_pos hkn]
        rw [List.getElem?_set_ne (by omega)]
      rw [e j hj0 (by omega), e ((j - 1) / 2) (by omega) (by omega)]
      exact h j hj0 (by simp; omega)
    · intro h0; omega

theorem heapOrdered_nil (mem : Memory) : HeapOrdered mem [] := by
  intro i _ hi
  simp at hi

theorem runOps_ordered (mem : Memory) (ops : List QueueOp) :
    ∀ pq : PriorityQueue, HeapOrdered mem pq.nodes → HeapOrdered mem (runOps mem pq ops).nodes := by
  induction ops with
  | nil => intro pq h; exact h
  | cons op ops ih =>
    intro pq h
    unfold runOps
    rw [List.foldl_cons]
    apply ih
    cases op with
    | push node => exact push_ordered mem pq node h
    | pop => exact pop_ordered mem pq h

theorem pushAll_ordered (mem : Memory) (nodes : List Nat) :
    ∀ pq : PriorityQueue, HeapOrdered mem pq.nodes →
      HeapOrdered mem (pushAll mem pq nodes).nodes := by
  induction nodes with
  | nil => intro pq h; exact h
  | cons node nodes ih =>
    intro pq h
    unfold pushAll
    rw [List.foldl_cons]
    exact ih _ (push_ordered mem pq node h)

theorem pushAll_perm (mem : Memory) (nodes : List Nat) :
    ∀ pq : PriorityQueue, (pushAll mem pq nodes).nodes.Perm (pq.nodes ++ nodes) := by
  induction nodes with
  | nil => intro pq; simp [pushAll]
  | cons node nodes ih =>
    intro pq
    unfold pushAll
    rw [List.foldl_cons]
    refine (ih (push mem pq node)).trans ?_
    refine ((push_nodes_perm mem pq node).append_right nodes).trans ?_
    simp only [List.cons_append]
    exact List.perm_middle.symm

theorem popN_sorted (mem : Memory) (n : Nat) :
    ∀ pq : PriorityQueue, HeapOrdered mem pq.nodes → pq.nodes.length = n →
      ∃ popped : List Nat,
        (popN mem n pq).1 = popped.map some ∧ popped.Perm pq.nodes ∧
        popped.Pairwise (fun a b => (mem a).fCost ≤ (mem b).fCost) ∧
        (popN mem n pq).2.nodes = [] := by
  induction n with
  | zero =>
    intro pq _ hlen
    refine ⟨[], rfl, ?_, List.Pairwise.nil, ?_⟩
    · rw [List.length_eq_zero.mp hlen]
    · exact List.length_eq_zero.mp hlen
  | succ n ih =>
    intro pq hord hlen
    cases hn : pq.nodes with
    | nil => rw [hn] at hlen; simp at hlen
    | cons root rest =>
      have hperm := pop_cons_perm mem pq root rest hn
      have hfst := pop_cons_fst mem pq root rest hn
      have hlen2 : (pop mem pq).2.nodes.length = n := by
        rw [hperm.length_eq]; rw [hn] at hlen; simpa using hlen
      obtain ⟨popped, h1, h2, h3, h4⟩ := ih (pop mem pq).2 (pop_ordered mem pq hord) hlen2
      refine ⟨root :: popped, ?_, ?_, ?_, ?_⟩
      · simp only [popN, List.map_cons, hfst, h1]
      · exact (h2.trans hperm).cons root
      · refine List.Pairwise.cons ?_ h3
        intro b hb
        have hb2 : b ∈ rest := (h2.trans hperm).subset hb
        have hb3 : b ∈ pq.nodes := by rw [hn]; exact List.mem_cons_of_mem _ hb2
        obtain ⟨i, hi, hib⟩ := List.getElem_of_mem hb3
        have hroot := heapOrdered_root_le mem pq.nodes hord i hi
        unfold keyAt at hroot
        rw [List.getD_eq_getElem _ _ hi, hib, hn] at hroot
        simpa using hroot
      · simp only [popN]
        exact h4

/-- C4 (heap invariant): in a queue made by `createPriorityQueue` and then put through any
sequence of `push` and `pop` calls, the node at index 0 has the least fCost of all nodes in
the queue, and every node's fCost is at least that of its parent at index `(i - 1) / 2`. -/
theorem heap_invariant_after_ops (mem : Memory) (capacity : Int) (_hcap : 0 < capacity)
    (ops : List QueueOp) :
    (∀ i, i < (runOps mem (createPriorityQueue capacity) ops).nodes.length →
      (mem ((runOps mem (createPriorityQueue capacity) ops).nodes.getD 0 0)).fCost ≤
        (mem ((runOps mem (createPriorityQueue capacity) ops).nodes.getD i 0)).fCost) ∧
    (∀ i, 0 < i → i < (runOps mem (createPriorityQueue capacity) ops).nodes.length →
      (mem ((runOps mem (createPriorityQueue capacity) ops).nodes.getD ((i - 1) / 2) 0)).fCost ≤
        (mem ((runOps mem (createPriorityQueue capacity) ops).nodes.getD i 0)).fCost) := by
  have h := runOps_ordered mem ops (createPriorityQueue capacity) (heapOrdered_nil mem)
  exact ⟨heapOrdered_root_le mem _ h, h⟩

/-- Witness for C4: three pushes and a pop on a queue of capacity 128. -/
theorem heap_invariant_after_ops_witness :
    (0 : Int) < 128 ∧
    (exampleMemory ((runOps exampleMemory (createPriorityQueue 128)
        [QueueOp.push 1, QueueOp.push 2, QueueOp.push 3, QueueOp.pop]).nodes.getD 0 0)).fCost ≤
      (exampleMemory ((runOps exampleMemory (createPriorityQueue 128)
        [QueueOp.push 1, QueueOp.push 2, QueueOp.push 3, QueueOp.pop]).nodes.getD 1 0)).fCost :=
  ⟨by decide,
    (heap_invariant_after_ops exampleMemory 128 (by decide)
      [QueueOp.push 1, QueueOp.push 2, QueueOp.push 3, QueueOp.pop]).1 1 (by decide)⟩

/-- C5: pushing `n` nodes into an empty queue and popping `n` times returns every pushed
node exactly once (the popped addresses are a permutation of the pushed ones), in
non-decreasing fCost order, and one more pop on the emptied queue returns NULL. -/
theorem push_then_pop_sorted (mem : Memory) (capacity : Int) (_hcap : 0 < capacity)
    (pushed : List Nat) :
    ∃ popped : List Nat,
      (popN mem pushed.length (pushAll mem (createPriorityQueue capacity) pushed)).1
        = popped.map some ∧
      popped.Perm pushed ∧
      popped.Pairwise (fun a b => (mem a).fCost ≤ (mem b).fCost) ∧
      (pop mem (popN mem pushed.length
        (pushAll mem (createPriorityQueue capacity) pushed)).2).1 = none := by
  have hord := pushAll_ordered mem pushed (createPriorityQueue capacity) (heapOrdered_nil mem)
  have hperm := pushAll_perm mem pushed (createPriorityQueue capacity)
  simp only [createPriorityQueue, List.nil_append] at hperm
  obtain ⟨popped, h1, h2, h3, h4⟩ :=
    popN_sorted mem pushed.length _ hord hperm.length_eq
  refine ⟨popped, h1, h2.trans hperm, h3, ?_⟩
  rw [pop_nil mem _ h4]

/-- Witness for C5: the nodes at addresses 1, 2, 3 (fCost 9, 8, 7) pushed in that order. -/
theorem push_then_pop_sorted_witness :
    (0 : Int) < 128 ∧
    ∃ popped : List Nat,
      (popN exampleMemory 3 (pushAll exampleMemory (createPriorityQueue 128) [1, 2, 3])).1
        = popped.map some ∧
      popped.Perm [1, 2, 3] ∧
      popped.Pairwise (fun a b => (exampleMemory a).fCost ≤ (exampleMemory b).fCost) ∧
      (pop exampleMemory (popN exampleMemory 3
        (pushAll exampleMemory (createPriorityQueue 128) [1, 2, 3])).2).1 = none :=
  ⟨by decide, push_then_pop_sorted exampleMemory 128 (by decide) [1, 2, 3]⟩

/-! ## Particle lifecycle -/

theorem updateParticleType_particles (l : List Particle) :
    ∀ (e : Option (List Particle)) (il wl : Int → Int → Nat),
      (updateParticleType l e il wl).particles = l.filterMap ageParticle := by
  induction l with
  | nil => intro e il wl; rfl
  | cons q l ih =>
    intro e il wl
    unfold updateParticleType
    by_cases h : q.timer - 1 ≤ 0
    · simp only [h, if_true]
      have hq : ageParticle q = none := by simp [ageParticle, h]
      rw [List.filterMap_cons_none hq]
      cases e with
      | none => exact ih _ _ _
      | some ex => exact ih _ _ _
    · simp only [h, if_false]
      have hq : ageParticle q = some { q with timer := q.timer - 1 } := by simp [ageParticle, h]
      rw [List.filterMap_cons_some hq, ih]

theorem updateParticleType_append (l1 l2 : List Particle) :
    ∀ (e : Option (List Particle)) (il wl : Int → Int → Nat),
      updateParticleType (l1 ++ l2) e il wl =
        { updateParticleType l2 (updateParticleType l1 e il wl).explosions
            (updateParticleType l1 e il wl).itemLayer (updateParticleType l1 e il wl).wallLayer with
          particles := (updateParticleType l1 e il wl).particles ++
            (updateParticleType l2 (updateParticleType l1 e il wl).explosions
              (updateParticleType l1 e il wl).itemLayer
              (updateParticleType l1 e il wl).wallLayer).particles } := by
  induction l1 with
  | nil => intro e il wl; simp [updateParticleType]
  | cons q l1 ih =>
    intro e il wl
    rw [List.cons_append]
    by_cases h : q.timer - 1 ≤ 0
    · cases e with
      | none =>
        simp only [updateParticleType, h, if_true]
        exact ih _ _ _
      | some ex =>
        simp only [updateParticleType, h, if_true]
        exact ih _ _ _
    · simp only [updateParticleType, h, if_false]
      rw [ih]
      simp

theorem updateParticleType_explosions_some (l : List Particle) :
    ∀ (ex : List Particle) (il wl : Int → Int → Nat),
      ∃ ex2, (updateParticleType l (some ex) il wl).explosions = some ex2 := by
  induction l with
  | nil => intro ex il wl; exact ⟨ex, rfl⟩
  | cons q l ih =>
    intro ex il wl
    by_cases h : q.timer - 1 ≤ 0
    · simp only [updateParticleType, h, if_true]
      exact ih _ _ _
    · simp only [updateParticleType, h, if_false]
      exact ih _ _ _

theorem updateParticleTypeN_particles (k : Nat) :
    ∀ st : ParticleState,
      (updateParticleTypeN k st).particles = (List.filterMap ageParticle)^[k] st.particles := by
  induction k with
  | zero => intro st; rfl
  | succ k ih =>
    intro st
    rw [updateParticleTypeN, ih, updateParticleType_particles, Function.iterate_succ_apply]

theorem iterate_age_nil (k : Nat) : (List.filterMap ageParticle)^[k] [] = [] := by
  induction k with
  | zero => rfl
  | succ k ih => rw [Function.iterate_succ_apply]; exact ih

theorem iterate_age_append (k : Nat) :
    ∀ l1 l2 : List Particle,
      (List.filterMap ageParticle)^[k] (l1 ++ l2) =
        (List.filterMap ageParticle)^[k] l1 ++ (List.filterMap ageParticle)^[k] l2 := by
  induction k with
  | zero => intro l1 l2; rfl
  | succ k ih =>
    intro l1 l2
    rw [Function.iterate_succ_apply, Function.iterate_succ_apply, Function.iterate_succ_apply,
      List.filterMap_append, ih]

theorem iterate_age_single (k : Nat) :
    ∀ p : Particle, 1 ≤ p.timer →
      (List.filterMap ageParticle)^[k] [p] =
        if (k : Int) < p.timer then [{ p with timer := p.timer - k }] else [] := by
  induction k with
  | zero =>
    intro p hT
    have h0 : ((0 : Nat) : Int) < p.timer := by simp; omega
    rw [if_pos h0]
    simp
  | succ k ih =>
    intro p hT
    rw [Function.iterate_succ_apply]
    by_cases h : p.timer - 1 ≤ 0
    · have hq : ageParticle p = none := by simp [ageParticle, h]
      rw [List.filterMap_cons_none hq, List.filterMap_nil, iterate_age_nil]
      have hc : ¬ (((k + 1 : Nat) : Int) < p.timer) := by
        have hk : (0 : Int) ≤ (k : Int) := Int.ofNat_nonneg k
        rw [Nat.cast_add, Nat.cast_one]; omega
      rw [if_neg hc]
    · have hq : ageParticle p = some { p with timer := p.timer - 1 } := by simp [ageParticle, h]
      rw [List.filterMap_cons_some hq, List.filterMap_nil, ih _ (by simp only; omega)]
      simp only [Nat.cast_add, Nat.cast_one]
      by_cases hk : (k : Int) < p.timer - 1
      · rw [if_pos hk, if_pos (by omega)]
        congr 2
        omega
      · rw [if_neg hk, if_neg (by omega)]

/-- C10 (particle lifecycle): a particle `p` with timer `T ≥ 1` standing between the nodes
`pre` and `post` of a list is, after `k < T` calls of `updateParticleType` on that list,
still in the list between what those calls left of `pre` and of `post`, with timer `T - k`;
after `T` calls it is gone.  On the bomb list (an explosion list is passed), a call that
meets the particle aged by `k` frames between any nodes `l1` and `l2` works through `l1`,
then, when `k + 1 < T`, keeps the particle and goes on with `l2` without touching the
explosion list or the wall layer, whereas when `k + 1 = T` it goes on with `l2` from the
explosion list and wall layer that `detonateBomb` returns for the particle's position. -/
theorem particle_lifecycle (pre post : List Particle) (p : Particle)
    (e : Option (List Particle)) (il wl : Int → Int → Nat) (k : Nat) (hT : 1 ≤ p.timer) :
    ((k : Int) < p.timer →
      (updateParticleTypeN k ⟨pre ++ p :: post, e, il, wl⟩).particles =
        (updateParticleTypeN k ⟨pre, e, il, wl⟩).particles ++
          { p with timer := p.timer - k } ::
            (updateParticleTypeN k ⟨post, e, il, wl⟩).particles) ∧
    ((k : Int) = p.timer →
      (updateParticleTypeN k ⟨pre ++ p :: post, e, il, wl⟩).particles =
        (updateParticleTypeN k ⟨pre, e, il, wl⟩).particles ++
          (updateParticleTypeN k ⟨post, e, il, wl⟩).particles) ∧
    (∀ (l1 l2 ex : List Particle) (il2 wl2 : Int → Int → Nat),
      ∃ exR : List Particle,
        (updateParticleType l1 (some ex) il2 wl2).explosions = some exR ∧
        ((k : Int) + 1 < p.timer →
          updateParticleType (l1 ++ { p with timer := p.timer - k } :: l2) (some ex) il2 wl2 =
            { updateParticleType l2 (some exR)
                (setCell (updateParticleType l1 (some ex) il2 wl2).itemLayer p.pos.y p.pos.x
                  (timebombMarkers.getD ((p.timer - k - 1) / FPS).toNat 0))
                (updateParticleType l1 (some ex) il2 wl2).wallLayer with
              particles := (updateParticleType l1 (some ex) il2 wl2).particles ++
                { p with timer := p.timer - k - 1 } ::
                  (updateParticleType l2 (some exR)
                    (setCell (updateParticleType l1 (some ex) il2 wl2).itemLayer p.pos.y p.pos.x
                      (timebombMarkers.getD ((p.timer - k - 1) / FPS).toNat 0))
                    (updateParticleType l1 (some ex) il2 wl2).wallLayer).particles }) ∧
        ((k : Int) + 1 = p.timer →
          updateParticleType (l1 ++ { p with timer := p.timer - k } :: l2) (some ex) il2 wl2 =
            { updateParticleType l2
                (some (detonateBomb exR p.pos 1
                  (updateParticleType l1 (some ex) il2 wl2).wallLayer).1)
                (setCell (updateParticleType l1 (some ex) il2 wl2).itemLayer p.pos.y p.pos.x
                  BLANK)
                (detonateBomb exR p.pos 1
                  (updateParticleType l1 (some ex) il2 wl2).wallLayer).2 with
              particles := (updateParticleType l1 (some ex) il2 wl2).particles ++
                (updateParticleType l2
                  (some (detonateBomb exR p.pos 1
                    (updateParticleType l1 (some ex) il2 wl2).wallLayer).1)
                  (setCell (updateParticleType l1 (some ex) il2 wl2).itemLayer p.pos.y p.pos.x
                    BLANK)
                  (detonateBomb exR p.pos 1
                    (updateParticleType l1 (some ex) il2 wl2).wallLayer).2).particles })) := by
  refine ⟨?_, ?_, ?_⟩
  · intro hk
    simp only [updateParticleTypeN_particles]
    rw [iterate_age_append, show p :: post = [p] ++ post from rfl, iterate_age_append,
      iterate_age_single k p hT, if_pos hk]
    simp
  · intro hk
    simp only [updateParticleTypeN_particles]
    rw [iterate_age_append, show p :: post = [p] ++ post from rfl, iterate_age_append,
      iterate_age_single k p hT, if_neg (by omega)]
    simp
  · intro l1 l2 ex il2 wl2
    obtain ⟨exR, hexR⟩ := updateParticleType_explosions_some l1 ex il2 wl2
    refine ⟨exR, hexR, ?_, ?_⟩
    · intro hk
      rw [updateParticleType_append, hexR]
      have hc : ¬ (p.timer - (k : Int) - 1 ≤ 0) := by omega
      simp only [updateParticleType, hc, if_false, Option.isSome_some, if_true]
    · intro hk
      rw [updateParticleType_append, hexR]
      have hc : p.timer - (k : Int) - 1 ≤ 0 := by omega
      simp only [updateParticleType, hc, if_true]

/-- Witness for C10: a lone bomb with two frames left is in the list with timer 1 after one
call. -/
theorem particle_lifecycle_witness :
    (1 : Int) ≤ (Particle.mk ⟨5, 5⟩ 57 2).timer ∧
    (updateParticleTypeN 1
        ⟨[] ++ Particle.mk ⟨5, 5⟩ 57 2 :: [], some [], fun _ _ => BLANK, fun _ _ => BLANK⟩).particles =
      (updateParticleTypeN 1 ⟨[], some [], fun _ _ => BLANK, fun _ _ => BLANK⟩).particles ++
        { Particle.mk ⟨5, 5⟩ 57 2 with timer := (Particle.mk ⟨5, 5⟩ 57 2).timer - (1 : Nat) } ::
          (updateParticleTypeN 1 ⟨[], some [], fun _ _ => BLANK, fun _ _ => BLANK⟩).particles :=
  ⟨by decide,
    (particle_lifecycle [] [] (Particle.mk ⟨5, 5⟩ 57 2) (some []) (fun _ _ => BLANK)
      (fun _ _ => BLANK) 1 (by decide)).1 (by decide)⟩

/-! ## Path reconstruction -/

theorem swapPositions_length (path : List Position) (i j : Nat) :
    (swapPositions path i j).length = path.length := by
  simp [swapPositions]

theorem swapPositions_getD (path : List Position) (a b k : Nat) (d : Position)
    (ha : a < path.length) (hb : b < path.length) :
    (swapPositions path a b).getD k d =
      if k = b then path.getD a d else if k = a then path.getD b d else path.getD k d := by
  unfold swapPositions
  simp only [List.getD_eq_getElem?_getD, List.getElem?_set, List.length_set]
  by_cases h1 : k = b
  · subst h1
    simp [hb, List.getElem?_eq_getElem ha]
  · by_cases h2 : k = a
    · subst h2
      simp [ha, h1, Ne.symm h1, List.getElem?_eq_getElem hb]
    · simp [h1, h2, Ne.symm h1, Ne.symm h2]

theorem reverseLoop_length (count : Nat) :
    ∀ (i : Nat) (path : List Position), (reverseLoop count i path).length = path.length := by
  induction count with
  | zero => intro i path; rfl
  | succ count ih =>
    intro i path
    rw [reverseLoop, ih, swapPositions_length]

theorem reverseLoop_getD (d : Position) (count : Nat) :
    ∀ (i : Nat) (path : List Position), 2 * (i + count) ≤ path.length → ∀ j,
      (reverseLoop count i path).getD j d =
        if (i ≤ j ∧ j < i + count) ∨
            (path.length - (i + count) ≤ j ∧ j < path.length - i) then
          path.getD (path.length - 1 - j) d
        else path.getD j d := by
  induction count with
  | zero =>
    intro i path _ j
    have : ¬ ((i ≤ j ∧ j < i + 0) ∨ (path.length - (i + 0) ≤ j ∧ j < path.length - i)) := by
      omega
    rw [if_neg this]
    rfl
  | succ count ih =>
    intro i path hlen j
    rw [reverseLoop, ih (i + 1) _ (by rw [swapPositions_length]; omega) j, swapPositions_length]
    have ha : i < path.length := by omega
    have hb : path.length - i - 1 < path.length := by omega
    rw [swapPositions_getD path i _ _ d ha hb, swapPositions_getD path i _ _ d ha hb]
    split_ifs <;> first | rfl | (congr 1; omega)

theorem reverseLoop_eq_reverse (path : List Position) :
    reverseLoop (path.length / 2) 0 path = path.reverse := by
  apply List.ext_getElem
  · rw [reverseLoop_length, List.length_reverse]
  · intro j h1 h2
    rw [reverseLoop_length] at h1
    have h := reverseLoop_getD ⟨0, 0⟩ (path.length / 2) 0 path (by omega) j
    rw [List.getD_eq_getElem _ _ (by rw [reverseLoop_length]; exact h1)] at h
    rw [h, List.getElem_reverse]
    by_cases c : (0 ≤ j ∧ j < 0 + path.length / 2) ∨
        (path.length - (0 + path.length / 2) ≤ j ∧ j < path.length - 0)
    · rw [if_pos c, List.getD_eq_getElem _ _ (by omega)]
    · rw [if_neg c, List.getD_eq_getElem _ _ h1]
      congr 1; omega

/-! ## A* search: invariants -/

theorem adjacent_neighbor (p : Position) (i : Nat) (hi : i < 4) : Adjacent p (neighbor p i) := by
  unfold Adjacent calculateHCost neighbor
  have h : i = 0 ∨ i = 1 ∨ i = 2 ∨ i = 3 := by omega
  rcases h with rfl | rfl | rfl | rfl <;> simp [dx, dy]

theorem adjacent_exists_neighbor (p q : Position) (h : Adjacent p q) :
    ∃ i, i < 4 ∧ q = neighbor p i := by
  unfold Adjacent calculateHCost at h
  obtain ⟨px, py⟩ := p
  obtain ⟨qx, qy⟩ := q
  simp only at h
  have h1 : (qx = px ∧ qy = py - 1) ∨ (qx = px ∧ qy = py + 1) ∨ (qx = px - 1 ∧ qy = py) ∨
      (qx = px + 1 ∧ qy = py) := by
    rcases abs_cases (px - qx) with ⟨e1, _⟩ | ⟨e1, _⟩ <;>
      rcases abs_cases (py - qy) with ⟨e2, _⟩ | ⟨e2, _⟩ <;> omega
  rcases h1 with ⟨rfl, rfl⟩ | ⟨rfl, rfl⟩ | ⟨rfl, rfl⟩ | ⟨rfl, rfl⟩
  · exact ⟨0, by omega, by simp [neighbor, dx, dy]; omega⟩
  · exact ⟨1, by omega, by simp [neighbor, dx, dy]⟩
  · exact ⟨2, by omega, by simp [neighbor, dx, dy]; omega⟩
  · exact ⟨3, by omega, by simp [neighbor, dx, dy]⟩

theorem adjacent_symm (p q : Position) (h : Adjacent p q) : Adjacent q p := by
  unfold Adjacent calculateHCost at *
  rw [abs_sub_comm q.x, abs_sub_comm q.y]
  exact h

theorem findNode_some (mem : Memory) (openSet : PriorityQueue) (pos : Position) (e : Nat)
    (h : findNode mem openSet pos = some e) : e ∈ openSet.nodes ∧ (mem e).pos = pos := by
  unfold findNode at h
  have h2 : matchesPosition (mem e).pos pos = true :=
    @List.find?_some _ (fun node => matchesPosition (mem node).pos pos) e openSet.nodes h
  exact ⟨List.mem_of_find?_eq_some h, (matchesPosition_iff _ _).mp h2⟩

theorem findNode_none (mem : Memory) (openSet : PriorityQueue) (pos : Position)
    (h : findNode mem openSet pos = none) : ∀ a ∈ openSet.nodes, (mem a).pos ≠ pos := by
  unfold findNode at h
  intro a ha hp
  have := List.find?_eq_none.mp h a ha
  exact this ((matchesPosition_iff _ _).mpr hp)

theorem extends_refl (st : SearchState) : Extends st st :=
  ⟨le_refl _, fun _ _ => rfl⟩

theorem extends_trans (s1 s2 s3 : SearchState) (h12 : Extends s1 s2) (h23 : Extends s2 s3) :
    Extends s1 s3 :=
  ⟨le_trans h12.1 h23.1, fun a ha => by
    rw [h23.2 a (lt_of_lt_of_le ha h12.1), h12.2 a ha]⟩

theorem expanded_mono (grid : AllEntities) (st st2 : SearchState) (a : Nat)
    (ha : a < st.nodeCount) (hext : Extends st st2) (h : Expanded grid st a) :
    Expanded grid st2 a := by
  intro q hq hv
  rw [hext.2 a ha] at hq
  obtain ⟨b, hb, hbq⟩ := h q hq hv
  exact ⟨b, lt_of_lt_of_le hb hext.1, by rw [hext.2 b hb]; exact hbq⟩

/-- Re-parenting a node of the open set (the update branch of the neighbour loop). -/
theorem midInv_update (grid : AllEntities) (start goal : Position) (cur : Nat)
    (st : SearchState) (i : Nat) (hi : i < 4) (h : MidInv grid start goal cur st) (e : Nat)
    (he : e ∈ st.openSet.nodes) (hpos : (st.mem e).pos = neighbor (st.mem cur).pos i)
    (f : Int) :
    MidInv grid start goal cur
      { st with
        mem := Function.update st.mem e
          { st.mem e with
            gCost := (st.mem cur).gCost + 1, fCost := f, parent := some cur } } := by
  have hc := h.core
  have hen : e < st.nodeCount := hc.open_lt e he
  have hecur : e ≠ cur := fun hx => h.cur_closed (hx ▸ he)
  have he0 : e ≠ 0 := fun hx => h.start_closed (hx ▸ he)
  have hmem : ∀ a, a ≠ e → Function.update st.mem e
      { st.mem e with gCost := (st.mem cur).gCost + 1, fCost := f, parent := some cur } a
        = st.mem a := fun a ha => Function.update_noteq ha _ _
  have hmeme : Function.update st.mem e
      { st.mem e with gCost := (st.mem cur).gCost + 1, fCost := f, parent := some cur } e
        = { st.mem e with gCost := (st.mem cur).gCost + 1, fCost := f, parent := some cur } :=
    Function.update_same _ _ _
  have hp : ∀ a, (Function.update st.mem e
      { st.mem e with gCost := (st.mem cur).gCost + 1, fCost := f, parent := some cur } a).pos
        = (st.mem a).pos := by
    intro a
    by_cases ha : a = e
    · subst ha; rw [hmeme]
    · rw [hmem a ha]
  have hcore : CoreInv grid start { st with
        mem := Function.update st.mem e
          { st.mem e with
            gCost := (st.mem cur).gCost + 1, fCost := f, parent := some cur } } := by
    refine
      { count_pos := hc.count_pos
        start_pos := ?_
        start_parent := ?_
        start_g := ?_
        open_lt := hc.open_lt
        open_nodup := hc.open_nodup
        pos_inj := ?_
        closed_iff := ?_
        closed_node := ?_
        valid := ?_
        parent := ?_
        g_nonneg := ?_
        g_closed := ?_ }
    · show (Function.update st.mem e _ 0).pos = start
      rw [hp]; exact hc.start_pos
    · show (Function.update st.mem e _ 0).parent = none
      rw [hmem 0 (Ne.symm he0)]; exact hc.start_parent
    · show (Function.update st.mem e _ 0).gCost = 0
      rw [hmem 0 (Ne.symm he0)]; exact hc.start_g
    · intro a b ha hb hab
      simp only [hp] at hab
      exact hc.pos_inj a b ha hb hab
    · intro a ha
      simp only [hp]
      exact hc.closed_iff a ha
    · intro y x hyx
      obtain ⟨a, ha, hax⟩ := hc.closed_node y x hyx
      exact ⟨a, ha, by simp only [hp]; exact hax⟩
    · intro a ha0 ha
      simp only [hp]
      exact hc.valid a ha0 ha
    · intro a ha0 ha
      by_cases hae : a = e
      · subst hae
        refine ⟨cur, ?_, h.cur_lt, h.cur_closed, ?_, ?_⟩
        · simp only [hmeme]
        · simp only [hp]
          rw [hpos]
          exact adjacent_neighbor _ i hi
        · simp only [hmeme, hmem cur (Ne.symm hecur)]
      · obtain ⟨b, hb1, hb2, hb3, hb4, hb5⟩ := hc.parent a ha0 ha
        have hbe : b ≠ e := fun hx => hb3 (hx ▸ he)
        refine ⟨b, ?_, hb2, hb3, ?_, ?_⟩
        · simp only [hmem a hae]; exact hb1
        · simp only [hp]; exact hb4
        · simp only [hmem a hae, hmem b hbe]; exact hb5
    · intro a ha
      by_cases hae : a = e
      · subst hae
        simp only [hmeme]
        have := hc.g_nonneg cur h.cur_lt
        omega
      · simp only [hmem a hae]; exact hc.g_nonneg a ha
    · intro a ha hao
      have hae : a ≠ e := fun hx => hao (hx ▸ he)
      simp only [hmem a hae]
      exact hc.g_closed a ha hao
  refine
    { core := hcore
      start_closed := h.start_closed
      cur_lt := h.cur_lt
      cur_closed := h.cur_closed
      not_goal := ?_
      expanded := ?_ }
  · intro a ha hao
    simp only [hp]
    exact h.not_goal a ha hao
  · intro a ha hao hac
    exact expanded_mono grid st _ a ha ⟨le_refl _, fun b _ => hp b⟩ (h.expanded a ha hao hac)

theorem push_mem_iff (mem : Memory) (pq : PriorityQueue) (node a : Nat) :
    a ∈ (push mem pq node).nodes ↔ a = node ∨ a ∈ pq.nodes := by
  rw [(push_nodes_perm mem pq node).mem_iff, List.mem_cons]

theorem push_length (mem : Memory) (pq : PriorityQueue) (node : Nat) :
    (push mem pq node).nodes.length = pq.nodes.length + 1 := by
  rw [(push_nodes_perm mem pq node).length_eq, List.length_cons]

/-- Allocating a node for a cell that has none (the insertion branch of the neighbour
loop). -/
theorem midInv_insert (grid : AllEntities) (start goal : Position) (cur : Nat)
    (st : SearchState) (i : Nat) (hi : i < 4) (h : MidInv grid start goal cur st)
    (hclosed : st.closedSet (neighbor (st.mem cur).pos i).y (neighbor (st.mem cur).pos i).x = false)
    (hvalid : isValid grid (neighbor (st.mem cur).pos i) 'e' = true)
    (hnone : ∀ a ∈ st.openSet.nodes, (st.mem a).pos ≠ neighbor (st.mem cur).pos i)
    (newHCost : Int) :
    MidInv grid start goal cur
      { mem := Function.update st.mem st.nodeCount
          (createNode (neighbor (st.mem cur).pos i) ((st.mem cur).gCost + 1) newHCost (some cur)),
        nodeCount := st.nodeCount + 1,
        openSet := push (Function.update st.mem st.nodeCount
          (createNode (neighbor (st.mem cur).pos i) ((st.mem cur).gCost + 1) newHCost (some cur)))
          st.openSet st.nodeCount,
        closedSet := st.closedSet } := by
  have hc := h.core
  have hfresh : ∀ a, a < st.nodeCount → (st.mem a).pos ≠ neighbor (st.mem cur).pos i := by
    intro a ha hp
    by_cases hao : a ∈ st.openSet.nodes
    · exact hnone a hao hp
    · have := (hc.closed_iff a ha).mpr hao
      rw [hp, hclosed] at this
      exact Bool.false_ne_true this
  have hnopen : st.nodeCount ∉ st.openSet.nodes := fun hx =>
    absurd (hc.open_lt _ hx) (lt_irrefl _)
  have hmem : ∀ (v : Node) (a : Nat), a < st.nodeCount →
      Function.update st.mem st.nodeCount v a = st.mem a :=
    fun v a ha => Function.update_noteq (Nat.ne_of_lt ha) _ _
  have hmemn : ∀ v : Node, Function.update st.mem st.nodeCount v st.nodeCount = v :=
    fun v => Function.update_same _ _ _
  have hcases : ∀ a, a < st.nodeCount + 1 → a < st.nodeCount ∨ a = st.nodeCount := by
    intro a ha; omega
  have hcore : CoreInv grid start
      { mem := Function.update st.mem st.nodeCount
          (createNode (neighbor (st.mem cur).pos i) ((st.mem cur).gCost + 1) newHCost (some cur)),
        nodeCount := st.nodeCount + 1,
        openSet := push (Function.update st.mem st.nodeCount
          (createNode (neighbor (st.mem cur).pos i) ((st.mem cur).gCost + 1) newHCost (some cur)))
          st.openSet st.nodeCount,
        closedSet := st.closedSet } := by
    refine
      { count_pos := Nat.succ_pos _
        start_pos := ?_
        start_parent := ?_
        start_g := ?_
        open_lt := ?_
        open_nodup := ?_
        pos_inj := ?_
        closed_iff := ?_
        closed_node := ?_
        valid := ?_
        parent := ?_
        g_nonneg := ?_
        g_closed := ?_ }
    · show (Function.update st.mem st.nodeCount _ 0).pos = start
      rw [hmem _ 0 hc.count_pos]; exact hc.start_pos
    · show (Function.update st.mem st.nodeCount _ 0).parent = none
      rw [hmem _ 0 hc.count_pos]; exact hc.start_parent
    · show (Function.update st.mem st.nodeCount _ 0).gCost = 0
      rw [hmem _ 0 hc.count_pos]; exact hc.start_g
    · intro a ha
      simp only [push_mem_iff] at ha
      rcases ha with rfl | ha
      · exact Nat.lt_succ_self _
      · exact Nat.lt_succ_of_lt (hc.open_lt a ha)
    · exact (push_nodes_perm _ _ _).nodup_iff.mpr (List.nodup_cons.mpr ⟨hnopen, hc.open_nodup⟩)
    · intro a b ha hb hab
      simp only at ha hb hab
      rcases hcases a ha with ha2 | rfl <;> rcases hcases b hb with hb2 | rfl
      · rw [hmem _ a ha2, hmem _ b hb2] at hab
        exact hc.pos_inj a b ha2 hb2 hab
      · rw [hmem _ a ha2, hmemn] at hab
        exact absurd hab (hfresh a ha2)
      · rw [hmemn, hmem _ b hb2] at hab
        exact absurd hab.symm (hfresh b hb2)
      · rfl
    · intro a ha
      simp only at ha
      simp only [push_mem_iff]
      rcases hcases a ha with ha2 | rfl
      · rw [hmem _ a ha2, hc.closed_iff a ha2]
        have : a ≠ st.nodeCount := Nat.ne_of_lt ha2
        simp [this]
      · rw [hmemn]
        simp only [createNode, hclosed]
        simp
    · intro y x hyx
      obtain ⟨a, ha, hax⟩ := hc.closed_node y x hyx
      exact ⟨a, Nat.lt_succ_of_lt ha, by simp only [hmem _ a ha]; exact hax⟩
    · intro a ha0 ha
      simp only at ha
      rcases hcases a ha with ha2 | rfl
      · simp only [hmem _ a ha2]; exact hc.valid a ha0 ha2
      · simp only [hmemn, createNode]; exact hvalid
    · intro a ha0 ha
      simp only at ha
      rcases hcases a ha with ha2 | rfl
      · obtain ⟨b, hb1, hb2, hb3, hb4, hb5⟩ := hc.parent a ha0 ha2
        refine ⟨b, ?_, Nat.lt_succ_of_lt hb2, ?_, ?_, ?_⟩
        · simp only [hmem _ a ha2]; exact hb1
        · simp only [push_mem_iff]
          rintro (hx | hx)
          · omega
          · exact hb3 hx
        · simp only [hmem _ a ha2, hmem _ b hb2]; exact hb4
        · simp only [hmem _ a ha2, hmem _ b hb2]; exact hb5
      · refine ⟨cur, ?_, Nat.lt_succ_of_lt h.cur_lt, ?_, ?_, ?_⟩
        · simp only [hmemn, createNode]
        · simp only [push_mem_iff]
          rintro (hx | hx)
          · have := h.cur_lt; omega
          · exact h.cur_closed hx
        · simp only [hmemn, hmem _ cur h.cur_lt, createNode]
          exact adjacent_neighbor _ i hi
        · simp only [hmemn, hmem _ cur h.cur_lt, createNode]
    · intro a ha
      simp only at ha
      rcases hcases a ha with ha2 | rfl
      · simp only [hmem _ a ha2]; exact hc.g_nonneg a ha2
      · simp only [hmemn, createNode]
        have := hc.g_nonneg cur h.cur_lt
        omega
    · intro a ha hao
      simp only [push_mem_iff, not_or] at hao
      simp only at ha
      have ha2 : a < st.nodeCount := by
        rcases hcases a ha with ha2 | ha2
        · exact ha2
        · exact absurd ha2 hao.1
      simp only [hmem _ a ha2, push_length]
      have := hc.g_closed a ha2 hao.2
      push_cast
      omega
  have hext : Extends st
      { mem := Function.update st.mem st.nodeCount
          (createNode (neighbor (st.mem cur).pos i) ((st.mem cur).gCost + 1) newHCost (some cur)),
        nodeCount := st.nodeCount + 1,
        openSet := push (Function.update st.mem st.nodeCount
          (createNode (neighbor (st.mem cur).pos i) ((st.mem cur).gCost + 1) newHCost (some cur)))
          st.openSet st.nodeCount,
        closedSet := st.closedSet } :=
    ⟨Nat.le_succ _, fun a ha => by simp only [hmem _ a ha]⟩
  refine
    { core := hcore
      start_closed := ?_
      cur_lt := Nat.lt_succ_of_lt h.cur_lt
      cur_closed := ?_
      not_goal := ?_
      expanded := ?_ }
  · simp only [push_mem_iff]
    rintro (hx | hx)
    · have := hc.count_pos; omega
    · exact h.start_closed hx
  · simp only [push_mem_iff]
    rintro (hx | hx)
    · have := h.cur_lt; omega
    · exact h.cur_closed hx
  · intro a ha hao
    simp only [push_mem_iff, not_or] at hao
    simp only at ha
    have ha2 : a < st.nodeCount := by
      rcases hcases a ha with ha2 | ha2
      · exact ha2
      · exact absurd ha2 hao.1
    simp only [hmem _ a ha2]
    exact h.not_goal a ha2 hao.2
  · intro a ha hao hac
    simp only [push_mem_iff, not_or] at hao
    simp only at ha
    have ha2 : a < st.nodeCount := by
      rcases hcases a ha with ha2 | ha2
      · exact ha2
      · exact absurd ha2 hao.1
    exact expanded_mono grid st _ a ha2 hext (h.expanded a ha2 hao.2 hac)

/-- One round of the neighbour loop keeps the invariant, keeps every node where it is,
leaves the number of closed nodes unchanged, and sees to it that the neighbour in
direction `i` has a node when it is enemy-valid. -/
theorem visitNeighbor_inv (grid : AllEntities) (start goal : Position) (cur : Nat)
    (st : SearchState) (i : Nat) (hi : i < 4) (h : MidInv grid start goal cur st) :
    MidInv grid start goal cur (visitNeighbor grid goal cur st i) ∧
    Extends st (visitNeighbor grid goal cur st i) ∧
    (((visitNeighbor grid goal cur st i).nodeCount : Int) -
        ((visitNeighbor grid goal cur st i).openSet.nodes.length : Int) =
      (st.nodeCount : Int) - (st.openSet.nodes.length : Int)) ∧
    (isValid grid (neighbor (st.mem cur).pos i) 'e' = true →
      ∃ b, b < (visitNeighbor grid goal cur st i).nodeCount ∧
        ((visitNeighbor grid goal cur st i).mem b).pos = neighbor (st.mem cur).pos i) := by
  have hc := h.core
  unfold visitNeighbor
  simp only
  by_cases hcond : (!st.closedSet (neighbor (st.mem cur).pos i).y (neighbor (st.mem cur).pos i).x
      && isValid grid (neighbor (st.mem cur).pos i) 'e') = true
  · have hcond2 := hcond
    simp only [Bool.and_eq_true, Bool.not_eq_true'] at hcond2
    obtain ⟨hclosed, hvalid⟩ := hcond2
    rw [if_pos (by exact hcond)]
    cases hfind : findNode st.mem st.openSet (neighbor (st.mem cur).pos i) with
    | none =>
      simp only [neighbor] at hfind
      simp only [hfind]
      have hnone := findNode_none st.mem st.openSet _ hfind
      refine ⟨midInv_insert grid start goal cur st i hi h hclosed hvalid hnone _, ?_, ?_, ?_⟩
      · exact ⟨Nat.le_succ _, fun a ha => by
          show (Function.update st.mem st.nodeCount _ a).pos = _
          rw [Function.update_noteq (Nat.ne_of_lt ha)]⟩
      · simp only [push_length]
        push_cast
        omega
      · intro _
        refine ⟨st.nodeCount, Nat.lt_succ_self _, ?_⟩
        show (Function.update st.mem st.nodeCount _ st.nodeCount).pos = _
        rw [Function.update_same]
        rfl
    | some e =>
      simp only [neighbor] at hfind
      simp only [hfind]
      obtain ⟨he, hpos⟩ := findNode_some st.mem st.openSet _ e hfind
      split
      · refine ⟨midInv_update grid start goal cur st i hi h e he hpos _, ?_, rfl, ?_⟩
        · refine ⟨le_refl _, fun a _ => ?_⟩
          show (Function.update st.mem e _ a).pos = _
          by_cases hae : a = e
          · subst hae; rw [Function.update_same]
          · rw [Function.update_noteq hae]
        · intro _
          refine ⟨e, hc.open_lt e he, ?_⟩
          show (Function.update st.mem e _ e).pos = _
          rw [Function.update_same]
          exact hpos
      · exact ⟨h, extends_refl st, rfl, fun _ => ⟨e, hc.open_lt e he, hpos⟩⟩
  · rw [if_neg (by exact hcond)]
    refine ⟨h, extends_refl st, rfl, ?_⟩
    intro hvalid
    have hclosed : st.closedSet (neighbor (st.mem cur).pos i).y
        (neighbor (st.mem cur).pos i).x = true := by
      cases hcl : st.closedSet (neighbor (st.mem cur).pos i).y (neighbor (st.mem cur).pos i).x
      · exfalso
        apply hcond
        rw [hcl, hvalid]
        rfl
      · rfl
    obtain ⟨a, ha, hax⟩ := hc.closed_node _ _ hclosed
    exact ⟨a, ha, hax⟩

/-- The whole neighbour loop for `cur`: afterwards `cur` is expanded and the loop
invariant holds again, with one more closed node than before the pop. -/
theorem expand_inv (grid : AllEntities) (start goal : Position) (cur : Nat)
    (st : SearchState) (h : MidInv grid start goal cur st) :
    LoopInv grid start goal ([0, 1, 2, 3].foldl (visitNeighbor grid goal cur) st) ∧
    ((([0, 1, 2, 3].foldl (visitNeighbor grid goal cur) st).nodeCount : Int) -
        (([0, 1, 2, 3].foldl (visitNeighbor grid goal cur) st).openSet.nodes.length : Int) =
      (st.nodeCount : Int) - (st.openSet.nodes.length : Int)) := by
  simp only [List.foldl_cons, List.foldl_nil]
  obtain ⟨m1, e1, c1, f1⟩ := visitNeighbor_inv grid start goal cur st 0 (by omega) h
  obtain ⟨m2, e2, c2, f2⟩ :=
    visitNeighbor_inv grid start goal cur _ 1 (by omega) m1
  obtain ⟨m3, e3, c3, f3⟩ :=
    visitNeighbor_inv grid start goal cur _ 2 (by omega) m2
  obtain ⟨m4, e4, c4, f4⟩ :=
    visitNeighbor_inv grid start goal cur _ 3 (by omega) m3
  have p1 := e1.2 cur h.cur_lt
  have p2 := e2.2 cur m1.cur_lt
  have p3 := e3.2 cur m2.cur_lt
  have p4 := e4.2 cur m3.cur_lt
  rw [p1] at p2 f2
  rw [p2] at p3 f3
  rw [p3] at p4 f4
  have e34 := e4
  have e24 := extends_trans _ _ _ e3 e4
  have e14 := extends_trans _ _ _ e2 e24
  refine ⟨?_, by omega⟩
  refine
    { core := m4.core
      start_open := fun hx => absurd hx m4.start_closed
      not_goal := m4.not_goal
      expanded := ?_ }
  intro a ha hao
  by_cases hac : a = cur
  · subst hac
    intro q hq hv
    rw [p4] at hq
    obtain ⟨i, hi, rfl⟩ := adjacent_exists_neighbor _ _ hq
    have hi4 : i = 0 ∨ i = 1 ∨ i = 2 ∨ i = 3 := by omega
    rcases hi4 with rfl | rfl | rfl | rfl
    · obtain ⟨b, hb, hbq⟩ := f1 hv
      exact ⟨b, lt_of_lt_of_le hb e14.1, by rw [e14.2 b hb]; exact hbq⟩
    · obtain ⟨b, hb, hbq⟩ := f2 hv
      exact ⟨b, lt_of_lt_of_le hb e24.1, by rw [e24.2 b hb]; exact hbq⟩
    · obtain ⟨b, hb, hbq⟩ := f3 hv
      exact ⟨b, lt_of_lt_of_le hb e34.1, by rw [e34.2 b hb]; exact hbq⟩
    · exact f4 hv
  · exact m4.expanded a ha hao hac

/-- Popping the root `cur` of the open set and marking its cell closed establishes the
invariant of the neighbour loop, provided `cur` is not at the goal. -/
theorem pop_inv (grid : AllEntities) (start goal : Position) (st : SearchState)
    (h : LoopInv grid start goal st) (cur : Nat) (rest : List Nat)
    (hn : st.openSet.nodes = cur :: rest) (hgoal : (st.mem cur).pos ≠ goal) :
    MidInv grid start goal cur
      { st with
        openSet := (pop st.mem st.openSet).2,
        closedSet := fun r c =>
          if r = (st.mem cur).pos.y ∧ c = (st.mem cur).pos.x then true else st.closedSet r c } := by
  have hc := h.core
  have hperm := pop_cons_perm st.mem st.openSet cur rest hn
  have hnd : (cur :: rest).Nodup := hn ▸ hc.open_nodup
  have hcur_rest : cur ∉ rest := (List.nodup_cons.mp hnd).1
  have hcur_open : cur ∈ st.openSet.nodes := by rw [hn]; exact List.mem_cons_self _ _
  have hcur_lt : cur < st.nodeCount := hc.open_lt cur hcur_open
  have hmem_iff : ∀ a, a ∈ (pop st.mem st.openSet).2.nodes ↔ a ∈ rest := fun a => hperm.mem_iff
  have hopen_iff : ∀ a, a ∈ st.openSet.nodes ↔ a = cur ∨ a ∈ rest := by
    intro a; rw [hn, List.mem_cons]
  have hlen : ((pop st.mem st.openSet).2.nodes.length : Int) =
      (st.openSet.nodes.length : Int) - 1 := by
    rw [hperm.length_eq, hn, List.length_cons]
    push_cast
    omega
  have hposcur : ∀ a, a < st.nodeCount →
      (((st.mem a).pos.y = (st.mem cur).pos.y ∧ (st.mem a).pos.x = (st.mem cur).pos.x) ↔
        a = cur) := by
    intro a ha
    constructor
    · rintro ⟨hy, hx⟩
      apply hc.pos_inj a cur ha hcur_lt
      cases hpa : (st.mem a).pos
      cases hpc : (st.mem cur).pos
      rw [hpa, hpc] at hy hx
      simp only at hy hx
      rw [hy, hx]
    · rintro rfl
      exact ⟨rfl, rfl⟩
  have hcore : CoreInv grid start
      { st with
        openSet := (pop st.mem st.openSet).2,
        closedSet := fun r c =>
          if r = (st.mem cur).pos.y ∧ c = (st.mem cur).pos.x then true
          else st.closedSet r c } := by
    refine
      { count_pos := hc.count_pos
        start_pos := hc.start_pos
        start_parent := hc.start_parent
        start_g := hc.start_g
        open_lt := ?_
        open_nodup := ?_
        pos_inj := hc.pos_inj
        closed_iff := ?_
        closed_node := ?_
        valid := hc.valid
        parent := ?_
        g_nonneg := hc.g_nonneg
        g_closed := ?_ }
    · intro a ha
      exact hc.open_lt a ((hopen_iff a).mpr (Or.inr ((hmem_iff a).mp ha)))
    · exact hperm.nodup_iff.mpr (List.nodup_cons.mp hnd).2
    · intro a ha
      simp only [hmem_iff]
      by_cases hac : a = cur
      · subst hac
        simp [hcur_rest]
      · have hne : ¬ ((st.mem a).pos.y = (st.mem cur).pos.y ∧
            (st.mem a).pos.x = (st.mem cur).pos.x) := fun hx => hac ((hposcur a ha).mp hx)
        rw [if_neg hne, hc.closed_iff a ha, hopen_iff]
        simp [hac]
    · intro y x hyx
      simp only at hyx
      by_cases hpc : y = (st.mem cur).pos.y ∧ x = (st.mem cur).pos.x
      · exact ⟨cur, hcur_lt, by rw [hpc.1, hpc.2]⟩
      · rw [if_neg hpc] at hyx
        exact hc.closed_node y x hyx
    · intro a ha0 ha
      obtain ⟨b, hb1, hb2, hb3, hb4, hb5⟩ := hc.parent a ha0 ha
      refine ⟨b, hb1, hb2, ?_, hb4, hb5⟩
      intro hx
      exact hb3 ((hopen_iff b).mpr (Or.inr ((hmem_iff b).mp hx)))
    · intro a ha hao
      simp only [hmem_iff] at hao
      simp only [hlen]
      by_cases hac : a = cur
      · subst hac
        by_cases ha0 : a = 0
        · subst ha0
          have hn1 := h.start_open hcur_open
          have hrest : rest = [] := by
            cases hr : rest with
            | nil => rfl
            | cons b t =>
              exfalso
              have hb : b ∈ st.openSet.nodes := by rw [hn, hr]; simp
              have hb1 := hc.open_lt b hb
              have hb0 : b = 0 := by omega
              apply hcur_rest
              rw [hr, hb0]
              exact List.mem_cons_self _ _
          rw [hc.start_g, hn, hrest, hn1]
          simp
        · obtain ⟨b, _, hb2, hb3, _, hb5⟩ := hc.parent a (Nat.pos_of_ne_zero ha0) ha
          have := hc.g_closed b hb2 hb3
          rw [hb5]
          omega
      · have hao2 : a ∉ st.openSet.nodes := by
          rw [hopen_iff]; simp [hac, hao]
        have := hc.g_closed a ha hao2
        omega
  refine
    { core := hcore
      start_closed := ?_
      cur_lt := hcur_lt
      cur_closed := ?_
      not_goal := ?_
      expanded := ?_ }
  · simp only [hmem_iff]
    intro h0
    have hn1 := h.start_open ((hopen_iff 0).mpr (Or.inr h0))
    have hcur0 : cur = 0 := by omega
    exact hcur_rest (hcur0 ▸ h0)
  · simp only [hmem_iff]
    exact hcur_rest
  · intro a ha hao
    simp only [hmem_iff] at hao
    by_cases hac : a = cur
    · subst hac; exact hgoal
    · exact h.not_goal a ha (by rw [hopen_iff]; simp [hac, hao])
  · intro a ha hao hac
    simp only [hmem_iff] at hao
    exact h.expanded a ha (by rw [hopen_iff]; simp [hac, hao])

theorem collectPath_none (mem : Memory) (fuel : Nat) (path : List Position) :
    collectPath mem fuel none path = some path := by
  cases fuel <;> rfl

/-- Following the parent pointers from a node whose gCost is `j` takes `j + 1` rounds and
yields a duplicate-free chain of cells from the node back to the start. -/
theorem collectPath_chain (grid : AllEntities) (start : Position) (st : SearchState)
    (hc : CoreInv grid start st) :
    ∀ (j : Nat) (a : Nat), a < st.nodeCount → (st.mem a).gCost = (j : Int) →
      ∀ fuel, j + 1 ≤ fuel → ∀ acc : List Position,
        ∃ ch : List Position,
          collectPath st.mem fuel (some a) acc = some (acc ++ ch) ∧
          ch.head? = some (st.mem a).pos ∧
          ch.getLast? = some start ∧
          List.Chain' (flip Adjacent) ch ∧
          (∀ q ∈ ch.dropLast, isValid grid q 'e' = true) ∧
          (∀ q ∈ ch, ∃ b, b < st.nodeCount ∧ (st.mem b).pos = q ∧ (st.mem b).gCost ≤ (j : Int)) ∧
          ch.Nodup := by
  intro j
  induction j with
  | zero =>
    intro a ha hg fuel hf acc
    have ha0 : a = 0 := by
      by_contra hne
      obtain ⟨b, _, hb2, _, _, hb5⟩ := hc.parent a (Nat.pos_of_ne_zero hne) ha
      have := hc.g_nonneg b hb2
      rw [hb5] at hg
      simp only [Nat.cast_zero] at hg
      omega
    subst ha0
    obtain ⟨f, rfl⟩ : ∃ f, fuel = f + 1 := ⟨fuel - 1, by omega⟩
    refine ⟨[(st.mem 0).pos], ?_, rfl, ?_, ?_, ?_, ?_, ?_⟩
    · rw [collectPath, hc.start_parent, collectPath_none]
    · rw [hc.start_pos]; rfl
    · exact List.chain'_singleton _
    · intro q hq; simp at hq
    · intro q hq
      simp only [List.mem_singleton] at hq
      exact ⟨0, ha, hq.symm, by rw [hg]⟩
    · exact List.nodup_singleton _
  | succ j ih =>
    intro a ha hg fuel hf acc
    have ha0 : a ≠ 0 := by
      rintro rfl
      rw [hc.start_g] at hg
      push_cast at hg
      omega
    obtain ⟨b, hb1, hb2, _, hb4, hb5⟩ := hc.parent a (Nat.pos_of_ne_zero ha0) ha
    have hgb : (st.mem b).gCost = (j : Int) := by
      rw [hb5] at hg
      push_cast at hg
      omega
    obtain ⟨f, rfl⟩ : ∃ f, fuel = f + 1 := ⟨fuel - 1, by omega⟩
    obtain ⟨ch, h1, h2, h3, h4, h5, h6, h7⟩ :=
      ih b hb2 hgb f (by omega) (acc ++ [(st.mem a).pos])
    have hne : ch ≠ [] := by
      intro hx; rw [hx] at h2; simp at h2
    refine ⟨(st.mem a).pos :: ch, ?_, rfl, ?_, ?_, ?_, ?_, ?_⟩
    · rw [collectPath, hb1, h1]
      simp
    · cases ch with
      | nil => exact absurd rfl hne
      | cons c t => rw [List.getLast?_cons_cons]; exact h3
    · refine List.Chain'.cons' h4 ?_
      intro y hy
      rw [h2] at hy
      simp only [Option.mem_def, Option.some.injEq] at hy
      rw [← hy]
      exact hb4
    · intro q hq
      rw [List.dropLast_cons_of_ne_nil hne, List.mem_cons] at hq
      rcases hq with rfl | hq
      · exact hc.valid a (Nat.pos_of_ne_zero ha0) ha
      · exact h5 q hq
    · intro q hq
      rw [List.mem_cons] at hq
      rcases hq with rfl | hq
      · exact ⟨a, ha, rfl, by rw [hg]⟩
      · obtain ⟨c, hc1, hc2, hc3⟩ := h6 q hq
        exact ⟨c, hc1, hc2, by push_cast; omega⟩
    · refine List.nodup_cons.mpr ⟨?_, h7⟩
      intro hmem
      obtain ⟨c, hc1, hc2, hc3⟩ := h6 _ hmem
      have hca := hc.pos_inj c a hc1 ha hc2
      rw [hca, hg] at hc3
      push_cast at hc3
      omega

/-- Every node sits on a cell reachable from the start. -/
theorem node_reachable (grid : AllEntities) (start : Position) (st : SearchState)
    (hc : CoreInv grid start st) :
    ∀ (j : Nat) (a : Nat), a < st.nodeCount → (st.mem a).gCost = (j : Int) →
      Reachable grid start (st.mem a).pos := by
  intro j
  induction j with
  | zero =>
    intro a ha hg
    have ha0 : a = 0 := by
      by_contra hne
      obtain ⟨b, _, hb2, _, _, hb5⟩ := hc.parent a (Nat.pos_of_ne_zero hne) ha
      have := hc.g_nonneg b hb2
      rw [hb5] at hg
      simp only [Nat.cast_zero] at hg
      omega
    subst ha0
    rw [hc.start_pos]
    exact Reachable.start
  | succ j ih =>
    intro a ha hg
    have ha0 : a ≠ 0 := by
      rintro rfl
      rw [hc.start_g] at hg
      push_cast at hg
      omega
    obtain ⟨b, _, hb2, _, hb4, hb5⟩ := hc.parent a (Nat.pos_of_ne_zero ha0) ha
    have hgb : (st.mem b).gCost = (j : Int) := by
      rw [hb5] at hg
      push_cast at hg
      omega
    exact Reachable.step _ _ (ih b hb2 hgb) hb4 (hc.valid a (Nat.pos_of_ne_zero ha0) ha)

/-- When the open set is empty, every reachable cell has a node, so the goal, which no
closed node sits on, is unreachable. -/
theorem unreachable_of_exhausted (grid : AllEntities) (start goal : Position)
    (st : SearchState) (h : LoopInv grid start goal st) (hempty : st.openSet.nodes = []) :
    ¬ Reachable grid start goal := by
  have hall : ∀ q, Reachable grid start q → ∃ a, a < st.nodeCount ∧ (st.mem a).pos = q := by
    intro q hq
    induction hq with
    | start => exact ⟨0, h.core.count_pos, h.core.start_pos⟩
    | step p q _ hadj hv ih =>
      obtain ⟨a, ha, hap⟩ := ih
      have := h.expanded a ha (by rw [hempty]; simp) q (by rw [hap]; exact hadj) hv
      exact this
  intro hreach
  obtain ⟨a, ha, hag⟩ := hall goal hreach
  exact h.not_goal a ha (by rw [hempty]; simp) hag

theorem isValid_interior (grid : AllEntities) (p : Position) (ID : Char)
    (h : isValid grid p ID = true) : Interior p := by
  unfold isValid at h
  unfold Interior
  by_cases hb : p.x < 1 ∨ p.x > GRID_SIZE - 2 ∨ p.y < 1 ∨ p.y > GRID_SIZE - 2
  · rw [if_pos hb] at h
    exact absurd h Bool.false_ne_true
  · omega

theorem interior_card :
    ((Finset.Icc (1 : Int) 21) ×ˢ (Finset.Icc (1 : Int) 21)).card = 441 := by
  rw [Finset.card_product, Int.card_Icc]
  rfl

/-- At most `21 * 21` cells are enemy-valid, so a search allocates at most 442 nodes. -/
theorem nodeCount_le (grid : AllEntities) (start : Position) (st : SearchState)
    (hc : CoreInv grid start st) : st.nodeCount ≤ 442 := by
  have hcard := Finset.card_le_card_of_injOn
    (s := Finset.Ico 1 st.nodeCount)
    (t := (Finset.Icc (1 : Int) 21) ×ˢ (Finset.Icc (1 : Int) 21))
    (fun a => ((st.mem a).pos.x, (st.mem a).pos.y)) ?_ ?_
  · rw [Nat.card_Ico, interior_card] at hcard
    omega
  · intro a ha
    rw [Finset.mem_Ico] at ha
    have hv := isValid_interior grid _ _ (hc.valid a (by omega) ha.2)
    simp only [Interior, GRID_SIZE] at hv
    simp only [Finset.mem_product, Finset.mem_Icc]
    omega
  · intro a ha b hb hab
    simp only [Finset.coe_Ico, Set.mem_Ico] at ha hb
    simp only [Prod.mk.injEq] at hab
    apply hc.pos_inj a b ha.2 hb.2
    cases hpa : (st.mem a).pos
    cases hpb : (st.mem b).pos
    rw [hpa, hpb] at hab
    simp only at hab
    rw [hab.1, hab.2]

theorem flip_adjacent : flip Adjacent = Adjacent := by
  funext p q
  exact propext ⟨fun h => adjacent_symm _ _ h, fun h => adjacent_symm _ _ h⟩

/-- Path reconstruction from the popped goal node succeeds and returns a well-formed path. -/
theorem finalizePath_spec (grid : AllEntities) (start goal : Position) (st : SearchState)
    (h : LoopInv grid start goal st) (cur : Nat) (rest : List Nat)
    (hn : st.openSet.nodes = cur :: rest) (hgoal : (st.mem cur).pos = goal) :
    ∃ path, finalizePath st.mem st.nodeCount cur = some path ∧
      PathOK grid start goal path ∧ Reachable grid start goal := by
  have hc := h.core
  have hcur_open : cur ∈ st.openSet.nodes := by rw [hn]; exact List.mem_cons_self _ _
  have hcur_lt : cur < st.nodeCount := hc.open_lt cur hcur_open
  have hg0 := hc.g_nonneg cur hcur_lt
  have hglt : (st.mem cur).gCost < (st.nodeCount : Int) := by
    by_cases h0 : cur = 0
    · subst h0
      rw [hc.start_g]
      exact_mod_cast hc.count_pos
    · obtain ⟨b, _, hb2, hb3, _, hb5⟩ := hc.parent cur (Nat.pos_of_ne_zero h0) hcur_lt
      have := hc.g_closed b hb2 hb3
      have hlen : (1 : Int) ≤ (st.openSet.nodes.length : Int) := by
        rw [hn, List.length_cons]; push_cast; omega
      omega
  obtain ⟨j, hj⟩ : ∃ j : Nat, (st.mem cur).gCost = (j : Int) :=
    ⟨(st.mem cur).gCost.toNat, (Int.toNat_of_nonneg hg0).symm⟩
  obtain ⟨ch, h1, h2, h3, h4, h5, _, h7⟩ :=
    collectPath_chain grid start st hc j cur hcur_lt hj st.nodeCount (by omega) []
  refine ⟨ch.reverse, ?_, ⟨?_, ?_, ?_, ?_, ?_⟩, ?_⟩
  · unfold finalizePath
    rw [h1]
    simp only [List.nil_append, Option.map_some', reverseLoop_eq_reverse]
  · rw [List.head?_reverse]; exact h3
  · rw [List.getLast?_reverse, h2, hgoal]
  · rw [List.chain'_reverse, flip_adjacent]
    rw [flip_adjacent] at h4
    exact h4
  · exact List.nodup_reverse.mpr h7
  · intro q hq
    rw [List.tail_reverse, List.mem_reverse] at hq
    exact h5 q hq
  · rw [← hgoal]
    exact node_reachable grid start st hc j cur hcur_lt hj

/-- The main loop of `findPath` returns before its fuel runs out; it reports a
well-formed path when the goal is reachable and failure when it is not. -/
theorem findPathLoop_spec (grid : AllEntities) (start goal : Position) :
    ∀ (fuel : Nat) (st : SearchState), LoopInv grid start goal st →
      (st.openSet.nodes.length : Int) + 442 < (st.nodeCount : Int) + (fuel : Int) →
      ∃ r, findPathLoop grid goal fuel st = some r ∧
        (r.1 = true → Reachable grid start goal ∧ PathOK grid start goal r.2) ∧
        (r.1 = false → ¬ Reachable grid start goal ∧ r.2 = []) := by
  intro fuel
  induction fuel with
  | zero =>
    intro st h hm
    have := nodeCount_le grid start st h.core
    push_cast at hm
    omega
  | succ fuel ih =>
    intro st h hm
    unfold findPathLoop
    cases hn : st.openSet.nodes with
    | nil =>
      rw [pop_nil st.mem st.openSet hn]
      refine ⟨(false, []), rfl, ?_, ?_⟩
      · intro hx; exact absurd hx Bool.false_ne_true
      · intro _
        exact ⟨unreachable_of_exhausted grid start goal st h hn, rfl⟩
    | cons cur rest =>
      have hpop : pop st.mem st.openSet = (some cur, (pop st.mem st.openSet).2) :=
        Prod.ext (pop_cons_fst st.mem st.openSet cur rest hn) rfl
      rw [hpop]
      simp only
      by_cases hg : matchesPosition (st.mem cur).pos goal = true
      · rw [if_pos hg]
        obtain ⟨path, hp1, hp2, hp3⟩ :=
          finalizePath_spec grid start goal st h cur rest hn ((matchesPosition_iff _ _).mp hg)
        rw [hp1]
        refine ⟨(true, path), rfl, ?_, ?_⟩
        · intro _; exact ⟨hp3, hp2⟩
        · intro hx; exact absurd hx.symm Bool.false_ne_true
      · rw [if_neg hg]
        have hgoal : (st.mem cur).pos ≠ goal := fun hx => hg ((matchesPosition_iff _ _).mpr hx)
        have hmid := pop_inv grid start goal st h cur rest hn hgoal
        obtain ⟨hloop, hcount⟩ := expand_inv grid start goal cur _ hmid
        apply ih _ hloop
        have hlen : ((pop st.mem st.openSet).2.nodes.length : Int) =
            (st.openSet.nodes.length : Int) - 1 := by
          rw [(pop_cons_perm st.mem st.openSet cur rest hn).length_eq, hn, List.length_cons]
          push_cast
          omega
        simp only at hcount
        rw [hlen] at hcount
        push_cast at hm
        omega

theorem initial_inv (grid : AllEntities) (start goal : Position) :
    LoopInv grid start goal (initialSearchState start goal) := by
  have hopen : (initialSearchState start goal).openSet.nodes = [0] := rfl
  have hcount : (initialSearchState start goal).nodeCount = 1 := rfl
  have hmem0 : (initialSearchState start goal).mem 0 =
      createNode start 0 (calculateHCost start goal) none := rfl
  have hclosed : ∀ y x, (initialSearchState start goal).closedSet y x = false := fun _ _ => rfl
  have hcore : CoreInv grid start (initialSearchState start goal) := by
    refine
      { count_pos := by rw [hcount]; exact Nat.one_pos
        start_pos := by rw [hmem0]; rfl
        start_parent := by rw [hmem0]; rfl
        start_g := by rw [hmem0]; rfl
        open_lt := ?_
        open_nodup := by rw [hopen]; exact List.nodup_singleton _
        pos_inj := ?_
        closed_iff := ?_
        closed_node := ?_
        valid := ?_
        parent := ?_
        g_nonneg := ?_
        g_closed := ?_ }
    · intro a ha
      rw [hopen, List.mem_singleton] at ha
      rw [hcount, ha]; exact Nat.one_pos
    · intro a b ha hb _
      rw [hcount] at ha hb
      omega
    · intro a ha
      rw [hcount] at ha
      have ha0 : a = 0 := by omega
      rw [hclosed, hopen, ha0]
      simp
    · intro y x hyx
      rw [hclosed] at hyx
      exact absurd hyx Bool.false_ne_true
    · intro a ha0 ha
      rw [hcount] at ha
      omega
    · intro a ha0 ha
      rw [hcount] at ha
      omega
    · intro a ha
      rw [hcount] at ha
      have ha0 : a = 0 := by omega
      rw [ha0, hmem0]
      exact le_refl _
    · intro a ha hao
      rw [hcount] at ha
      have ha0 : a = 0 := by omega
      rw [hopen, ha0] at hao
      exact absurd (List.mem_singleton.mpr rfl) hao
  refine
    { core := hcore
      start_open := fun _ => hcount
      not_goal := ?_
      expanded := ?_ }
  · intro a ha hao
    rw [hcount] at ha
    have ha0 : a = 0 := by omega
    rw [hopen, ha0] at hao
    exact absurd (List.mem_singleton.mpr rfl) hao
  · intro a ha hao
    rw [hcount] at ha
    have ha0 : a = 0 := by omega
    rw [hopen, ha0] at hao
    exact absurd (List.mem_singleton.mpr rfl) hao

/-- Full specification of `findPath`, from which the claims about it follow. -/
theorem findPath_spec (grid : AllEntities) (start goal : Position) :
    ∃ r, findPath grid start goal = some r ∧
      (r.1 = true → Reachable grid start goal ∧ PathOK grid start goal r.2) ∧
      (r.1 = false → ¬ Reachable grid start goal ∧ r.2 = []) := by
  unfold findPath
  apply findPathLoop_spec grid start goal _ _ (initial_inv grid start goal)
  have h1 : (initialSearchState start goal).openSet.nodes = [0] := rfl
  have h2 : (initialSearchState start goal).nodeCount = 1 := rfl
  have h3 : (GRID_SIZE * GRID_SIZE).toNat = 529 := rfl
  rw [h1, h2, h3]
  norm_num

/-! ## A* search: results -/

theorem not_reachable_of_invalid (grid : AllEntities) (start goal : Position)
    (hne : goal ≠ start) (hv : isValid grid goal 'e' = false) : ¬ Reachable grid start goal := by
  intro h
  cases h with
  | start => exact hne rfl
  | step p _ _ _ hvalid => rw [hv] at hvalid; exact Bool.false_ne_true hvalid

/-- C1 (code defect): on `bugGrid` the search from (5,5) to (2,1) returns a path of 10
cells, although the 8-cell path straight up the column `x = 5` and along the row `y = 1`
runs through enemy-valid cells only; the shortest path has 7 steps. -/
theorem findPath_not_shortest :
    findPath bugGrid ⟨5, 5⟩ ⟨2, 1⟩ =
      some (true, [⟨5, 5⟩, ⟨4, 5⟩, ⟨4, 4⟩, ⟨4, 3⟩, ⟨5, 3⟩, ⟨5, 2⟩, ⟨5, 1⟩, ⟨4, 1⟩, ⟨3, 1⟩, ⟨2, 1⟩]) ∧
    List.Chain' Adjacent
      [(⟨5, 5⟩ : Position), ⟨5, 4⟩, ⟨5, 3⟩, ⟨5, 2⟩, ⟨5, 1⟩, ⟨4, 1⟩, ⟨3, 1⟩, ⟨2, 1⟩] ∧
    (∀ q ∈ [(⟨5, 4⟩ : Position), ⟨5, 3⟩, ⟨5, 2⟩, ⟨5, 1⟩, ⟨4, 1⟩, ⟨3, 1⟩, ⟨2, 1⟩],
      isValid bugGrid q 'e' = true) := by
  refine ⟨?_, ?_, ?_⟩
  · decide!
  · simp [Adjacent, calculateHCost]
  · decide

/-- C2: for an interior start, `findPath` returns true exactly when the goal is reachable
from the start by cardinal steps through enemy-valid cells (the start itself need not be
enemy-valid), and it returns false, writing no path, when the goal is not reachable; in
particular it returns false when a goal other than the start is not enemy-valid, as when
the goal cell is a wall. -/
theorem findPath_true_iff_reachable (grid : AllEntities) (start goal : Position)
    (_hstart : Interior start) :
    ((∃ path, findPath grid start goal = some (true, path)) ↔ Reachable grid start goal) ∧
    (¬ Reachable grid start goal → findPath grid start goal = some (false, [])) ∧
    (goal ≠ start → isValid grid goal 'e' = false →
      findPath grid start goal = some (false, [])) := by
  obtain ⟨r, hr, ht, hf⟩ := findPath_spec grid start goal
  obtain ⟨b, path⟩ := r
  have hunreach : ¬ Reachable grid start goal → findPath grid start goal = some (false, []) := by
    intro hn
    cases b with
    | true => exact absurd (ht rfl).1 hn
    | false =>
      have := (hf rfl).2
      simp only at this
      rw [hr, this]
  refine ⟨⟨?_, ?_⟩, hunreach, ?_⟩
  · rintro ⟨p, hp⟩
    rw [hr] at hp
    simp only [Option.some.injEq, Prod.mk.injEq] at hp
    exact (ht hp.1).1
  · intro hreach
    cases b with
    | true => exact ⟨path, hr⟩
    | false => exact absurd hreach (hf rfl).1
  · intro hne hv
    exact hunreach (not_reachable_of_invalid grid start goal hne hv)

/-- Witness for C2: in the open 3 x 3 room the corner (3,3) is found from (1,1). -/
theorem findPath_true_iff_reachable_witness :
    Interior ⟨1, 1⟩ ∧
    ((∃ path, findPath roomGrid ⟨1, 1⟩ ⟨3, 3⟩ = some (true, path)) ↔
      Reachable roomGrid ⟨1, 1⟩ ⟨3, 3⟩) :=
  ⟨by decide, (findPath_true_iff_reachable roomGrid ⟨1, 1⟩ ⟨3, 3⟩ (by decide)).1⟩

/-- C3: for an interior start, a path returned by `findPath` begins at the start, ends at
the goal, moves by exactly one cardinal step between consecutive positions, visits no
position twice, and every position after the first is enemy-valid. -/
theorem findPath_path_shape (grid : AllEntities) (start goal : Position)
    (path : List Position) (_hstart : Interior start)
    (h : findPath grid start goal = some (true, path)) :
    path.head? = some start ∧ path.getLast? = some goal ∧ List.Chain' Adjacent path ∧
      path.Nodup ∧ ∀ q ∈ path.tail, isValid grid q 'e' = true := by
  obtain ⟨r, hr, ht, _⟩ := findPath_spec grid start goal
  rw [hr] at h
  simp only [Option.some.injEq] at h
  subst h
  exact (ht rfl).2

/-- Witness for C3: the five-cell path found in the open 3 x 3 room. -/
theorem findPath_path_shape_witness :
    Interior ⟨1, 1⟩ ∧
    findPath roomGrid ⟨1, 1⟩ ⟨3, 3⟩ = some (true, [⟨1, 1⟩, ⟨1, 2⟩, ⟨2, 2⟩, ⟨3, 2⟩, ⟨3, 3⟩]) ∧
    ([⟨1, 1⟩, ⟨1, 2⟩, ⟨2, 2⟩, ⟨3, 2⟩, ⟨3, 3⟩] : List Position).Nodup :=
  ⟨by decide, by decide!,
    (findPath_path_shape roomGrid ⟨1, 1⟩ ⟨3, 3⟩ [⟨1, 1⟩, ⟨1, 2⟩, ⟨2, 2⟩, ⟨3, 2⟩, ⟨3, 3⟩]
      (by decide) (by decide!)).2.2.2.1⟩

/-! ## Bomb blast: results -/

theorem range_cast (n : Nat) :
    ((List.range n : List Nat) : List Int) = (List.range n).map Int.ofNat := by
  induction (List.range n) with
  | nil => rfl
  | cons a l ih =>
    show (a :: l).flatMap (fun a => [(a : Int)]) = _
    rw [List.flatMap_cons, List.map_cons]
    exact congrArg (fun t => (a : Int) :: t) ih

theorem detonate_fold_flat (startX startY : Int) (ys : List Int) (xs : List Int) :
    ∀ st : List Particle × (Int → Int → Nat),
      xs.foldl (fun st i =>
          ys.foldl (fun st j => detonateCell st (startX + i) (startY + j)) st) st =
        (blastCells startX startY xs ys).foldl (fun st c => detonateCell st c.1 c.2) st := by
  unfold blastCells
  induction xs with
  | nil => intro st; rfl
  | cons i xs ih =>
    intro st
    rw [List.foldl_cons, ih, List.flatMap_cons, List.foldl_append, List.foldl_map]

theorem detonate_fold_cells (cells : List (Int × Int)) :
    ∀ st : List Particle × (Int → Int → Nat),
      (cells.foldl (fun st c => detonateCell st c.1 c.2) st).1 =
          ((cells.filter (fun c => decide (Interior ⟨c.1, c.2⟩))).reverse.map
            (fun c => (⟨⟨c.1, c.2⟩, 35, FPS / 2⟩ : Particle))) ++ st.1 ∧
      ∀ y x, (cells.foldl (fun st c => detonateCell st c.1 c.2) st).2 y x =
        if (x, y) ∈ cells ∧ Interior ⟨x, y⟩ then BLANK else st.2 y x := by
  induction cells with
  | nil => intro st; simp
  | cons c cells ih =>
    intro st
    rw [List.foldl_cons]
    obtain ⟨h1, h2⟩ := ih (detonateCell st c.1 c.2)
    have hint : (c.1 ≥ 1 ∧ c.1 < GRID_SIZE - 1 ∧ c.2 ≥ 1 ∧ c.2 < GRID_SIZE - 1) ↔
        Interior ⟨c.1, c.2⟩ := by
      unfold Interior; simp only [GRID_SIZE]; omega
    by_cases hc : Interior ⟨c.1, c.2⟩
    · have hd : detonateCell st c.1 c.2 =
          (addNewParticle st.1 ⟨c.1, c.2⟩ 35 (FPS / 2), setCell st.2 c.2 c.1 BLANK) := by
        unfold detonateCell; rw [if_pos (hint.mpr hc)]
      constructor
      · rw [h1, hd]
        simp [List.filter_cons, hc, addNewParticle]
      · intro y x
        rw [h2, hd]
        simp only [setCell, List.mem_cons]
        by_cases hm : (x, y) ∈ cells ∧ Interior ⟨x, y⟩
        · rw [if_pos hm, if_pos ⟨Or.inr hm.1, hm.2⟩]
        · rw [if_neg hm]
          by_cases he : (x, y) = c
          · subst he
            rw [if_pos ⟨rfl, rfl⟩, if_pos ⟨Or.inl rfl, hc⟩]
          · have hne : ¬ (y = c.2 ∧ x = c.1) := by
              rintro ⟨rfl, rfl⟩; exact he rfl
            rw [if_neg hne]
            by_cases hm2 : ((x, y) = c ∨ (x, y) ∈ cells) ∧ Interior ⟨x, y⟩
            · exfalso
              rcases hm2.1 with h | h
              · exact he h
              · exact hm ⟨h, hm2.2⟩
            · rw [if_neg hm2]
    · have hd : detonateCell st c.1 c.2 = st := by
        unfold detonateCell; rw [if_neg (fun h => hc (hint.mp h))]
      constructor
      · rw [h1, hd]
        simp [List.filter_cons, hc]
      · intro y x
        rw [h2, hd]
        simp only [List.mem_cons]
        by_cases hm : (x, y) ∈ cells ∧ Interior ⟨x, y⟩
        · rw [if_pos hm, if_pos ⟨Or.inr hm.1, hm.2⟩]
        · rw [if_neg hm]
          by_cases hm2 : ((x, y) = c ∨ (x, y) ∈ cells) ∧ Interior ⟨x, y⟩
          · exfalso
            rcases hm2.1 with h | h
            · subst h; exact hc hm2.2
            · exact hm ⟨h, hm2.2⟩
          · rw [if_neg hm2]

theorem mem_blastCells (startX startY : Int) (nx ny : Nat) (x y : Int) :
    (x, y) ∈ blastCells startX startY ((List.range nx).map Int.ofNat)
        ((List.range ny).map Int.ofNat) ↔
      startX ≤ x ∧ x < startX + nx ∧ startY ≤ y ∧ y < startY + ny := by
  unfold blastCells
  simp only [List.mem_flatMap, List.mem_map, List.mem_range, Prod.mk.injEq]
  constructor
  · rintro ⟨i, ⟨a, ha, rfl⟩, j, ⟨b, hb, rfl⟩, rfl, rfl⟩
    simp only [Int.ofNat_eq_coe]
    omega
  · rintro ⟨h1, h2, h3, h4⟩
    exact ⟨x - startX, ⟨(x - startX).toNat, by omega, by simp only [Int.ofNat_eq_coe]; omega⟩,
      y - startY, ⟨(y - startY).toNat, by omega, by simp only [Int.ofNat_eq_coe]; omega⟩,
      by omega, by omega⟩

theorem nodup_blastCells (startX startY : Int) (nx ny : Nat) :
    (blastCells startX startY ((List.range nx).map Int.ofNat)
        ((List.range ny).map Int.ofNat)).Nodup := by
  have hinj : Function.Injective Int.ofNat := fun a b h => Int.ofNat.inj h
  unfold blastCells
  rw [List.nodup_flatMap]
  constructor
  · intro i _
    apply List.Nodup.map _ ((List.nodup_range ny).map hinj)
    intro a b hab
    simp only [Prod.mk.injEq, true_and] at hab
    omega
  · refine List.Pairwise.imp ?_ ((List.nodup_range nx).map hinj)
    intro a b hab
    simp only [Function.onFun]
    intro c hc1 hc2
    simp only [List.mem_map, List.mem_range] at hc1 hc2
    obtain ⟨j1, _, rfl⟩ := hc1
    obtain ⟨j2, _, h2⟩ := hc2
    simp only [Prod.mk.injEq] at h2
    omega

/-- C11: `detonateBomb(pos, r)` puts in front of the previous explosion list exactly one
particle, with marker `'#'` (35) and timer `FPS / 2 = 5`, for every cell that lies in the
`(2r+1) x (2r+1)` block centred on `pos` and inside the border; it blanks the wall layer at
exactly those cells and leaves every other wall-layer cell as it was. -/
theorem detonateBomb_spec (explosionHead : List Particle) (pos : Position)
    (blastRadius : Int) (wallLayer : Int → Int → Nat) :
    ∃ added : List Particle,
      (detonateBomb explosionHead pos blastRadius wallLayer).1 = added ++ explosionHead ∧
      (∀ q ∈ added, q.marker = 35 ∧ q.timer = 5 ∧ q.timer = FPS / 2) ∧
      (added.map (fun q => q.pos)).Nodup ∧
      (∀ c : Position, c ∈ added.map (fun q => q.pos) ↔
        (pos.x - blastRadius ≤ c.x ∧ c.x ≤ pos.x + blastRadius ∧
          pos.y - blastRadius ≤ c.y ∧ c.y ≤ pos.y + blastRadius) ∧ Interior c) ∧
      (∀ y x, (detonateBomb explosionHead pos blastRadius wallLayer).2 y x =
        if (pos.x - blastRadius ≤ x ∧ x ≤ pos.x + blastRadius ∧
            pos.y - blastRadius ≤ y ∧ y ≤ pos.y + blastRadius) ∧ Interior ⟨x, y⟩ then BLANK
        else wallLayer y x) := by
  unfold detonateBomb
  simp only
  rw [range_cast, range_cast]
  generalize hnx : (pos.x + blastRadius - (pos.x - blastRadius) + 1).toNat = nx
  generalize hny : (pos.y + blastRadius - (pos.y - blastRadius) + 1).toNat = ny
  rw [detonate_fold_flat]
  obtain ⟨h1, h2⟩ := detonate_fold_cells
    (blastCells (pos.x - blastRadius) (pos.y - blastRadius) ((List.range nx).map Int.ofNat)
      ((List.range ny).map Int.ofNat)) (explosionHead, wallLayer)
  have hmem := mem_blastCells (pos.x - blastRadius) (pos.y - blastRadius) nx ny
  have hblock : ∀ x y : Int,
      (pos.x - blastRadius ≤ x ∧ x < pos.x - blastRadius + (nx : Int) ∧
        pos.y - blastRadius ≤ y ∧ y < pos.y - blastRadius + (ny : Int)) ↔
      (pos.x - blastRadius ≤ x ∧ x ≤ pos.x + blastRadius ∧
        pos.y - blastRadius ≤ y ∧ y ≤ pos.y + blastRadius) := by
    intro x y; omega
  refine ⟨_, h1, ?_, ?_, ?_, ?_⟩
  · intro q hq
    simp only [List.mem_map, List.mem_reverse, List.mem_filter] at hq
    obtain ⟨c, _, rfl⟩ := hq
    exact ⟨rfl, rfl, rfl⟩
  · rw [List.map_map]
    apply List.Nodup.map
    · intro a b hab
      simp only [Function.comp, Position.mk.injEq] at hab
      exact Prod.ext hab.1 hab.2
    · exact List.nodup_reverse.mpr
        ((nodup_blastCells (pos.x - blastRadius) (pos.y - blastRadius) nx ny).filter _)
  · intro c
    simp only [List.map_map, List.mem_map, List.mem_reverse, List.mem_filter, Function.comp,
      decide_eq_true_eq]
    constructor
    · rintro ⟨a, ⟨ha1, ha2⟩, rfl⟩
      exact ⟨(hblock _ _).mp ((hmem a.1 a.2).mp ha1), ha2⟩
    · rintro ⟨hb, hi⟩
      exact ⟨(c.x, c.y), ⟨(hmem c.x c.y).mpr ((hblock _ _).mpr hb), hi⟩, rfl⟩
  · intro y x
    rw [h2]
    have hiff : ((x, y) ∈ blastCells (pos.x - blastRadius) (pos.y - blastRadius)
        ((List.range nx).map Int.ofNat) ((List.range ny).map Int.ofNat) ∧ Interior ⟨x, y⟩) ↔
        ((pos.x - blastRadius ≤ x ∧ x ≤ pos.x + blastRadius ∧
          pos.y - blastRadius ≤ y ∧ y ≤ pos.y + blastRadius) ∧ Interior ⟨x, y⟩) := by
      rw [hmem, hblock]
    by_cases hc : (pos.x - blastRadius ≤ x ∧ x ≤ pos.x + blastRadius ∧
          pos.y - blastRadius ≤ y ∧ y ≤ pos.y + blastRadius) ∧ Interior ⟨x, y⟩
    · rw [if_pos hc, if_pos (hiff.mpr hc)]
    · rw [if_neg hc, if_neg (fun h => hc (hiff.mp h))]

/-! ## Roam order -/

theorem swapPositions_perm (path : List Position) (a b : Nat) (ha : a < path.length)
    (hb : b < path.length) : (swapPositions path a b).Perm path := by
  rw [List.perm_iff_count]
  intro v
  unfold swapPositions
  rw [List.count_set _ _ _ _ (by simpa using hb), List.count_set _ _ _ _ ha]
  simp only [List.getD_eq_getElem?_getD, List.getElem_set, List.getElem?_eq_getElem ha,
    List.getElem?_eq_getElem hb, Option.getD_some]
  have h1 : path[a] = v → 0 < List.count v path := by
    intro h; rw [← h]; exact List.count_pos_iff.mpr (List.getElem_mem ha)
  have h2 : path[b] = v → 0 < List.count v path := by
    intro h; rw [← h]; exact List.count_pos_iff.mpr (List.getElem_mem hb)
  by_cases hab : a = b
  · subst hab
    simp only [if_true, beq_iff_eq]
    by_cases hv : path[a] = v
    · have := h1 hv
      simp [hv]; omega
    · simp [hv]
  · simp only [if_neg hab, beq_iff_eq]
    by_cases hva : path[a] = v <;> by_cases hvb : path[b] = v
    · have := h1 hva; simp [hva, hvb]; omega
    · have := h1 hva; simp [hva, hvb]; omega
    · have := h2 hvb; simp [hva, hvb]
    · simp [hva, hvb]

theorem shuffleLoop_perm (i : Nat) :
    ∀ (roamArr : List Position) (src : RandomSource), i < roamArr.length →
      (shuffleLoop i roamArr src).1.Perm roamArr := by
  induction i with
  | zero => intro roamArr src _; exact List.Perm.refl _
  | succ i ih =>
    intro roamArr src hi
    rw [shuffleLoop]
    have hj : src 0 % (i + 1 + 1) < roamArr.length :=
      lt_of_lt_of_le (Nat.mod_lt _ (Nat.succ_pos _)) (by omega)
    exact (ih _ _ (by rw [swapPositions_length]; omega)).trans
      (swapPositions_perm roamArr (i + 1) _ hi hj)

theorem shuffleArr_perm (roamArr : List Position) (size : Nat) (src : RandomSource)
    (hsize : size ≤ roamArr.length) : (shuffleArr roamArr size src).1.Perm roamArr := by
  unfold shuffleArr
  cases hl : roamArr with
  | nil =>
    rw [hl] at hsize
    have : size = 0 := by simpa using hsize
    subst this
    exact List.Perm.refl _
  | cons p t =>
    apply shuffleLoop_perm
    rw [hl] at hsize
    simp only [List.length_cons] at hsize ⊢
    omega

/-- C19: for every array, every size within the array and every sequence of random draws,
`shuffleArr` returns a permutation of its input: same length, same multiset of positions;
an array of pairwise distinct cells stays pairwise distinct. -/
theorem shuffleArr_permutation (roamArr : List Position) (size : Nat) (src : RandomSource)
    (hsize : size ≤ roamArr.length) :
    (shuffleArr roamArr size src).1.Perm roamArr ∧
    (shuffleArr roamArr size src).1.length = roamArr.length ∧
    (∀ p, (shuffleArr roamArr size src).1.count p = roamArr.count p) ∧
    (roamArr.Nodup → (shuffleArr roamArr size src).1.Nodup) := by
  have h := shuffleArr_perm roamArr size src hsize
  exact ⟨h, h.length_eq, fun p => h.count_eq p, fun hn => h.nodup_iff.mpr hn⟩

/-- Witness for C19: three cells shuffled with the draws 1, 0, 0, ... -/
theorem shuffleArr_permutation_witness :
    3 ≤ ([⟨1, 1⟩, ⟨1, 2⟩, ⟨1, 3⟩] : List Position).length ∧
    (shuffleArr [⟨1, 1⟩, ⟨1, 2⟩, ⟨1, 3⟩] 3 (fun n => if n = 0 then 1 else 0)).1.Perm
      [⟨1, 1⟩, ⟨1, 2⟩, ⟨1, 3⟩] :=
  ⟨by decide,
    (shuffleArr_permutation [⟨1, 1⟩, ⟨1, 2⟩, ⟨1, 3⟩] 3 (fun n => if n = 0 then 1 else 0)
      (by decide)).1⟩

theorem mem_roamCells (p : Position) :
    p ∈ roamCells ↔ 1 ≤ p.x ∧ p.x ≤ 20 ∧ 1 ≤ p.y ∧ p.y ≤ 20 := by
  unfold roamCells
  simp only [GRID_SIZE, List.mem_flatMap, List.mem_map, List.mem_range, Int.ofNat_eq_coe]
  constructor
  · rintro ⟨i, hi, j, hj, rfl⟩
    simp only
    have h20 : (23 - 2 - 1 : Int).toNat = 20 := rfl
    rw [h20] at hi hj
    omega
  · rintro ⟨h1, h2, h3, h4⟩
    have h20 : (23 - 2 - 1 : Int).toNat = 20 := rfl
    refine ⟨(p.x - 1).toNat, by rw [h20]; omega, (p.y - 1).toNat, by rw [h20]; omega, ?_⟩
    cases p
    simp only [Position.mk.injEq] at *
    omega

theorem roamCells_nodup : roamCells.Nodup := by
  unfold roamCells
  rw [List.nodup_flatMap]
  constructor
  · intro i _
    apply List.Nodup.map _ (List.nodup_range _)
    intro a b hab
    simp only [Position.mk.injEq, Int.ofNat_eq_coe, true_and] at hab
    omega
  · refine List.Pairwise.imp ?_ (List.nodup_range _)
    intro a b hab
    simp only [Function.onFun]
    intro c hc1 hc2
    simp only [List.mem_map, List.mem_range] at hc1 hc2
    obtain ⟨j1, _, rfl⟩ := hc1
    obtain ⟨j2, _, h2⟩ := hc2
    simp only [Position.mk.injEq, Int.ofNat_eq_coe] at h2
    omega

theorem roamCells_length : roamCells.length = 400 := by
  decide!

/-- C18 (code defect): for every sequence of random draws the roam order holds 400 pairwise
distinct cells, exactly those with both coordinates between 1 and 20; the interior cell
(21,1), like the rest of column 21 and row 21, is not in it. -/
theorem initializeRoamArr_misses_cells (src : RandomSource) :
    (initializeRoamArr src).1.length = 400 ∧
    (initializeRoamArr src).1.Nodup ∧
    (∀ p, p ∈ (initializeRoamArr src).1 ↔ 1 ≤ p.x ∧ p.x ≤ 20 ∧ 1 ≤ p.y ∧ p.y ≤ 20) ∧
    Interior ⟨21, 1⟩ ∧ (⟨21, 1⟩ : Position) ∉ (initializeRoamArr src).1 := by
  have h := shuffleArr_perm roamCells roamCells.length src (le_refl _)
  have hmem : ∀ p, p ∈ (initializeRoamArr src).1 ↔ 1 ≤ p.x ∧ p.x ≤ 20 ∧ 1 ≤ p.y ∧ p.y ≤ 20 := by
    intro p
    unfold initializeRoamArr
    rw [h.mem_iff, mem_roamCells]
  refine ⟨?_, ?_, hmem, by decide, ?_⟩
  · unfold initializeRoamArr
    rw [h.length_eq, roamCells_length]
  · unfold initializeRoamArr
    exact h.nodup_iff.mpr roamCells_nodup
  · rw [hmem]
    simp

/-! ## Bullets -/

theorem isValid_bullet_itemLayer (grid : AllEntities) (itemLayer : Int → Int → Nat)
    (p : Position) :
    isValid { grid with itemLayer := itemLayer } p 'b' = isValid grid p 'b' := by
  unfold isValid
  simp

theorem updateBullets_append (l1 l2 : List Bullet) :
    ∀ (ex : List Particle) (grid : AllEntities),
      updateBullets (l1 ++ l2) ex grid =
        { updateBullets l2 (updateBullets l1 ex grid).explosions (updateBullets l1 ex grid).grid with
          bullets := (updateBullets l1 ex grid).bullets ++
            (updateBullets l2 (updateBullets l1 ex grid).explosions
              (updateBullets l1 ex grid).grid).bullets } := by
  induction l1 with
  | nil => intro ex grid; simp [updateBullets]
  | cons c l1 ih =>
    intro ex grid
    rw [List.cons_append]
    simp only [updateBullets]
    split
    · split
      · exact ih _ _
      · exact ih _ _
    · rw [ih]
      simp

theorem updateBullets_wall_blank (l : List Bullet) :
    ∀ (ex : List Particle) (grid : AllEntities) (y x : Int),
      grid.wallLayer y x = BLANK → (updateBullets l ex grid).grid.wallLayer y x = BLANK := by
  induction l with
  | nil => intro ex grid y x h; exact h
  | cons c l ih =>
    intro ex grid y x h
    simp only [updateBullets]
    split
    · split
      · apply ih
        simp only [setCell]
        split
        · rfl
        · exact h
      · exact ih _ _ _ _ h
    · exact ih _ _ _ _ h

theorem updateBullets_explosions_mem (l : List Bullet) :
    ∀ (ex : List Particle) (grid : AllEntities) (q : Particle),
      q ∈ ex → q ∈ (updateBullets l ex grid).explosions := by
  induction l with
  | nil => intro ex grid q h; exact h
  | cons c l ih =>
    intro ex grid q h
    simp only [updateBullets]
    split
    · split
      · exact ih _ _ _ (List.mem_cons_of_mem _ h)
      · exact ih _ _ _ (List.mem_cons_of_mem _ h)
    · exact ih _ _ _ h

theorem updateBullets_sublist (l : List Bullet) :
    ∀ (ex : List Particle) (grid : AllEntities),
      ∃ kept : List Bullet, kept.Sublist l ∧
        (updateBullets l ex grid).bullets = kept.map (fun c => { c with pos := nextCell c }) := by
  induction l with
  | nil => intro ex grid; exact ⟨[], List.Sublist.refl _, rfl⟩
  | cons c l ih =>
    intro ex grid
    simp only [updateBullets]
    split
    · split
      · obtain ⟨kept, h1, h2⟩ := ih (addNewParticle ex (nextCell c) EXPLOSION_MARKER 5)
          { grid with
            itemLayer := setCell grid.itemLayer c.pos.y c.pos.x BLANK,
            wallLayer := setCell grid.wallLayer (nextCell c).y (nextCell c).x BLANK }
        exact ⟨kept, h1.cons _, h2⟩
      · obtain ⟨kept, h1, h2⟩ := ih (addNewParticle ex c.pos EXPLOSION_MARKER 5)
          { grid with itemLayer := setCell grid.itemLayer c.pos.y c.pos.x BLANK }
        exact ⟨kept, h1.cons _, h2⟩
    · obtain ⟨kept, h1, h2⟩ := ih ex
        { grid with
          itemLayer := setCell (setCell grid.itemLayer c.pos.y c.pos.x BLANK)
            (nextCell c).y (nextCell c).x BULLET_MARKER }
      exact ⟨c :: kept, h1.cons₂ _, by simp only [List.map_cons]; rw [← h2]⟩

/-- C12: in a list of well-formed bullets (inside the border, direction 0..3), a bullet
`b` whose next cell is inside the border but not bullet-valid
when `b` is processed (that is, in the grid left by the bullets before it) is dropped from
the list; the call goes on with the bullets after it from a state in which the wall layer
at that next cell is blank and one particle with marker `'#'` and timer 5, placed at the
next cell, heads the explosion list.  At the end of the call the wall layer there is still
blank and the particle is in the explosion list. -/
theorem updateBullets_impact (pre post : List Bullet) (b : Bullet) (ex : List Particle)
    (grid : AllEntities) (_hwf : ∀ c ∈ pre ++ b :: post, WellFormedBullet c)
    (hin : Interior (nextCell b))
    (hinv : isValid (updateBullets pre ex grid).grid (nextCell b) 'b' = false) :
    updateBullets (pre ++ b :: post) ex grid =
      { updateBullets post
          (addNewParticle (updateBullets pre ex grid).explosions (nextCell b) EXPLOSION_MARKER 5)
          { (updateBullets pre ex grid).grid with
            itemLayer := setCell (updateBullets pre ex grid).grid.itemLayer b.pos.y b.pos.x BLANK,
            wallLayer := setCell (updateBullets pre ex grid).grid.wallLayer
              (nextCell b).y (nextCell b).x BLANK } with
        bullets := (updateBullets pre ex grid).bullets ++
          (updateBullets post
            (addNewParticle (updateBullets pre ex grid).explosions (nextCell b)
              EXPLOSION_MARKER 5)
            { (updateBullets pre ex grid).grid with
              itemLayer := setCell (updateBullets pre ex grid).grid.itemLayer b.pos.y b.pos.x
                BLANK,
              wallLayer := setCell (updateBullets pre ex grid).grid.wallLayer
                (nextCell b).y (nextCell b).x BLANK }).bullets } ∧
    (updateBullets (pre ++ b :: post) ex grid).grid.wallLayer (nextCell b).y (nextCell b).x
      = BLANK ∧
    (⟨nextCell b, EXPLOSION_MARKER, 5⟩ : Particle) ∈
      (updateBullets (pre ++ b :: post) ex grid).explosions := by
  have hbounds : (nextCell b).x ≥ 1 ∧ (nextCell b).x < GRID_SIZE - 1 ∧ (nextCell b).y ≥ 1 ∧
      (nextCell b).y < GRID_SIZE - 1 := by
    unfold Interior at hin; simp only [GRID_SIZE] at hin ⊢; omega
  have hstep : updateBullets (pre ++ b :: post) ex grid = _ := updateBullets_append pre (b :: post) ex grid
  have hb : ∀ (e : List Particle) (g : AllEntities), isValid g (nextCell b) 'b' = false →
      updateBullets (b :: post) e g =
        updateBullets post (addNewParticle e (nextCell b) EXPLOSION_MARKER 5)
          { g with
            itemLayer := setCell g.itemLayer b.pos.y b.pos.x BLANK,
            wallLayer := setCell g.wallLayer (nextCell b).y (nextCell b).x BLANK } := by
    intro e g hg
    simp only [updateBullets, isValid_bullet_itemLayer, hg, if_true, hbounds, and_self]
  rw [hb _ _ hinv] at hstep
  refine ⟨hstep, ?_, ?_⟩
  · rw [hstep]
    apply updateBullets_wall_blank
    simp [setCell]
  · rw [hstep]
    apply updateBullets_explosions_mem
    exact List.mem_cons_self _ _

/-- Witness for C12: a bullet at (7,5) travelling right (direction 3) towards the wall at
(8,5). -/
theorem updateBullets_impact_witness :
    (updateBullets ([] ++ (⟨⟨7, 5⟩, 3⟩ : Bullet) :: []) [] corridorGrid).grid.wallLayer 5 8
      = BLANK ∧
    (⟨⟨8, 5⟩, EXPLOSION_MARKER, 5⟩ : Particle) ∈
      (updateBullets ([] ++ (⟨⟨7, 5⟩, 3⟩ : Bullet) :: []) [] corridorGrid).explosions ∧
    (updateBullets ([] ++ (⟨⟨7, 5⟩, 3⟩ : Bullet) :: []) [] corridorGrid).bullets = [] :=
  ⟨(updateBullets_impact [] [] ⟨⟨7, 5⟩, 3⟩ [] corridorGrid
      (by intro c hc; simp only [List.nil_append, List.mem_singleton] at hc; subst hc; decide)
      (by decide) (by decide)).2.1,
    (updateBullets_impact [] [] ⟨⟨7, 5⟩, 3⟩ [] corridorGrid
      (by intro c hc; simp only [List.nil_append, List.mem_singleton] at hc; subst hc; decide)
      (by decide) (by decide)).2.2,
    by decide⟩

/-- C13: in a list of well-formed bullets (inside the border, direction 0..3), a bullet
`b` whose next cell lies on the outer border is dropped from
the list; the call goes on with the bullets after it from a state whose wall layer is the
one the bullets before `b` left, and whose explosion list is headed by one particle with
marker `'#'` and timer 5 placed at the bullet's own cell. -/
theorem updateBullets_border (pre post : List Bullet) (b : Bullet) (ex : List Particle)
    (grid : AllEntities) (_hwf : ∀ c ∈ pre ++ b :: post, WellFormedBullet c)
    (hborder : (nextCell b).x = 0 ∨ (nextCell b).x = GRID_SIZE - 1 ∨ (nextCell b).y = 0 ∨
      (nextCell b).y = GRID_SIZE - 1) :
    updateBullets (pre ++ b :: post) ex grid =
      { updateBullets post
          (addNewParticle (updateBullets pre ex grid).explosions b.pos EXPLOSION_MARKER 5)
          { (updateBullets pre ex grid).grid with
            itemLayer := setCell (updateBullets pre ex grid).grid.itemLayer b.pos.y b.pos.x
              BLANK } with
        bullets := (updateBullets pre ex grid).bullets ++
          (updateBullets post
            (addNewParticle (updateBullets pre ex grid).explosions b.pos EXPLOSION_MARKER 5)
            { (updateBullets pre ex grid).grid with
              itemLayer := setCell (updateBullets pre ex grid).grid.itemLayer b.pos.y b.pos.x
                BLANK }).bullets } ∧
    (⟨b.pos, EXPLOSION_MARKER, 5⟩ : Particle) ∈
      (updateBullets (pre ++ b :: post) ex grid).explosions := by
  have hbounds : ¬ ((nextCell b).x ≥ 1 ∧ (nextCell b).x < GRID_SIZE - 1 ∧ (nextCell b).y ≥ 1 ∧
      (nextCell b).y < GRID_SIZE - 1) := by
    simp only [GRID_SIZE] at hborder ⊢; omega
  have hinv : ∀ g : AllEntities, isValid g (nextCell b) 'b' = false := by
    intro g
    unfold isValid
    rw [if_pos (by simp only [GRID_SIZE] at hborder ⊢; omega)]
  have hstep : updateBullets (pre ++ b :: post) ex grid = _ := updateBullets_append pre (b :: post) ex grid
  have hb : ∀ (e : List Particle) (g : AllEntities),
      updateBullets (b :: post) e g =
        updateBullets post (addNewParticle e b.pos EXPLOSION_MARKER 5)
          { g with itemLayer := setCell g.itemLayer b.pos.y b.pos.x BLANK } := by
    intro e g
    simp only [updateBullets, hinv, if_true, hbounds, if_false]
  rw [hb] at hstep
  refine ⟨hstep, ?_⟩
  rw [hstep]
  apply updateBullets_explosions_mem
  exact List.mem_cons_self _ _

/-- Witness for C13: a bullet at (21,5) travelling right towards the border cell (22,5). -/
theorem updateBullets_border_witness :
    (⟨⟨21, 5⟩, EXPLOSION_MARKER, 5⟩ : Particle) ∈
      (updateBullets ([] ++ (⟨⟨21, 5⟩, 3⟩ : Bullet) :: []) [] corridorGrid).explosions ∧
    (updateBullets ([] ++ (⟨⟨21, 5⟩, 3⟩ : Bullet) :: []) [] corridorGrid).bullets = [] ∧
    (updateBullets ([] ++ (⟨⟨21, 5⟩, 3⟩ : Bullet) :: []) [] corridorGrid).grid.wallLayer 5 22
      = corridorGrid.wallLayer 5 22 :=
  ⟨(updateBullets_border [] [] ⟨⟨21, 5⟩, 3⟩ [] corridorGrid
      (by intro c hc; simp only [List.nil_append, List.mem_singleton] at hc; subst hc; decide)
      (by decide)).2,
    by decide, by decide⟩

/-- C14: in a list of well-formed bullets (inside the border, direction 0..3), a bullet
`b` whose next cell is bullet-valid when `b` is processed
stays in the list, between the survivors of the bullets before it and of those after it,
at its next cell and with its direction unchanged; the call goes on from a grid in which
its old item-layer cell is blank and its new one holds the bullet marker 254, everything
else being as the bullets before `b` left it.  The bullets of the list after the call are
always a sub-sequence of those before it, each moved to its next cell. -/
theorem updateBullets_flight (pre post : List Bullet) (b : Bullet) (ex : List Particle)
    (grid : AllEntities) (_hwf : ∀ c ∈ pre ++ b :: post, WellFormedBullet c)
    (hvalid : isValid (updateBullets pre ex grid).grid (nextCell b) 'b' = true) :
    updateBullets (pre ++ b :: post) ex grid =
      { updateBullets post (updateBullets pre ex grid).explosions
          { (updateBullets pre ex grid).grid with
            itemLayer := setCell
              (setCell (updateBullets pre ex grid).grid.itemLayer b.pos.y b.pos.x BLANK)
              (nextCell b).y (nextCell b).x BULLET_MARKER } with
        bullets := (updateBullets pre ex grid).bullets ++
          { pos := nextCell b, direction := b.direction } ::
            (updateBullets post (updateBullets pre ex grid).explosions
              { (updateBullets pre ex grid).grid with
                itemLayer := setCell
                  (setCell (updateBullets pre ex grid).grid.itemLayer b.pos.y b.pos.x BLANK)
                  (nextCell b).y (nextCell b).x BULLET_MARKER }).bullets } ∧
    Adjacent b.pos (nextCell b) ∧
    ∃ kept : List Bullet, kept.Sublist (pre ++ b :: post) ∧
      (updateBullets (pre ++ b :: post) ex grid).bullets =
        kept.map (fun c => { pos := nextCell c, direction := c.direction }) := by
  have hstep : updateBullets (pre ++ b :: post) ex grid = _ := updateBullets_append pre (b :: post) ex grid
  have hb : ∀ (e : List Particle) (g : AllEntities), isValid g (nextCell b) 'b' = true →
      updateBullets (b :: post) e g =
        { updateBullets post e
            { g with
              itemLayer := setCell (setCell g.itemLayer b.pos.y b.pos.x BLANK)
                (nextCell b).y (nextCell b).x BULLET_MARKER } with
          bullets := { pos := nextCell b, direction := b.direction } ::
            (updateBullets post e
              { g with
                itemLayer := setCell (setCell g.itemLayer b.pos.y b.pos.x BLANK)
                  (nextCell b).y (nextCell b).x BULLET_MARKER }).bullets } := by
    intro e g hg
    simp only [updateBullets, isValid_bullet_itemLayer, hg, Bool.true_eq_false, if_false]
  rw [hb _ _ hvalid] at hstep
  refine ⟨hstep, ?_, updateBullets_sublist _ ex grid⟩
  have hd := (_hwf b (by simp)).2
  have h4 : b.direction = 0 ∨ b.direction = 1 ∨ b.direction = 2 ∨ b.direction = 3 := by omega
  unfold Adjacent calculateHCost nextCell
  rcases h4 with h | h | h | h <;> rw [h] <;> simp [dx, dy]

/-- Witness for C14: a bullet at (5,5) travelling right over blank cells. -/
theorem updateBullets_flight_witness :
    (updateBullets ([] ++ (⟨⟨5, 5⟩, 3⟩ : Bullet) :: []) [] corridorGrid).bullets
      = [⟨⟨6, 5⟩, 3⟩] ∧
    Adjacent (⟨5, 5⟩ : Position) (nextCell ⟨⟨5, 5⟩, 3⟩) :=
  ⟨by decide,
    (updateBullets_flight [] [] ⟨⟨5, 5⟩, 3⟩ [] corridorGrid
      (by intro c hc; simp only [List.nil_append, List.mem_singleton] at hc; subst hc; decide)
      (by decide)).2.1⟩

/-! ## Enemy movement: results -/

theorem roamLoop_spec (grid : AllEntities) :
    ∀ (fuel : Nat) (enemy : Enemy) (shuffleCounter : Nat) (src : RandomSource),
      0 ≤ enemy.roamIndex →
      (NUM_SQUARES - enemy.roamIndex).toNat + 1 + (if shuffleCounter = 0 then 400 else 0)
        ≤ fuel →
      ∃ e src', roamLoop grid fuel enemy shuffleCounter src = some (e, src') ∧
        e.pos = enemy.pos ∧ RoamTarget grid enemy.pos e.playerLSP := by
  intro fuel
  induction fuel with
  | zero => intro enemy sc src _ h; omega
  | succ fuel ih =>
    intro enemy sc src hidx hfuel
    have hN : NUM_SQUARES = 400 := rfl
    rw [roamLoop]
    generalize shuffleArr enemy.roamArr NUM_SQUARES.toNat src = sh
    by_cases hre : enemy.roamIndex ≥ NUM_SQUARES
    · have hd : decide (enemy.roamIndex ≥ NUM_SQUARES) = true := decide_eq_true hre
      rw [hd]
      simp only [if_true]
      by_cases hsc : sc + 1 > 1
      · rw [if_pos hsc]
        exact ⟨_, _, rfl, rfl, Or.inl rfl⟩
      · rw [if_neg hsc]
        have hsc0 : sc = 0 := by omega
        subst hsc0
        obtain ⟨r, hr, -, -⟩ := findPath_spec grid enemy.pos
          (sh.1.getD (0 : Int).toNat INVALID_POS)
        simp only [hr]
        by_cases hc : (!r.1 || !isValid grid
            (sh.1.getD (0 : Int).toNat
              INVALID_POS) 'e') = true
        · rw [if_pos hc]
          refine ih _ _ _ (by simp) ?_
          rw [if_pos rfl] at hfuel
          simp only [hN]
          simp
          omega
        · rw [if_neg hc]
          refine ⟨_, _, rfl, rfl, Or.inr ?_⟩
          simp only [Bool.or_eq_true, Bool.not_eq_true', not_or, Bool.not_eq_false] at hc
          refine ⟨hc.2, r.2, ?_⟩
          rw [hr]
          congr 1
          exact Prod.ext hc.1 rfl
    · have hd : decide (enemy.roamIndex ≥ NUM_SQUARES) = false := decide_eq_false hre
      rw [hd]
      simp only [Bool.false_eq_true, if_false]
      by_cases hsc : sc > 1
      · rw [if_pos hsc]
        exact ⟨_, _, rfl, rfl, Or.inl rfl⟩
      · rw [if_neg hsc]
        obtain ⟨r, hr, -, -⟩ := findPath_spec grid enemy.pos
          (enemy.roamArr.getD enemy.roamIndex.toNat INVALID_POS)
        simp only [hr]
        by_cases hc : (!r.1 || !isValid grid
            (enemy.roamArr.getD enemy.roamIndex.toNat INVALID_POS) 'e') = true
        · rw [if_pos hc]
          refine ih _ _ _ (by simp; omega) ?_
          simp only [hN] at hfuel hre ⊢
          split_ifs at hfuel ⊢ <;> omega
        · rw [if_neg hc]
          refine ⟨_, _, rfl, rfl, Or.inr ?_⟩
          simp only [Bool.or_eq_true, Bool.not_eq_true', not_or, Bool.not_eq_false] at hc
          refine ⟨hc.2, r.2, ?_⟩
          rw [hr]
          congr 1
          exact Prod.ext hc.1 rfl

/-- C20: `roamToUnvisited` returns for every enemy whose roam cursor is not negative (the
loop needs at most 801 rounds), leaves the enemy where it is, and leaves in `playerLSP`
either `INVALID_POS` or a cell that is enemy-valid and to which `findPath` from the enemy's
position succeeds; when `canMove` is false the target is `INVALID_POS` and the roam array,
the roam cursor and the random source are unchanged. -/
theorem roamToUnvisited_spec (enemy : Enemy) (grid : AllEntities) (src : RandomSource)
    (hidx : 0 ≤ enemy.roamIndex) :
    ∃ e src', roamToUnvisited enemy grid src = some (e, src') ∧
      e.pos = enemy.pos ∧
      (e.playerLSP = INVALID_POS ∨
        (isValid grid e.playerLSP 'e' = true ∧
          ∃ path, findPath grid enemy.pos e.playerLSP = some (true, path))) ∧
      (canMove enemy.pos grid = false →
        e.playerLSP = INVALID_POS ∧ e.roamArr = enemy.roamArr ∧
          e.roamIndex = enemy.roamIndex ∧ src' = src) := by
  unfold roamToUnvisited
  by_cases hcan : canMove enemy.pos grid = false
  · rw [if_pos hcan]
    exact ⟨_, _, rfl, rfl, Or.inl rfl, fun _ => ⟨rfl, rfl, rfl, rfl⟩⟩
  · rw [if_neg hcan]
    obtain ⟨e, src', h1, h2, h3⟩ := roamLoop_spec grid (2 * NUM_SQUARES + 2).toNat enemy 0 src hidx
      (by
        have hN : NUM_SQUARES = 400 := rfl
        simp only [hN]
        simp
        omega)
    exact ⟨e, src', h1, h2, h3, fun h => absurd h hcan⟩

/-- C20 on `teleportGrid`: a fresh basic enemy at (3,3). -/
theorem roamToUnvisited_spec_witness :
    0 ≤ (enemyAt BASIC_ENEMY ⟨3, 3⟩ 10 0).roamIndex ∧
      ∃ e src', roamToUnvisited (enemyAt BASIC_ENEMY ⟨3, 3⟩ 10 0) teleportGrid zeroSource =
          some (e, src') ∧
        e.pos = (enemyAt BASIC_ENEMY ⟨3, 3⟩ 10 0).pos ∧
        (e.playerLSP = INVALID_POS ∨
          (isValid teleportGrid e.playerLSP 'e' = true ∧
            ∃ path, findPath teleportGrid (enemyAt BASIC_ENEMY ⟨3, 3⟩ 10 0).pos e.playerLSP =
              some (true, path))) ∧
        (canMove (enemyAt BASIC_ENEMY ⟨3, 3⟩ 10 0).pos teleportGrid = false →
          e.playerLSP = INVALID_POS ∧ e.roamArr = (enemyAt BASIC_ENEMY ⟨3, 3⟩ 10 0).roamArr ∧
            e.roamIndex = (enemyAt BASIC_ENEMY ⟨3, 3⟩ 10 0).roamIndex ∧ src' = zeroSource) :=
  ⟨by decide, roamToUnvisited_spec _ teleportGrid zeroSource (by decide)⟩

theorem roamLoop_pos (grid : AllEntities) :
    ∀ (fuel : Nat) (enemy : Enemy) (shuffleCounter : Nat) (src : RandomSource)
      (r : Enemy × RandomSource),
      roamLoop grid fuel enemy shuffleCounter src = some r → r.1.pos = enemy.pos := by
  intro fuel
  induction fuel with
  | zero => intro enemy sc src r h; exact absurd h (by simp [roamLoop])
  | succ fuel ih =>
    intro enemy sc src r h
    rw [roamLoop] at h
    generalize shuffleArr enemy.roamArr NUM_SQUARES.toNat src = sh at h
    by_cases hre : enemy.roamIndex ≥ NUM_SQUARES
    · have hd : decide (enemy.roamIndex ≥ NUM_SQUARES) = true := decide_eq_true hre
      rw [hd] at h
      simp only [if_true] at h
      by_cases hsc : sc + 1 > 1
      · rw [if_pos hsc] at h
        cases h; rfl
      · rw [if_neg hsc] at h
        cases hf : findPath grid enemy.pos (sh.1.getD (0 : Int).toNat INVALID_POS) with
        | none => simp only [hf] at h; exact absurd h (by simp)
        | some found =>
          simp only [hf] at h
          split at h
          · have hpos := ih _ _ _ _ h
            exact hpos
          · cases h; rfl
    · have hd : decide (enemy.roamIndex ≥ NUM_SQUARES) = false := decide_eq_false hre
      rw [hd] at h
      simp only [Bool.false_eq_true, if_false] at h
      by_cases hsc : sc > 1
      · rw [if_pos hsc] at h
        cases h; rfl
      · rw [if_neg hsc] at h
        cases hf : findPath grid enemy.pos
            (enemy.roamArr.getD enemy.roamIndex.toNat INVALID_POS) with
        | none => simp only [hf] at h; exact absurd h (by simp)
        | some found =>
          simp only [hf] at h
          split at h
          · have hpos := ih _ _ _ _ h
            exact hpos
          · cases h; rfl

theorem roamToUnvisited_pos (enemy : Enemy) (grid : AllEntities) (src : RandomSource)
    (r : Enemy × RandomSource) (h : roamToUnvisited enemy grid src = some r) :
    r.1.pos = enemy.pos := by
  unfold roamToUnvisited at h
  split at h
  · cases h; rfl
  · exact roamLoop_pos grid _ _ _ _ _ h

theorem movePatrolEnemy_pos (grid : AllEntities) (patrol : Enemy) (oldPos : Position)
    (drawFuel : Nat) (src : RandomSource) (r : Enemy × Position × RandomSource)
    (h : movePatrolEnemy grid patrol oldPos drawFuel src = some r) : r.1.pos = patrol.pos := by
  unfold movePatrolEnemy at h
  split at h
  · exact absurd h (by simp)
  · cases h; rfl

theorem basicTurn_pos (t r : Turn) (h : basicTurn t = some r) : r.enemy.pos = t.enemy.pos := by
  unfold basicTurn at h
  split at h
  · cases hr : roamToUnvisited t.enemy t.grid t.src with
    | none => simp only [hr] at h; exact absurd h (by simp)
    | some p =>
      simp only [hr] at h
      cases h
      exact roamToUnvisited_pos _ _ _ _ hr
  · cases h; rfl

theorem patrolTurn_pos (drawFuel : Nat) (oldPos : Position) (t r : Turn)
    (h : patrolTurn drawFuel oldPos t = some r) : r.enemy.pos = t.enemy.pos := by
  unfold patrolTurn at h
  cases hr : movePatrolEnemy t.grid t.enemy oldPos drawFuel t.src with
  | none => simp only [hr] at h; exact absurd h (by simp)
  | some p =>
    simp only [hr] at h
    cases h
    exact movePatrolEnemy_pos _ _ _ _ _ _ hr

theorem teleporterTurn_pos (frameCounter : Int) (player : Player) (oldPos : Position)
    (t : Turn) : (teleporterTurn frameCounter player oldPos t).enemy.pos = t.enemy.pos := by
  unfold teleporterTurn
  split <;> rfl

theorem chaserTurn_pos (frameCounter : Int) (player : Player) (oldPos : Position) (t r : Turn)
    (h : chaserTurn frameCounter player oldPos t = some r) : r.enemy.pos = t.enemy.pos := by
  unfold chaserTurn at h
  cases hs : hasLineOfSight oldPos player.pos t.grid.wallLayer AGGRO_RADIUS with
  | none => simp only [hs] at h; exact absurd h (by simp)
  | some sees =>
    simp only [hs] at h
    cases sees <;> simp only [Bool.false_eq_true, if_false, if_true] at h <;>
      (split_ifs at h <;> cases h <;> rfl)

theorem trapperTurn_pos (frameCounter : Int) (t r : Turn)
    (h : trapperTurn frameCounter t = some r) : r.enemy.pos = t.enemy.pos := by
  unfold trapperTurn at h
  simp only at h
  split at h
  · cases h; rfl
  · split at h
    · cases hr : roamToUnvisited t.enemy t.grid t.src with
      | none => simp only [hr] at h; exact absurd h (by simp)
      | some p =>
        simp only [hr] at h
        cases h
        exact roamToUnvisited_pos _ _ _ _ hr
    · cases h; rfl

theorem burstTurn_pos (frameCounter : Int) (player : Player) (oldPos : Position)
    (t : Turn) : (burstTurn frameCounter player oldPos t).enemy.pos = t.enemy.pos := by
  unfold burstTurn
  simp only
  split_ifs <;> rfl

theorem shooterTurn_pos (frameCounter : Int) (player : Player) (oldPos : Position)
    (t r : Turn) (h : shooterTurn frameCounter player oldPos t = some r) :
    r.enemy.pos = t.enemy.pos := by
  unfold shooterTurn at h
  cases hs : hasLineOfSight oldPos player.pos t.grid.wallLayer (AGGRO_RADIUS * 2) with
  | none => simp only [hs] at h; exact absurd h (by simp)
  | some sees =>
    cases sees
    · simp only [hs] at h
      split at h
      · cases hr : roamToUnvisited t.enemy t.grid t.src with
        | none => simp only [hr] at h; exact absurd h (by simp)
        | some p =>
          simp only [hr] at h
          cases h
          exact roamToUnvisited_pos _ _ _ _ hr
      · cases h; rfl
    · simp only [hs] at h
      split at h <;> cases h <;> rfl

theorem archetypeTurn_pos (i : Nat) (frameCounter : Int) (player : Player) (drawFuel : Nat)
    (oldPos : Position) (t r : Turn)
    (h : archetypeTurn i frameCounter player drawFuel oldPos t = some r) :
    r.enemy.pos = t.enemy.pos := by
  unfold archetypeTurn at h
  split_ifs at h
  · exact basicTurn_pos _ _ h
  · exact patrolTurn_pos _ _ _ _ h
  · cases h; exact teleporterTurn_pos _ _ _ _
  · exact chaserTurn_pos _ _ _ _ _ h
  · exact trapperTurn_pos _ _ _ h
  · cases h; exact burstTurn_pos _ _ _ _
  · exact shooterTurn_pos _ _ _ _ _ h
  · cases h; rfl

theorem followLSP_pos (oldPos : Position) (t r : Turn) (h : followLSP oldPos t = some r) :
    r.enemy.pos = t.enemy.pos := by
  unfold followLSP at h
  split at h
  · split at h
    · cases hf : findPath t.grid oldPos t.enemy.playerLSP with
      | none => simp only [hf] at h; exact absurd h (by simp)
      | some found =>
        simp only [hf] at h
        by_cases hfound : found.1 = true
        · simp only [if_pos hfound] at h
          split at h <;> cases h <;> rfl
        · simp only [if_neg hfound] at h
          cases hr : roamToUnvisited t.enemy t.grid t.src with
          | none => simp only [hr] at h; exact absurd h (by simp)
          | some p =>
            simp only [hr] at h
            have hp := roamToUnvisited_pos _ _ _ _ hr
            split at h <;> cases h <;> exact hp
    · cases h; rfl
  · cases h; rfl

theorem enemyTurn_pos (i : Nat) (frameCounter : Int) (player : Player) (drawFuel : Nat)
    (enemy : Enemy) (grid : AllEntities) (bombHead : List Particle) (src : RandomSource)
    (t : Turn) (h : enemyTurn i frameCounter player drawFuel enemy grid bombHead src = some t) :
    t.enemy.pos = enemy.pos := by
  unfold enemyTurn at h
  split at h
  · exact absurd h (by simp)
  · rename_i t0 h0
    rw [followLSP_pos _ _ _ h, archetypeTurn_pos _ _ _ _ _ _ _ h0]

theorem eq_some_getD {α : Type} (o : Option α) (d : α) (h : o.isSome = true) :
    o = some (o.getD d) := by
  cases o with
  | none => exact absurd h (by simp)
  | some a => rfl

theorem setEnemy_same (all : Nat → Nat → Enemy) (i j : Nat) (e : Enemy) :
    setEnemy all i j e i j = e := by
  unfold setEnemy
  rw [if_pos ⟨rfl, rfl⟩]

theorem setEnemy_other (all : Nat → Nat → Enemy) (i j a b : Nat) (e : Enemy)
    (h : (a, b) ≠ (i, j)) : setEnemy all i j e a b = all a b := by
  unfold setEnemy
  rw [if_neg]
  rintro ⟨rfl, rfl⟩
  exact h rfl

/-- A round of the loop changes no enemy record but its own. -/
theorem moveEnemy_frame (frameCounter : Int) (player : Player) (drawFuel i j : Nat)
    (w w' : EnemyWorld) (h : moveEnemy frameCounter player drawFuel i j w = some w')
    (a b : Nat) (hab : (a, b) ≠ (i, j)) : w'.allEnemies a b = w.allEnemies a b := by
  unfold moveEnemy at h
  split at h
  · cases h; rfl
  · split at h
    · exact absurd h (by simp)
    · cases h
      exact setEnemy_other _ _ _ _ _ _ hab

theorem moveEnemies_frame (frameCounter : Int) (player : Player) (drawFuel : Nat) :
    ∀ (slots : List (Nat × Nat)) (w w' : EnemyWorld),
      moveEnemies frameCounter player drawFuel slots w = some w' →
      ∀ a b, (a, b) ∉ slots → w'.allEnemies a b = w.allEnemies a b := by
  intro slots
  induction slots with
  | nil => intro w w' h a b _; cases h; rfl
  | cons slot rest ih =>
    intro w w' h a b hab
    rw [moveEnemies] at h
    split at h
    · exact absurd h (by simp)
    · rename_i w1 h1
      rw [ih w1 w' h a b (fun hm => hab (List.mem_cons_of_mem _ hm))]
      exact moveEnemy_frame _ _ _ _ _ _ _ h1 a b
        (fun he => hab (by rw [he]; exact List.mem_cons_self _ _))

theorem moveEnemies_append (frameCounter : Int) (player : Player) (drawFuel : Nat) :
    ∀ (pre post : List (Nat × Nat)) (w : EnemyWorld),
      moveEnemies frameCounter player drawFuel (pre ++ post) w =
        (moveEnemies frameCounter player drawFuel pre w).bind
          (moveEnemies frameCounter player drawFuel post) := by
  intro pre
  induction pre with
  | nil => intro post w; rfl
  | cons slot rest ih =>
    intro post w
    rw [List.cons_append, moveEnemies, moveEnemies]
    cases moveEnemy frameCounter player drawFuel slot.1 slot.2 w with
    | none => rfl
    | some w1 => exact ih post w1

theorem enemySlots_nodup (level : Level) : (enemySlots level).Nodup := by
  unfold enemySlots
  rw [List.nodup_flatMap]
  refine ⟨fun i _ => ?_, ?_⟩
  · exact (List.nodup_range _).map (fun a b hab => (Prod.mk.inj hab).2)
  · refine (List.nodup_range _).pairwise_of_forall_ne ?_
    intro a _ b _ hab
    intro p hpa hpb
    obtain ⟨_, _, rfl⟩ := List.mem_map.mp hpa
    obtain ⟨_, _, h⟩ := List.mem_map.mp hpb
    exact hab (Prod.mk.inj h).1.symm

/-- What one round of the loop does to the enemy it handles. -/
theorem moveEnemy_commit (frameCounter : Int) (player : Player) (drawFuel i j : Nat)
    (w w' : EnemyWorld) (h : moveEnemy frameCounter player drawFuel i j w = some w') :
    (w'.allEnemies i j).pos = (w.allEnemies i j).pos ∨
      ∃ t, enemyTurn i frameCounter player drawFuel (w.allEnemies i j) w.grid w.bombHead
            w.src = some t ∧
        t.newPos = (w'.allEnemies i j).pos ∧
        isValid t.grid (w'.allEnemies i j).pos 'e' = true ∧
        w'.grid.playerLayer (w.allEnemies i j).pos.y (w.allEnemies i j).pos.x = BLANK ∧
        w'.grid.playerLayer (w'.allEnemies i j).pos.y (w'.allEnemies i j).pos.x =
          (if (w'.allEnemies i j).isAggro = true then (w'.allEnemies i j).aggroMarker
           else (w'.allEnemies i j).passiveMarker) := by
  unfold moveEnemy at h
  split at h
  · cases h; exact Or.inl rfl
  · split at h
    · exact absurd h (by simp)
    · rename_i t ht
      cases h
      simp only [setEnemy_same]
      unfold commitMove
      by_cases hv : isValid t.grid t.newPos 'e' = true
      · simp only [if_pos hv]
        by_cases hsame : t.newPos = (w.allEnemies i j).pos
        · exact Or.inl hsame
        · refine Or.inr ⟨t, ht, rfl, hv, ?_, ?_⟩
          · unfold setCell
            rw [if_neg, if_pos ⟨rfl, rfl⟩]
            rintro ⟨h1, h2⟩
            apply hsame
            cases hp : t.newPos
            cases hq : (w.allEnemies i j).pos
            rw [hp, hq] at h1 h2
            simp only at h1 h2
            rw [h1, h2]
          · unfold setCell
            rw [if_pos ⟨rfl, rfl⟩]
      · simp only [if_neg hv]
        exact Or.inl (enemyTurn_pos _ _ _ _ _ _ _ _ _ ht)

/-- C15: in a call of `moveAllEnemies` that returns, every enemy `(i, j)` the loops visit
is handled by exactly one round, between the rounds of the slots before it and those after
it, which leave its record alone.  Its position after the call is its old position or the
cell `newPos` of that round, for which `isValid(grid, newPos, 'e')` held at the final
validation; and when it moved, that round left the actor layer blank at the old position
and, at the new position, holding the aggro marker if the aggro flag is set and the passive
marker otherwise.  (A patrol enemy's direction search need not end, so the call is not
total.) -/
theorem moveAllEnemies_commit (frameCounter : Int) (level : Level) (player : Player)
    (drawFuel : Nat) (w w' : EnemyWorld)
    (h : moveAllEnemies frameCounter level player drawFuel w = some w')
    (i j : Nat) (hslot : (i, j) ∈ enemySlots level) :
    ∃ pre post w1 w2,
      enemySlots level = pre ++ (i, j) :: post ∧
      moveEnemies frameCounter player drawFuel pre w = some w1 ∧
      moveEnemy frameCounter player drawFuel i j w1 = some w2 ∧
      moveEnemies frameCounter player drawFuel post w2 = some w' ∧
      w1.allEnemies i j = w.allEnemies i j ∧
      w'.allEnemies i j = w2.allEnemies i j ∧
      ((w'.allEnemies i j).pos = (w.allEnemies i j).pos ∨
        ∃ t, enemyTurn i frameCounter player drawFuel (w.allEnemies i j) w1.grid w1.bombHead
              w1.src = some t ∧
          t.newPos = (w'.allEnemies i j).pos ∧
          isValid t.grid (w'.allEnemies i j).pos 'e' = true ∧
          w2.grid.playerLayer (w.allEnemies i j).pos.y (w.allEnemies i j).pos.x = BLANK ∧
          w2.grid.playerLayer (w'.allEnemies i j).pos.y (w'.allEnemies i j).pos.x =
            (if (w'.allEnemies i j).isAggro = true then (w'.allEnemies i j).aggroMarker
             else (w'.allEnemies i j).passiveMarker)) := by
  obtain ⟨pre, post, hsplit⟩ := List.append_of_mem hslot
  have hnd := enemySlots_nodup level
  rw [hsplit] at hnd
  have hpre : (i, j) ∉ pre := fun hm =>
    (List.nodup_append.mp hnd).2.2 hm (List.mem_cons_self _ _) 
  have hpost : (i, j) ∉ post := (List.nodup_cons.mp (List.nodup_append.mp hnd).2.1).1
  unfold moveAllEnemies at h
  rw [hsplit, moveEnemies_append] at h
  cases h1 : moveEnemies frameCounter player drawFuel pre w with
  | none => rw [h1] at h; exact absurd h (by simp)
  | some w1 =>
    rw [h1, Option.some_bind, moveEnemies] at h
    cases h2 : moveEnemy frameCounter player drawFuel i j w1 with
    | none => simp only [h2] at h; exact absurd h (by simp)
    | some w2 =>
      simp only [h2] at h
      have e1 := moveEnemies_frame _ _ _ _ _ _ h1 i j hpre
      have e2 := moveEnemies_frame _ _ _ _ _ _ h i j hpost
      refine ⟨pre, post, w1, w2, hsplit, h1, h2, h, e1, e2, ?_⟩
      rw [e2, ← e1]
      exact moveEnemy_commit _ _ _ _ _ _ _ h2

/-- C15 on `teleportWorld`: the call returns, and the teleporter in slot (2,0) is covered. -/
theorem moveAllEnemies_commit_witness :
    ∃ w', moveAllEnemies 1 (levelWith (fun i => if i = TELEPORT_ENEMY then 1 else 0))
        (playerAt ⟨1, 1⟩) 0 teleportWorld = some w' ∧
      (TELEPORT_ENEMY, 0) ∈
        enemySlots (levelWith (fun i => if i = TELEPORT_ENEMY then 1 else 0)) ∧
      ∃ pre post w1 w2,
        enemySlots (levelWith (fun i => if i = TELEPORT_ENEMY then 1 else 0)) =
          pre ++ (TELEPORT_ENEMY, 0) :: post ∧
        moveEnemies 1 (playerAt ⟨1, 1⟩) 0 pre teleportWorld = some w1 ∧
        moveEnemy 1 (playerAt ⟨1, 1⟩) 0 TELEPORT_ENEMY 0 w1 = some w2 ∧
        moveEnemies 1 (playerAt ⟨1, 1⟩) 0 post w2 = some w' ∧
        w1.allEnemies TELEPORT_ENEMY 0 = teleportWorld.allEnemies TELEPORT_ENEMY 0 ∧
        w'.allEnemies TELEPORT_ENEMY 0 = w2.allEnemies TELEPORT_ENEMY 0 ∧
        ((w'.allEnemies TELEPORT_ENEMY 0).pos = (teleportWorld.allEnemies TELEPORT_ENEMY 0).pos ∨
          ∃ t, enemyTurn TELEPORT_ENEMY 1 (playerAt ⟨1, 1⟩) 0
                (teleportWorld.allEnemies TELEPORT_ENEMY 0) w1.grid w1.bombHead w1.src = some t ∧
            t.newPos = (w'.allEnemies TELEPORT_ENEMY 0).pos ∧
            isValid t.grid (w'.allEnemies TELEPORT_ENEMY 0).pos 'e' = true ∧
            w2.grid.playerLayer (teleportWorld.allEnemies TELEPORT_ENEMY 0).pos.y
              (teleportWorld.allEnemies TELEPORT_ENEMY 0).pos.x = BLANK ∧
            w2.grid.playerLayer (w'.allEnemies TELEPORT_ENEMY 0).pos.y
                (w'.allEnemies TELEPORT_ENEMY 0).pos.x =
              (if (w'.allEnemies TELEPORT_ENEMY 0).isAggro = true then
                (w'.allEnemies TELEPORT_ENEMY 0).aggroMarker
               else (w'.allEnemies TELEPORT_ENEMY 0).passiveMarker)) :=
  have hrun := eq_some_getD
    (moveAllEnemies 1 (levelWith (fun i => if i = TELEPORT_ENEMY then 1 else 0))
      (playerAt ⟨1, 1⟩) 0 teleportWorld) teleportWorld (by decide!)
  ⟨_, hrun, by decide,
    moveAllEnemies_commit 1 _ (playerAt ⟨1, 1⟩) 0 teleportWorld _ hrun TELEPORT_ENEMY 0
      (by decide)⟩

/-- C16 (code defect): on `teleportGrid`, with the player at (1,1), a teleporter at (3,3)
that is due to teleport, and a random source that always draws 0, every one of the 101
draws of `moveTeleporterEnemy` is the player's cell (1,1); the loop leaves through its
`break` with that cell in `newPos`, the final validation accepts it (the player's cell is
enemy-valid), and the teleporter ends on the player's cell, its marker replacing the
player's. -/
theorem teleporter_lands_on_player :
    (moveAllEnemies 1 (levelWith (fun i => if i = TELEPORT_ENEMY then 1 else 0))
        (playerAt ⟨1, 1⟩) 0 teleportWorld).map
        (fun w => ((w.allEnemies TELEPORT_ENEMY 0).pos, w.grid.playerLayer 1 1)) =
      some (⟨1, 1⟩, 232) ∧
    (teleportWorld.allEnemies TELEPORT_ENEMY 0).pos = ⟨3, 3⟩ ∧
    (playerAt ⟨1, 1⟩).pos = ⟨1, 1⟩ ∧
    teleportWorld.grid.playerLayer 1 1 = PLAYER_MARKER := by
  refine ⟨?_, rfl, rfl, rfl⟩
  decide!

/-- C17 (code defect): on `shooterGrid` at frame 10 the shooter at (1,1) sees the player at
(3,1) along the open row, but the teleporter at (2,1) blocks every path; `findPath` fails,
`newPos` stays the shooter's own cell, `findBulletDirection` finds no direction for the
zero step and returns 9999, and the bullet is stored with that direction, which is not an
index of `dx`, `dy`. -/
theorem shooter_bullet_direction_invalid :
    (moveAllEnemies 10
        (levelWith (fun i => if i = TELEPORT_ENEMY ∨ i = SHOOTER_ENEMY then 1 else 0))
        (playerAt ⟨3, 1⟩) 0 shooterWorld).map (fun w => w.bulletHead) =
      some [⟨⟨1, 1⟩, 9999⟩] ∧
    shooterWorld.bulletHead = [] ∧
    dx.get? 9999 = none ∧ dy.get? 9999 = none := by
  refine ⟨?_, rfl, rfl, rfl⟩
  decide!

/-! ## Line of sight and validity: results -/

theorem lineOfSightLoop_true (wallLayer : Int → Int → Nat) (xFinish yFinish ddx ddy : Int)
    (xStep yStep : Int) (hxs : xStep = 1 ∨ xStep = -1) (hys : yStep = 1 ∨ yStep = -1) :
    ∀ (fuel : Nat) (xStart yStart err : Int),
      lineOfSightLoop wallLayer xFinish yFinish ddx ddy xStep yStep fuel xStart yStart err =
        some true →
      ∃ nx ny : Nat, xFinish = xStart + nx * xStep ∧ yFinish = yStart + ny * yStep ∧
        ∃ path : List Position, path.head? = some ⟨xStart, yStart⟩ ∧
          path.getLast? = some ⟨xFinish, yFinish⟩ ∧ path.length = nx + ny + 1 ∧
          List.Chain' (StepToward ⟨xFinish, yFinish⟩) path ∧
          ∀ q ∈ path, wallLayer q.y q.x ≠ WALL := by
  intro fuel
  induction fuel with
  | zero => intro x y err h; exact absurd h (by simp [lineOfSightLoop])
  | succ fuel ih =>
    intro x y err h
    rw [lineOfSightLoop] at h
    by_cases hw : wallLayer y x = WALL
    · rw [if_pos hw] at h; exact absurd h (by simp)
    · rw [if_neg hw] at h
      by_cases hfin : x = xFinish ∧ y = yFinish
      · obtain ⟨rfl, rfl⟩ := hfin
        refine ⟨0, 0, by simp, by simp, [⟨x, y⟩], rfl, rfl, rfl, List.chain'_singleton _, ?_⟩
        intro q hq
        rw [List.mem_singleton.mp hq]
        exact hw
      · rw [if_neg hfin] at h
        simp only at h
        by_cases h1 : err * 2 > -ddy
        · rw [if_pos h1] at h
          split at h
          · exact absurd h (by simp)
          · obtain ⟨nx, ny, hx, hy, path, hhead, hlast, hlen, hchain, hwall⟩ := ih _ _ _ h
            refine ⟨nx + 1, ny, by push_cast; rw [hx]; ring, hy, ⟨x, y⟩ :: path, rfl, ?_, ?_, ?_, ?_⟩
            · cases path with
              | nil => exact absurd hhead (by simp)
              | cons a l => rw [List.getLast?_cons_cons]; exact hlast
            · simp only [List.length_cons, hlen]; omega
            · cases path with
              | nil => exact absurd hhead (by simp)
              | cons a l =>
                simp only [List.head?_cons, Option.some.injEq] at hhead
                subst hhead
                refine List.Chain'.cons ?_ hchain
                unfold StepToward Adjacent calculateHCost
                simp only
                rcases hxs with rfl | rfl
                · rw [hx]
                  have e1 : x + 1 - (x + 1 + (nx : Int) * 1) = -(nx : Int) := by ring
                  have e2 : x - (x + 1 + (nx : Int) * 1) = -((nx : Int) + 1) := by ring
                  have e3 : x - (x + 1) = -1 := by ring
                  rw [e1, e2, e3, abs_neg, abs_neg, abs_neg]
                  rw [abs_of_nonneg (by omega : (0 : Int) ≤ nx),
                    abs_of_nonneg (by omega : (0 : Int) ≤ (nx : Int) + 1)]
                  simp
                  ring
                · rw [hx]
                  have e1 : x + -1 - (x + -1 + (nx : Int) * -1) = (nx : Int) := by ring
                  have e2 : x - (x + -1 + (nx : Int) * -1) = (nx : Int) + 1 := by ring
                  have e3 : x - (x + -1) = 1 := by ring
                  rw [e1, e2, e3]
                  rw [abs_of_nonneg (by omega : (0 : Int) ≤ nx),
                    abs_of_nonneg (by omega : (0 : Int) ≤ (nx : Int) + 1)]
                  simp
                  ring
            · intro q hq
              rcases List.mem_cons.mp hq with rfl | hq
              · exact hw
              · exact hwall q hq
        · rw [if_neg h1] at h
          by_cases h2 : err * 2 < ddx
          · rw [if_pos h2] at h
            split at h
            · exact absurd h (by simp)
            · obtain ⟨nx, ny, hx, hy, path, hhead, hlast, hlen, hchain, hwall⟩ := ih _ _ _ h
              refine ⟨nx, ny + 1, hx, by push_cast; rw [hy]; ring, ⟨x, y⟩ :: path, rfl,
                ?_, ?_, ?_, ?_⟩
              · cases path with
                | nil => exact absurd hhead (by simp)
                | cons a l => rw [List.getLast?_cons_cons]; exact hlast
              · simp only [List.length_cons, hlen]; omega
              · cases path with
                | nil => exact absurd hhead (by simp)
                | cons a l =>
                  simp only [List.head?_cons, Option.some.injEq] at hhead
                  subst hhead
                  refine List.Chain'.cons ?_ hchain
                  unfold StepToward Adjacent calculateHCost
                  simp only
                  rcases hys with rfl | rfl
                  · rw [hy]
                    have e1 : y + 1 - (y + 1 + (ny : Int) * 1) = -(ny : Int) := by ring
                    have e2 : y - (y + 1 + (ny : Int) * 1) = -((ny : Int) + 1) := by ring
                    have e3 : y - (y + 1) = -1 := by ring
                    rw [e1, e2, e3, abs_neg, abs_neg, abs_neg]
                    rw [abs_of_nonneg (by omega : (0 : Int) ≤ ny),
                      abs_of_nonneg (by omega : (0 : Int) ≤ (ny : Int) + 1)]
                    simp
                    ring
                  · rw [hy]
                    have e1 : y + -1 - (y + -1 + (ny : Int) * -1) = (ny : Int) := by ring
                    have e2 : y - (y + -1 + (ny : Int) * -1) = (ny : Int) + 1 := by ring
                    have e3 : y - (y + -1) = 1 := by ring
                    rw [e1, e2, e3]
                    rw [abs_of_nonneg (by omega : (0 : Int) ≤ ny),
                      abs_of_nonneg (by omega : (0 : Int) ≤ (ny : Int) + 1)]
                    simp
                    ring
              · intro q hq
                rcases List.mem_cons.mp hq with rfl | hq
                · exact hw
                · exact hwall q hq
          · rw [if_neg h2] at h
            exact ih _ _ _ h

/-- C21: whenever `hasLineOfSight(pos, player, walls, r)` returns true, both coordinate
differences are at most `r` in absolute value, and the cells the trace visited form a path
from `pos` to `player` of exactly `|dx| + |dy|` steps, every step a single cardinal step
that brings it one cell closer to the player, and no cell of the path, the two end points
included, is a wall. -/
theorem hasLineOfSight_true (pos player : Position) (wallLayer : Int → Int → Nat)
    (aggroRange : Int) (h : hasLineOfSight pos player wallLayer aggroRange = some true) :
    |player.x - pos.x| ≤ aggroRange ∧ |player.y - pos.y| ≤ aggroRange ∧
    ∃ path : List Position, path.head? = some pos ∧ path.getLast? = some player ∧
      path.length = (|player.x - pos.x| + |player.y - pos.y|).toNat + 1 ∧
      List.Chain' (StepToward player) path ∧
      ∀ q ∈ path, wallLayer q.y q.x ≠ WALL := by
  unfold hasLineOfSight at h
  simp only at h
  by_cases hr : |player.x - pos.x| > aggroRange ∨ |player.y - pos.y| > aggroRange
  · rw [if_pos hr] at h; exact absurd h (by simp)
  · rw [if_neg hr] at h
    have hxs : (if pos.x < player.x then (1 : Int) else -1) = 1 ∨
        (if pos.x < player.x then (1 : Int) else -1) = -1 := by split <;> simp
    have hys : (if pos.y < player.y then (1 : Int) else -1) = 1 ∨
        (if pos.y < player.y then (1 : Int) else -1) = -1 := by split <;> simp
    obtain ⟨nx, ny, hx, hy, path, hhead, hlast, hlen, hchain, hwall⟩ :=
      lineOfSightLoop_true wallLayer _ _ _ _ _ _ hxs hys _ _ _ _ h
    refine ⟨by omega, by omega, path, hhead, hlast, ?_, hchain, hwall⟩
    rw [hlen]
    have hax : |player.x - pos.x| = nx := by
      rcases hxs with e | e <;> rw [e] at hx <;> rw [hx]
      · rw [show pos.x + (nx : Int) * 1 - pos.x = nx by ring]; exact abs_of_nonneg (by omega)
      · rw [show pos.x + (nx : Int) * -1 - pos.x = -(nx : Int) by ring, abs_neg]
        exact abs_of_nonneg (by omega)
    have hay : |player.y - pos.y| = ny := by
      rcases hys with e | e <;> rw [e] at hy <;> rw [hy]
      · rw [show pos.y + (ny : Int) * 1 - pos.y = ny by ring]; exact abs_of_nonneg (by omega)
      · rw [show pos.y + (ny : Int) * -1 - pos.y = -(ny : Int) by ring, abs_neg]
        exact abs_of_nonneg (by omega)
    rw [hax, hay]
    omega

/-- C21 on an open board: from (1,1) the player at (3,2) is seen within radius 6. -/
theorem hasLineOfSight_true_witness :
    hasLineOfSight ⟨1, 1⟩ ⟨3, 2⟩ shooterCellGrid.wallLayer AGGRO_RADIUS = some true ∧
    |(⟨3, 2⟩ : Position).x - (⟨1, 1⟩ : Position).x| ≤ AGGRO_RADIUS ∧
    |(⟨3, 2⟩ : Position).y - (⟨1, 1⟩ : Position).y| ≤ AGGRO_RADIUS ∧
    ∃ path : List Position, path.head? = some ⟨1, 1⟩ ∧ path.getLast? = some ⟨3, 2⟩ ∧
      path.length =
        (|(⟨3, 2⟩ : Position).x - (⟨1, 1⟩ : Position).x| +
          |(⟨3, 2⟩ : Position).y - (⟨1, 1⟩ : Position).y|).toNat + 1 ∧
      List.Chain' (StepToward ⟨3, 2⟩) path ∧
      ∀ q ∈ path, shooterCellGrid.wallLayer q.y q.x ≠ WALL :=
  ⟨by decide, hasLineOfSight_true ⟨1, 1⟩ ⟨3, 2⟩ shooterCellGrid.wallLayer AGGRO_RADIUS (by decide)⟩

/-- C22: when the player is a diagonal neighbour of the enemy and the cell beside the enemy
in the player's column is a wall, `hasLineOfSight` returns false, whatever the radius and
whichever of the four diagonals it is; all the more so when the cell beside the enemy in
the player's row is a wall as well.  (The trace takes its first step along the row, onto
that wall.) -/
theorem hasLineOfSight_diagonal_blocked (pos player : Position) (wallLayer : Int → Int → Nat)
    (aggroRange : Int) (hx : |player.x - pos.x| = 1) (hy : |player.y - pos.y| = 1)
    (hrow : wallLayer pos.y player.x = WALL) :
    hasLineOfSight pos player wallLayer aggroRange = some false := by
  unfold hasLineOfSight
  simp only [hx, hy]
  split
  · rfl
  · have hfuel : ((1 : Int) + 1 + 1).toNat = 3 := rfl
    rw [hfuel, lineOfSightLoop]
    by_cases hw : wallLayer pos.y pos.x = WALL
    · rw [if_pos hw]
    · rw [if_neg hw]
      have hne : ¬ (pos.x = player.x ∧ pos.y = player.y) := by
        rintro ⟨h1, -⟩
        rw [h1] at hx
        simp at hx
      rw [if_neg hne]
      simp only
      rw [if_pos (by norm_num)]
      have hstep : pos.x + (if pos.x < player.x then (1 : Int) else -1) = player.x := by
        split
        · rw [abs_of_nonneg (by omega)] at hx; omega
        · rw [abs_of_nonpos (by omega)] at hx; omega
      rw [hstep]
      have hback : player.x - (if pos.x < player.x then (1 : Int) else -1) = pos.x := by omega
      rw [hback]
      rw [if_neg (fun hc => hw hc.1)]
      rw [lineOfSightLoop, if_pos hrow]

/-- C22 on `diagonalWalls`: the enemy at (1,1), the player at (2,2). -/
theorem hasLineOfSight_diagonal_blocked_witness :
    |(⟨2, 2⟩ : Position).x - (⟨1, 1⟩ : Position).x| = 1 ∧
    |(⟨2, 2⟩ : Position).y - (⟨1, 1⟩ : Position).y| = 1 ∧
    diagonalWalls 1 2 = WALL ∧ diagonalWalls 2 1 = WALL ∧
    hasLineOfSight ⟨1, 1⟩ ⟨2, 2⟩ diagonalWalls AGGRO_RADIUS = some false :=
  ⟨by decide, by decide, by decide, by decide,
    hasLineOfSight_diagonal_blocked ⟨1, 1⟩ ⟨2, 2⟩ diagonalWalls AGGRO_RADIUS (by decide)
      (by decide) (by decide)⟩

/-- C23 (counterexample): the cell (4,4) of `shooterCellGrid` is occupied in the actor layer
(it holds the shooter marker 226), and `isValid` for the bullet purpose returns true on
it. -/
theorem isValid_bullet_shooter_cell :
    shooterCellGrid.playerLayer 4 4 ≠ BLANK ∧ isValid shooterCellGrid ⟨4, 4⟩ 'b' = true := by
  decide

/-- C23 (amended): for the bullet purpose `isValid` returns true exactly on the cells inside
the border that are not walls and whose actor-layer cell is blank or holds the shooter
marker 226; so it returns false on every occupied actor cell except one holding 226. -/
theorem isValid_bullet_iff (grid : AllEntities) (p : Position) :
    (isValid grid p 'b' = true ↔
      Interior p ∧ grid.wallLayer p.y p.x ≠ WALL ∧
        (grid.playerLayer p.y p.x = BLANK ∨ grid.playerLayer p.y p.x = SHOOTER_MARKER)) ∧
    (grid.playerLayer p.y p.x ≠ BLANK → grid.playerLayer p.y p.x ≠ SHOOTER_MARKER →
      isValid grid p 'b' = false) := by
  have hmain : isValid grid p 'b' = true ↔
      Interior p ∧ grid.wallLayer p.y p.x ≠ WALL ∧
        (grid.playerLayer p.y p.x = BLANK ∨ grid.playerLayer p.y p.x = SHOOTER_MARKER) := by
    unfold isValid Interior
    by_cases hb : p.x < 1 ∨ p.x > GRID_SIZE - 2 ∨ p.y < 1 ∨ p.y > GRID_SIZE - 2
    · rw [if_pos hb]
      constructor
      · intro h; cases h
      · rintro ⟨⟨h1, h2, h3, h4⟩, -⟩
        omega
    · rw [if_neg hb]
      have hin : 1 ≤ p.x ∧ p.x ≤ GRID_SIZE - 2 ∧ 1 ≤ p.y ∧ p.y ≤ GRID_SIZE - 2 := by omega
      by_cases hw : grid.wallLayer p.y p.x = WALL
      · rw [if_pos hw]
        constructor
        · intro h; cases h
        · rintro ⟨-, h, -⟩; exact absurd hw h
      · rw [if_neg hw, if_neg (by decide), if_neg (by decide), if_pos rfl]
        by_cases hp : grid.playerLayer p.y p.x = BLANK
        · rw [if_neg (not_not.mpr hp)]
          exact ⟨fun _ => ⟨hin, hw, Or.inl hp⟩, fun _ => rfl⟩
        · rw [if_pos hp]
          by_cases hs : grid.playerLayer p.y p.x = SHOOTER_MARKER
          · rw [if_pos hs]
            exact ⟨fun _ => ⟨hin, hw, Or.inr hs⟩, fun _ => rfl⟩
          · rw [if_neg hs]
            constructor
            · intro h; cases h
            · rintro ⟨-, -, h | h⟩
              · exact absurd h hp
              · exact absurd h hs
  refine ⟨hmain, fun hp hs => ?_⟩
  cases hv : isValid grid p 'b' with
  | false => rfl
  | true =>
    rcases (hmain.mp hv).2.2 with h | h
    · exact absurd h hp
    · exact absurd h hs

/-- C24: `canMove(pos, grid)` is true exactly when at least one of the four cardinal
neighbours of `pos` (above, below, left, right) is enemy-valid. -/
theorem canMove_iff (pos : Position) (grid : AllEntities) :
    canMove pos grid = true ↔
      (isValid grid ⟨pos.x, pos.y - 1⟩ 'e' = true ∨ isValid grid ⟨pos.x, pos.y + 1⟩ 'e' = true ∨
        isValid grid ⟨pos.x - 1, pos.y⟩ 'e' = true ∨
        isValid grid ⟨pos.x + 1, pos.y⟩ 'e' = true) := by
  unfold canMove
  have h0 : neighbor pos 0 = ⟨pos.x, pos.y - 1⟩ := by
    simp only [neighbor, dx, dy, List.getD_cons_zero, add_zero]; rfl
  have h1 : neighbor pos 1 = ⟨pos.x, pos.y + 1⟩ := by
    simp [neighbor, dx, dy]
  have h2 : neighbor pos 2 = ⟨pos.x - 1, pos.y⟩ := by
    simp [neighbor, dx, dy]; rfl
  have h3 : neighbor pos 3 = ⟨pos.x + 1, pos.y⟩ := by
    simp [neighbor, dx, dy]
  have hr : List.range 4 = [0, 1, 2, 3] := rfl
  rw [hr]
  simp only [List.any_cons, List.any_nil, Bool.or_false, Bool.or_eq_true, h0, h1, h2, h3]

/-! ## Enemy timing: results -/

/-- C25 (code defect): in the open room of 5 by 10 cells (cells with `1 ≤ x ≤ 5`,
`1 ≤ y ≤ 10` enemy-valid, everything else wall) the search from (2,3) to (4,10) returns a
path of 12 cells, although the Manhattan distance plus one is 10; on the whole interior
without walls or actors the search from (1,1) to (4,19) returns 24 cells where 22 are
expected.  The example of the 3 by 3 room, from (1,1) to (3,3), does give 5 cells. -/
theorem findPath_open_room_not_shortest :
    findPath (openRoom 5 10) ⟨2, 3⟩ ⟨4, 10⟩ =
      some (true, [⟨2, 3⟩, ⟨2, 4⟩, ⟨2, 5⟩, ⟨3, 5⟩, ⟨3, 6⟩, ⟨4, 6⟩, ⟨5, 6⟩, ⟨5, 7⟩, ⟨5, 8⟩,
        ⟨5, 9⟩, ⟨5, 10⟩, ⟨4, 10⟩]) ∧
    calculateHCost ⟨2, 3⟩ ⟨4, 10⟩ + 1 = 10 ∧
    (∀ p : Position, isValid (openRoom 5 10) p 'e' = true ↔
      1 ≤ p.x ∧ p.x ≤ 5 ∧ 1 ≤ p.y ∧ p.y ≤ 10) ∧
    (findPath (openRoom 21 21) ⟨1, 1⟩ ⟨4, 19⟩).map (fun r => (r.1, r.2.length)) =
      some (true, 24) ∧
    calculateHCost ⟨1, 1⟩ ⟨4, 19⟩ + 1 = 22 ∧
    (∀ p : Position, isValid (openRoom 21 21) p 'e' = true ↔ Interior p) ∧
    (findPath (openRoom 3 3) ⟨1, 1⟩ ⟨3, 3⟩).map (fun r => (r.1, r.2.length)) =
      some (true, 5) := by
  refine ⟨by decide!, by decide, ?_, by decide!, by decide, ?_, by decide!⟩
  · intro p
    unfold isValid openRoom
    simp only [GRID_SIZE, WALL, BLANK, PLAYER_MARKER]
    constructor
    · intro h
      split_ifs at h <;> omega
    · intro h
      rw [if_neg (by omega), if_neg (by rw [if_pos h]; decide)]
      simp
  · intro p
    unfold isValid openRoom Interior
    simp only [GRID_SIZE, WALL, BLANK, PLAYER_MARKER]
    constructor
    · intro h
      split_ifs at h <;> omega
    · intro h
      rw [if_neg (by omega), if_neg (by rw [if_pos (by omega)]; decide)]
      simp

/-- C27 (code defect): at the odd frame 1 the chaser of `chaserWorld`, whose aggro flag is
set and whose move timer is 0, asks for a path to its last seen position (5,3) and takes
the first step of it, from (3,3) to (4,3).  In general, on every odd frame a chaser whose
aggro flag is set and whose timer has run out leaves the `switch` with `LSPflag` set and
its last seen position kept (or renewed), so the path request follows. -/
theorem chaser_pursues_on_odd_frame :
    (moveAllEnemies 1 (levelWith (fun i => if i = CHASER_ENEMY then 1 else 0))
        (playerAt ⟨5, 3⟩) 0 chaserWorld).map
        (fun w => ((w.allEnemies CHASER_ENEMY 0).pos,
          (w.allEnemies CHASER_ENEMY 0).specialAbility)) = some (⟨4, 3⟩, 10) ∧
    (chaserWorld.allEnemies CHASER_ENEMY 0).pos = ⟨3, 3⟩ ∧
    (chaserWorld.allEnemies CHASER_ENEMY 0).isAggro = true ∧
    (chaserWorld.allEnemies CHASER_ENEMY 0).playerLSP = ⟨5, 3⟩ ∧
    findPath chaserGrid ⟨3, 3⟩ ⟨5, 3⟩ = some (true, [⟨3, 3⟩, ⟨4, 3⟩, ⟨5, 3⟩]) ∧
    (∀ (frameCounter : Int) (player : Player) (oldPos : Position) (t r : Turn),
      frameCounter.tmod 2 ≠ 0 → t.enemy.isAggro = true → t.enemy.specialAbility ≤ 0 →
      chaserTurn frameCounter player oldPos t = some r →
      r.LSPflag = true ∧ r.enemy.isAggro = true ∧
        (r.enemy.playerLSP = t.enemy.playerLSP ∨ r.enemy.playerLSP = player.pos)) := by
  refine ⟨by decide!, rfl, rfl, rfl, by decide!, ?_⟩
  intro frameCounter player oldPos t r hodd haggro hspec h
  unfold chaserTurn at h
  cases hs : hasLineOfSight oldPos player.pos t.grid.wallLayer AGGRO_RADIUS with
  | none => simp only [hs] at h; exact absurd h (by simp)
  | some sees =>
    simp only [hs] at h
    cases sees
    · simp only [Bool.false_eq_true, if_false] at h
      rw [if_neg (fun hc => hodd hc.2), if_neg (by omega)] at h
      cases h
      exact ⟨rfl, haggro, Or.inl rfl⟩
    · simp only [if_true] at h
      rw [if_neg (fun hc => hodd hc.2), if_neg (by omega)] at h
      cases h
      exact ⟨rfl, rfl, Or.inr rfl⟩

/-- C29 (code defect): for the frames 901 to 917 the recomputed interval
`50 - 50 * frameCounter / 900` is 0, not negative, and the burst case leaves the last seen
position of an enemy that is aggro or still counting down untouched; the interval is
negative only from frame 918 on, from where the last seen position is the player's on
every frame for as long as the product `50 * frameCounter` fits a 32-bit `int`, which is
up to frame 42949672 (beyond it the C product overflows and nothing is stated).  At frame
901 the burst enemy of `burstWorld` keeps `INVALID_POS`. -/
theorem burst_interval_zero_after_900 :
    (∀ frameCounter : Int, 900 < frameCounter → frameCounter < 918 →
      50 - (50 * frameCounter).tdiv 900 = 0) ∧
    (∀ (frameCounter : Int) (player : Player) (oldPos : Position) (t : Turn),
      900 < frameCounter → frameCounter < 918 →
      (t.enemy.isAggro = true ∨ 0 < t.enemy.specialAbility) →
      (burstTurn frameCounter player oldPos t).enemy.playerLSP = t.enemy.playerLSP) ∧
    (∀ (frameCounter : Int) (player : Player) (oldPos : Position) (t : Turn),
      918 ≤ frameCounter → frameCounter ≤ 42949672 →
      50 * frameCounter ≤ 2 ^ 31 - 1 ∧
      (burstTurn frameCounter player oldPos t).enemy.playerLSP = player.pos) ∧
    (moveAllEnemies 901 (levelWith (fun i => if i = BURST_ENEMY then 1 else 0))
        (playerAt ⟨1, 1⟩) 0 burstWorld).map
        (fun w => ((w.allEnemies BURST_ENEMY 0).playerLSP,
          (w.allEnemies BURST_ENEMY 0).specialAbility)) = some (INVALID_POS, 4) ∧
    (playerAt ⟨1, 1⟩).pos ≠ INVALID_POS := by
  have hzero : ∀ frameCounter : Int, 900 < frameCounter → frameCounter < 918 →
      50 - (50 * frameCounter).tdiv 900 = 0 := by
    intro f h1 h2
    rw [Int.tdiv_eq_ediv (by omega) (by norm_num)]
    omega
  refine ⟨hzero, ?_, ?_, by decide!, by decide⟩
  · intro f player oldPos t h1 h2 hor
    unfold burstTurn
    simp only
    rw [hzero f h1 h2]
    simp only [lt_self_iff_false, if_false]
    rcases hor with h | h
    · rw [if_pos h]
    · by_cases ha : t.enemy.isAggro = true
      · rw [if_pos ha]
      · rw [if_neg ha, if_pos h]
  · intro f player oldPos t h1 hmax
    refine ⟨by norm_num; omega, ?_⟩
    unfold burstTurn
    simp only
    have hneg : 50 - (50 * f).tdiv 900 < 0 := by
      rw [Int.tdiv_eq_ediv (by omega) (by norm_num)]
      omega
    rw [if_pos hneg]
    split_ifs <;> rfl

/-! ## Teleporter countdown: results -/

theorem moveAllEnemies_split (frameCounter : Int) (level : Level) (player : Player)
    (drawFuel : Nat) (w w' : EnemyWorld)
    (h : moveAllEnemies frameCounter level player drawFuel w = some w')
    (i j : Nat) (hslot : (i, j) ∈ enemySlots level) :
    ∃ pre post w1 w2,
      enemySlots level = pre ++ (i, j) :: post ∧
      moveEnemies frameCounter player drawFuel pre w = some w1 ∧
      moveEnemy frameCounter player drawFuel i j w1 = some w2 ∧
      moveEnemies frameCounter player drawFuel post w2 = some w' ∧
      w1.allEnemies i j = w.allEnemies i j ∧
      w'.allEnemies i j = w2.allEnemies i j := by
  obtain ⟨pre, post, hsplit⟩ := List.append_of_mem hslot
  have hnd := enemySlots_nodup level
  rw [hsplit] at hnd
  have hpre : (i, j) ∉ pre := fun hm =>
    (List.nodup_append.mp hnd).2.2 hm (List.mem_cons_self _ _)
  have hpost : (i, j) ∉ post := (List.nodup_cons.mp (List.nodup_append.mp hnd).2.1).1
  unfold moveAllEnemies at h
  rw [hsplit, moveEnemies_append] at h
  cases h1 : moveEnemies frameCounter player drawFuel pre w with
  | none => rw [h1] at h; exact absurd h (by simp)
  | some w1 =>
    rw [h1, Option.some_bind, moveEnemies] at h
    cases h2 : moveEnemy frameCounter player drawFuel i j w1 with
    | none => simp only [h2] at h; exact absurd h (by simp)
    | some w2 =>
      simp only [h2] at h
      exact ⟨pre, post, w1, w2, hsplit, h1, h2, h,
        moveEnemies_frame _ _ _ _ _ _ h1 i j hpre, moveEnemies_frame _ _ _ _ _ _ h i j hpost⟩

theorem teleporterTurn_LSPflag (frameCounter : Int) (player : Player) (oldPos : Position)
    (t : Turn) : (teleporterTurn frameCounter player oldPos t).LSPflag = t.LSPflag := by
  unfold teleporterTurn
  split <;> rfl

theorem enemyTurn_teleporter (frameCounter : Int) (player : Player) (drawFuel : Nat)
    (enemy : Enemy) (grid : AllEntities) (bombHead : List Particle) (src : RandomSource) :
    enemyTurn TELEPORT_ENEMY frameCounter player drawFuel enemy grid bombHead src =
      some (teleporterTurn frameCounter player enemy.pos
        { enemy := enemy, grid := grid, bombHead := bombHead, src := src, newPos := enemy.pos,
          LSPflag := false, isBullet := false }) := by
  unfold enemyTurn archetypeTurn
  rw [if_neg (by decide), if_neg (by decide), if_pos rfl]
  simp only
  unfold followLSP
  rw [teleporterTurn_LSPflag]
  simp

/-- A countdown round of a teleporter: the countdown drops by one and the position and the
move interval stay. -/
theorem moveEnemy_teleporter_count (frameCounter : Int) (player : Player) (drawFuel j : Nat)
    (w w' : EnemyWorld) (hint : (w.allEnemies TELEPORT_ENEMY j).moveInterval = 1)
    (hpos : 0 < (w.allEnemies TELEPORT_ENEMY j).specialAbility)
    (h : moveEnemy frameCounter player drawFuel TELEPORT_ENEMY j w = some w') :
    (w'.allEnemies TELEPORT_ENEMY j).specialAbility =
        (w.allEnemies TELEPORT_ENEMY j).specialAbility - 1 ∧
      (w'.allEnemies TELEPORT_ENEMY j).pos = (w.allEnemies TELEPORT_ENEMY j).pos ∧
      (w'.allEnemies TELEPORT_ENEMY j).moveInterval = 1 := by
  unfold moveEnemy at h
  rw [hint, if_neg (by simp), enemyTurn_teleporter] at h
  simp only [Option.some.injEq] at h
  subst h
  simp only [setEnemy_same]
  unfold commitMove teleporterTurn
  simp only [if_pos hpos]
  split <;> exact ⟨rfl, rfl, hint⟩

/-- A teleport round of a teleporter: the countdown is reset to 35 and the position becomes
the cell drawn by `moveTeleporterEnemy` if that cell is enemy-valid, and stays otherwise. -/
theorem moveEnemy_teleporter_jump (frameCounter : Int) (player : Player) (drawFuel j : Nat)
    (w w' : EnemyWorld) (hint : (w.allEnemies TELEPORT_ENEMY j).moveInterval = 1)
    (hzero : (w.allEnemies TELEPORT_ENEMY j).specialAbility ≤ 0)
    (h : moveEnemy frameCounter player drawFuel TELEPORT_ENEMY j w = some w') :
    (w'.allEnemies TELEPORT_ENEMY j).specialAbility = 35 ∧
      (w'.allEnemies TELEPORT_ENEMY j).pos =
        (if isValid w.grid (moveTeleporterEnemy w.grid player.pos w.src).1 'e' = true then
          (moveTeleporterEnemy w.grid player.pos w.src).1
         else (w.allEnemies TELEPORT_ENEMY j).pos) := by
  unfold moveEnemy at h
  rw [hint, if_neg (by simp), enemyTurn_teleporter] at h
  simp only [Option.some.injEq] at h
  subst h
  simp only [setEnemy_same]
  unfold commitMove teleporterTurn
  simp only [if_neg (not_lt.mpr hzero)]
  split <;> exact ⟨rfl, rfl⟩

/-- C28 (counterexample): from `countdownWorld`, where a teleport in frame 100 has just
reset the countdown to 35, the teleporter has not moved after the call of frame 135 (its
countdown is then 0), and it teleports, to (1,1), in the call of frame 136. -/
theorem teleporter_not_after_35_frames :
    ((countdownRun 35).allEnemies TELEPORT_ENEMY 0).pos = ⟨3, 3⟩ ∧
    ((countdownRun 35).allEnemies TELEPORT_ENEMY 0).specialAbility = 0 ∧
    ((countdownRun 36).allEnemies TELEPORT_ENEMY 0).pos = ⟨1, 1⟩ ∧
    ((countdownRun 36).allEnemies TELEPORT_ENEMY 0).specialAbility = 35 ∧
    (countdownWorld.allEnemies TELEPORT_ENEMY 0).pos = ⟨3, 3⟩ ∧
    (countdownWorld.allEnemies TELEPORT_ENEMY 0).specialAbility = 35 := by
  decide!

/-- C28 (amended): let a teleporter with move interval 1 have its countdown at 35, as a
teleport in frame `frame0` leaves it, and let `moveAllEnemies` be called once for each of
the frames `frame0 + 1`, ..., `frame0 + 36` (call `k` goes from the world `before k` to
`after k`; whatever happens between two calls leaves the teleporter's record alone).  Then
after each of the first 35 calls the teleporter is where it was and its countdown is one
lower, reaching 0 in frame `frame0 + 35`; the next teleport attempt is made in the call of
frame `frame0 + 36`: it resets the countdown to 35 and moves the teleporter to the cell
drawn by `moveTeleporterEnemy` if that cell is enemy-valid. -/
theorem teleporter_period (level : Level) (j : Nat) (frame0 : Int) (players : Nat → Player)
    (drawFuel : Nat) (before after : Nat → EnemyWorld)
    (hslot : (TELEPORT_ENEMY, j) ∈ enemySlots level)
    (hstart : ((before 0).allEnemies TELEPORT_ENEMY j).specialAbility = 35)
    (hint : ((before 0).allEnemies TELEPORT_ENEMY j).moveInterval = 1)
    (hcall : ∀ k : Nat, k < 36 →
      moveAllEnemies (frame0 + 1 + (k : Int)) level (players k) drawFuel (before k) =
        some (after k))
    (hkeep : ∀ k : Nat, k < 35 →
      (before (k + 1)).allEnemies TELEPORT_ENEMY j = (after k).allEnemies TELEPORT_ENEMY j) :
    (∀ k : Nat, k < 35 →
      ((after k).allEnemies TELEPORT_ENEMY j).pos =
          ((before 0).allEnemies TELEPORT_ENEMY j).pos ∧
        ((after k).allEnemies TELEPORT_ENEMY j).specialAbility = 34 - (k : Int)) ∧
    ((after 35).allEnemies TELEPORT_ENEMY j).specialAbility = 35 ∧
    ∃ pre post w1,
      enemySlots level = pre ++ (TELEPORT_ENEMY, j) :: post ∧
      moveEnemies (frame0 + 1 + ((35 : Nat) : Int)) (players 35) drawFuel pre (before 35) =
        some w1 ∧
      ((after 35).allEnemies TELEPORT_ENEMY j).pos =
        (if isValid w1.grid (moveTeleporterEnemy w1.grid (players 35).pos w1.src).1 'e' = true
          then (moveTeleporterEnemy w1.grid (players 35).pos w1.src).1
         else ((before 0).allEnemies TELEPORT_ENEMY j).pos) := by
  have hinv : ∀ k : Nat, k ≤ 35 →
      ((before k).allEnemies TELEPORT_ENEMY j).pos =
          ((before 0).allEnemies TELEPORT_ENEMY j).pos ∧
        ((before k).allEnemies TELEPORT_ENEMY j).specialAbility = 35 - (k : Int) ∧
        ((before k).allEnemies TELEPORT_ENEMY j).moveInterval = 1 := by
    intro k
    induction k with
    | zero => intro _; exact ⟨rfl, by rw [hstart]; simp, hint⟩
    | succ k ih =>
      intro hk
      obtain ⟨h1, h2, h3⟩ := ih (by omega)
      obtain ⟨pre, post, w1, w2, -, -, hmove, -, e1, e2⟩ :=
        moveAllEnemies_split _ _ _ _ _ _ (hcall k (by omega)) TELEPORT_ENEMY j hslot
      obtain ⟨c1, c2, c3⟩ := moveEnemy_teleporter_count _ _ _ _ _ _
        (by rw [e1]; exact h3) (by rw [e1, h2]; omega) hmove
      rw [hkeep k (by omega), e2]
      rw [e1] at c1 c2
      refine ⟨by rw [c2, h1], by rw [c1, h2]; push_cast; ring, c3⟩
  refine ⟨?_, ?_⟩
  · intro k hk
    obtain ⟨h1, h2, -⟩ := hinv (k + 1) (by omega)
    rw [hkeep k hk] at h1 h2
    exact ⟨h1, by rw [h2]; push_cast; ring⟩
  · obtain ⟨h1, h2, h3⟩ := hinv 35 (by omega)
    obtain ⟨pre, post, w1, w2, hsplit, hpre, hmove, -, e1, e2⟩ :=
      moveAllEnemies_split _ _ _ _ _ _ (hcall 35 (by omega)) TELEPORT_ENEMY j hslot
    obtain ⟨c1, c2⟩ := moveEnemy_teleporter_jump _ _ _ _ _ _
      (by rw [e1]; exact h3) (by rw [e1, h2]; simp) hmove
    rw [e1, h1] at c2
    exact ⟨by rw [e2, c1], pre, post, w1, hsplit, hpre, by rw [e2, c2]⟩

/-- C28 on `countdownRun`: the 36 calls for the frames 101 to 136 all return, the teleporter
(slot 0 of type 2) stays at (3,3) through frame 135 and makes its next attempt in frame
136. -/
theorem teleporter_period_witness :
    (∀ k : Nat, k < 36 →
      moveAllEnemies (100 + 1 + (k : Int)) teleporterLevel (playerAt ⟨5, 5⟩) 0 (countdownRun k) =
        some (countdownRun (k + 1))) ∧
    (∀ k : Nat, k < 35 →
      ((countdownRun (k + 1)).allEnemies TELEPORT_ENEMY 0).pos =
          ((countdownRun 0).allEnemies TELEPORT_ENEMY 0).pos ∧
        ((countdownRun (k + 1)).allEnemies TELEPORT_ENEMY 0).specialAbility = 34 - (k : Int)) ∧
    ((countdownRun (35 + 1)).allEnemies TELEPORT_ENEMY 0).specialAbility = 35 ∧
    ∃ pre post w1,
      enemySlots teleporterLevel = pre ++ (TELEPORT_ENEMY, 0) :: post ∧
      moveEnemies (100 + 1 + ((35 : Nat) : Int)) (playerAt ⟨5, 5⟩) 0 pre (countdownRun 35) =
        some w1 ∧
      ((countdownRun (35 + 1)).allEnemies TELEPORT_ENEMY 0).pos =
        (if isValid w1.grid (moveTeleporterEnemy w1.grid (playerAt ⟨5, 5⟩).pos w1.src).1 'e'
            = true
          then (moveTeleporterEnemy w1.grid (playerAt ⟨5, 5⟩).pos w1.src).1
         else ((countdownRun 0).allEnemies TELEPORT_ENEMY 0).pos) := by
  have hcall : ∀ k : Nat, k < 36 →
      moveAllEnemies (100 + 1 + (k : Int)) teleporterLevel (playerAt ⟨5, 5⟩) 0 (countdownRun k) =
        some (countdownRun (k + 1)) := by
    intro k hk
    exact eq_some_getD _ _
      ((by decide! : ∀ k : Nat, k < 36 →
        (moveAllEnemies (100 + 1 + (k : Int)) teleporterLevel (playerAt ⟨5, 5⟩) 0
          (countdownRun k)).isSome = true) k hk)
  refine ⟨hcall, ?_⟩
  refine teleporter_period teleporterLevel 0 100 (fun _ => playerAt ⟨5, 5⟩) 0 countdownRun
    (fun k => countdownRun (k + 1)) ?_ ?_ ?_ ?_ ?_
  · decide!
  · rfl
  · rfl
  · exact hcall
  · intro k _
    rfl

/-! ## Bomb countdown: results -/

theorem parseSymbol_of_not_mem (level : Level) (c : Char) (pos : Position)
    (h : c ∉ recognisedSymbols) : parseSymbol level c pos = none := by
  unfold recognisedSymbols at h
  simp only [List.mem_cons, List.mem_singleton, List.not_mem_nil, or_false, not_or] at h
  obtain ⟨h1, h2, h3, h4, h5, h6, h7, h8, h9, h10, h11, h12, h13, h14⟩ := h
  unfold parseSymbol
  rw [if_neg h1, if_neg h2, if_neg h3, if_neg h4, if_neg h5, if_neg h6, if_neg h7, if_neg h8,
    if_neg h9, if_neg h10, if_neg h11, if_neg h12, if_neg h13, if_neg h14]

theorem parseSymbol_of_mem (level : Level) (c : Char) (pos : Position)
    (h : c ∈ recognisedSymbols) :
    ∃ level', parseSymbol level c pos = some level' ∧
      level'.start = (if c = 'X' then pos else level.start) ∧
      level'.endPos = (if c = 'E' then pos else level.endPos) := by
  unfold recognisedSymbols at h
  simp only [List.mem_cons, List.mem_singleton, List.not_mem_nil, or_false] at h
  rcases h with rfl | rfl | rfl | rfl | rfl | rfl | rfl | rfl | rfl | rfl | rfl | rfl | rfl | rfl
  all_goals exact ⟨_, rfl, rfl, rfl⟩

theorem column_ne_invalid (x : Nat) (y : Int) : (⟨(x : Int), y⟩ : Position) ≠ INVALID_POS := by
  intro h
  have hx := congrArg Position.x h
  simp only [INVALID_POS] at hx
  omega

theorem parseRow_error (line : List Char) (y : Int) :
    ∀ (xs : List Nat) (level : Level),
      (∃ x ∈ xs, line.getD x (Char.ofNat 0) ∉ recognisedSymbols) →
      ∃ level', parseRow line y xs level = .error level' := by
  intro xs
  induction xs with
  | nil => intro level h; obtain ⟨x, hx, -⟩ := h; exact absurd hx (List.not_mem_nil _)
  | cons x xs ih =>
    intro level h
    by_cases hc : line.getD x (Char.ofNat 0) ∈ recognisedSymbols
    · obtain ⟨level', h1, -, -⟩ := parseSymbol_of_mem level _ ⟨(x : Int), y⟩ hc
      have hrest : ∃ x ∈ xs, line.getD x (Char.ofNat 0) ∉ recognisedSymbols := by
        obtain ⟨z, hz, hbad⟩ := h
        rcases List.mem_cons.mp hz with rfl | hz
        · exact absurd hc hbad
        · exact ⟨z, hz, hbad⟩
      obtain ⟨r, hr⟩ := ih level' hrest
      exact ⟨r, by rw [parseRow, h1]; exact hr⟩
    · exact ⟨level, by rw [parseRow, parseSymbol_of_not_mem level _ _ hc]⟩

theorem parseRow_ok (line : List Char) (y : Int) :
    ∀ (xs : List Nat) (level : Level),
      (∀ x ∈ xs, line.getD x (Char.ofNat 0) ∈ recognisedSymbols) →
      ∃ level', parseRow line y xs level = .ok level' ∧
        (level'.start = INVALID_POS ↔
          level.start = INVALID_POS ∧ ∀ x ∈ xs, line.getD x (Char.ofNat 0) ≠ 'X') ∧
        (level'.endPos = INVALID_POS ↔
          level.endPos = INVALID_POS ∧ ∀ x ∈ xs, line.getD x (Char.ofNat 0) ≠ 'E') := by
  intro xs
  induction xs with
  | nil => intro level _; exact ⟨level, rfl, by simp, by simp⟩
  | cons x xs ih =>
    intro level h
    obtain ⟨level1, h1, hs, he⟩ :=
      parseSymbol_of_mem level _ ⟨(x : Int), y⟩ (h x (List.mem_cons_self _ _))
    obtain ⟨level2, h2, hs2, he2⟩ := ih level1 (fun z hz => h z (List.mem_cons_of_mem _ hz))
    refine ⟨level2, by rw [parseRow, h1]; exact h2, ?_, ?_⟩
    · rw [hs2, hs]
      by_cases hX : line.getD x (Char.ofNat 0) = 'X'
      · rw [if_pos hX]
        constructor
        · intro hc; exact absurd hc.1 (column_ne_invalid x y)
        · intro hc; exact absurd hX (hc.2 x (List.mem_cons_self _ _))
      · rw [if_neg hX]
        constructor
        · rintro ⟨ha, hb⟩
          refine ⟨ha, fun z hz => ?_⟩
          rcases List.mem_cons.mp hz with rfl | hz
          · exact hX
          · exact hb z hz
        · rintro ⟨ha, hb⟩
          exact ⟨ha, fun z hz => hb z (List.mem_cons_of_mem _ hz)⟩
    · rw [he2, he]
      by_cases hE : line.getD x (Char.ofNat 0) = 'E'
      · rw [if_pos hE]
        constructor
        · intro hc; exact absurd hc.1 (column_ne_invalid x y)
        · intro hc; exact absurd hE (hc.2 x (List.mem_cons_self _ _))
      · rw [if_neg hE]
        constructor
        · rintro ⟨ha, hb⟩
          refine ⟨ha, fun z hz => ?_⟩
          rcases List.mem_cons.mp hz with rfl | hz
          · exact hE
          · exact hb z hz
        · rintro ⟨ha, hb⟩
          exact ⟨ha, fun z hz => hb z (List.mem_cons_of_mem _ hz)⟩

/-- On a line of `GRID_SIZE` characters the columns read are exactly the characters of the
line. -/
theorem mem_line_iff (line : List Char) (hlen : line.length = GRID_SIZE.toNat) (c : Char) :
    c ∈ line ↔ ∃ x ∈ List.range GRID_SIZE.toNat, line.getD x (Char.ofNat 0) = c := by
  constructor
  · intro h
    obtain ⟨n, hn, rfl⟩ := List.getElem_of_mem h
    refine ⟨n, List.mem_range.mpr (by rw [← hlen]; exact hn), ?_⟩
    rw [List.getD_eq_getElem _ _ hn]
  · rintro ⟨x, hx, rfl⟩
    have hn : x < line.length := by rw [hlen]; exact List.mem_range.mp hx
    rw [List.getD_eq_getElem _ _ hn]
    exact List.getElem_mem _

theorem parseRows_error :
    ∀ (lines : List (List Char)) (y : Int) (level : Level),
      (∀ line ∈ lines, line.length = GRID_SIZE.toNat) →
      (∃ line ∈ lines, ∃ c ∈ line, c ∉ recognisedSymbols) →
      ∃ level', parseRows lines y level = .error level' := by
  intro lines
  induction lines with
  | nil => intro y level _ h; obtain ⟨l, hl, -⟩ := h; exact absurd hl (List.not_mem_nil _)
  | cons line rest ih =>
    intro y level hlen h
    by_cases hc : ∀ c ∈ line, c ∈ recognisedSymbols
    · obtain ⟨level1, h1, -, -⟩ := parseRow_ok line y (List.range GRID_SIZE.toNat) level
        (fun x hx => hc _ ((mem_line_iff line (hlen line (List.mem_cons_self _ _)) _).mpr
          ⟨x, hx, rfl⟩))
      have hrest : ∃ l ∈ rest, ∃ c ∈ l, c ∉ recognisedSymbols := by
        obtain ⟨l, hl, c, hcl, hbad⟩ := h
        rcases List.mem_cons.mp hl with rfl | hl
        · exact absurd (hc c hcl) hbad
        · exact ⟨l, hl, c, hcl, hbad⟩
      obtain ⟨r, hr⟩ := ih (y + 1) level1 (fun l hl => hlen l (List.mem_cons_of_mem _ hl)) hrest
      exact ⟨r, by rw [parseRows, h1]; exact hr⟩
    · push_neg at hc
      obtain ⟨c, hcl, hbad⟩ := hc
      obtain ⟨x, hx, rfl⟩ := (mem_line_iff line (hlen line (List.mem_cons_self _ _)) c).mp hcl
      obtain ⟨r, hr⟩ := parseRow_error line y (List.range GRID_SIZE.toNat) level ⟨x, hx, hbad⟩
      exact ⟨r, by rw [parseRows, hr]⟩

theorem parseRows_ok :
    ∀ (lines : List (List Char)) (y : Int) (level : Level),
      (∀ line ∈ lines, line.length = GRID_SIZE.toNat) →
      (∀ line ∈ lines, ∀ c ∈ line, c ∈ recognisedSymbols) →
      ∃ level', parseRows lines y level = .ok level' ∧
        (level'.start = INVALID_POS ↔
          level.start = INVALID_POS ∧ ∀ line ∈ lines, 'X' ∉ line) ∧
        (level'.endPos = INVALID_POS ↔
          level.endPos = INVALID_POS ∧ ∀ line ∈ lines, 'E' ∉ line) := by
  intro lines
  induction lines with
  | nil => intro y level _ _; exact ⟨level, rfl, by simp, by simp⟩
  | cons line rest ih =>
    intro y level hlen h
    have hl := hlen line (List.mem_cons_self _ _)
    obtain ⟨level1, h1, hs, he⟩ := parseRow_ok line y (List.range GRID_SIZE.toNat) level
      (fun x hx => h line (List.mem_cons_self _ _) _ ((mem_line_iff line hl _).mpr ⟨x, hx, rfl⟩))
    obtain ⟨level2, h2, hs2, he2⟩ := ih (y + 1) level1
      (fun l hm => hlen l (List.mem_cons_of_mem _ hm))
      (fun l hm => h l (List.mem_cons_of_mem _ hm))
    have hno : ∀ c : Char, (∀ x ∈ List.range GRID_SIZE.toNat, line.getD x (Char.ofNat 0) ≠ c) ↔
        c ∉ line := by
      intro c
      rw [mem_line_iff line hl c]
      push_neg
      rfl
    refine ⟨level2, by rw [parseRows, h1]; exact h2, ?_, ?_⟩
    · rw [hs2, hs, hno]
      simp only [List.mem_cons, forall_eq_or_imp]
      tauto
    · rw [he2, he, hno]
      simp only [List.mem_cons, forall_eq_or_imp]
      tauto

/-- C26: for a layout whose lines all have 23 characters, and whatever the outcome of the
`realloc` calls, `parseLevelLayout` sets `hasError` to `UNKNOWN_ENEMY_TYPE` if some
character is not a recognised symbol; otherwise to `NO_PLAYER_EXISTS` if no `'X'` occurs;
otherwise to `NO_EXIT_EXISTS` if no `'E'` occurs; and to 0 only when every symbol is
recognised and both an `'X'` and an `'E'` occur, in which case it is 0 whenever the
`realloc` calls succeed.  The three codes are distinct and not 0. -/
theorem parseLevelLayout_errors (lines : List (List Char)) (alloc : ReallocOutcome)
    (hlen : ∀ line ∈ lines, line.length = 23) :
    ((∃ line ∈ lines, ∃ c ∈ line, c ∉ recognisedSymbols) →
      (parseLevelLayout lines alloc).hasError = UNKNOWN_ENEMY_TYPE) ∧
    ((∀ line ∈ lines, ∀ c ∈ line, c ∈ recognisedSymbols) → (∀ line ∈ lines, 'X' ∉ line) →
      (parseLevelLayout lines alloc).hasError = NO_PLAYER_EXISTS) ∧
    ((∀ line ∈ lines, ∀ c ∈ line, c ∈ recognisedSymbols) → (∃ line ∈ lines, 'X' ∈ line) →
      (∀ line ∈ lines, 'E' ∉ line) →
      (parseLevelLayout lines alloc).hasError = NO_EXIT_EXISTS) ∧
    ((parseLevelLayout lines alloc).hasError = 0 →
      (∀ line ∈ lines, ∀ c ∈ line, c ∈ recognisedSymbols) ∧ (∃ line ∈ lines, 'X' ∈ line) ∧
        (∃ line ∈ lines, 'E' ∈ line)) ∧
    ((∀ line ∈ lines, ∀ c ∈ line, c ∈ recognisedSymbols) → (∃ line ∈ lines, 'X' ∈ line) →
      (∃ line ∈ lines, 'E' ∈ line) → alloc.wallsOk = true →
      (∀ i, alloc.enemiesOk i = true) → (∀ i, alloc.itemsOk i = true) →
      (parseLevelLayout lines alloc).hasError = 0) ∧
    UNKNOWN_ENEMY_TYPE ≠ NO_PLAYER_EXISTS ∧ UNKNOWN_ENEMY_TYPE ≠ NO_EXIT_EXISTS ∧
    NO_PLAYER_EXISTS ≠ NO_EXIT_EXISTS ∧ UNKNOWN_ENEMY_TYPE ≠ 0 ∧ NO_PLAYER_EXISTS ≠ 0 ∧
    NO_EXIT_EXISTS ≠ 0 := by
  have hlen2 : ∀ line ∈ lines, line.length = GRID_SIZE.toNat := hlen
  have hbad : (∃ line ∈ lines, ∃ c ∈ line, c ∉ recognisedSymbols) →
      (parseLevelLayout lines alloc).hasError = UNKNOWN_ENEMY_TYPE := by
    intro h
    obtain ⟨r, hr⟩ := parseRows_error lines 0
      { start := INVALID_POS, endPos := INVALID_POS, walls := [],
        allEnemies := fun _ _ => INVALID_POS, enemyCounts := fun _ => 0,
        allItems := fun _ _ => INVALID_POS, itemCounts := fun _ => 0,
        objectiveID := ObjectiveType.EXIT_OBJ } hlen2 h
    unfold parseLevelLayout
    simp only [hr]
  have hgood : (∀ line ∈ lines, ∀ c ∈ line, c ∈ recognisedSymbols) →
      ((∀ line ∈ lines, 'X' ∉ line) →
        (parseLevelLayout lines alloc).hasError = NO_PLAYER_EXISTS) ∧
      ((∃ line ∈ lines, 'X' ∈ line) → (∀ line ∈ lines, 'E' ∉ line) →
        (parseLevelLayout lines alloc).hasError = NO_EXIT_EXISTS) ∧
      ((∃ line ∈ lines, 'X' ∈ line) → (∃ line ∈ lines, 'E' ∈ line) → alloc.wallsOk = true →
        (∀ i, alloc.enemiesOk i = true) → (∀ i, alloc.itemsOk i = true) →
        (parseLevelLayout lines alloc).hasError = 0) := by
    intro h
    obtain ⟨r, hr, hs, he⟩ := parseRows_ok lines 0
      { start := INVALID_POS, endPos := INVALID_POS, walls := [],
        allEnemies := fun _ _ => INVALID_POS, enemyCounts := fun _ => 0,
        allItems := fun _ _ => INVALID_POS, itemCounts := fun _ => 0,
        objectiveID := ObjectiveType.EXIT_OBJ } hlen2 h
    simp only [true_and] at hs he
    refine ⟨?_, ?_, ?_⟩
    · intro hX
      unfold parseLevelLayout
      simp only [hr]
      rw [if_pos ((matchesPosition_iff _ _).mpr (hs.mpr hX))]
    · intro hX hE
      have h1 : ¬ matchesPosition r.start INVALID_POS = true := by
        rw [matchesPosition_iff, hs]
        push_neg
        exact hX
      unfold parseLevelLayout
      simp only [hr]
      rw [if_neg h1, if_pos ((matchesPosition_iff _ _).mpr (he.mpr hE))]
    · intro hX hE hw hen hit
      have h1 : ¬ matchesPosition r.start INVALID_POS = true := by
        rw [matchesPosition_iff, hs]
        push_neg
        exact hX
      have h2 : ¬ matchesPosition r.endPos INVALID_POS = true := by
        rw [matchesPosition_iff, he]
        push_neg
        exact hE
      unfold parseLevelLayout
      simp only [hr]
      rw [if_neg h1, if_neg h2, if_neg (by rw [hw]; decide)]
      simp only [hen, hit, Bool.not_true, Bool.and_false, List.any_eq_true, Bool.false_eq_true,
        and_false, exists_false, if_false]
  refine ⟨hbad, fun h => (hgood h).1, fun h => (hgood h).2.1, ?_, fun h => (hgood h).2.2,
    by decide, by decide, by decide, by decide, by decide, by decide⟩
  intro hzero
  by_cases hall : ∀ line ∈ lines, ∀ c ∈ line, c ∈ recognisedSymbols
  · by_cases hX : ∃ line ∈ lines, 'X' ∈ line
    · by_cases hE : ∃ line ∈ lines, 'E' ∈ line
      · exact ⟨hall, hX, hE⟩
      · push_neg at hE
        rw [(hgood hall).2.1 hX hE] at hzero
        exact absurd hzero (by decide)
    · push_neg at hX
      rw [(hgood hall).1 hX] at hzero
      exact absurd hzero (by decide)
  · push_neg at hall
    rw [hbad hall] at hzero
    exact absurd hzero (by decide)

/-- C26 on `sampleLayout`: all symbols are recognised and both `'X'` and `'E'` occur, so
with successful `realloc` calls there is no error. -/
theorem parseLevelLayout_errors_witness :
    (∀ line ∈ sampleLayout, line.length = 23) ∧
    (∀ line ∈ sampleLayout, ∀ c ∈ line, c ∈ recognisedSymbols) ∧
    (∃ line ∈ sampleLayout, 'X' ∈ line) ∧ (∃ line ∈ sampleLayout, 'E' ∈ line) ∧
    (parseLevelLayout sampleLayout reallocFine).hasError = 0 :=
  ⟨by decide, by decide, by decide, by decide,
    (parseLevelLayout_errors sampleLayout reallocFine (by decide)).2.2.2.2.1 (by decide)
      (by decide) (by decide) rfl (fun _ => rfl) (fun _ => rfl)⟩

theorem abs_ite (z : Int) : |z| = if 0 ≤ z then z else -z := by
  split
  · exact abs_of_nonneg (by assumption)
  · exact abs_of_neg (by omega)
/-! ## Line of sight: the diagonal checks and the open board -/

theorem lineOfSightLoop_eq_plain (wallLayer : Int → Int → Nat)
    (xFinish yFinish ddx ddy xStep yStep : Int) :
    ∀ (fuel : Nat) (xStart yStart err : Int),
      lineOfSightLoop wallLayer xFinish yFinish ddx ddy xStep yStep fuel xStart yStart err =
        lineOfSightLoopPlain wallLayer xFinish yFinish ddx ddy xStep yStep fuel xStart yStart
          err := by
  intro fuel
  induction fuel with
  | zero => intro x y err; rfl
  | succ fuel ih =>
    intro x y err
    rw [lineOfSightLoop, lineOfSightLoopPlain]
    by_cases hw : wallLayer y x = WALL
    · rw [if_pos hw, if_pos hw]
    · rw [if_neg hw, if_neg hw]
      by_cases hfin : x = xFinish ∧ y = yFinish
      · rw [if_pos hfin, if_pos hfin]
      · rw [if_neg hfin, if_neg hfin]
        simp only
        by_cases h1 : err * 2 > -ddy
        · rw [if_pos h1, if_pos h1]
          have hback : x + xStep - xStep = x := by ring
          rw [hback, if_neg (fun hc => hw hc.1)]
          exact ih _ _ _
        · rw [if_neg h1, if_neg h1]
          by_cases h2 : err * 2 < ddx
          · rw [if_pos h2, if_pos h2]
            have hback : y + yStep - yStep = y := by ring
            rw [hback, if_neg (fun hc => hw hc.2)]
            exact ih _ _ _
          · rw [if_neg h2, if_neg h2]
            exact ih _ _ _

/-- C40: the two diagonal-wall checks inside `hasLineOfSight` never change its result: for
every wall layer, every pair of positions and every radius, `hasLineOfSight` returns what
the same trace without the two checks returns.  (After a step along x the first cell of
the check, and after a step along y the second cell, is the cell just left, which the top
of the round found not to be a wall.) -/
theorem hasLineOfSight_eq_plain (pos player : Position) (wallLayer : Int → Int → Nat)
    (aggroRange : Int) :
    hasLineOfSight pos player wallLayer aggroRange =
      hasLineOfSightPlain pos player wallLayer aggroRange := by
  unfold hasLineOfSight hasLineOfSightPlain
  simp only
  split
  · rfl
  · exact lineOfSightLoop_eq_plain _ _ _ _ _ _ _ _ _ _ _

theorem lineOfSightTrace_result (wallLayer : Int → Int → Nat)
    (xFinish yFinish ddx ddy xStep yStep : Int) :
    ∀ (fuel : Nat) (xStart yStart err : Int),
      (lineOfSightTrace wallLayer xFinish yFinish ddx ddy xStep yStep fuel xStart yStart
          err).map SightTrace.result =
        lineOfSightLoop wallLayer xFinish yFinish ddx ddy xStep yStep fuel xStart yStart
          err := by
  intro fuel
  induction fuel with
  | zero => intro x y err; rfl
  | succ fuel ih =>
    intro x y err
    rw [lineOfSightLoop, lineOfSightTrace]
    have hext : ∀ (here : Position) (cells : List Position) (o : Option SightTrace),
        (o.map (SightTrace.extend here cells)).map SightTrace.result =
          o.map SightTrace.result := by
      intro here cells o
      cases o <;> rfl
    by_cases hw : wallLayer y x = WALL
    · simp only [if_pos hw, Option.map_some']
    · simp only [if_neg hw]
      by_cases hfin : x = xFinish ∧ y = yFinish
      · simp only [if_pos hfin, Option.map_some']
      · simp only [if_neg hfin]
        by_cases h1 : err * 2 > -ddy
        · simp only [if_pos h1]
          by_cases ha : wallLayer y (x + xStep - xStep) = WALL
          · by_cases hb : wallLayer (y - yStep) (x + xStep) = WALL
            · simp only [if_pos ha, if_pos hb, if_pos (And.intro ha hb), Option.map_some']
            · simp only [if_pos ha, if_neg hb, if_neg (fun hc : _ ∧ _ => hb hc.2), hext, ih]
          · simp only [if_neg ha, if_neg (fun hc : _ ∧ _ => ha hc.1), hext, ih]
        · simp only [if_neg h1]
          by_cases h2 : err * 2 < ddx
          · simp only [if_pos h2]
            by_cases ha : wallLayer (y + yStep) (x - xStep) = WALL
            · by_cases hb : wallLayer (y + yStep - yStep) x = WALL
              · simp only [if_pos ha, if_pos hb, if_pos (And.intro ha hb), Option.map_some']
              · simp only [if_pos ha, if_neg hb, if_neg (fun hc : _ ∧ _ => hb hc.2), hext, ih]
            · simp only [if_neg ha, if_neg (fun hc : _ ∧ _ => ha hc.1), hext, ih]
          · simp only [if_neg h2, hext, ih]

theorem hasLineOfSightTrace_result (pos player : Position) (wallLayer : Int → Int → Nat)
    (aggroRange : Int) :
    (hasLineOfSightTrace pos player wallLayer aggroRange).map SightTrace.result =
      hasLineOfSight pos player wallLayer aggroRange := by
  unfold hasLineOfSight hasLineOfSightTrace
  simp only
  split
  · rfl
  · exact lineOfSightTrace_result _ _ _ _ _ _ _ _ _ _ _

theorem stepToward_x (xFinish yFinish x y xStep : Int) (hxs : xStep = 1 ∨ xStep = -1)
    (a : Nat) (hx : xFinish = x + ((a : Int) + 1) * xStep) :
    StepToward ⟨xFinish, yFinish⟩ ⟨x, y⟩ ⟨x + xStep, y⟩ := by
  unfold StepToward Adjacent calculateHCost
  simp only [abs_ite]
  rcases hxs with rfl | rfl <;> subst hx <;> split_ifs <;> omega

theorem stepToward_y (xFinish yFinish x y yStep : Int) (hys : yStep = 1 ∨ yStep = -1)
    (b : Nat) (hy : yFinish = y + ((b : Int) + 1) * yStep) :
    StepToward ⟨xFinish, yFinish⟩ ⟨x, y⟩ ⟨x, y + yStep⟩ := by
  unfold StepToward Adjacent calculateHCost
  simp only [abs_ite]
  rcases hys with rfl | rfl <;> subst hy <;> split_ifs <;> omega

theorem lineOfSightTrace_open (wallLayer : Int → Int → Nat)
    (xFinish yFinish ddx ddy xStep yStep : Int)
    (hxs : xStep = 1 ∨ xStep = -1) (hys : yStep = 1 ∨ yStep = -1)
    (hopen : ∀ a2 b2 : Nat, (a2 : Int) ≤ ddx → (b2 : Int) ≤ ddy →
      wallLayer (yFinish - b2 * yStep) (xFinish - a2 * xStep) ≠ WALL) :
    ∀ (fuel a b : Nat) (x y err : Int),
      (a : Int) ≤ ddx → (b : Int) ≤ ddy → xFinish = x + a * xStep → yFinish = y + b * yStep →
      err = ddx - ddy + a * ddy - b * ddx → a + b + 1 ≤ fuel →
      ∃ t, lineOfSightTrace wallLayer xFinish yFinish ddx ddy xStep yStep fuel x y err =
          some t ∧ t.result = true ∧ t.visited.length = a + b + 1 ∧
        t.visited.head? = some ⟨x, y⟩ ∧ t.visited.getLast? = some ⟨xFinish, yFinish⟩ ∧
        List.Chain' (StepToward ⟨xFinish, yFinish⟩) t.visited ∧
        (∀ q ∈ t.visited, ∃ a2 b2 : Nat, a2 ≤ a ∧ b2 ≤ b ∧ xFinish = q.x + a2 * xStep ∧
          yFinish = q.y + b2 * yStep) ∧
        ∀ q ∈ t.reads, ∃ v ∈ t.visited, q = v ∨ q = ⟨v.x - xStep, v.y⟩ := by
  intro fuel
  induction fuel with
  | zero => intro a b x y err _ _ _ _ _ hf; omega
  | succ fuel ih =>
    intro a b x y err ha hb hx hy herr hf
    rw [lineOfSightTrace]
    have hhere : wallLayer y x ≠ WALL := by
      have h := hopen a b ha hb
      have e1 : yFinish - (b : Int) * yStep = y := by rw [hy]; ring
      have e2 : xFinish - (a : Int) * xStep = x := by rw [hx]; ring
      rwa [e1, e2] at h
    simp only [if_neg hhere]
    by_cases hfin : x = xFinish ∧ y = yFinish
    · have ha0 : a = 0 := by
        have h := hfin.1
        rcases hxs with rfl | rfl <;> omega
      have hb0 : b = 0 := by
        have h := hfin.2
        rcases hys with rfl | rfl <;> omega
      subst ha0 hb0
      rw [if_pos hfin]
      refine ⟨_, rfl, rfl, rfl, rfl, ?_, List.chain'_singleton _, ?_, ?_⟩
      · rw [hfin.1, hfin.2]; rfl
      · intro q hq
        rw [List.mem_singleton.mp hq]
        exact ⟨0, 0, le_refl _, le_refl _, by simpa using hx, by simpa using hy⟩
      · intro q hq
        exact ⟨⟨x, y⟩, List.mem_singleton.mpr rfl, Or.inl (List.mem_singleton.mp hq)⟩
    · rw [if_neg hfin]
      have hab : a ≠ 0 ∨ b ≠ 0 := by
        by_contra hc
        push_neg at hc
        obtain ⟨rfl, rfl⟩ := hc
        exact hfin ⟨by simpa using hx.symm, by simpa using hy.symm⟩
      have hda : (0 : Int) ≤ ddx := le_trans (Int.ofNat_nonneg a) ha
      have hdb : (0 : Int) ≤ ddy := le_trans (Int.ofNat_nonneg b) hb
      by_cases h1 : err * 2 > -ddy
      · rw [if_pos h1]
        have hapos : a ≠ 0 := by
          rintro rfl
          have hb1 : (1 : Int) ≤ b := by omega
          have hm : ddx ≤ (b : Int) * ddx := by
            have := mul_le_mul_of_nonneg_right hb1 hda
            linarith
          simp only [Nat.cast_zero, zero_mul, add_zero] at herr
          linarith
        obtain ⟨a, rfl⟩ := Nat.exists_eq_succ_of_ne_zero hapos
        obtain ⟨t, ht, hres, hlen, hhead, hlast, hchain, hvis, hreads⟩ :=
          ih a b (x + xStep) y (err - ddy) (by push_cast at ha; omega) hb
            (by rw [hx]; push_cast; ring) hy (by rw [herr]; push_cast; ring) (by omega)
        have hfirst : ¬ wallLayer y (x + xStep - xStep) = WALL := by
          have hback : x + xStep - xStep = x := by ring
          rw [hback]; exact hhere
        rw [if_neg hfirst, ht]
        simp only [Option.map_some']
        refine ⟨_, rfl, hres, ?_, rfl, ?_, ?_, ?_, ?_⟩
        · simp only [SightTrace.extend, List.length_cons, hlen]; omega
        · simp only [SightTrace.extend]
          cases hv : t.visited with
          | nil => rw [hv] at hhead; exact absurd hhead (by simp)
          | cons v l => rw [hv] at hlast; rw [List.getLast?_cons_cons]; exact hlast
        · simp only [SightTrace.extend]
          cases hv : t.visited with
          | nil => rw [hv] at hhead; exact absurd hhead (by simp)
          | cons v l =>
            rw [hv] at hhead hchain
            simp only [List.head?_cons, Option.some.injEq] at hhead
            subst hhead
            refine List.Chain'.cons ?_ hchain
            exact stepToward_x _ _ _ _ _ hxs a (by rw [hx]; push_cast; ring)
        · intro q hq
          simp only [SightTrace.extend, List.mem_cons] at hq
          rcases hq with rfl | hq
          · exact ⟨a + 1, b, le_refl _, le_refl _, hx, hy⟩
          · obtain ⟨a2, b2, h1, h2, h3, h4⟩ := hvis q hq
            exact ⟨a2, b2, by omega, h2, h3, h4⟩
        · intro q hq
          simp only [SightTrace.extend, List.mem_append, List.mem_cons, List.mem_singleton,
            List.not_mem_nil, or_false] at hq
          rcases hq with (rfl | rfl) | hq
          · exact ⟨⟨x, y⟩, List.mem_cons_self _ _, Or.inl rfl⟩
          · refine ⟨⟨x, y⟩, List.mem_cons_self _ _, Or.inl ?_⟩
            have hback : x + xStep - xStep = x := by ring
            rw [hback]
          · obtain ⟨v, hv, hq⟩ := hreads q hq
            exact ⟨v, List.mem_cons_of_mem _ hv, hq⟩
      · rw [if_neg h1]
        have hbpos : b ≠ 0 := by
          rintro rfl
          have ha1 : (1 : Int) ≤ a := by omega
          have hm : ddy ≤ (a : Int) * ddy := by
            have := mul_le_mul_of_nonneg_right ha1 hdb
            linarith
          simp only [Nat.cast_zero, zero_mul, sub_zero] at herr
          have : (a : Int) ≤ ddx := ha
          apply h1
          linarith
        obtain ⟨b, rfl⟩ := Nat.exists_eq_succ_of_ne_zero hbpos
        have h2 : err * 2 < ddx := by
          by_contra h2
          have hb1 : (1 : Int) ≤ ((b + 1 : Nat) : Int) := by push_cast; omega
          have : ddx + ddy ≤ 0 := by linarith
          have : ddy ≤ 0 := by linarith
          linarith
        rw [if_pos h2]
        obtain ⟨t, ht, hres, hlen, hhead, hlast, hchain, hvis, hreads⟩ :=
          ih a b x (y + yStep) (err + ddx) ha (by push_cast at hb; omega) hx
            (by rw [hy]; push_cast; ring) (by rw [herr]; push_cast; ring) (by omega)
        have hsecond : ¬ wallLayer (y + yStep - yStep) x = WALL := by
          have hback : y + yStep - yStep = y := by ring
          rw [hback]; exact hhere
        have hnext : (⟨x, y + yStep⟩ : Position) ∈ t.visited := by
          cases hv : t.visited with
          | nil => rw [hv] at hhead; exact absurd hhead (by simp)
          | cons v l =>
            rw [hv] at hhead
            simp only [List.head?_cons, Option.some.injEq] at hhead
            rw [hhead]
            exact List.mem_cons_self _ _
        have key : ∀ cells : List Position,
            (∀ q ∈ cells, q = (⟨x, y⟩ : Position) ∨ q = ⟨x - xStep, y + yStep⟩) →
            ∃ t2, Option.map (SightTrace.extend ⟨x, y⟩ cells) (some t) = some t2 ∧
              t2.result = true ∧ t2.visited.length = a + (b + 1) + 1 ∧
              t2.visited.head? = some ⟨x, y⟩ ∧
              t2.visited.getLast? = some ⟨xFinish, yFinish⟩ ∧
              List.Chain' (StepToward ⟨xFinish, yFinish⟩) t2.visited ∧
              (∀ q ∈ t2.visited, ∃ a2 b2 : Nat, a2 ≤ a ∧ b2 ≤ b + 1 ∧
                xFinish = q.x + a2 * xStep ∧ yFinish = q.y + b2 * yStep) ∧
              ∀ q ∈ t2.reads, ∃ v ∈ t2.visited, q = v ∨ q = ⟨v.x - xStep, v.y⟩ := by
          intro cells hcells
          simp only [Option.map_some']
          refine ⟨_, rfl, hres, ?_, rfl, ?_, ?_, ?_, ?_⟩
          · simp only [SightTrace.extend, List.length_cons, hlen]; omega
          · simp only [SightTrace.extend]
            cases hv : t.visited with
            | nil => rw [hv] at hhead; exact absurd hhead (by simp)
            | cons v l => rw [hv] at hlast; rw [List.getLast?_cons_cons]; exact hlast
          · simp only [SightTrace.extend]
            cases hv : t.visited with
            | nil => rw [hv] at hhead; exact absurd hhead (by simp)
            | cons v l =>
              rw [hv] at hhead hchain
              simp only [List.head?_cons, Option.some.injEq] at hhead
              subst hhead
              refine List.Chain'.cons ?_ hchain
              exact stepToward_y _ _ _ _ _ hys b (by rw [hy]; push_cast; ring)
          · intro q hq
            simp only [SightTrace.extend, List.mem_cons] at hq
            rcases hq with rfl | hq
            · exact ⟨a, b + 1, le_refl _, le_refl _, hx, hy⟩
            · obtain ⟨a2, b2, h1, h2, h3, h4⟩ := hvis q hq
              exact ⟨a2, b2, h1, by omega, h3, h4⟩
          · intro q hq
            simp only [SightTrace.extend, List.mem_append] at hq
            rcases hq with hq | hq
            · rcases hcells q hq with rfl | rfl
              · exact ⟨⟨x, y⟩, List.mem_cons_self _ _, Or.inl rfl⟩
              · exact ⟨⟨x, y + yStep⟩, List.mem_cons_of_mem _ hnext, Or.inr rfl⟩
            · obtain ⟨v, hv, hq⟩ := hreads q hq
              exact ⟨v, List.mem_cons_of_mem _ hv, hq⟩
        have hback : y + yStep - yStep = y := by ring
        by_cases hfst : wallLayer (y + yStep) (x - xStep) = WALL
        · rw [if_pos hfst, if_neg hsecond, ht]
          apply key
          intro q hq
          simp only [List.mem_cons, List.mem_singleton, List.not_mem_nil, or_false] at hq
          rcases hq with rfl | rfl | rfl
          · exact Or.inl rfl
          · exact Or.inr rfl
          · left; rw [hback]
        · rw [if_neg hfst, ht]
          apply key
          intro q hq
          simp only [List.mem_cons, List.mem_singleton, List.not_mem_nil, or_false] at hq
          rcases hq with rfl | rfl
          · exact Or.inl rfl
          · exact Or.inr rfl

theorem lineOfSightLoopPlain_rounds (wallLayer : Int → Int → Nat)
    (xFinish yFinish ddx ddy xStep yStep : Int)
    (hxs : xStep = 1 ∨ xStep = -1) (hys : yStep = 1 ∨ yStep = -1)
    (hopen : ∀ a2 b2 : Nat, (a2 : Int) ≤ ddx → (b2 : Int) ≤ ddy →
      wallLayer (yFinish - b2 * yStep) (xFinish - a2 * xStep) ≠ WALL) :
    ∀ (fuel a b : Nat) (x y err : Int),
      (a : Int) ≤ ddx → (b : Int) ≤ ddy → xFinish = x + a * xStep → yFinish = y + b * yStep →
      err = ddx - ddy + a * ddy - b * ddx →
      lineOfSightLoopPlain wallLayer xFinish yFinish ddx ddy xStep yStep fuel x y err =
        if fuel ≤ a + b then none else some true := by
  intro fuel
  induction fuel with
  | zero =>
    intro a b x y err _ _ _ _ _
    rw [lineOfSightLoopPlain, if_pos (Nat.zero_le _)]
  | succ fuel ih =>
    intro a b x y err ha hb hx hy herr
    rw [lineOfSightLoopPlain]
    have hhere : wallLayer y x ≠ WALL := by
      have h := hopen a b ha hb
      have e1 : yFinish - (b : Int) * yStep = y := by rw [hy]; ring
      have e2 : xFinish - (a : Int) * xStep = x := by rw [hx]; ring
      rwa [e1, e2] at h
    simp only [if_neg hhere]
    by_cases hfin : x = xFinish ∧ y = yFinish
    · have ha0 : a = 0 := by
        have h := hfin.1
        rcases hxs with rfl | rfl <;> omega
      have hb0 : b = 0 := by
        have h := hfin.2
        rcases hys with rfl | rfl <;> omega
      subst ha0 hb0
      rw [if_pos hfin, if_neg (by omega)]
    · rw [if_neg hfin]
      have hab : a ≠ 0 ∨ b ≠ 0 := by
        by_contra hc
        push_neg at hc
        obtain ⟨rfl, rfl⟩ := hc
        exact hfin ⟨by simpa using hx.symm, by simpa using hy.symm⟩
      have hda : (0 : Int) ≤ ddx := le_trans (Int.ofNat_nonneg a) ha
      have hdb : (0 : Int) ≤ ddy := le_trans (Int.ofNat_nonneg b) hb
      by_cases h1 : err * 2 > -ddy
      · rw [if_pos h1]
        have hapos : a ≠ 0 := by
          rintro rfl
          have hb1 : (1 : Int) ≤ b := by omega
          have hm : ddx ≤ (b : Int) * ddx := by
            have := mul_le_mul_of_nonneg_right hb1 hda
            linarith
          simp only [Nat.cast_zero, zero_mul, add_zero] at herr
          linarith
        obtain ⟨a, rfl⟩ := Nat.exists_eq_succ_of_ne_zero hapos
        rw [ih a b (x + xStep) y (err - ddy) (by push_cast at ha; omega) hb
          (by rw [hx]; push_cast; ring) hy (by rw [herr]; push_cast; ring)]
        by_cases hf : fuel ≤ a + b
        · rw [if_pos hf, if_pos (by omega)]
        · rw [if_neg hf, if_neg (by omega)]
      · rw [if_neg h1]
        have hbpos : b ≠ 0 := by
          rintro rfl
          have ha1 : (1 : Int) ≤ a := by omega
          have hm : ddy ≤ (a : Int) * ddy := by
            have := mul_le_mul_of_nonneg_right ha1 hdb
            linarith
          simp only [Nat.cast_zero, zero_mul, sub_zero] at herr
          have : (a : Int) ≤ ddx := ha
          apply h1
          linarith
        obtain ⟨b, rfl⟩ := Nat.exists_eq_succ_of_ne_zero hbpos
        have h2 : err * 2 < ddx := by
          by_contra h2
          have hb1 : (1 : Int) ≤ ((b + 1 : Nat) : Int) := by push_cast; omega
          have : ddx + ddy ≤ 0 := by linarith
          have : ddy ≤ 0 := by linarith
          linarith
        rw [if_pos h2]
        rw [ih a b x (y + yStep) (err + ddx) ha (by push_cast at hb; omega) hx
          (by rw [hy]; push_cast; ring) (by rw [herr]; push_cast; ring)]
        by_cases hf : fuel ≤ a + b
        · rw [if_pos hf, if_pos (by omega)]
        · rw [if_neg hf, if_neg (by omega)]

/-- C36: on a wall layer without a wall in the rectangle spanned by `pos` and `player` (so
in particular on a layer without any wall), for interior `pos` and `player` whose
coordinate differences are at most the radius, `hasLineOfSight` returns true, and its loop
takes exactly `|dx| + |dy|` single-axis steps: with `|dx| + |dy|` rounds of fuel or fewer
the loop of `hasLineOfSight` has not returned, with one round more it returns true.  Walls
outside the rectangle do not matter, so the loop never stands outside it.  The recorded
trace, whose result is that of `hasLineOfSight` for every input, stands on exactly
`|dx| + |dy| + 1` cells, from `pos` to `player`, each one a single cardinal step after the
previous one and one cell closer to the player, all inside the rectangle; and every cell
of the wall layer that is read is an index pair inside the `GRID_SIZE` by `GRID_SIZE`
array. -/
theorem hasLineOfSight_open_board (pos player : Position) (wallLayer : Int → Int → Nat)
    (aggroRange : Int)
    (hopen : ∀ q, InRectangle pos player q → wallLayer q.y q.x ≠ WALL) (hpos : Interior pos)
    (hplayer : Interior player) (hdx : |player.x - pos.x| ≤ aggroRange)
    (hdy : |player.y - pos.y| ≤ aggroRange) :
    hasLineOfSight pos player wallLayer aggroRange = some true ∧
    (∀ fuel : Nat,
      lineOfSightLoop wallLayer player.x player.y |player.x - pos.x| |player.y - pos.y|
          (if pos.x < player.x then 1 else -1) (if pos.y < player.y then 1 else -1) fuel
          pos.x pos.y (|player.x - pos.x| - |player.y - pos.y|) =
        if fuel ≤ (|player.x - pos.x| + |player.y - pos.y|).toNat then none else some true) ∧
    (∀ (layer : Int → Int → Nat) (r : Int) (a b : Position),
      (hasLineOfSightTrace a b layer r).map SightTrace.result = hasLineOfSight a b layer r) ∧
    ∃ t, hasLineOfSightTrace pos player wallLayer aggroRange = some t ∧ t.result = true ∧
      t.visited.length = (|player.x - pos.x| + |player.y - pos.y|).toNat + 1 ∧
      t.visited.head? = some pos ∧ t.visited.getLast? = some player ∧
      List.Chain' (StepToward player) t.visited ∧
      (∀ q ∈ t.visited, InRectangle pos player q) ∧
      ∀ q ∈ t.reads, InGrid q := by
  have hxs : (if pos.x < player.x then (1 : Int) else -1) = 1 ∨
      (if pos.x < player.x then (1 : Int) else -1) = -1 := by split <;> simp
  have hys : (if pos.y < player.y then (1 : Int) else -1) = 1 ∨
      (if pos.y < player.y then (1 : Int) else -1) = -1 := by split <;> simp
  have hax : ((|player.x - pos.x|).toNat : Int) = |player.x - pos.x| :=
    Int.toNat_of_nonneg (abs_nonneg _)
  have hay : ((|player.y - pos.y|).toNat : Int) = |player.y - pos.y| :=
    Int.toNat_of_nonneg (abs_nonneg _)
  have hfx : player.x = pos.x + ((|player.x - pos.x|).toNat : Int) *
      (if pos.x < player.x then (1 : Int) else -1) := by
    rw [hax, abs_ite]; split_ifs <;> omega
  have hfy : player.y = pos.y + ((|player.y - pos.y|).toNat : Int) *
      (if pos.y < player.y then (1 : Int) else -1) := by
    rw [hay, abs_ite]; split_ifs <;> omega
  have hregion : ∀ a2 b2 : Nat, (a2 : Int) ≤ |player.x - pos.x| →
      (b2 : Int) ≤ |player.y - pos.y| →
      wallLayer (player.y - (b2 : Int) * (if pos.y < player.y then (1 : Int) else -1))
        (player.x - (a2 : Int) * (if pos.x < player.x then (1 : Int) else -1)) ≠ WALL := by
    intro a2 b2 h1 h2
    apply hopen
      ⟨player.x - (a2 : Int) * (if pos.x < player.x then (1 : Int) else -1),
        player.y - (b2 : Int) * (if pos.y < player.y then (1 : Int) else -1)⟩
    rw [abs_ite] at h1 h2
    unfold InRectangle
    simp only
    split_ifs at h1 h2 ⊢ <;> omega
  have hrounds : ∀ fuel : Nat,
      lineOfSightLoop wallLayer player.x player.y |player.x - pos.x| |player.y - pos.y|
          (if pos.x < player.x then 1 else -1) (if pos.y < player.y then 1 else -1) fuel
          pos.x pos.y (|player.x - pos.x| - |player.y - pos.y|) =
        if fuel ≤ (|player.x - pos.x| + |player.y - pos.y|).toNat then none else some true := by
    intro fuel
    rw [lineOfSightLoop_eq_plain,
      lineOfSightLoopPlain_rounds wallLayer player.x player.y |player.x - pos.x|
        |player.y - pos.y| _ _ hxs hys hregion fuel (|player.x - pos.x|).toNat
        (|player.y - pos.y|).toNat pos.x pos.y (|player.x - pos.x| - |player.y - pos.y|)
        (le_of_eq hax) (le_of_eq hay) hfx hfy (by rw [hax, hay]; ring)]
    have hsum : (|player.x - pos.x| + |player.y - pos.y|).toNat =
        (|player.x - pos.x|).toNat + (|player.y - pos.y|).toNat := by omega
    rw [hsum]
  obtain ⟨t, ht, hres, hlen, hhead, hlast, hchain, hvis, hreads⟩ :=
    lineOfSightTrace_open wallLayer player.x player.y |player.x - pos.x|
      |player.y - pos.y| _ _ hxs hys hregion
      (|player.x - pos.x| + |player.y - pos.y| + 1).toNat
      (|player.x - pos.x|).toNat (|player.y - pos.y|).toNat pos.x pos.y
      (|player.x - pos.x| - |player.y - pos.y|) (le_of_eq hax) (le_of_eq hay) hfx hfy
      (by rw [hax, hay]; ring) (by omega)
  have htrace : hasLineOfSightTrace pos player wallLayer aggroRange = some t := by
    unfold hasLineOfSightTrace
    simp only
    rw [if_neg (by omega)]
    exact ht
  have hrect : ∀ q ∈ t.visited, InRectangle pos player q := by
    intro q hq
    obtain ⟨a2, b2, h1, h2, h3, h4⟩ := hvis q hq
    have h1i : (a2 : Int) ≤ |player.x - pos.x| := by omega
    have h2i : (b2 : Int) ≤ |player.y - pos.y| := by omega
    rw [abs_ite] at h1i h2i
    unfold InRectangle
    split_ifs at h1i h2i h3 h4 <;> omega
  refine ⟨?_, hrounds, fun layer r a b => hasLineOfSightTrace_result a b layer r, t, htrace,
    hres, ?_, hhead, hlast, hchain, hrect, ?_⟩
  · rw [← hasLineOfSightTrace_result, htrace, Option.map_some', hres]
  · rw [hlen]; omega
  · intro q hq
    obtain ⟨v, hv, hq⟩ := hreads q hq
    have hr := hrect v hv
    unfold InRectangle at hr
    unfold Interior at hpos hplayer
    unfold InGrid
    simp only [GRID_SIZE] at hpos hplayer ⊢
    rcases hq with rfl | rfl
    · omega
    · simp only
      split_ifs <;> omega

/-- C36 on the board without walls: from (1,1) the player at (3,2), radius 6. -/
theorem hasLineOfSight_open_board_witness :
    Interior ⟨1, 1⟩ ∧ Interior ⟨3, 2⟩ ∧
    hasLineOfSight ⟨1, 1⟩ ⟨3, 2⟩ noWalls AGGRO_RADIUS = some true ∧
    (∀ fuel : Nat,
      lineOfSightLoop noWalls (⟨3, 2⟩ : Position).x (⟨3, 2⟩ : Position).y
          |(⟨3, 2⟩ : Position).x - (⟨1, 1⟩ : Position).x|
          |(⟨3, 2⟩ : Position).y - (⟨1, 1⟩ : Position).y|
          (if (⟨1, 1⟩ : Position).x < (⟨3, 2⟩ : Position).x then 1 else -1)
          (if (⟨1, 1⟩ : Position).y < (⟨3, 2⟩ : Position).y then 1 else -1) fuel
          (⟨1, 1⟩ : Position).x (⟨1, 1⟩ : Position).y
          (|(⟨3, 2⟩ : Position).x - (⟨1, 1⟩ : Position).x| -
            |(⟨3, 2⟩ : Position).y - (⟨1, 1⟩ : Position).y|) =
        if fuel ≤ (|(⟨3, 2⟩ : Position).x - (⟨1, 1⟩ : Position).x| +
            |(⟨3, 2⟩ : Position).y - (⟨1, 1⟩ : Position).y|).toNat then none
        else some true) ∧
    (∀ (layer : Int → Int → Nat) (r : Int) (a b : Position),
      (hasLineOfSightTrace a b layer r).map SightTrace.result = hasLineOfSight a b layer r) ∧
    ∃ t, hasLineOfSightTrace ⟨1, 1⟩ ⟨3, 2⟩ noWalls AGGRO_RADIUS = some t ∧ t.result = true ∧
      t.visited.length =
        (|(⟨3, 2⟩ : Position).x - (⟨1, 1⟩ : Position).x| +
          |(⟨3, 2⟩ : Position).y - (⟨1, 1⟩ : Position).y|).toNat + 1 ∧
      t.visited.head? = some ⟨1, 1⟩ ∧ t.visited.getLast? = some ⟨3, 2⟩ ∧
      List.Chain' (StepToward ⟨3, 2⟩) t.visited ∧
      (∀ q ∈ t.visited, InRectangle ⟨1, 1⟩ ⟨3, 2⟩ q) ∧
      ∀ q ∈ t.reads, InGrid q :=
  ⟨by decide, by decide,
    hasLineOfSight_open_board ⟨1, 1⟩ ⟨3, 2⟩ noWalls AGGRO_RADIUS
      (fun _ _ => (by decide : BLANK ≠ WALL)) (by decide) (by decide) (by decide) (by decide)⟩

/-! ## Border walls and the life of an explosion particle -/

theorem detonateBomb_wall_outside (x y : Int) (h : ¬ Interior ⟨x, y⟩)
    (explosionHead : List Particle) (pos : Position) (blastRadius : Int)
    (wallLayer : Int → Int → Nat) :
    (detonateBomb explosionHead pos blastRadius wallLayer).2 y x = wallLayer y x := by
  unfold detonateBomb
  simp only
  rw [range_cast, range_cast, detonate_fold_flat]
  rw [(detonate_fold_cells _ (explosionHead, wallLayer)).2 y x, if_neg (fun hc => h hc.2)]

theorem updateParticleType_wall_outside (x y : Int) (h : ¬ Interior ⟨x, y⟩)
    (l : List Particle) :
    ∀ (e : Option (List Particle)) (il wl : Int → Int → Nat),
      (updateParticleType l e il wl).wallLayer y x = wl y x := by
  induction l with
  | nil => intro e il wl; rfl
  | cons q l ih =>
    intro e il wl
    unfold updateParticleType
    by_cases ht : q.timer - 1 ≤ 0
    · simp only [ht, if_true]
      cases e with
      | none => exact ih _ _ _
      | some ex =>
        simp only
        rw [ih]
        exact detonateBomb_wall_outside x y h _ _ _ _
    · simp only [ht, if_false]
      exact ih _ _ _

theorem updateAllParticles_wall_outside (x y : Int) (h : ¬ Interior ⟨x, y⟩)
    (bombHead explosionHead : List Particle) (itemLayer wallLayer : Int → Int → Nat)
    (frameCounter : Int) :
    (updateAllParticles bombHead explosionHead itemLayer wallLayer frameCounter).wallLayer y x =
      wallLayer y x := by
  unfold updateAllParticles
  simp only
  rw [updateParticleType_wall_outside x y h, updateParticleType_wall_outside x y h]

theorem updateBullets_wall_outside (x y : Int) (h : ¬ Interior ⟨x, y⟩) (l : List Bullet) :
    ∀ (ex : List Particle) (grid : AllEntities),
      (updateBullets l ex grid).grid.wallLayer y x = grid.wallLayer y x := by
  induction l with
  | nil => intro ex grid; rfl
  | cons c l ih =>
    intro ex grid
    simp only [updateBullets]
    split
    · split
      · rename_i hin
        rw [ih]
        simp only [setCell]
        rw [if_neg]
        rintro ⟨rfl, rfl⟩
        apply h
        unfold Interior
        simp only [GRID_SIZE] at hin ⊢
        omega
      · rw [ih]
    · rw [ih]

/-- C31: border walls are permanent.  For every cell `(x, y)` of the outer border (`x` or
`y` equal to 0 or to `GRID_SIZE - 1`), every bomb position, blast radius, particle lists,
bullet list, layers and frame counter, the wall layer holds at `(x, y)` after
`detonateBomb`, after `updateAllParticles` and after `updateBullets` what it held before
the call. -/
theorem border_walls_permanent (x y : Int)
    (hborder : x = 0 ∨ x = GRID_SIZE - 1 ∨ y = 0 ∨ y = GRID_SIZE - 1) :
    (∀ (explosionHead : List Particle) (pos : Position) (blastRadius : Int)
        (wallLayer : Int → Int → Nat),
      (detonateBomb explosionHead pos blastRadius wallLayer).2 y x = wallLayer y x) ∧
    (∀ (bombHead explosionHead : List Particle) (itemLayer wallLayer : Int → Int → Nat)
        (frameCounter : Int),
      (updateAllParticles bombHead explosionHead itemLayer wallLayer frameCounter).wallLayer
        y x = wallLayer y x) ∧
    ∀ (bullets : List Bullet) (explosionHead : List Particle) (grid : AllEntities),
      (updateBullets bullets explosionHead grid).grid.wallLayer y x = grid.wallLayer y x := by
  have h : ¬ Interior ⟨x, y⟩ := by
    unfold Interior
    simp only [GRID_SIZE] at hborder ⊢
    omega
  exact ⟨fun _ _ _ _ => detonateBomb_wall_outside x y h _ _ _ _,
    fun _ _ _ _ _ => updateAllParticles_wall_outside x y h _ _ _ _ _,
    fun _ _ _ => updateBullets_wall_outside x y h _ _ _⟩

/-- C31 at the border cell (0,5): a bomb at (1,5), and a bullet at (1,5) flying left, on
the walled board `chaserGrid`. -/
theorem border_walls_permanent_witness :
    (detonateBomb [] ⟨1, 5⟩ 1 chaserGrid.wallLayer).2 5 0 = chaserGrid.wallLayer 5 0 ∧
    (updateAllParticles [⟨⟨1, 5⟩, 48, 1⟩] [] chaserGrid.itemLayer chaserGrid.wallLayer
      7).wallLayer 5 0 = chaserGrid.wallLayer 5 0 ∧
    (updateBullets [⟨⟨1, 5⟩, 2⟩] [] chaserGrid).grid.wallLayer 5 0 =
      chaserGrid.wallLayer 5 0 :=
  have h := border_walls_permanent 0 5 (Or.inl rfl)
  ⟨h.1 _ _ _ _, h.2.1 _ _ _ _ _, h.2.2 _ _ _⟩

theorem updateAllParticles_explosions_nil (explosionHead : List Particle)
    (itemLayer wallLayer : Int → Int → Nat) (frameCounter : Int) :
    updateAllParticles [] explosionHead itemLayer wallLayer frameCounter =
      { bombs := [], explosions := explosionHead.filterMap ageParticle,
        itemLayer :=
          (updateAllParticles [] explosionHead itemLayer wallLayer frameCounter).itemLayer,
        wallLayer :=
          (updateAllParticles [] explosionHead itemLayer wallLayer frameCounter).wallLayer } := by
  unfold updateAllParticles
  simp only [updateParticleType, Option.getD_some, updateParticleType_particles]

theorem updateAllParticlesN_explosions_nil (k : Nat) :
    ∀ (frameCounter : Int) (st : AllParticles), st.bombs = [] →
      (updateAllParticlesN k frameCounter st).explosions =
        (List.filterMap ageParticle)^[k] st.explosions := by
  induction k with
  | zero => intro f st _; rfl
  | succ k ih =>
    intro f st hb
    rw [updateAllParticlesN, hb, updateAllParticles_explosions_nil, ih _ _ rfl,
      Function.iterate_succ_apply]

theorem iterate_age_short (n : Nat) :
    ∀ l : List Particle, (∀ q ∈ l, q.timer ≤ n + 1) →
      (List.filterMap ageParticle)^[n + 1] l = [] := by
  induction n with
  | zero =>
    intro l h
    rw [Function.iterate_succ_apply, Function.iterate_zero_apply, List.filterMap_eq_nil_iff]
    intro q hq
    have := h q hq
    simp only [ageParticle, ite_eq_left_iff, reduceCtorEq, imp_false, not_not]
    simp only [Nat.cast_zero, zero_add] at this
    omega
  | succ n ih =>
    intro l h
    rw [Function.iterate_succ_apply]
    apply ih
    intro q hq
    obtain ⟨p, hp, hpq⟩ := List.mem_filterMap.mp hq
    have := h p hp
    unfold ageParticle at hpq
    split at hpq
    · exact absurd hpq (by simp)
    · simp only [Option.some.injEq] at hpq
      subst hpq
      simp only
      push_cast at this ⊢
      omega

theorem iterate_age_mem (k : Nat) (l : List Particle) (q : Particle) (hq : q ∈ l)
    (hk : (k : Int) < q.timer) :
    ({ q with timer := q.timer - k } : Particle) ∈ (List.filterMap ageParticle)^[k] l := by
  obtain ⟨l1, l2, rfl⟩ := List.append_of_mem hq
  have h1 : (1 : Int) ≤ q.timer := by
    have : (0 : Int) ≤ (k : Int) := Int.ofNat_nonneg k
    omega
  rw [show l1 ++ q :: l2 = l1 ++ ([q] ++ l2) by rfl, iterate_age_append, iterate_age_append,
    iterate_age_single k q h1, if_pos hk]
  simp

theorem detonateBomb_explosions (explosionHead : List Particle) (pos : Position)
    (blastRadius : Int) (wallLayer : Int → Int → Nat) :
    (∀ q ∈ (detonateBomb explosionHead pos blastRadius wallLayer).1,
      q ∈ explosionHead ∨ q.timer = FPS / 2) ∧
    (Interior pos → 0 ≤ blastRadius →
      (⟨pos, 35, FPS / 2⟩ : Particle) ∈
        (detonateBomb explosionHead pos blastRadius wallLayer).1) := by
  unfold detonateBomb
  simp only
  rw [range_cast, range_cast, detonate_fold_flat]
  rw [(detonate_fold_cells _ (explosionHead, wallLayer)).1]
  constructor
  · intro q hq
    rcases List.mem_append.mp hq with hq | hq
    · obtain ⟨c, _, rfl⟩ := List.mem_map.mp hq
      exact Or.inr rfl
    · exact Or.inl hq
  · intro hpos hr
    apply List.mem_append_left
    apply List.mem_map.mpr
    refine ⟨(pos.x, pos.y), ?_, rfl⟩
    rw [List.mem_reverse, List.mem_filter]
    refine ⟨?_, by simpa using hpos⟩
    rw [mem_blastCells]
    omega

theorem updateAllParticles_detonation (pos : Position) (marker : Nat)
    (itemLayer wallLayer : Int → Int → Nat) (frameCounter : Int) :
    (updateAllParticles [⟨pos, marker, 1⟩] [] itemLayer wallLayer frameCounter).bombs = [] ∧
    (updateAllParticles [⟨pos, marker, 1⟩] [] itemLayer wallLayer frameCounter).explosions =
      (detonateBomb [] pos 1 wallLayer).1.filterMap ageParticle := by
  unfold updateAllParticles
  simp only [updateParticleType, updateParticleType_particles]
  simp

theorem updateAllParticlesN_detonation (pos : Position) (marker : Nat)
    (itemLayer wallLayer : Int → Int → Nat) (frameCounter : Int) (k : Nat) :
    (updateAllParticlesN (k + 1) frameCounter
        ⟨[⟨pos, marker, 1⟩], [], itemLayer, wallLayer⟩).explosions =
      (List.filterMap ageParticle)^[k + 1] (detonateBomb [] pos 1 wallLayer).1 := by
  obtain ⟨h1, h2⟩ := updateAllParticles_detonation pos marker itemLayer wallLayer frameCounter
  rw [updateAllParticlesN, updateAllParticlesN_explosions_nil k _ _ h1, h2,
    Function.iterate_succ_apply]

/-- C32: the explosion particle of a bomb does not last `FPS / 2 = 5` calls.  A bomb at an
interior cell `pos` with one frame left detonates in the first `updateAllParticles` call;
its particle at `pos` is created with timer 5 and aged in that same call, so it is in the
explosion list after the calls 1 to 4 (with timer `5 - k` after call `k`) and the list is
empty after call 5.  The particle of a bullet impact, created with timer 5 by
`updateBullets` after the update of its frame, is there before the next call, after each
of the next four calls, and gone after the fifth: it is drawn in five frames, the bomb's
particle in four. -/
theorem bomb_explosion_four_calls (pos : Position) (marker : Nat)
    (itemLayer wallLayer : Int → Int → Nat) (frameCounter : Int) (hpos : Interior pos) :
    (∀ k : Nat, 1 ≤ k → k ≤ 4 →
      (⟨pos, 35, FPS / 2 - k⟩ : Particle) ∈
        (updateAllParticlesN k frameCounter
          ⟨[⟨pos, marker, 1⟩], [], itemLayer, wallLayer⟩).explosions) ∧
    (updateAllParticlesN 5 frameCounter
      ⟨[⟨pos, marker, 1⟩], [], itemLayer, wallLayer⟩).explosions = [] ∧
    ∀ (b : Bullet) (grid : AllEntities), isValid grid (nextCell b) 'b' = false →
      ∃ p, (updateBullets [b] [] grid).explosions = [⟨p, 35, 5⟩] ∧
        (∀ k : Nat, k ≤ 4 →
          (⟨p, 35, 5 - k⟩ : Particle) ∈
            (updateAllParticlesN k frameCounter
              ⟨[], (updateBullets [b] [] grid).explosions, itemLayer, wallLayer⟩).explosions) ∧
        (updateAllParticlesN 5 frameCounter
          ⟨[], (updateBullets [b] [] grid).explosions, itemLayer, wallLayer⟩).explosions =
          [] := by
  obtain ⟨hall, hmem⟩ := detonateBomb_explosions [] pos 1 wallLayer
  refine ⟨?_, ?_, ?_⟩
  · intro k hk1 hk4
    obtain ⟨k, rfl⟩ := Nat.exists_eq_succ_of_ne_zero (by omega : k ≠ 0)
    rw [updateAllParticlesN_detonation]
    exact iterate_age_mem (k + 1) _ ⟨pos, 35, FPS / 2⟩ (hmem hpos (by decide))
      (by simp only [FPS]; push_cast; omega)
  · rw [updateAllParticlesN_detonation]
    apply iterate_age_short
    intro q hq
    rcases hall q hq with h | h
    · exact absurd h (List.not_mem_nil _)
    · rw [h]; decide
  · intro b grid hv
    have hv2 : isValid { grid with itemLayer := setCell grid.itemLayer b.pos.y b.pos.x BLANK }
        (nextCell b) 'b' = false := by
      rw [isValid_bullet_itemLayer]; exact hv
    have hex : ∃ p, (updateBullets [b] [] grid).explosions = [⟨p, 35, 5⟩] := by
      simp only [updateBullets, hv2, if_true]
      split
      · exact ⟨_, rfl⟩
      · exact ⟨_, rfl⟩
    obtain ⟨p, hp⟩ := hex
    refine ⟨p, hp, ?_, ?_⟩
    · intro k hk
      rw [updateAllParticlesN_explosions_nil k _ _ rfl, hp]
      exact iterate_age_mem k _ ⟨p, 35, 5⟩ (List.mem_singleton.mpr rfl)
        (by simp only; omega)
    · rw [updateAllParticlesN_explosions_nil 5 _ _ rfl, hp]
      apply iterate_age_short
      intro q hq
      rw [List.mem_singleton.mp hq]
      show (5 : Int) ≤ ((4 : Nat) : Int) + 1
      decide

/-- C32 for a bomb at (5,5) on a board without walls, frame counter 1, and for a bullet at
(5,5) flying down into the wall at (5,6) of `impactGrid`. -/
theorem bomb_explosion_four_calls_witness :
    (⟨⟨5, 5⟩, 35, 1⟩ : Particle) ∈
      (updateAllParticlesN 4 1 ⟨[⟨⟨5, 5⟩, 48, 1⟩], [], noWalls, noWalls⟩).explosions ∧
    (updateAllParticlesN 5 1 ⟨[⟨⟨5, 5⟩, 48, 1⟩], [], noWalls, noWalls⟩).explosions = [] ∧
    ∃ p, (updateBullets [⟨⟨5, 5⟩, 1⟩] [] impactGrid).explosions = [⟨p, 35, 5⟩] ∧
      (∀ k : Nat, k ≤ 4 →
        (⟨p, 35, 5 - k⟩ : Particle) ∈
          (updateAllParticlesN k 1
            ⟨[], (updateBullets [⟨⟨5, 5⟩, 1⟩] [] impactGrid).explosions, noWalls,
              noWalls⟩).explosions) ∧
      (updateAllParticlesN 5 1
        ⟨[], (updateBullets [⟨⟨5, 5⟩, 1⟩] [] impactGrid).explosions, noWalls,
          noWalls⟩).explosions = [] :=
  have h := bomb_explosion_four_calls ⟨5, 5⟩ 48 noWalls noWalls 1 (by decide)
  ⟨h.1 4 (by decide) (by decide), h.2.1, h.2.2 ⟨⟨5, 5⟩, 1⟩ impactGrid (by decide)⟩

/-! ## Item pickup: results -/

theorem hasItemLoop_no_match (pos : Position) (i : Nat) :
    ∀ (fuel j : Nat) (st : ItemState),
      (∀ k : Nat, j ≤ k → (k : Int) < st.level.itemCounts i → st.allItems i k ≠ pos) →
      st.level.itemCounts i ≤ (j : Int) + fuel →
      hasItemLoop pos i fuel j st = some st := by
  intro fuel
  induction fuel with
  | zero =>
    intro j st _ hf
    rw [hasItemLoop, if_neg (by simp at hf; omega)]
  | succ fuel ih =>
    intro j st hno hf
    rw [hasItemLoop]
    by_cases hj : (j : Int) < st.level.itemCounts i
    · rw [if_pos hj]
      have hne : matchesPosition (st.allItems i j) pos ≠ true := by
        rw [Ne, matchesPosition_iff]
        exact hno j (le_refl _) hj
      rw [if_neg hne]
      exact ih (j + 1) st (fun k hk => hno k (by omega)) (by push_cast at hf ⊢; omega)
    · rw [if_neg hj]

theorem hasItemLoop_match (pos : Position) (i m : Nat) :
    ∀ (fuel j : Nat) (st : ItemState), j ≤ m → (m : Int) < st.level.itemCounts i →
      st.allItems i m = pos →
      (∀ k : Nat, (k : Int) < st.level.itemCounts i → st.allItems i k = pos → k = m) →
      st.level.itemCounts i ≤ (j : Int) + fuel →
      hasItemLoop pos i fuel j st =
        some (removeItem st.level st.allItems st.itemLayer i m) := by
  intro fuel
  induction fuel with
  | zero => intro j st hjm hm _ _ hf; simp at hf; omega
  | succ fuel ih =>
    intro j st hjm hm hpos huniq hf
    rw [hasItemLoop, if_pos (by omega)]
    by_cases hj : j = m
    · subst hj
      have hmatch : matchesPosition (st.allItems i j) pos = true := by
        rw [matchesPosition_iff]; exact hpos
      rw [if_pos hmatch]
      apply hasItemLoop_no_match
      · intro k hk hlt
        simp only [removeItem, if_true] at hlt
        simp only [removeItem]
        rw [if_neg (by omega)]
        intro hc
        have := huniq k (by omega) hc
        omega
      · simp only [removeItem, if_true]
        push_cast at hf ⊢
        omega
    · have hne : matchesPosition (st.allItems i j) pos ≠ true := by
        rw [Ne, matchesPosition_iff]
        intro hc
        exact hj (huniq j (by omega) hc)
      rw [if_neg hne]
      exact ih (j + 1) st (by omega) hm hpos huniq (by push_cast at hf ⊢; omega)

theorem mem_itemsOf (level : Level) (allItems : Nat → Nat → Position) (i : Nat) (q : Position) :
    q ∈ itemsOf level allItems i ↔
      ∃ k : Nat, (k : Int) < level.itemCounts i ∧ allItems i k = q := by
  unfold itemsOf
  simp only [List.mem_map, List.mem_range]
  constructor
  · rintro ⟨k, hk, rfl⟩; exact ⟨k, by omega, rfl⟩
  · rintro ⟨k, hk, rfl⟩; exact ⟨k, by omega, rfl⟩

theorem nodup_itemsOf (level : Level) (allItems : Nat → Nat → Position) (i : Nat) :
    (itemsOf level allItems i).Nodup ↔
      ∀ j k : Nat, (j : Int) < level.itemCounts i → (k : Int) < level.itemCounts i →
        allItems i j = allItems i k → j = k := by
  unfold itemsOf
  rw [List.nodup_map_iff_inj_on (List.nodup_range _)]
  simp only [List.mem_range]
  constructor
  · intro h j k hj hk; exact h j (by omega) k (by omega)
  · intro h j hj k hk; exact h j k (by omega) (by omega)

theorem itemsOf_congr (level level2 : Level) (allItems allItems2 : Nat → Nat → Position)
    (i : Nat) (hc : level2.itemCounts i = level.itemCounts i)
    (hr : allItems2 i = allItems i) :
    itemsOf level2 allItems2 i = itemsOf level allItems i := by
  unfold itemsOf
  rw [hc, hr]

theorem setCell_setCell (layer : Int → Int → Nat) (y x : Int) (v : Nat) :
    setCell (setCell layer y x v) y x v = setCell layer y x v := by
  funext b a
  simp only [setCell]
  split <;> rfl

theorem removeItem_spec (st : ItemState) (pos : Position) (i m : Nat)
    (hm : (m : Int) < st.level.itemCounts i) (hpos : st.allItems i m = pos)
    (hnd : (itemsOf st.level st.allItems i).Nodup) :
    (removeItem st.level st.allItems st.itemLayer i m).level.itemCounts i =
      st.level.itemCounts i - 1 ∧
    (itemsOf (removeItem st.level st.allItems st.itemLayer i m).level
      (removeItem st.level st.allItems st.itemLayer i m).allItems i).Perm
      ((itemsOf st.level st.allItems i).erase pos) ∧
    (removeItem st.level st.allItems st.itemLayer i m).itemLayer =
      setCell st.itemLayer pos.y pos.x BLANK ∧
    ∀ t, t ≠ i →
      (removeItem st.level st.allItems st.itemLayer i m).level.itemCounts t =
        st.level.itemCounts t ∧
      (removeItem st.level st.allItems st.itemLayer i m).allItems t = st.allItems t := by
  have hinj := (nodup_itemsOf _ _ _).mp hnd
  refine ⟨by simp [removeItem], ?_, by simp only [removeItem, hpos], ?_⟩
  · have hnd2 : (itemsOf (removeItem st.level st.allItems st.itemLayer i m).level
        (removeItem st.level st.allItems st.itemLayer i m).allItems i).Nodup := by
      rw [nodup_itemsOf]
      intro j k hj hk hjk
      simp only [removeItem, if_true] at hj hk
      simp only [removeItem, true_and] at hjk
      by_cases h1 : j = m <;> by_cases h2 : k = m
      · omega
      · rw [if_pos h1, if_neg h2] at hjk
        have := hinj _ _ (by omega) (by omega) hjk
        omega
      · rw [if_neg h1, if_pos h2] at hjk
        have := hinj _ _ (by omega) (by omega) hjk
        omega
      · rw [if_neg h1, if_neg h2] at hjk
        exact hinj _ _ (by omega) (by omega) hjk
    rw [List.perm_ext_iff_of_nodup hnd2 (hnd.erase pos)]
    intro q
    rw [hnd.mem_erase_iff, mem_itemsOf, mem_itemsOf]
    simp only [removeItem, if_true, true_and]
    constructor
    · rintro ⟨k, hk, hq⟩
      by_cases h1 : k = m
      · rw [if_pos h1] at hq
        refine ⟨?_, (st.level.itemCounts i - 1).toNat, by omega, hq⟩
        rintro rfl
        have := hinj _ _ (by omega) hm (hq.trans hpos.symm)
        omega
      · rw [if_neg h1] at hq
        refine ⟨?_, k, by omega, hq⟩
        rintro rfl
        exact h1 (hinj _ _ (by omega) hm (hq.trans hpos.symm))
    · rintro ⟨hne, k, hk, hq⟩
      have hkm : k ≠ m := by
        rintro rfl
        exact hne (hq.symm.trans hpos)
      by_cases hlast : (k : Int) < st.level.itemCounts i - 1
      · exact ⟨k, hlast, by rw [if_neg hkm]; exact hq⟩
      · refine ⟨m, by omega, ?_⟩
        rw [if_pos rfl]
        have : (st.level.itemCounts i - 1).toNat = k := by omega
        rw [this]
        exact hq
  · intro t ht
    constructor
    · simp [removeItem, ht]
    · funext j
      simp [removeItem, ht]

theorem hasItemLoop_type (pos : Position) (i : Nat) (st : ItemState)
    (hnd : (itemsOf st.level st.allItems i).Nodup) :
    ∃ st1, hasItemLoop pos i (st.level.itemCounts i).toNat 0 st = some st1 ∧
      (pos ∉ itemsOf st.level st.allItems i → st1 = st) ∧
      (pos ∈ itemsOf st.level st.allItems i →
        st1.level.itemCounts i = st.level.itemCounts i - 1 ∧
        (itemsOf st1.level st1.allItems i).Perm ((itemsOf st.level st.allItems i).erase pos) ∧
        st1.itemLayer = setCell st.itemLayer pos.y pos.x BLANK) ∧
      (∀ t, t ≠ i → st1.level.itemCounts t = st.level.itemCounts t ∧
        st1.allItems t = st.allItems t) ∧
      (st1.itemLayer = st.itemLayer ∨ st1.itemLayer = setCell st.itemLayer pos.y pos.x BLANK) := by
  have hinj := (nodup_itemsOf _ _ _).mp hnd
  by_cases hmem : pos ∈ itemsOf st.level st.allItems i
  · obtain ⟨m, hm, hpos⟩ := (mem_itemsOf _ _ _ _).mp hmem
    obtain ⟨h1, h2, h3, h4⟩ := removeItem_spec st pos i m hm hpos hnd
    refine ⟨_, hasItemLoop_match pos i m _ 0 st (Nat.zero_le _) hm hpos ?_ (by omega),
      fun hc => absurd hmem hc, fun _ => ⟨h1, h2, h3⟩, h4, Or.inr h3⟩
    intro k hk hkpos
    exact hinj _ _ hk hm (hkpos.trans hpos.symm)
  · refine ⟨st, hasItemLoop_no_match pos i _ 0 st ?_ (by omega), fun _ => rfl,
      fun hc => absurd hc hmem, fun _ _ => ⟨rfl, rfl⟩, Or.inl rfl⟩
    intro k _ hk hc
    exact hmem ((mem_itemsOf _ _ _ _).mpr ⟨k, hk, hc⟩)

theorem hasItemTypes_spec (pos : Position) :
    ∀ (ts : List Nat) (st : ItemState), ts.Nodup →
      (∀ i ∈ ts, (itemsOf st.level st.allItems i).Nodup) →
      ∃ st2, hasItemTypes pos ts st = some st2 ∧
        (∀ i ∈ ts, pos ∈ itemsOf st.level st.allItems i →
          st2.level.itemCounts i = st.level.itemCounts i - 1 ∧
          (itemsOf st2.level st2.allItems i).Perm
            ((itemsOf st.level st.allItems i).erase pos) ∧
          st2.itemLayer = setCell st.itemLayer pos.y pos.x BLANK) ∧
        (∀ i, (i ∉ ts ∨ pos ∉ itemsOf st.level st.allItems i) →
          st2.level.itemCounts i = st.level.itemCounts i ∧ st2.allItems i = st.allItems i) ∧
        (st2.itemLayer = st.itemLayer ∨
          st2.itemLayer = setCell st.itemLayer pos.y pos.x BLANK) ∧
        ((∀ i ∈ ts, pos ∉ itemsOf st.level st.allItems i) → st2 = st) := by
  intro ts
  induction ts with
  | nil =>
    intro st _ _
    exact ⟨st, rfl, fun i hi => absurd hi (List.not_mem_nil _), fun _ _ => ⟨rfl, rfl⟩,
      Or.inl rfl, fun _ => rfl⟩
  | cons i rest ih =>
    intro st hts hnd
    have hirest : i ∉ rest := (List.nodup_cons.mp hts).1
    obtain ⟨st1, hloop, hno, hyes, hother, hlayer⟩ :=
      hasItemLoop_type pos i st (hnd i (List.mem_cons_self _ _))
    have hstep : hasItemTypes pos (i :: rest) st = hasItemTypes pos rest st1 := by
      rw [hasItemTypes]
      by_cases h0 : st.level.itemCounts i = 0
      · rw [if_pos h0]
        have hnomem : pos ∉ itemsOf st.level st.allItems i := by
          rw [mem_itemsOf]
          rintro ⟨k, hk, _⟩
          omega
        rw [hno hnomem]
      · rw [if_neg h0, hloop]
    have hrows : ∀ t ∈ rest, itemsOf st1.level st1.allItems t = itemsOf st.level st.allItems t := by
      intro t ht
      have hti : t ≠ i := fun h => hirest (h ▸ ht)
      exact itemsOf_congr _ _ _ _ _ (hother t hti).1 (hother t hti).2
    obtain ⟨st2, hrest, ha, hb, hc, hd⟩ := ih st1 (List.nodup_cons.mp hts).2
      (fun t ht => by rw [hrows t ht]; exact hnd t (List.mem_cons_of_mem _ ht))
    have hlayer2 : (pos ∈ itemsOf st.level st.allItems i ∨
          ∃ t ∈ rest, pos ∈ itemsOf st.level st.allItems t) →
        st2.itemLayer = setCell st.itemLayer pos.y pos.x BLANK := by
      intro hcase
      rcases hcase with hi | ⟨t, ht, hpt⟩
      · rcases hc with hc | hc
        · rw [hc]; exact (hyes hi).2.2
        · rw [hc, (hyes hi).2.2, setCell_setCell]
      · have h2 := (ha t ht (by rw [hrows t ht]; exact hpt)).2.2
        rcases hlayer with hl | hl
        · rw [h2, hl]
        · rw [h2, hl, setCell_setCell]
    refine ⟨st2, hstep.trans hrest, ?_, ?_, ?_, ?_⟩
    · intro t ht hpt
      rcases List.mem_cons.mp ht with rfl | ht
      · obtain ⟨hb1, hb2⟩ := hb t (Or.inl hirest)
        refine ⟨by rw [hb1]; exact (hyes hpt).1, ?_, hlayer2 (Or.inl hpt)⟩
        rw [itemsOf_congr _ _ _ _ _ hb1 hb2]
        exact (hyes hpt).2.1
      · have hti : t ≠ i := fun h => hirest (h ▸ ht)
        obtain ⟨h1, h2, _⟩ := ha t ht (by rw [hrows t ht]; exact hpt)
        refine ⟨by rw [h1, (hother t hti).1], ?_, hlayer2 (Or.inr ⟨t, ht, hpt⟩)⟩
        rw [hrows t ht] at h2
        exact h2
    · intro t ht
      by_cases hti : t = i
      · subst hti
        have hnomem : pos ∉ itemsOf st.level st.allItems t := by
          rcases ht with ht | ht
          · exact absurd (List.mem_cons_self _ _) ht
          · exact ht
        obtain ⟨hb1, hb2⟩ := hb t (Or.inl hirest)
        rw [hb1, hb2, hno hnomem]
        exact ⟨rfl, rfl⟩
      · have hcase : t ∉ rest ∨ pos ∉ itemsOf st1.level st1.allItems t := by
          by_cases htr : t ∈ rest
          · right
            rw [hrows t htr]
            rcases ht with ht | ht
            · exact absurd (List.mem_cons_of_mem _ htr) ht
            · exact ht
          · exact Or.inl htr
        obtain ⟨hb1, hb2⟩ := hb t hcase
        exact ⟨by rw [hb1, (hother t hti).1], by rw [hb2, (hother t hti).2]⟩
    · rcases hc with hc | hc <;> rcases hlayer with hl | hl
      · exact Or.inl (by rw [hc, hl])
      · exact Or.inr (by rw [hc, hl])
      · exact Or.inr (by rw [hc, hl])
      · exact Or.inr (by rw [hc, hl, setCell_setCell])
    · intro hnone
      have h1 : st1 = st := hno (hnone i (List.mem_cons_self _ _))
      rw [hd (fun t ht => by rw [hrows t ht]; exact hnone t (List.mem_cons_of_mem _ ht)), h1]

/-- C34: item pickup.  When the items of every type stand on pairwise distinct cells,
`hasItem(level, allItems, pos, itemLayer)` returns, and for every item type with an item
at `pos` the count of that type has dropped by one, the items of that type are the
previous ones without the one at `pos`, and the item layer is the previous one with the
cell at `pos` blanked; every type without an item at `pos` keeps its count and its array;
no item-layer cell other than `pos` changes; and when no item of any type is at `pos`,
nothing changes at all. -/
theorem hasItem_spec (level : Level) (allItems : Nat → Nat → Position) (pos : Position)
    (itemLayer : Int → Int → Nat)
    (hdistinct : ∀ i, i < NUM_ITEM_TYPES → (itemsOf level allItems i).Nodup) :
    ∃ st, hasItem level allItems pos itemLayer = some st ∧
      (∀ i, i < NUM_ITEM_TYPES → pos ∈ itemsOf level allItems i →
        st.level.itemCounts i = level.itemCounts i - 1 ∧
        (itemsOf st.level st.allItems i).Perm ((itemsOf level allItems i).erase pos) ∧
        st.itemLayer = setCell itemLayer pos.y pos.x BLANK) ∧
      (∀ i, (NUM_ITEM_TYPES ≤ i ∨ pos ∉ itemsOf level allItems i) →
        st.level.itemCounts i = level.itemCounts i ∧ st.allItems i = allItems i) ∧
      (∀ y x, ¬ (y = pos.y ∧ x = pos.x) → st.itemLayer y x = itemLayer y x) ∧
      ((∀ i, i < NUM_ITEM_TYPES → pos ∉ itemsOf level allItems i) →
        st = { level := level, allItems := allItems, itemLayer := itemLayer }) := by
  obtain ⟨st, hst, ha, hb, hc, hd⟩ := hasItemTypes_spec pos (List.range NUM_ITEM_TYPES)
    { level := level, allItems := allItems, itemLayer := itemLayer } (List.nodup_range _)
    (fun i hi => hdistinct i (List.mem_range.mp hi))
  refine ⟨st, hst, fun i hi => ha i (List.mem_range.mpr hi), ?_, ?_,
    fun h => hd (fun i hi => h i (List.mem_range.mp hi))⟩
  · intro i hi
    apply hb
    rcases hi with hi | hi
    · left
      rw [List.mem_range]
      omega
    · exact Or.inr hi
  · intro y x hne
    rcases hc with hc | hc
    · rw [hc]
    · rw [hc]
      simp only [setCell]
      rw [if_neg hne]

/-- C34 on `pickupLevel`: the player steps on the item at (2,2). -/
theorem hasItem_spec_witness :
    (⟨2, 2⟩ : Position) ∈ itemsOf pickupLevel pickupLevel.allItems 0 ∧
    ∃ st, hasItem pickupLevel pickupLevel.allItems ⟨2, 2⟩ pickupLayer = some st ∧
      (∀ i, i < NUM_ITEM_TYPES → (⟨2, 2⟩ : Position) ∈ itemsOf pickupLevel pickupLevel.allItems i →
        st.level.itemCounts i = pickupLevel.itemCounts i - 1 ∧
        (itemsOf st.level st.allItems i).Perm
          ((itemsOf pickupLevel pickupLevel.allItems i).erase ⟨2, 2⟩) ∧
        st.itemLayer =
          setCell pickupLayer (⟨2, 2⟩ : Position).y (⟨2, 2⟩ : Position).x BLANK) ∧
      (∀ i, (NUM_ITEM_TYPES ≤ i ∨
          (⟨2, 2⟩ : Position) ∉ itemsOf pickupLevel pickupLevel.allItems i) →
        st.level.itemCounts i = pickupLevel.itemCounts i ∧
        st.allItems i = pickupLevel.allItems i) ∧
      (∀ y x, ¬ (y = (⟨2, 2⟩ : Position).y ∧ x = (⟨2, 2⟩ : Position).x) →
        st.itemLayer y x = pickupLayer y x) ∧
      ((∀ i, i < NUM_ITEM_TYPES →
          (⟨2, 2⟩ : Position) ∉ itemsOf pickupLevel pickupLevel.allItems i) →
        st = { level := pickupLevel, allItems := pickupLevel.allItems,
               itemLayer := pickupLayer }) :=
  ⟨by decide, hasItem_spec pickupLevel pickupLevel.allItems ⟨2, 2⟩ pickupLayer (by decide)⟩

/-! ## Enemy movement: single steps and separate cells -/

theorem roamLoop_body (grid : AllEntities) :
    ∀ (fuel : Nat) (enemy : Enemy) (shuffleCounter : Nat) (src : RandomSource)
      (r : Enemy × RandomSource),
      roamLoop grid fuel enemy shuffleCounter src = some r → Body r.1 = Body enemy := by
  intro fuel
  induction fuel with
  | zero => intro enemy sc src r h; exact absurd h (by simp [roamLoop])
  | succ fuel ih =>
    intro enemy sc src r h
    rw [roamLoop] at h
    generalize shuffleArr enemy.roamArr NUM_SQUARES.toNat src = sh at h
    by_cases hre : enemy.roamIndex ≥ NUM_SQUARES
    · have hd : decide (enemy.roamIndex ≥ NUM_SQUARES) = true := decide_eq_true hre
      rw [hd] at h
      simp only [if_true] at h
      by_cases hsc : sc + 1 > 1
      · rw [if_pos hsc] at h
        cases h; rfl
      · rw [if_neg hsc] at h
        cases hf : findPath grid enemy.pos (sh.1.getD (0 : Int).toNat INVALID_POS) with
        | none => simp only [hf] at h; exact absurd h (by simp)
        | some found =>
          simp only [hf] at h
          split at h
          · have hpos := ih _ _ _ _ h
            exact hpos
          · cases h; rfl
    · have hd : decide (enemy.roamIndex ≥ NUM_SQUARES) = false := decide_eq_false hre
      rw [hd] at h
      simp only [Bool.false_eq_true, if_false] at h
      by_cases hsc : sc > 1
      · rw [if_pos hsc] at h
        cases h; rfl
      · rw [if_neg hsc] at h
        cases hf : findPath grid enemy.pos
            (enemy.roamArr.getD enemy.roamIndex.toNat INVALID_POS) with
        | none => simp only [hf] at h; exact absurd h (by simp)
        | some found =>
          simp only [hf] at h
          split at h
          · have hpos := ih _ _ _ _ h
            exact hpos
          · cases h; rfl

theorem roamToUnvisited_body (enemy : Enemy) (grid : AllEntities) (src : RandomSource)
    (r : Enemy × RandomSource) (h : roamToUnvisited enemy grid src = some r) :
    Body r.1 = Body enemy := by
  unfold roamToUnvisited at h
  split at h
  · cases h; rfl
  · exact roamLoop_body grid _ _ _ _ _ h

theorem neighbor_cases (p : Position) (d : Nat) : neighbor p d = p ∨ Adjacent p (neighbor p d) := by
  by_cases hd : d < 4
  · exact Or.inr (adjacent_neighbor p d hd)
  · left
    unfold neighbor
    have h1 : dx.getD d 0 = 0 := by
      unfold dx
      rw [List.getD_eq_default]
      simp only [List.length_cons, List.length_nil]
      omega
    have h2 : dy.getD d 0 = 0 := by
      unfold dy
      rw [List.getD_eq_default]
      simp only [List.length_cons, List.length_nil]
      omega
    rw [h1, h2]
    simp

theorem gridKeeps_refl (oldPos : Position) (m : Nat) (g : AllEntities) :
    GridKeeps oldPos m g g := fun _ _ => Or.inl rfl

theorem flicker_keeps (grid : AllEntities) (enemy : Enemy) (oldPos : Position)
    (frameCounter : Int) (t : Nat) (ht : t = TELEPORT_ENEMY ∨ t = BURST_ENEMY) :
    GridKeeps oldPos enemy.passiveMarker grid (flicker grid enemy oldPos frameCounter t) := by
  intro y x
  unfold flicker
  by_cases hc : y = oldPos.y ∧ x = oldPos.x
  · right
    refine ⟨hc.1, hc.2, ?_⟩
    split
    · simp only [setCell, if_pos hc]
      rcases ht with rfl | rfl <;> split <;> simp [passiveEnemyMarkers, aggroEnemyMarkers,
        TELEPORT_ENEMY, BURST_ENEMY]
    · simp only [setCell, if_pos hc]
      simp
  · left
    split <;> simp only [setCell, if_neg hc]

/-- What the `switch` and the `if (LSPflag)` block keep of a turn. -/
theorem basicTurn_keeps (t r : Turn) (h : basicTurn t = some r) :
    Body r.enemy = Body t.enemy ∧ r.grid = t.grid ∧ r.newPos = t.newPos := by
  unfold basicTurn at h
  split at h
  · cases hr : roamToUnvisited t.enemy t.grid t.src with
    | none => simp only [hr] at h; exact absurd h (by simp)
    | some p =>
      simp only [hr] at h
      cases h
      exact ⟨roamToUnvisited_body _ _ _ _ hr, rfl, rfl⟩
  · cases h; exact ⟨rfl, rfl, rfl⟩

theorem patrolTurn_keeps (drawFuel : Nat) (oldPos : Position) (t r : Turn)
    (h : patrolTurn drawFuel oldPos t = some r) :
    Body r.enemy = Body t.enemy ∧ r.grid = t.grid ∧
      (r.newPos = oldPos ∨ Adjacent oldPos r.newPos) := by
  unfold patrolTurn at h
  cases hr : movePatrolEnemy t.grid t.enemy oldPos drawFuel t.src with
  | none => simp only [hr] at h; exact absurd h (by simp)
  | some p =>
    simp only [hr] at h
    cases h
    unfold movePatrolEnemy at hr
    split at hr
    · exact absurd hr (by simp)
    · cases hr
      exact ⟨rfl, rfl, neighbor_cases _ _⟩

theorem teleporterTurn_keeps (frameCounter : Int) (player : Player) (oldPos : Position)
    (t : Turn) :
    Body (teleporterTurn frameCounter player oldPos t).enemy = Body t.enemy ∧
      GridKeeps oldPos t.enemy.passiveMarker t.grid
        (teleporterTurn frameCounter player oldPos t).grid := by
  unfold teleporterTurn
  split
  · exact ⟨rfl, flicker_keeps _ _ _ _ _ (Or.inl rfl)⟩
  · exact ⟨rfl, gridKeeps_refl _ _ _⟩

theorem chaserTurn_keeps (frameCounter : Int) (player : Player) (oldPos : Position)
    (t r : Turn) (h : chaserTurn frameCounter player oldPos t = some r) :
    Body r.enemy = Body t.enemy ∧ r.grid = t.grid ∧ r.newPos = t.newPos := by
  unfold chaserTurn at h
  cases hs : hasLineOfSight oldPos player.pos t.grid.wallLayer AGGRO_RADIUS with
  | none => simp only [hs] at h; exact absurd h (by simp)
  | some sees =>
    simp only [hs] at h
    cases sees <;> simp only [Bool.false_eq_true, if_false, if_true] at h <;>
      (split_ifs at h <;> cases h <;> exact ⟨rfl, rfl, rfl⟩)

theorem trapperTurn_keeps (frameCounter : Int) (t r : Turn)
    (h : trapperTurn frameCounter t = some r) :
    Body r.enemy = Body t.enemy ∧ r.grid = t.grid ∧ r.newPos = t.newPos := by
  unfold trapperTurn at h
  simp only at h
  split at h
  · cases h; exact ⟨rfl, rfl, rfl⟩
  · split at h
    · cases hr : roamToUnvisited t.enemy t.grid t.src with
      | none => simp only [hr] at h; exact absurd h (by simp)
      | some p =>
        simp only [hr] at h
        cases h
        exact ⟨roamToUnvisited_body _ _ _ _ hr, rfl, rfl⟩
    · cases h; exact ⟨rfl, rfl, rfl⟩

theorem burstTurn_keeps (frameCounter : Int) (player : Player) (oldPos : Position)
    (t : Turn) :
    Body (burstTurn frameCounter player oldPos t).enemy = Body t.enemy ∧
      GridKeeps oldPos t.enemy.passiveMarker t.grid
        (burstTurn frameCounter player oldPos t).grid ∧
      (burstTurn frameCounter player oldPos t).newPos = t.newPos := by
  unfold burstTurn
  simp only
  split_ifs
  · exact ⟨rfl, gridKeeps_refl _ _ _, rfl⟩
  · refine ⟨rfl, ?_, rfl⟩
    exact flicker_keeps t.grid _ oldPos frameCounter BURST_ENEMY (Or.inr rfl)
  · exact ⟨rfl, gridKeeps_refl _ _ _, rfl⟩
  · exact ⟨rfl, gridKeeps_refl _ _ _, rfl⟩
  · refine ⟨rfl, ?_, rfl⟩
    exact flicker_keeps t.grid _ oldPos frameCounter BURST_ENEMY (Or.inr rfl)
  · exact ⟨rfl, gridKeeps_refl _ _ _, rfl⟩

theorem shooterTurn_keeps (frameCounter : Int) (player : Player) (oldPos : Position)
    (t r : Turn) (h : shooterTurn frameCounter player oldPos t = some r) :
    Body r.enemy = Body t.enemy ∧ r.grid = t.grid ∧ r.newPos = t.newPos := by
  unfold shooterTurn at h
  cases hs : hasLineOfSight oldPos player.pos t.grid.wallLayer (AGGRO_RADIUS * 2) with
  | none => simp only [hs] at h; exact absurd h (by simp)
  | some sees =>
    cases sees
    · simp only [hs] at h
      split at h
      · cases hr : roamToUnvisited t.enemy t.grid t.src with
        | none => simp only [hr] at h; exact absurd h (by simp)
        | some p =>
          simp only [hr] at h
          cases h
          exact ⟨roamToUnvisited_body _ _ _ _ hr, rfl, rfl⟩
      · cases h; exact ⟨rfl, rfl, rfl⟩
    · simp only [hs] at h
      split at h <;> cases h <;> exact ⟨rfl, rfl, rfl⟩

theorem archetypeTurn_keeps (i : Nat) (frameCounter : Int) (player : Player) (drawFuel : Nat)
    (oldPos : Position) (t r : Turn)
    (h : archetypeTurn i frameCounter player drawFuel oldPos t = some r)
    (hnew : t.newPos = oldPos) :
    Body r.enemy = Body t.enemy ∧ GridKeeps oldPos t.enemy.passiveMarker t.grid r.grid ∧
      (i ≠ TELEPORT_ENEMY → r.newPos = oldPos ∨ Adjacent oldPos r.newPos) := by
  unfold archetypeTurn at h
  split_ifs at h with h0 h1 h2 h3 h4 h5 h6
  · obtain ⟨e1, e2, e3⟩ := basicTurn_keeps _ _ h
    exact ⟨e1, e2 ▸ gridKeeps_refl _ _ _, fun _ => Or.inl (e3.trans hnew)⟩
  · obtain ⟨e1, e2, e3⟩ := patrolTurn_keeps _ _ _ _ h
    exact ⟨e1, e2 ▸ gridKeeps_refl _ _ _, fun _ => e3⟩
  · cases h
    obtain ⟨e1, e2⟩ := teleporterTurn_keeps frameCounter player oldPos t
    exact ⟨e1, e2, fun hc => absurd h2 hc⟩
  · obtain ⟨e1, e2, e3⟩ := chaserTurn_keeps _ _ _ _ _ h
    exact ⟨e1, e2 ▸ gridKeeps_refl _ _ _, fun _ => Or.inl (e3.trans hnew)⟩
  · obtain ⟨e1, e2, e3⟩ := trapperTurn_keeps _ _ _ h
    exact ⟨e1, e2 ▸ gridKeeps_refl _ _ _, fun _ => Or.inl (e3.trans hnew)⟩
  · cases h
    obtain ⟨e1, e2, e3⟩ := burstTurn_keeps frameCounter player oldPos t
    exact ⟨e1, e2, fun _ => Or.inl (e3.trans hnew)⟩
  · obtain ⟨e1, e2, e3⟩ := shooterTurn_keeps _ _ _ _ _ h
    exact ⟨e1, e2 ▸ gridKeeps_refl _ _ _, fun _ => Or.inl (e3.trans hnew)⟩
  · cases h
    exact ⟨rfl, gridKeeps_refl _ _ _, fun _ => Or.inl hnew⟩

theorem randomMoveLoop_adjacent (grid : AllEntities) (oldPos : Position) :
    ∀ (left : Nat) (src : RandomSource),
      Adjacent oldPos (randomMoveLoop grid oldPos left src).1 := by
  intro left
  induction left with
  | zero =>
    intro src
    exact adjacent_neighbor _ _ (Nat.mod_lt _ (by decide))
  | succ left ih =>
    intro src
    rw [randomMoveLoop]
    split
    · exact ih _
    · exact adjacent_neighbor _ _ (Nat.mod_lt _ (by decide))

theorem path_second (grid : AllEntities) (start goal : Position) (path : List Position)
    (h : PathOK grid start goal path) :
    (if path.length > 1 then path.getD 1 start else path.getD 0 start) = start ∨
      Adjacent start (if path.length > 1 then path.getD 1 start else path.getD 0 start) := by
  obtain ⟨hhead, _, hchain, _, _⟩ := h
  cases path with
  | nil => exact absurd hhead (by simp)
  | cons a l =>
    simp only [List.head?_cons, Option.some.injEq] at hhead
    subst hhead
    cases l with
    | nil => left; simp
    | cons b l =>
      right
      have hab : Adjacent a b := (List.chain'_cons.mp hchain).1
      simpa using hab

theorem followLSP_keeps (oldPos : Position) (t r : Turn) (h : followLSP oldPos t = some r) :
    Body r.enemy = Body t.enemy ∧ r.grid = t.grid ∧
      (r.newPos = t.newPos ∨ r.newPos = oldPos ∨ Adjacent oldPos r.newPos) := by
  unfold followLSP at h
  split at h
  · split at h
    · cases hf : findPath t.grid oldPos t.enemy.playerLSP with
      | none => simp only [hf] at h; exact absurd h (by simp)
      | some found =>
        simp only [hf] at h
        by_cases hfound : found.1 = true
        · simp only [if_pos hfound] at h
          obtain ⟨r0, hr0, hyes, _⟩ := findPath_spec t.grid oldPos t.enemy.playerLSP
          rw [hf] at hr0
          cases hr0
          have hstep := path_second _ _ _ _ (hyes hfound).2
          split at h <;> cases h <;> exact ⟨rfl, rfl, Or.inr hstep⟩
        · simp only [if_neg hfound] at h
          cases hr : roamToUnvisited t.enemy t.grid t.src with
          | none => simp only [hr] at h; exact absurd h (by simp)
          | some p =>
            simp only [hr] at h
            have hp := roamToUnvisited_body _ _ _ _ hr
            split at h <;> cases h <;> exact ⟨hp, rfl, Or.inl rfl⟩
    · cases h
      refine ⟨rfl, rfl, ?_⟩
      simp only
      unfold makeRandomMove
      split
      · exact Or.inl rfl
      · exact Or.inr (Or.inr (randomMoveLoop_adjacent _ _ _ _))
  · cases h; exact ⟨rfl, rfl, Or.inl rfl⟩

theorem enemyTurn_keeps (i : Nat) (frameCounter : Int) (player : Player) (drawFuel : Nat)
    (enemy : Enemy) (grid : AllEntities) (bombHead : List Particle) (src : RandomSource)
    (t : Turn) (h : enemyTurn i frameCounter player drawFuel enemy grid bombHead src = some t) :
    Body t.enemy = Body enemy ∧ GridKeeps enemy.pos enemy.passiveMarker grid t.grid ∧
      (i ≠ TELEPORT_ENEMY → t.newPos = enemy.pos ∨ Adjacent enemy.pos t.newPos) := by
  unfold enemyTurn at h
  split at h
  · exact absurd h (by simp)
  · rename_i t0 h0
    obtain ⟨a1, a2, a3⟩ := archetypeTurn_keeps _ _ _ _ _ _ _ h0 rfl
    obtain ⟨b1, b2, b3⟩ := followLSP_keeps _ _ _ h
    refine ⟨b1.trans a1, b2 ▸ a2, fun hi => ?_⟩
    rcases b3 with b3 | b3 | b3
    · rw [b3]; exact a3 hi
    · exact Or.inl b3
    · exact Or.inr b3

/-- A round of the loop moves its enemy, unless it is a teleporter, by at most one cell. -/
theorem moveEnemy_step (frameCounter : Int) (player : Player) (drawFuel i j : Nat)
    (w w2 : EnemyWorld) (h : moveEnemy frameCounter player drawFuel i j w = some w2)
    (hi : i ≠ TELEPORT_ENEMY) :
    (w2.allEnemies i j).pos = (w.allEnemies i j).pos ∨
      Adjacent (w.allEnemies i j).pos (w2.allEnemies i j).pos := by
  unfold moveEnemy at h
  split at h
  · cases h; exact Or.inl rfl
  · split at h
    · exact absurd h (by simp)
    · rename_i t ht
      cases h
      simp only [setEnemy_same]
      obtain ⟨hb, _, hstep⟩ := enemyTurn_keeps _ _ _ _ _ _ _ _ _ ht
      have hpos : t.enemy.pos = (w.allEnemies i j).pos := congrArg Prod.fst hb
      unfold commitMove
      split
      · exact hstep hi
      · exact Or.inl hpos

theorem isValid_enemy_layer (grid : AllEntities) (q : Position)
    (h : isValid grid q 'e' = true) : ¬ EnemyByte (grid.playerLayer q.y q.x) := by
  unfold isValid at h
  unfold EnemyByte
  by_cases hb : q.x < 1 ∨ q.x > GRID_SIZE - 2 ∨ q.y < 1 ∨ q.y > GRID_SIZE - 2
  · rw [if_pos hb] at h; exact absurd h Bool.false_ne_true
  · rw [if_neg hb] at h
    by_cases hw : grid.wallLayer q.y q.x = WALL
    · rw [if_pos hw] at h; exact absurd h Bool.false_ne_true
    · rw [if_neg hw, if_pos rfl] at h
      by_cases hp : grid.playerLayer q.y q.x = PLAYER_MARKER
      · exact fun hc => hc.2 hp
      · rw [if_neg hp] at h
        by_cases hbl : grid.playerLayer q.y q.x ≠ BLANK
        · rw [if_pos hbl] at h; exact absurd h Bool.false_ne_true
        · exact fun hc => hbl hc.1

theorem gridKeeps_byte (oldPos : Position) (m : Nat) (g g2 : AllEntities)
    (h : GridKeeps oldPos m g g2) (hm : EnemyByte m) (y x : Int)
    (hb : EnemyByte (g.playerLayer y x)) : EnemyByte (g2.playerLayer y x) := by
  rcases h y x with h | ⟨_, _, h | h | h | h | h⟩
  · rw [h]; exact hb
  · rw [h]; exact ⟨by decide, by decide⟩
  · rw [h]; exact ⟨by decide, by decide⟩
  · rw [h]; exact ⟨by decide, by decide⟩
  · rw [h]; exact ⟨by decide, by decide⟩
  · rw [h]; exact hm

theorem position_ne_cell (p q : Position) (h : p ≠ q) : ¬ (p.y = q.y ∧ p.x = q.x) := by
  rintro ⟨h1, h2⟩
  apply h
  cases p; cases q
  simp only at h1 h2
  rw [h1, h2]

/-- A round of the loop keeps the enemies on separate, marked cells. -/
theorem moveEnemy_separated (frameCounter : Int) (player : Player) (drawFuel i j : Nat)
    (slots : List (Nat × Nat)) (w w2 : EnemyWorld)
    (h : moveEnemy frameCounter player drawFuel i j w = some w2) (hij : (i, j) ∈ slots)
    (hsep : Separated slots w) : Separated slots w2 := by
  unfold moveEnemy at h
  split at h
  · cases h; exact hsep
  · split at h
    · exact absurd h (by simp)
    · rename_i t ht
      cases h
      obtain ⟨hdist, hmark, hmarkers⟩ := hsep
      obtain ⟨hb, hg, _⟩ := enemyTurn_keeps _ _ _ _ _ _ _ _ _ ht
      have hpos : t.enemy.pos = (w.allEnemies i j).pos := congrArg Prod.fst hb
      have hpm : t.enemy.passiveMarker = (w.allEnemies i j).passiveMarker :=
        congrArg (fun b => b.2.1) hb
      have ham : t.enemy.aggroMarker = (w.allEnemies i j).aggroMarker :=
        congrArg (fun b => b.2.2) hb
      have hown := hmarkers (i, j) hij
      have hbyte : ∀ y x, EnemyByte (w.grid.playerLayer y x) →
          EnemyByte (t.grid.playerLayer y x) :=
        fun y x => gridKeeps_byte _ _ _ _ hg hown.1 y x
      have hoth : ∀ (e : Enemy) (a : Nat × Nat), a ≠ (i, j) →
          setEnemy w.allEnemies i j e a.1 a.2 = w.allEnemies a.1 a.2 :=
        fun e a ha => setEnemy_other _ _ _ _ _ _ ha
      have hsame : ∀ (e : Enemy) (a : Nat × Nat), a = (i, j) →
          setEnemy w.allEnemies i j e a.1 a.2 = e := by
        intro e a ha
        subst ha
        exact setEnemy_same _ _ _ _
      have hdist2 : ∀ a ∈ slots, a ≠ (i, j) →
          (w.allEnemies a.1 a.2).pos ≠ (w.allEnemies i j).pos :=
        fun a ha hne => hdist a ha (i, j) hij hne
      by_cases hv : isValid t.grid t.newPos 'e' = true
      · have hfree := isValid_enemy_layer _ _ hv
        have hcm : commitMove (w.allEnemies i j).pos t =
            ({ t.enemy with pos := t.newPos },
              { t.grid with
                playerLayer :=
                  setCell (setCell t.grid.playerLayer (w.allEnemies i j).pos.y
                    (w.allEnemies i j).pos.x BLANK) t.newPos.y t.newPos.x
                    (if t.enemy.isAggro = true then t.enemy.aggroMarker
                     else t.enemy.passiveMarker) }) := by
          unfold commitMove; rw [if_pos hv]
        have hfar : ∀ a ∈ slots, a ≠ (i, j) → (w.allEnemies a.1 a.2).pos ≠ t.newPos := by
          intro a ha hne hc
          apply hfree
          rw [← hc]
          exact hbyte _ _ (hmark a ha)
        rw [hcm]
        refine ⟨?_, ?_, ?_⟩
        · intro a ha b hb2 hab
          dsimp only
          by_cases h1 : a = (i, j)
          · have h2 : b ≠ (i, j) := fun hc => hab (h1.trans hc.symm)
            rw [hsame _ a h1, hoth _ b h2]
            exact fun hc => hfar b hb2 h2 hc.symm
          · rw [hoth _ a h1]
            by_cases h2 : b = (i, j)
            · rw [hsame _ b h2]
              exact hfar a ha h1
            · rw [hoth _ b h2]
              exact hdist a ha b hb2 hab
        · intro a ha
          dsimp only
          by_cases h1 : a = (i, j)
          · rw [hsame _ a h1]
            simp only [setCell, if_pos (And.intro rfl rfl)]
            by_cases hag : t.enemy.isAggro = true
            · rw [if_pos hag, ham]; exact hown.2
            · rw [if_neg hag, hpm]; exact hown.1
          · rw [hoth _ a h1]
            simp only [setCell]
            rw [if_neg (position_ne_cell _ _ (hfar a ha h1)),
              if_neg (position_ne_cell _ _ (hdist2 a ha h1))]
            exact hbyte _ _ (hmark a ha)
        · intro a ha
          dsimp only
          by_cases h1 : a = (i, j)
          · rw [hsame _ a h1]
            dsimp only
            rw [hpm, ham]
            exact hown
          · rw [hoth _ a h1]
            exact hmarkers a ha
      · have hcm : commitMove (w.allEnemies i j).pos t = (t.enemy, t.grid) := by
          unfold commitMove; rw [if_neg hv]
        rw [hcm]
        have hposOf : ∀ a ∈ slots,
            (setEnemy w.allEnemies i j t.enemy a.1 a.2).pos = (w.allEnemies a.1 a.2).pos := by
          intro a _
          by_cases h1 : a = (i, j)
          · rw [hsame _ a h1, h1]; exact hpos
          · rw [hoth _ a h1]
        refine ⟨?_, ?_, ?_⟩
        · intro a ha b hb2 hab
          dsimp only
          rw [hposOf a ha, hposOf b hb2]
          exact hdist a ha b hb2 hab
        · intro a ha
          dsimp only
          rw [hposOf a ha]
          exact hbyte _ _ (hmark a ha)
        · intro a ha
          dsimp only
          by_cases h1 : a = (i, j)
          · rw [hsame _ a h1, hpm, ham]
            exact hown
          · rw [hoth _ a h1]
            exact hmarkers a ha

theorem moveEnemies_separated (frameCounter : Int) (player : Player) (drawFuel : Nat)
    (slots : List (Nat × Nat)) :
    ∀ (todo : List (Nat × Nat)) (w w2 : EnemyWorld), (∀ a ∈ todo, a ∈ slots) →
      moveEnemies frameCounter player drawFuel todo w = some w2 →
      Separated slots w → Separated slots w2 := by
  intro todo
  induction todo with
  | nil => intro w w2 _ h hsep; cases h; exact hsep
  | cons slot rest ih =>
    intro w w2 hsub h hsep
    rw [moveEnemies] at h
    split at h
    · exact absurd h (by simp)
    · rename_i w1 h1
      exact ih w1 w2 (fun a ha => hsub a (List.mem_cons_of_mem _ ha)) h
        (moveEnemy_separated _ _ _ _ _ slots _ _ h1 (hsub slot (List.mem_cons_self _ _)) hsep)

/-- C39: every enemy other than a teleporter moves at most one cell per call.  When
`moveAllEnemies` returns, for every frame counter, player, level and random source, the
position of an enemy of a type other than `TELEPORT_ENEMY` is after the call its position
before the call or a cell exactly one cardinal step from it.  (For a patrol enemy the
stored direction is taken to be one of 0 to 3, as the program keeps it; outside that range
the C program reads past the arrays `dx` and `dy`.) -/
theorem moveAllEnemies_single_step (frameCounter : Int) (level : Level) (player : Player)
    (drawFuel : Nat) (w w2 : EnemyWorld)
    (h : moveAllEnemies frameCounter level player drawFuel w = some w2) (i j : Nat)
    (hi : i ≠ TELEPORT_ENEMY)
    (_hdir : i = PATROL_ENEMY →
      0 ≤ (w.allEnemies i j).specialAbility ∧ (w.allEnemies i j).specialAbility < 4) :
    (w2.allEnemies i j).pos = (w.allEnemies i j).pos ∨
      Adjacent (w.allEnemies i j).pos (w2.allEnemies i j).pos := by
  by_cases hslot : (i, j) ∈ enemySlots level
  · obtain ⟨pre, post, w1, w3, _, _, hmove, _, e1, e2⟩ :=
      moveAllEnemies_split _ _ _ _ _ _ h i j hslot
    rw [e2, ← e1]
    exact moveEnemy_step _ _ _ _ _ _ _ hmove hi
  · left
    unfold moveAllEnemies at h
    rw [moveEnemies_frame _ _ _ _ _ _ h i j hslot]

/-- C39 on `chaserWorld` at frame 2: the chaser steps from (3,3) towards (5,3). -/
theorem moveAllEnemies_single_step_witness :
    ∃ w2, moveAllEnemies 2 (levelWith (fun i => if i = CHASER_ENEMY then 1 else 0))
        (playerAt ⟨5, 3⟩) 0 chaserWorld = some w2 ∧
      ((w2.allEnemies CHASER_ENEMY 0).pos = (chaserWorld.allEnemies CHASER_ENEMY 0).pos ∨
        Adjacent (chaserWorld.allEnemies CHASER_ENEMY 0).pos
          (w2.allEnemies CHASER_ENEMY 0).pos) :=
  have hrun := eq_some_getD
    (moveAllEnemies 2 (levelWith (fun i => if i = CHASER_ENEMY then 1 else 0))
      (playerAt ⟨5, 3⟩) 0 chaserWorld) chaserWorld (by decide!)
  ⟨_, hrun,
    moveAllEnemies_single_step 2 _ (playerAt ⟨5, 3⟩) 0 chaserWorld _ hrun CHASER_ENEMY 0
      (by decide) (fun hc => absurd hc (by decide))⟩

/-- C33: enemies never double up on a cell.  Suppose that before `moveAllEnemies` the
enemies of the level stand on pairwise distinct cells, that the actor layer holds at each
of their cells a byte that is neither blank nor the player's `'X'`, and that the passive
and aggro markers of each are such bytes.  Then, whenever the call returns (for every
frame counter, player position and random source), the enemies still stand on pairwise
distinct cells and the actor layer still holds such a byte at each of them. -/
theorem moveAllEnemies_no_double_up (frameCounter : Int) (level : Level) (player : Player)
    (drawFuel : Nat) (w w2 : EnemyWorld)
    (h : moveAllEnemies frameCounter level player drawFuel w = some w2)
    (hdistinct : ∀ a ∈ enemySlots level, ∀ b ∈ enemySlots level, a ≠ b →
      (w.allEnemies a.1 a.2).pos ≠ (w.allEnemies b.1 b.2).pos)
    (hmarked : ∀ a ∈ enemySlots level,
      w.grid.playerLayer (w.allEnemies a.1 a.2).pos.y (w.allEnemies a.1 a.2).pos.x ≠ BLANK ∧
      w.grid.playerLayer (w.allEnemies a.1 a.2).pos.y (w.allEnemies a.1 a.2).pos.x ≠
        PLAYER_MARKER)
    (hmarkers : ∀ a ∈ enemySlots level,
      ((w.allEnemies a.1 a.2).passiveMarker ≠ BLANK ∧
        (w.allEnemies a.1 a.2).passiveMarker ≠ PLAYER_MARKER) ∧
      ((w.allEnemies a.1 a.2).aggroMarker ≠ BLANK ∧
        (w.allEnemies a.1 a.2).aggroMarker ≠ PLAYER_MARKER)) :
    (∀ a ∈ enemySlots level, ∀ b ∈ enemySlots level, a ≠ b →
      (w2.allEnemies a.1 a.2).pos ≠ (w2.allEnemies b.1 b.2).pos) ∧
    ∀ a ∈ enemySlots level,
      w2.grid.playerLayer (w2.allEnemies a.1 a.2).pos.y (w2.allEnemies a.1 a.2).pos.x ≠ BLANK ∧
      w2.grid.playerLayer (w2.allEnemies a.1 a.2).pos.y (w2.allEnemies a.1 a.2).pos.x ≠
        PLAYER_MARKER := by
  have hsep : Separated (enemySlots level) w2 :=
    moveEnemies_separated _ _ _ (enemySlots level) (enemySlots level) w w2 (fun _ ha => ha) h
      ⟨hdistinct, hmarked, hmarkers⟩
  exact ⟨hsep.1, hsep.2.1⟩

/-- C33 on `pairWorld` at frame 2: the chaser, whose way to the player leads through the
teleporter's cell, and the teleporter end the call on different cells, both marked. -/
theorem moveAllEnemies_no_double_up_witness :
    ∃ w2, moveAllEnemies 2 pairLevel (playerAt ⟨5, 3⟩) 0 pairWorld = some w2 ∧
      (∀ a ∈ enemySlots pairLevel, ∀ b ∈ enemySlots pairLevel, a ≠ b →
        (w2.allEnemies a.1 a.2).pos ≠ (w2.allEnemies b.1 b.2).pos) ∧
      ∀ a ∈ enemySlots pairLevel,
        w2.grid.playerLayer (w2.allEnemies a.1 a.2).pos.y (w2.allEnemies a.1 a.2).pos.x ≠
          BLANK ∧
        w2.grid.playerLayer (w2.allEnemies a.1 a.2).pos.y (w2.allEnemies a.1 a.2).pos.x ≠
          PLAYER_MARKER :=
  have hrun := eq_some_getD (moveAllEnemies 2 pairLevel (playerAt ⟨5, 3⟩) 0 pairWorld)
    pairWorld (by decide!)
  ⟨_, hrun,
    moveAllEnemies_no_double_up 2 pairLevel (playerAt ⟨5, 3⟩) 0 pairWorld _ hrun (by decide)
      (by decide) (by decide)⟩

/-! ## Pathfinding: termination and the size of the node array -/

theorem nodeCount_le_interior (grid : AllEntities) (start : Position) (st : SearchState)
    (hc : CoreInv grid start st) (hstart : Interior start) : st.nodeCount ≤ 441 := by
  have hcard := Finset.card_le_card_of_injOn
    (s := Finset.range st.nodeCount)
    (t := (Finset.Icc (1 : Int) 21) ×ˢ (Finset.Icc (1 : Int) 21))
    (fun a => ((st.mem a).pos.x, (st.mem a).pos.y)) ?_ ?_
  · rw [Finset.card_range, interior_card] at hcard
    exact hcard
  · intro a ha
    rw [Finset.mem_range] at ha
    have hv : Interior (st.mem a).pos := by
      by_cases h0 : a = 0
      · rw [h0, hc.start_pos]; exact hstart
      · exact isValid_interior grid _ _ (hc.valid a (by omega) ha)
    simp only [Interior, GRID_SIZE] at hv
    simp only [Finset.mem_product, Finset.mem_Icc]
    omega
  · intro a ha b hb hab
    simp only [Finset.coe_range, Set.mem_Iio] at ha hb
    simp only [Prod.mk.injEq] at hab
    apply hc.pos_inj a b ha hb
    cases hpa : (st.mem a).pos
    cases hpb : (st.mem b).pos
    rw [hpa, hpb] at hab
    simp only at hab
    rw [hab.1, hab.2]

theorem closeNode_nil (st : SearchState) (h : st.openSet.nodes = []) : closeNode st = none := by
  unfold closeNode
  rw [pop_nil st.mem st.openSet h]

theorem closeNode_cons (st : SearchState) (cur : Nat) (rest : List Nat)
    (h : st.openSet.nodes = cur :: rest) :
    closeNode st = some (cur,
      { st with
        openSet := (pop st.mem st.openSet).2,
        closedSet := fun r c =>
          if r = (st.mem cur).pos.y ∧ c = (st.mem cur).pos.x then true
          else st.closedSet r c }) := by
  have hpop : pop st.mem st.openSet = (some cur, (pop st.mem st.openSet).2) :=
    Prod.ext (pop_cons_fst st.mem st.openSet cur rest h) rfl
  unfold closeNode
  rw [hpop]

/-- One round of `findPathLoop` in terms of `closeNode`. -/
theorem findPathLoop_round (grid : AllEntities) (goal : Position) (fuel : Nat)
    (st : SearchState) :
    findPathLoop grid goal (fuel + 1) st =
      match closeNode st with
      | none => some (false, [])
      | some (currentNode, st1) =>
        if matchesPosition (st.mem currentNode).pos goal = true then
          (finalizePath st.mem st.nodeCount currentNode).map (fun path => (true, path))
        else
          findPathLoop grid goal fuel
            ([0, 1, 2, 3].foldl (visitNeighbor grid goal currentNode) st1) := by
  rw [findPathLoop]
  cases hn : st.openSet.nodes with
  | nil => rw [closeNode_nil st hn, pop_nil st.mem st.openSet hn]
  | cons cur rest =>
    have hpop : pop st.mem st.openSet = (some cur, (pop st.mem st.openSet).2) :=
      Prod.ext (pop_cons_fst st.mem st.openSet cur rest hn) rfl
    rw [closeNode_cons st cur rest hn, hpop]

theorem searchRun_loop (grid : AllEntities) (goal : Position) :
    ∀ (k : Nat) (st st2 : SearchState), searchRun grid goal k st = some st2 →
      ∀ fuel, findPathLoop grid goal (k + fuel) st = findPathLoop grid goal fuel st2 := by
  intro k
  induction k with
  | zero =>
    intro st st2 h fuel
    cases h
    rw [Nat.zero_add]
  | succ k ih =>
    intro st st2 h fuel
    rw [show k + 1 + fuel = (k + fuel) + 1 by omega, findPathLoop_round]
    rw [searchRun] at h
    cases hc : closeNode st with
    | none => rw [hc] at h; exact absurd h (by simp)
    | some p =>
      obtain ⟨cur, st1⟩ := p
      rw [hc] at h
      simp only at h ⊢
      by_cases hg : matchesPosition (st.mem cur).pos goal = true
      · rw [if_pos hg] at h; exact absurd h (by simp)
      · rw [if_neg hg] at h
        rw [if_neg hg]
        exact ih _ _ h fuel

theorem findPathLoop_mono (grid : AllEntities) (goal : Position) :
    ∀ (fuel : Nat) (st : SearchState) (r : Bool × List Position),
      findPathLoop grid goal fuel st = some r →
      ∀ n, findPathLoop grid goal (fuel + n) st = some r := by
  intro fuel
  induction fuel with
  | zero => intro st r h; exact absurd h (by simp [findPathLoop])
  | succ fuel ih =>
    intro st r h n
    rw [show fuel + 1 + n = (fuel + n) + 1 by omega, findPathLoop_round]
    rw [findPathLoop_round] at h
    cases hc : closeNode st with
    | none => rw [hc] at h; exact h
    | some p =>
      obtain ⟨cur, st1⟩ := p
      rw [hc] at h
      simp only at h ⊢
      by_cases hg : matchesPosition (st.mem cur).pos goal = true
      · rw [if_pos hg] at h; rw [if_pos hg]; exact h
      · rw [if_neg hg] at h
        rw [if_neg hg]
        exact ih _ _ h n

/-- A round that pops a node not at the goal keeps the loop invariant and closes one more
node. -/
theorem round_inv (grid : AllEntities) (start goal : Position) (st : SearchState)
    (h : LoopInv grid start goal st) (cur : Nat) (st1 : SearchState)
    (hc : closeNode st = some (cur, st1)) (hg : matchesPosition (st.mem cur).pos goal ≠ true) :
    cur ∈ st.openSet.nodes ∧
    LoopInv grid start goal ([0, 1, 2, 3].foldl (visitNeighbor grid goal cur) st1) ∧
    ((([0, 1, 2, 3].foldl (visitNeighbor grid goal cur) st1).nodeCount : Int) -
        (([0, 1, 2, 3].foldl (visitNeighbor grid goal cur) st1).openSet.nodes.length : Int) =
      (st.nodeCount : Int) - (st.openSet.nodes.length : Int) + 1) := by
  cases hn : st.openSet.nodes with
  | nil => rw [closeNode_nil st hn] at hc; exact absurd hc (by simp)
  | cons c rest =>
    rw [closeNode_cons st c rest hn] at hc
    simp only [Option.some.injEq, Prod.mk.injEq] at hc
    obtain ⟨rfl, rfl⟩ := hc
    have hgoal : (st.mem c).pos ≠ goal := fun hx => hg ((matchesPosition_iff _ _).mpr hx)
    have hmid := pop_inv grid start goal st h c rest hn hgoal
    obtain ⟨hloop, hcount⟩ := expand_inv grid start goal c _ hmid
    have hlen : ((pop st.mem st.openSet).2.nodes.length : Int) =
        (st.openSet.nodes.length : Int) - 1 := by
      rw [(pop_cons_perm st.mem st.openSet c rest hn).length_eq, hn, List.length_cons]
      push_cast
      omega
    refine ⟨List.mem_cons_self _ _, hloop, ?_⟩
    simp only at hcount
    rw [hcount, hlen, hn]
    omega

theorem searchRun_inv (grid : AllEntities) (start goal : Position) :
    ∀ (k : Nat) (st st2 : SearchState), LoopInv grid start goal st →
      searchRun grid goal k st = some st2 →
      LoopInv grid start goal st2 ∧
      (st2.nodeCount : Int) - (st2.openSet.nodes.length : Int) =
        (st.nodeCount : Int) - (st.openSet.nodes.length : Int) + k := by
  intro k
  induction k with
  | zero =>
    intro st st2 h hrun
    cases hrun
    exact ⟨h, by simp⟩
  | succ k ih =>
    intro st st2 h hrun
    rw [searchRun] at hrun
    cases hc : closeNode st with
    | none => rw [hc] at hrun; exact absurd hrun (by simp)
    | some p =>
      obtain ⟨cur, st1⟩ := p
      rw [hc] at hrun
      simp only at hrun
      by_cases hg : matchesPosition (st.mem cur).pos goal = true
      · rw [if_pos hg] at hrun; exact absurd hrun (by simp)
      · rw [if_neg hg] at hrun
        obtain ⟨_, hloop, hcount⟩ := round_inv grid start goal st h cur st1 hc hg
        obtain ⟨h2, hc2⟩ := ih _ _ hloop hrun
        refine ⟨h2, ?_⟩
        rw [hc2, hcount]
        push_cast
        omega

theorem findPathLoop_returns (grid : AllEntities) (start goal : Position)
    (hstart : Interior start) :
    ∀ (fuel : Nat) (st : SearchState), LoopInv grid start goal st →
      (st.openSet.nodes.length : Int) + 441 < (st.nodeCount : Int) + (fuel : Int) →
      ∃ r, findPathLoop grid goal fuel st = some r := by
  intro fuel
  induction fuel with
  | zero =>
    intro st h hm
    have := nodeCount_le_interior grid start st h.core hstart
    push_cast at hm
    omega
  | succ fuel ih =>
    intro st h hm
    rw [findPathLoop_round]
    cases hc : closeNode st with
    | none => exact ⟨_, rfl⟩
    | some p =>
      obtain ⟨cur, st1⟩ := p
      simp only
      by_cases hg : matchesPosition (st.mem cur).pos goal = true
      · rw [if_pos hg]
        cases hn : st.openSet.nodes with
        | nil => rw [closeNode_nil st hn] at hc; exact absurd hc (by simp)
        | cons c rest =>
          rw [closeNode_cons st c rest hn] at hc
          simp only [Option.some.injEq, Prod.mk.injEq] at hc
          obtain ⟨rfl, rfl⟩ := hc
          obtain ⟨path, hp1, _, _⟩ :=
            finalizePath_spec grid start goal st h c rest hn ((matchesPosition_iff _ _).mp hg)
          rw [hp1]
          exact ⟨_, rfl⟩
      · rw [if_neg hg]
        obtain ⟨_, hloop, hcount⟩ := round_inv grid start goal st h cur st1 hc hg
        apply ih _ hloop
        push_cast at hm
        omega

theorem visitNeighbor_upto (grid : AllEntities) (start goal : Position) (cur : Nat)
    (st : SearchState) (h : MidInv grid start goal cur st) :
    ∀ n, n ≤ 4 →
      MidInv grid start goal cur ((List.range n).foldl (visitNeighbor grid goal cur) st) := by
  intro n
  induction n with
  | zero => intro _; exact h
  | succ n ih =>
    intro hn
    rw [List.range_succ, List.foldl_append]
    exact (visitNeighbor_inv grid start goal cur _ n (by omega) (ih (by omega))).1

/-- C37: `findPath` terminates for every grid, every interior start and every goal, within
441 rounds of its main loop (442 rounds of fuel: the last one is the failing loop test).
At the head of the loop after `k` complete rounds, `nodeCount` is at most 441, well inside
the `GRID_SIZE * GRID_SIZE` slots of `allNodes`, no two nodes share a cell, and exactly `k`
nodes are closed; a further round, if there is one, is at most the 441st, closes a cell
that was not closed before and keeps the others closed, and `nodeCount` stays at most 441
throughout its neighbour loop. -/
theorem findPath_terminates (grid : AllEntities) (start goal : Position)
    (hstart : Interior start) :
    (∃ r, findPath grid start goal = some r ∧
      findPathLoop grid goal 442 (initialSearchState start goal) = some r) ∧
    ∀ (k : Nat) (st : SearchState),
      searchRun grid goal k (initialSearchState start goal) = some st →
      (∀ fuel, findPathLoop grid goal (k + fuel) (initialSearchState start goal) =
        findPathLoop grid goal fuel st) ∧
      st.nodeCount ≤ 441 ∧ (st.nodeCount : Int) ≤ GRID_SIZE * GRID_SIZE ∧
      (∀ a b, a < st.nodeCount → b < st.nodeCount → (st.mem a).pos = (st.mem b).pos → a = b) ∧
      (st.nodeCount : Int) - (st.openSet.nodes.length : Int) = k ∧
      ∀ cur st1, closeNode st = some (cur, st1) →
        k + 1 ≤ 441 ∧
        st.closedSet (st.mem cur).pos.y (st.mem cur).pos.x = false ∧
        st1.closedSet (st.mem cur).pos.y (st.mem cur).pos.x = true ∧
        (∀ y x, st.closedSet y x = true → st1.closedSet y x = true) ∧
        (matchesPosition (st.mem cur).pos goal ≠ true → ∀ n, n ≤ 4 →
          ((List.range n).foldl (visitNeighbor grid goal cur) st1).nodeCount ≤ 441) := by
  have hinit := initial_inv grid start goal
  constructor
  · obtain ⟨r, hr⟩ := findPathLoop_returns grid start goal hstart 442
      (initialSearchState start goal) hinit (by
        have h1 : (initialSearchState start goal).openSet.nodes = [0] := rfl
        have h2 : (initialSearchState start goal).nodeCount = 1 := rfl
        rw [h1, h2]
        norm_num)
    refine ⟨r, ?_, hr⟩
    unfold findPath
    have h3 : (GRID_SIZE * GRID_SIZE).toNat = 442 + 87 := rfl
    rw [h3]
    exact findPathLoop_mono grid goal 442 _ r hr 87
  · intro k st hrun
    obtain ⟨hloop, hcount⟩ := searchRun_inv grid start goal k _ st hinit hrun
    have hc := hloop.core
    have hle := nodeCount_le_interior grid start st hc hstart
    have hk : (st.nodeCount : Int) - (st.openSet.nodes.length : Int) = k := by
      rw [hcount]
      have h1 : (initialSearchState start goal).openSet.nodes = [0] := rfl
      have h2 : (initialSearchState start goal).nodeCount = 1 := rfl
      rw [h1, h2]
      simp
    refine ⟨searchRun_loop grid goal k _ st hrun, hle, ?_, hc.pos_inj, hk, ?_⟩
    · simp only [GRID_SIZE]
      omega
    · intro cur st1 hclose
      cases hn : st.openSet.nodes with
      | nil => rw [closeNode_nil st hn] at hclose; exact absurd hclose (by simp)
      | cons c rest =>
        rw [closeNode_cons st c rest hn] at hclose
        simp only [Option.some.injEq, Prod.mk.injEq] at hclose
        obtain ⟨rfl, rfl⟩ := hclose
        have hopen : c ∈ st.openSet.nodes := by rw [hn]; exact List.mem_cons_self _ _
        have hlt := hc.open_lt c hopen
        refine ⟨?_, ?_, ?_, ?_, ?_⟩
        · rw [hn, List.length_cons] at hk
          push_cast at hk
          omega
        · cases hcl : st.closedSet (st.mem c).pos.y (st.mem c).pos.x
          · rfl
          · exact absurd hopen ((hc.closed_iff c hlt).mp hcl)
        · simp
        · intro y x hyx
          simp only
          split
          · rfl
          · exact hyx
        · intro hg n hn4
          have hgoal : (st.mem c).pos ≠ goal :=
            fun hx => hg ((matchesPosition_iff _ _).mpr hx)
          have hmid := pop_inv grid start goal st hloop c rest hn hgoal
          exact nodeCount_le_interior grid start _
            (visitNeighbor_upto grid start goal c _ hmid n hn4).core hstart

/-- C37 on `chaserGrid`, for the search from (3,3) to (5,3). -/
theorem findPath_terminates_witness :
    Interior ⟨3, 3⟩ ∧
    ∃ r, findPath chaserGrid ⟨3, 3⟩ ⟨5, 3⟩ = some r ∧
      findPathLoop chaserGrid ⟨5, 3⟩ 442 (initialSearchState ⟨3, 3⟩ ⟨5, 3⟩) = some r :=
  ⟨by decide, (findPath_terminates chaserGrid ⟨3, 3⟩ ⟨5, 3⟩ (by decide)).1⟩

/-! ## Pathfinding: the length of the path -/

theorem nthParent_spec (grid : AllEntities) (start : Position) (st : SearchState)
    (hc : CoreInv grid start st) :
    ∀ (d a c : Nat), a < st.nodeCount → nthParent st.mem d a = some c →
      c < st.nodeCount ∧ (st.mem c).gCost + d = (st.mem a).gCost ∧
        (1 ≤ d → c ∉ st.openSet.nodes) := by
  intro d
  induction d with
  | zero =>
    intro a c ha h
    simp only [nthParent, Option.some.injEq] at h
    subst h
    exact ⟨ha, by simp, fun h1 => absurd h1 (by omega)⟩
  | succ d ih =>
    intro a c ha h
    rw [nthParent] at h
    by_cases h0 : a = 0
    · subst h0
      rw [hc.start_parent] at h
      exact absurd h (by simp)
    · obtain ⟨b, hb1, hb2, hb3, _, hb5⟩ := hc.parent a (Nat.pos_of_ne_zero h0) ha
      rw [hb1] at h
      simp only at h
      obtain ⟨h1, h2, h3⟩ := ih b c hb2 h
      refine ⟨h1, by rw [hb5]; push_cast; omega, fun _ => ?_⟩
      by_cases hd : d = 0
      · subst hd
        simp only [nthParent, Option.some.injEq] at h
        rw [← h]; exact hb3
      · exact h3 (by omega)

theorem nthParent_add (mem : Memory) :
    ∀ (d1 d2 a : Nat), nthParent mem (d1 + d2) a = (nthParent mem d1 a).bind (nthParent mem d2) := by
  intro d1
  induction d1 with
  | zero => intro d2 a; rw [Nat.zero_add]; rfl
  | succ d1 ih =>
    intro d2 a
    rw [show d1 + 1 + d2 = (d1 + d2) + 1 by omega, nthParent, nthParent]
    cases (mem a).parent with
    | none => rfl
    | some b => exact ih d2 b

theorem nthParent_update (grid : AllEntities) (start : Position) (st : SearchState)
    (hc : CoreInv grid start st) (e : Nat) (v : Node)
    (he : e ∈ st.openSet.nodes ∨ e = st.nodeCount) :
    ∀ (d a : Nat), a < st.nodeCount → a ≠ e →
      nthParent (Function.update st.mem e v) d a = nthParent st.mem d a := by
  intro d
  induction d with
  | zero => intro a _ _; rfl
  | succ d ih =>
    intro a ha hae
    rw [nthParent, nthParent, Function.update_noteq hae]
    by_cases h0 : a = 0
    · subst h0
      rw [hc.start_parent]
    · obtain ⟨b, hb1, hb2, hb3, _, _⟩ := hc.parent a (Nat.pos_of_ne_zero h0) ha
      rw [hb1]
      simp only
      apply ih b hb2
      rintro rfl
      rcases he with he | he
      · exact hb3 he
      · omega

theorem lineage_initial (start goal : Position) :
    Lineage goal (initialSearchState start goal) := by
  have hcount : (initialSearchState start goal).nodeCount = 1 := rfl
  have hmem0 : (initialSearchState start goal).mem 0 =
      createNode start 0 (calculateHCost start goal) none := rfl
  constructor
  · intro a ha
    rw [hcount] at ha
    have ha0 : a = 0 := by omega
    rw [ha0, hmem0]
    rfl
  · intro a ha d c hd h
    rw [hcount] at ha
    have ha0 : a = 0 := by omega
    subst ha0
    obtain ⟨d, rfl⟩ : ∃ d', d = d' + 1 := ⟨d - 1, by omega⟩
    rw [nthParent, hmem0] at h
    exact absurd h (by simp [createNode])

theorem visitNeighbor_lineage (grid : AllEntities) (start goal : Position) (cur : Nat)
    (st : SearchState) (i : Nat) (h : MidInv grid start goal cur st)
    (hl : Lineage goal st) :
    Lineage goal (visitNeighbor grid goal cur st i) := by
  have hc := h.core
  unfold visitNeighbor
  simp only
  by_cases hcond : (!st.closedSet (neighbor (st.mem cur).pos i).y (neighbor (st.mem cur).pos i).x
      && isValid grid (neighbor (st.mem cur).pos i) 'e') = true
  · have hcond2 := hcond
    simp only [Bool.and_eq_true, Bool.not_eq_true'] at hcond2
    obtain ⟨hclosed, hvalid⟩ := hcond2
    rw [if_pos (by exact hcond)]
    cases hfind : findNode st.mem st.openSet (neighbor (st.mem cur).pos i) with
    | none =>
      simp only [neighbor] at hfind
      simp only [hfind]
      have hnone := findNode_none st.mem st.openSet _ hfind
      have hold : ∀ a, a < st.nodeCount →
          Function.update st.mem st.nodeCount
            (createNode ⟨(st.mem cur).pos.x + dx.getD i 0, (st.mem cur).pos.y + dy.getD i 0⟩
              ((st.mem cur).gCost + 1)
              (calculateHCost
                ⟨(st.mem cur).pos.x + dx.getD i 0, (st.mem cur).pos.y + dy.getD i 0⟩ goal)
              (some cur)) a = st.mem a :=
        fun a ha => Function.update_noteq (Nat.ne_of_lt ha) _ _
      constructor
      · intro a ha
        simp only at ha ⊢
        by_cases han : a = st.nodeCount
        · subst han
          rw [Function.update_same]
          rfl
        · have ha2 : a < st.nodeCount := by omega
          rw [hold a ha2]
          exact hl.hcost a ha2
      · intro a ha d c hd hpar hadj
        simp only at ha hpar hadj ⊢
        by_cases han : a = st.nodeCount
        · subst han
          exfalso
          obtain ⟨d, rfl⟩ : ∃ d', d = d' + 1 := ⟨d - 1, by omega⟩
          rw [nthParent, Function.update_same] at hpar
          simp only [createNode] at hpar
          rw [nthParent_update grid start st hc _ _ (Or.inr rfl) d cur h.cur_lt
            (Nat.ne_of_lt h.cur_lt)] at hpar
          obtain ⟨hc1, hc2, hc3⟩ := nthParent_spec grid start st hc d cur c h.cur_lt hpar
          have hccur : c ≠ cur := by
            rintro rfl
            omega
          rw [Function.update_same, hold c hc1] at hadj
          simp only [createNode] at hadj
          obtain ⟨b, hb, hbpos⟩ := h.expanded c hc1 (hc3 (by omega)) hccur _ hadj hvalid
          by_cases hbo : b ∈ st.openSet.nodes
          · exact hnone b hbo hbpos
          · have hcl := (hc.closed_iff b hb).mpr hbo
            rw [hbpos] at hcl
            simp only [neighbor] at hclosed
            rw [hclosed] at hcl
            exact Bool.false_ne_true hcl
        · have ha2 : a < st.nodeCount := by omega
          rw [nthParent_update grid start st hc _ _ (Or.inr rfl) d a ha2 han] at hpar
          obtain ⟨hc1, _, _⟩ := nthParent_spec grid start st hc d a c ha2 hpar
          rw [hold a ha2]
          rw [hold a ha2, hold c hc1] at hadj
          exact hl.nochord a ha2 d c hd hpar hadj
    | some e =>
      simp only [neighbor] at hfind
      simp only [hfind]
      obtain ⟨he, hpos⟩ := findNode_some st.mem st.openSet _ e hfind
      have hen := hc.open_lt e he
      split
      · rename_i hlt
        constructor
        · intro a ha
          simp only at ha ⊢
          by_cases hae : a = e
          · subst hae
            rw [Function.update_same]
            exact hl.hcost a ha
          · rw [Function.update_noteq hae]
            exact hl.hcost a ha
        · intro a ha d c hd hpar hadj
          simp only at ha hpar hadj ⊢
          by_cases hae : a = e
          · subst hae
            rw [Function.update_same]
            exact hlt
          · rw [nthParent_update grid start st hc _ _ (Or.inl he) d a ha hae] at hpar
            obtain ⟨hc1, _, hc3⟩ := nthParent_spec grid start st hc d a c ha hpar
            have hce : c ≠ e := by
              rintro rfl
              exact hc3 (by omega) he
            rw [Function.update_noteq hae]
            rw [Function.update_noteq hae, Function.update_noteq hce] at hadj
            exact hl.nochord a ha d c hd hpar hadj
      · exact hl
  · rw [if_neg (by exact hcond)]
    exact hl

theorem expand_lineage (grid : AllEntities) (start goal : Position) (cur : Nat)
    (st : SearchState) (h : MidInv grid start goal cur st) (hl : Lineage goal st) :
    Lineage goal ([0, 1, 2, 3].foldl (visitNeighbor grid goal cur) st) := by
  simp only [List.foldl_cons, List.foldl_nil]
  obtain ⟨m1, _⟩ := visitNeighbor_inv grid start goal cur st 0 (by omega) h
  obtain ⟨m2, _⟩ := visitNeighbor_inv grid start goal cur _ 1 (by omega) m1
  obtain ⟨m3, _⟩ := visitNeighbor_inv grid start goal cur _ 2 (by omega) m2
  have l1 := visitNeighbor_lineage grid start goal cur st 0 h hl
  have l2 := visitNeighbor_lineage grid start goal cur _ 1 m1 l1
  have l3 := visitNeighbor_lineage grid start goal cur _ 2 m2 l2
  exact visitNeighbor_lineage grid start goal cur _ 3 m3 l3

theorem collectPath_nth (grid : AllEntities) (start : Position) (st : SearchState)
    (hc : CoreInv grid start st) :
    ∀ (j : Nat) (a : Nat), a < st.nodeCount → (st.mem a).gCost = (j : Int) →
      ∀ fuel, j + 1 ≤ fuel → ∀ acc : List Position,
        ∃ ch : List Position,
          collectPath st.mem fuel (some a) acc = some (acc ++ ch) ∧ ch.length = j + 1 ∧
          ∀ d, d ≤ j → ∃ c, nthParent st.mem d a = some c ∧ ch[d]? = some (st.mem c).pos := by
  intro j
  induction j with
  | zero =>
    intro a ha hg fuel hf acc
    have ha0 : a = 0 := by
      by_contra hne
      obtain ⟨b, _, hb2, _, _, hb5⟩ := hc.parent a (Nat.pos_of_ne_zero hne) ha
      have := hc.g_nonneg b hb2
      rw [hb5] at hg
      simp only [Nat.cast_zero] at hg
      omega
    subst ha0
    obtain ⟨f, rfl⟩ : ∃ f, fuel = f + 1 := ⟨fuel - 1, by omega⟩
    refine ⟨[(st.mem 0).pos], ?_, rfl, ?_⟩
    · rw [collectPath, hc.start_parent, collectPath_none]
    · intro d hd
      have hd0 : d = 0 := by omega
      subst hd0
      exact ⟨0, rfl, List.getElem?_cons_zero⟩
  | succ j ih =>
    intro a ha hg fuel hf acc
    have ha0 : a ≠ 0 := by
      rintro rfl
      rw [hc.start_g] at hg
      push_cast at hg
      omega
    obtain ⟨b, hb1, hb2, _, _, hb5⟩ := hc.parent a (Nat.pos_of_ne_zero ha0) ha
    have hgb : (st.mem b).gCost = (j : Int) := by
      rw [hb5] at hg
      push_cast at hg
      omega
    obtain ⟨f, rfl⟩ : ∃ f, fuel = f + 1 := ⟨fuel - 1, by omega⟩
    obtain ⟨ch, h1, h2, h3⟩ := ih b hb2 hgb f (by omega) (acc ++ [(st.mem a).pos])
    refine ⟨(st.mem a).pos :: ch, ?_, ?_, ?_⟩
    · rw [collectPath, hb1, h1]
      simp
    · rw [List.length_cons, h2]
    · intro d hd
      cases d with
      | zero => exact ⟨a, rfl, List.getElem?_cons_zero⟩
      | succ d =>
        obtain ⟨c, hc1, hc2⟩ := h3 d (by omega)
        refine ⟨c, ?_, ?_⟩
        · rw [nthParent, hb1]
          exact hc1
        · rw [List.getElem?_cons_succ]
          exact hc2

/-- The path written by `finalizePath` from the popped goal node has no chord but those of
`ChordFree`. -/
theorem finalizePath_chord (grid : AllEntities) (start goal : Position) (st : SearchState)
    (hc : CoreInv grid start st) (hl : Lineage goal st) (cur : Nat) (hcur : cur < st.nodeCount)
    (fuel : Nat) (hfuel : (st.mem cur).gCost < (fuel : Int)) (path : List Position)
    (hp : finalizePath st.mem fuel cur = some path) : ChordFree goal path := by
  have hg0 := hc.g_nonneg cur hcur
  obtain ⟨j, hj⟩ : ∃ j : Nat, (st.mem cur).gCost = (j : Int) :=
    ⟨(st.mem cur).gCost.toNat, (Int.toNat_of_nonneg hg0).symm⟩
  obtain ⟨ch, h1, h2, h3⟩ :=
    collectPath_nth grid start st hc j cur hcur hj fuel (by omega) []
  unfold finalizePath at hp
  rw [h1] at hp
  simp only [List.nil_append, Option.map_some', reverseLoop_eq_reverse,
    Option.some.injEq] at hp
  subst hp
  intro i k hik hk hadj
  rw [List.length_reverse, h2] at hk
  have hgetD : ∀ m, m ≤ j → ∃ c, nthParent st.mem (j - m) cur = some c ∧
      ch.reverse.getD m goal = (st.mem c).pos := by
    intro m hm
    obtain ⟨c, hc1, hc2⟩ := h3 (j - m) (by omega)
    refine ⟨c, hc1, ?_⟩
    rw [List.getD_eq_getElem?_getD, List.getElem?_reverse (by rw [h2]; omega), h2]
    have hidx : j + 1 - 1 - m = j - m := by omega
    rw [hidx, hc2]
    rfl
  obtain ⟨c, hc1, hc2⟩ := hgetD i (by omega)
  obtain ⟨a, ha1, ha2⟩ := hgetD k (by omega)
  rw [hc2, ha2] at hadj
  rw [ha2]
  obtain ⟨ha3, ha4, _⟩ := nthParent_spec grid start st hc (j - k) cur a hcur ha1
  have hchain : nthParent st.mem (k - i) a = some c := by
    have hsum : j - i = (j - k) + (k - i) := by omega
    rw [hsum, nthParent_add, ha1] at hc1
    exact hc1
  have hlt := hl.nochord a ha3 (k - i) c (by omega) hchain hadj
  rw [hl.hcost a ha3] at hlt
  have hk2 : ((j - k : Nat) : Int) = (j : Int) - (k : Int) := by omega
  rw [hj, hk2] at ha4
  omega

theorem findPathLoop_chord (grid : AllEntities) (start goal : Position) :
    ∀ (fuel : Nat) (st : SearchState), LoopInv grid start goal st → Lineage goal st →
      ∀ path, findPathLoop grid goal fuel st = some (true, path) → ChordFree goal path := by
  intro fuel
  induction fuel with
  | zero => intro st _ _ path h; exact absurd h (by simp [findPathLoop])
  | succ fuel ih =>
    intro st h hl path hrun
    rw [findPathLoop_round] at hrun
    cases hn : st.openSet.nodes with
    | nil =>
      rw [closeNode_nil st hn] at hrun
      simp at hrun
    | cons cur rest =>
      rw [closeNode_cons st cur rest hn] at hrun
      simp only at hrun
      have hc := h.core
      have hcur_open : cur ∈ st.openSet.nodes := by rw [hn]; exact List.mem_cons_self _ _
      have hcur_lt : cur < st.nodeCount := hc.open_lt cur hcur_open
      by_cases hg : matchesPosition (st.mem cur).pos goal = true
      · rw [if_pos hg] at hrun
        have hglt : (st.mem cur).gCost < (st.nodeCount : Int) := by
          by_cases h0 : cur = 0
          · subst h0
            rw [hc.start_g]
            exact_mod_cast hc.count_pos
          · obtain ⟨b, _, hb2, hb3, _, hb5⟩ := hc.parent cur (Nat.pos_of_ne_zero h0) hcur_lt
            have := hc.g_closed b hb2 hb3
            have hlen : (1 : Int) ≤ (st.openSet.nodes.length : Int) := by
              rw [hn, List.length_cons]; push_cast; omega
            omega
        cases hfin : finalizePath st.mem st.nodeCount cur with
        | none => rw [hfin] at hrun; simp at hrun
        | some p =>
          rw [hfin] at hrun
          simp only [Option.map_some', Option.some.injEq, Prod.mk.injEq, true_and] at hrun
          subst hrun
          exact finalizePath_chord grid start goal st hc hl cur hcur_lt _ hglt p hfin
      · rw [if_neg hg] at hrun
        have hgoal : (st.mem cur).pos ≠ goal := fun hx => hg ((matchesPosition_iff _ _).mpr hx)
        have hmid := pop_inv grid start goal st h cur rest hn hgoal
        obtain ⟨hloop, _⟩ := expand_inv grid start goal cur _ hmid
        have hl1 : Lineage goal
            { st with
              openSet := (pop st.mem st.openSet).2,
              closedSet := fun r c =>
                if r = (st.mem cur).pos.y ∧ c = (st.mem cur).pos.x then true
                else st.closedSet r c } := ⟨hl.hcost, hl.nochord⟩
        exact ih _ hloop (expand_lineage grid start goal cur _ hmid hl1) path hrun

theorem hCost_le_interior (q goal : Position) (hq : Interior q) (hg : Interior goal) :
    calculateHCost q goal ≤ 40 := by
  unfold calculateHCost
  unfold Interior at hq hg
  simp only [GRID_SIZE] at hq hg
  rw [abs_ite, abs_ite]
  split_ifs <;> omega

theorem mem_index (goal : Position) (path : List Position) (q : Position) (hq : q ∈ path) :
    ∃ k, k < path.length ∧ path.getD k goal = q := by
  obtain ⟨k, hk, hkq⟩ := List.getElem_of_mem hq
  exact ⟨k, hk, by rw [List.getD_eq_getElem _ _ hk]; exact hkq⟩

/-- A block whose four cells are all on the path holds a path cell of index below 40: the
walk around the block cannot follow the path all the way, so two of its cells that are
adjacent are not consecutive on the path. -/
theorem full_block_index (goal : Position) (path : List Position)
    (hint : ∀ q ∈ path, Interior q) (hgoal : Interior goal) (hchord : ChordFree goal path)
    (b : Int × Int) (hfull : ∀ c ∈ blockCells b, c ∈ path) :
    ∃ k, k < 40 ∧ k < path.length ∧ blockOf (path.getD k goal) = b := by
  obtain ⟨b1, b2⟩ := b
  have hm0 : (⟨2 * b1 + 1, 2 * b2 + 1⟩ : Position) ∈ path :=
    hfull _ (by simp [blockCells])
  have hm1 : (⟨2 * b1 + 2, 2 * b2 + 1⟩ : Position) ∈ path :=
    hfull _ (by simp [blockCells])
  have hm2 : (⟨2 * b1 + 2, 2 * b2 + 2⟩ : Position) ∈ path :=
    hfull _ (by simp [blockCells])
  have hm3 : (⟨2 * b1 + 1, 2 * b2 + 2⟩ : Position) ∈ path :=
    hfull _ (by simp [blockCells])
  obtain ⟨i0, hi0, e0⟩ := mem_index goal path _ hm0
  obtain ⟨i1, hi1, e1⟩ := mem_index goal path _ hm1
  obtain ⟨i2, hi2, e2⟩ := mem_index goal path _ hm2
  obtain ⟨i3, hi3, e3⟩ := mem_index goal path _ hm3
  have hne : ∀ (i j : Nat) (p q : Position), path.getD i goal = p → path.getD j goal = q →
      p ≠ q → i ≠ j := by
    intro i j p q hp hq hpq hij
    apply hpq
    rw [← hp, ← hq, hij]
  have n01 := hne i0 i1 _ _ e0 e1 (by simp)
  have n02 := hne i0 i2 _ _ e0 e2 (by simp)
  have n03 := hne i0 i3 _ _ e0 e3 (by simp)
  have n12 := hne i1 i2 _ _ e1 e2 (by simp)
  have n13 := hne i1 i3 _ _ e1 e3 (by simp)
  have n23 := hne i2 i3 _ _ e2 e3 (by simp)
  have hb0 : blockOf ⟨2 * b1 + 1, 2 * b2 + 1⟩ = (b1, b2) := by
    simp only [blockOf, Prod.mk.injEq]; omega
  have hb1 : blockOf ⟨2 * b1 + 2, 2 * b2 + 1⟩ = (b1, b2) := by
    simp only [blockOf, Prod.mk.injEq]; omega
  have hb2 : blockOf ⟨2 * b1 + 2, 2 * b2 + 2⟩ = (b1, b2) := by
    simp only [blockOf, Prod.mk.injEq]; omega
  have hb3 : blockOf ⟨2 * b1 + 1, 2 * b2 + 2⟩ = (b1, b2) := by
    simp only [blockOf, Prod.mk.injEq]; omega
  have key : ∀ (i j : Nat) (p q : Position), path.getD i goal = p → path.getD j goal = q →
      j < path.length → q ∈ path → blockOf q = (b1, b2) → Adjacent p q → i + 2 ≤ j →
      ∃ k, k < 40 ∧ k < path.length ∧ blockOf (path.getD k goal) = (b1, b2) := by
    intro i j p q hp hq hj hqm hbq hadj hij
    have hlt := hchord i j hij hj (by rw [hp, hq]; exact hadj)
    rw [hq] at hlt
    have hle := hCost_le_interior q goal (hint q hqm) hgoal
    exact ⟨j, by omega, hj, by rw [hq]; exact hbq⟩
  have a01 : Adjacent (⟨2 * b1 + 1, 2 * b2 + 1⟩ : Position) ⟨2 * b1 + 2, 2 * b2 + 1⟩ := by
    unfold Adjacent calculateHCost; simp only [abs_ite]; split_ifs <;> omega
  have a12 : Adjacent (⟨2 * b1 + 2, 2 * b2 + 1⟩ : Position) ⟨2 * b1 + 2, 2 * b2 + 2⟩ := by
    unfold Adjacent calculateHCost; simp only [abs_ite]; split_ifs <;> omega
  have a23 : Adjacent (⟨2 * b1 + 2, 2 * b2 + 2⟩ : Position) ⟨2 * b1 + 1, 2 * b2 + 2⟩ := by
    unfold Adjacent calculateHCost; simp only [abs_ite]; split_ifs <;> omega
  have a30 : Adjacent (⟨2 * b1 + 1, 2 * b2 + 2⟩ : Position) ⟨2 * b1 + 1, 2 * b2 + 1⟩ := by
    unfold Adjacent calculateHCost; simp only [abs_ite]; split_ifs <;> omega
  have hcases : i0 + 2 ≤ i1 ∨ i1 + 2 ≤ i0 ∨ i1 + 2 ≤ i2 ∨ i2 + 2 ≤ i1 ∨ i2 + 2 ≤ i3 ∨
      i3 + 2 ≤ i2 ∨ i3 + 2 ≤ i0 ∨ i0 + 2 ≤ i3 := by omega
  rcases hcases with h | h | h | h | h | h | h | h
  · exact key i0 i1 _ _ e0 e1 hi1 hm1 hb1 a01 h
  · exact key i1 i0 _ _ e1 e0 hi0 hm0 hb0 (adjacent_symm _ _ a01) h
  · exact key i1 i2 _ _ e1 e2 hi2 hm2 hb2 a12 h
  · exact key i2 i1 _ _ e2 e1 hi1 hm1 hb1 (adjacent_symm _ _ a12) h
  · exact key i2 i3 _ _ e2 e3 hi3 hm3 hb3 a23 h
  · exact key i3 i2 _ _ e3 e2 hi2 hm2 hb2 (adjacent_symm _ _ a23) h
  · exact key i3 i0 _ _ e3 e0 hi0 hm0 hb0 a30 h
  · exact key i0 i3 _ _ e0 e3 hi3 hm3 hb3 (adjacent_symm _ _ a30) h

theorem blockCells_card (b : Int × Int) : (blockCells b).card ≤ 4 := by
  unfold blockCells
  exact Finset.card_le_four

theorem mem_blockCells_of_blockOf (q : Position) (b : Int × Int) (h : blockOf q = b) :
    q ∈ blockCells b := by
  obtain ⟨x, y⟩ := q
  obtain ⟨b1, b2⟩ := b
  simp only [blockOf, Prod.mk.injEq] at h
  simp only [blockCells, Finset.mem_insert, Finset.mem_singleton, Position.mk.injEq]
  omega

/-- A duplicate-free list of interior cells whose chords all end within 40 steps of its
start misses at least 59 of the 441 interior cells. -/
theorem path_length_bound (goal : Position) (path : List Position) (hnd : path.Nodup)
    (hint : ∀ q ∈ path, Interior q) (hgoal : Interior goal) (hchord : ChordFree goal path) :
    path.length ≤ 382 := by
  classical
  rw [← List.toFinset_card_of_nodup hnd]
  have hS : ∀ q, q ∈ path.toFinset ↔ q ∈ path := fun q => List.mem_toFinset
  have hsplit := Finset.filter_card_add_filter_neg_card_eq_card
    (s := path.toFinset) (fun q : Position => q.x ≤ 20 ∧ q.y ≤ 20)
  -- the cells of column 21 and of row 21
  have hrest : (path.toFinset.filter (fun q : Position => ¬ (q.x ≤ 20 ∧ q.y ≤ 20))).card ≤ 42 := by
    have hsub : path.toFinset.filter (fun q : Position => ¬ (q.x ≤ 20 ∧ q.y ≤ 20)) ⊆
        (Finset.Icc (1 : Int) 21).image (fun t => (⟨21, t⟩ : Position)) ∪
          (Finset.Icc (1 : Int) 21).image (fun t => (⟨t, 21⟩ : Position)) := by
      intro q hq
      rw [Finset.mem_filter, hS] at hq
      have hi := hint q hq.1
      unfold Interior at hi
      simp only [GRID_SIZE] at hi
      obtain ⟨x, y⟩ := q
      simp only at hi hq
      simp only [Finset.mem_union, Finset.mem_image, Finset.mem_Icc, Position.mk.injEq]
      by_cases hx : x ≤ 20
      · right
        exact ⟨x, by omega, rfl, by omega⟩
      · left
        exact ⟨y, by omega, by omega, rfl⟩
    calc _ ≤ _ := Finset.card_le_card hsub
      _ ≤ _ := Finset.card_union_le _ _
      _ ≤ (Finset.Icc (1 : Int) 21).card + (Finset.Icc (1 : Int) 21).card :=
          Nat.add_le_add Finset.card_image_le Finset.card_image_le
      _ = 42 := by rw [Int.card_Icc]; rfl
  -- the cells of the hundred blocks
  have hblocks : (path.toFinset.filter (fun q : Position => q.x ≤ 20 ∧ q.y ≤ 20)).card ≤ 340 := by
    have hmaps : ∀ q ∈ path.toFinset.filter (fun q : Position => q.x ≤ 20 ∧ q.y ≤ 20),
        blockOf q ∈ (Finset.Icc (0 : Int) 9) ×ˢ (Finset.Icc (0 : Int) 9) := by
      intro q hq
      rw [Finset.mem_filter, hS] at hq
      have hi := hint q hq.1
      unfold Interior at hi
      simp only [GRID_SIZE] at hi
      simp only [blockOf, Finset.mem_product, Finset.mem_Icc]
      omega
    rw [Finset.card_eq_sum_card_fiberwise hmaps]
    have hfiber : ∀ b ∈ (Finset.Icc (0 : Int) 9) ×ˢ (Finset.Icc (0 : Int) 9),
        ((path.toFinset.filter (fun q : Position => q.x ≤ 20 ∧ q.y ≤ 20)).filter
          (fun q => blockOf q = b)).card ≤
          3 + (if blockCells b ⊆ path.toFinset then 1 else 0) := by
      intro b _
      have hsub : (path.toFinset.filter (fun q : Position => q.x ≤ 20 ∧ q.y ≤ 20)).filter
          (fun q => blockOf q = b) ⊆ blockCells b := by
        intro q hq
        rw [Finset.mem_filter] at hq
        exact mem_blockCells_of_blockOf q b hq.2
      by_cases hfull : blockCells b ⊆ path.toFinset
      · rw [if_pos hfull]
        exact (Finset.card_le_card hsub).trans (blockCells_card b)
      · rw [if_neg hfull]
        obtain ⟨c, hc1, hc2⟩ := Finset.not_subset.mp hfull
        have hsub2 : (path.toFinset.filter (fun q : Position => q.x ≤ 20 ∧ q.y ≤ 20)).filter
            (fun q => blockOf q = b) ⊆ (blockCells b).erase c := by
          intro q hq
          rw [Finset.mem_erase]
          refine ⟨?_, hsub hq⟩
          rintro rfl
          rw [Finset.mem_filter, Finset.mem_filter] at hq
          exact hc2 hq.1.1
        have h1 := Finset.card_le_card hsub2
        rw [Finset.card_erase_of_mem hc1] at h1
        have h2 := blockCells_card b
        omega
    have hfullCount : (((Finset.Icc (0 : Int) 9) ×ˢ (Finset.Icc (0 : Int) 9)).filter
        (fun b => blockCells b ⊆ path.toFinset)).card ≤ 40 := by
      have hex : ∀ b : Int × Int, blockCells b ⊆ path.toFinset →
          ∃ k, k < 40 ∧ k < path.length ∧ blockOf (path.getD k goal) = b := by
        intro b hb
        exact full_block_index goal path hint hgoal hchord b
          (fun c hc => (hS c).mp (hb hc))
      choose! f hf using hex
      have hcard := Finset.card_le_card_of_injOn
        (s := ((Finset.Icc (0 : Int) 9) ×ˢ (Finset.Icc (0 : Int) 9)).filter
          (fun b => blockCells b ⊆ path.toFinset))
        (t := Finset.range 40) f ?_ ?_
      · rw [Finset.card_range] at hcard
        exact hcard
      · intro b hb
        rw [Finset.mem_filter] at hb
        rw [Finset.mem_range]
        exact (hf b hb.2).1
      · intro b hb b2 hb2 hbb
        simp only [Finset.coe_filter, Set.mem_setOf_eq] at hb hb2
        rw [← (hf b hb.2).2.2, ← (hf b2 hb2.2).2.2, hbb]
    calc _ ≤ ∑ b ∈ (Finset.Icc (0 : Int) 9) ×ˢ (Finset.Icc (0 : Int) 9),
          (3 + (if blockCells b ⊆ path.toFinset then 1 else 0)) := Finset.sum_le_sum hfiber
      _ = 3 * 100 + (((Finset.Icc (0 : Int) 9) ×ˢ (Finset.Icc (0 : Int) 9)).filter
          (fun b => blockCells b ⊆ path.toFinset)).card := by
        rw [Finset.sum_add_distrib, Finset.sum_const, Finset.card_filter, Finset.card_product,
          Int.card_Icc]
        rfl
      _ ≤ 340 := by omega
  omega

/-- C38: for every grid and all interior `start` and `goal`, `findPath` returns and the
`pathLength` it produces is at most `NUM_SQUARES = 400`, the size of the path buffers of
its callers (it is in fact at most 382), so `finalizePath` writes inside the buffer. -/
theorem findPath_length_le (grid : AllEntities) (start goal : Position)
    (hstart : Interior start) (hgoal : Interior goal) :
    ∃ r, findPath grid start goal = some r ∧ (r.2.length : Int) ≤ NUM_SQUARES ∧
      r.2.length ≤ 382 := by
  obtain ⟨r, hr, hyes, hno⟩ := findPath_spec grid start goal
  refine ⟨r, hr, ?_⟩
  have hlen : r.2.length ≤ 382 := by
    obtain ⟨found, path⟩ := r
    cases found with
    | false =>
      have := (hno rfl).2
      simp only at this
      rw [this]
      exact Nat.zero_le _
    | true =>
      obtain ⟨hhead, _, _, hnd, hvalid⟩ := (hyes rfl).2
      simp only at hhead hnd hvalid ⊢
      have hchord : ChordFree goal path := by
        unfold findPath at hr
        exact findPathLoop_chord grid start goal _ _ (initial_inv grid start goal)
          (lineage_initial start goal) path hr
      apply path_length_bound goal path hnd ?_ hgoal hchord
      intro q hq
      cases path with
      | nil => exact absurd hq (List.not_mem_nil _)
      | cons a l =>
        simp only [List.head?_cons, Option.some.injEq] at hhead
        rcases List.mem_cons.mp hq with rfl | hq
        · rw [hhead]; exact hstart
        · exact isValid_interior grid q _ (hvalid q hq)
  refine ⟨?_, hlen⟩
  have hn : NUM_SQUARES = 400 := rfl
  rw [hn]
  omega

/-- C38 on `chaserGrid`, for the search from (3,3) to (5,3). -/
theorem findPath_length_le_witness :
    Interior ⟨3, 3⟩ ∧ Interior ⟨5, 3⟩ ∧
    ∃ r, findPath chaserGrid ⟨3, 3⟩ ⟨5, 3⟩ = some r ∧ (r.2.length : Int) ≤ NUM_SQUARES ∧
      r.2.length ≤ 382 :=
  ⟨by decide, by decide, findPath_length_le chaserGrid ⟨3, 3⟩ ⟨5, 3⟩ (by decide) (by decide)⟩

/-! ## Hangman: when a letter guess wins -/

/-- C35: a letter guess does not win exactly when no blank is left.  `displayGameState`
sets `winCondition` to 1 on a letter guess exactly when the guess is not among the used
letters, occurs in the word, and the number of blank positions before the guess was one;
otherwise it leaves `winCondition` as it was.  So for
the word `EE` the guess `e` reveals every letter (no blank is left) and `winCondition`
stays 0; and for the word `AB` with `A` already guessed, guessing `a` again sets
`winCondition` to 1 although the `B` is still blank. -/
theorem displayGameState_win_mismatch :
    (∀ (correctWord : List Char) (letterGuess : Char) (st : GuessState),
      (displayGameState correctWord letterGuess st).winCondition =
        if st.usedLetters.any (fun c => decide (letterGuess.toUpper = c)) = false ∧
            (checkGuessLetter letterGuess.toUpper correctWord st.usedLetters).1 = true ∧
            printBlanks correctWord st.correctLetters = 1 then 1
        else st.winCondition) ∧
    ((displayGameState ['E', 'E'] 'e' freshGame).winCondition = 0 ∧
      printBlanks ['E', 'E'] (displayGameState ['E', 'E'] 'e' freshGame).correctLetters = 0) ∧
    ((displayGameState ['A', 'B'] 'a' freshGame).winCondition = 0 ∧
      (displayGameState ['A', 'B'] 'a'
        (displayGameState ['A', 'B'] 'a' freshGame)).winCondition = 1 ∧
      printBlanks ['A', 'B']
        (displayGameState ['A', 'B'] 'a'
          (displayGameState ['A', 'B'] 'a' freshGame)).correctLetters = 1) := by
  refine ⟨?_, ⟨by decide, by decide⟩, by decide, by decide, by decide⟩
  intro correctWord letterGuess st
  unfold displayGameState
  simp only
  by_cases hu : st.usedLetters.any (fun c => decide (letterGuess.toUpper = c)) = true
  · rw [if_pos hu, if_neg (by rw [hu]; simp)]
  · rw [if_neg hu]
    simp only [Bool.not_eq_true] at hu
    by_cases hc : (checkGuessLetter letterGuess.toUpper correctWord st.usedLetters).1 = true
    · rw [if_pos hc]
      simp only
      by_cases hb : printBlanks correctWord st.correctLetters - 1 = 0
      · rw [if_pos hb, if_pos ⟨hu, hc, by omega⟩]
      · rw [if_neg hb, if_neg (fun h => hb (by omega))]
    · rw [if_neg hc, if_neg (fun h => hc h.2.1)]

end Maze
